import Mathlib

/-!
# SPARTA surface-emission task engine (FixEmitZSurf): embedding and properties

Shallow embedding of `src/fix_emit_zsurf.cpp`.

* C `int` values are embedded as `Int` (counts and indices that the code only
  ever uses as array positions are `Nat`); C `/` and `%` on `int` are
  `Int.tdiv` and `Int.tmod`.
* C `double` values are embedded in an arbitrary ordered field `α`; the
  functions of `math.h` that the code calls are passed in a record `MathOps`.
  All definitions are computable (they can be run with `α := ℚ`).
* Heap buffers (`new double[n]`, `delete []`) live in an explicit `Heap`.
-/

namespace Sparta

/-! ## Definitions -/

/-! ### Quota block of `FixEmitZSurf::init` (lines 202-220) -/

/-- The two members written by the quota block of `init`. -/
structure Quota where
  npertask : Int
  nthresh : Int
deriving DecidableEq, Repr

/-- Embeds `MPI_Allreduce(&ntask,&all,1,MPI_INT,MPI_SUM,world)`: the sum of the
per-rank values of `ntask`, the same on every rank. -/
def MPI_Allreduce_sum (ntasks : List Nat) : Int :=
  ((ntasks.sum : Nat) : Int)

/-- Embeds `MPI_Scan(&ntask,&nupto,1,MPI_INT,MPI_SUM,world)`: the inclusive prefix
sum of the per-rank values of `ntask` as seen on rank `r`. -/
def MPI_Scan_sum (ntasks : List Nat) (r : Nat) : Int :=
  (((ntasks.take (r + 1)).sum : Nat) : Int)

/-- Local part of the quota block, lines 205-210: `npertask` and
`tasks_with_no_extra` from `np` and `all`. -/
def quota_base (np all : Int) : Int × Int :=
  if all ≠ 0 then (Int.tdiv np all, all - Int.tmod np all) else (0, 0)

/-- Three-way branch, lines 213-219. -/
def quota_nthresh (tasks_with_no_extra nupto ntask : Int) : Int :=
  if tasks_with_no_extra < nupto - ntask then 0
  else if tasks_with_no_extra ≥ nupto then ntask
  else tasks_with_no_extra - (nupto - ntask)

/-- The quota block of `init` on one rank (lines 202-220): `old` holds the
members `npertask`, `nthresh` before the block; they are only written when
`np > 0`. -/
def init_quota (np all nupto ntask : Int) (old : Quota) : Quota :=
  if np > 0 then
    { npertask := (quota_base np all).1
      nthresh := quota_nthresh (quota_base np all).2 nupto ntask }
  else old

/-- The quota block of `init` executed on rank `r` of a run whose ranks hold
`ntasks[0], ntasks[1], ...` tasks. -/
def init_quota_rank (np : Int) (ntasks : List Nat) (r : Nat) (old : Quota) : Quota :=
  init_quota np (MPI_Allreduce_sum ntasks) (MPI_Scan_sum ntasks r)
    ((ntasks.getD r 0 : Nat) : Int) old

/-- Per-task count of the quota rule, in the words of the specification:
local tasks with local index `< nthresh` get `base`, those with local index
`>= nthresh` get `base+1`. -/
def quota_count (q : Quota) (i : Nat) : Int :=
  if (i : Int) < q.nthresh then q.npertask else q.npertask + 1

/-! ### Data model of the task store -/

/-- Embeds `#define DELTATASK 256`. -/
def DELTATASK : Nat := 256

/-- Embeds `sizeof(double)`. -/
def SIZEOF_DOUBLE : Nat := 8

/-- A `double[3]`. -/
structure Vec3 (α : Type) where
  x : α
  y : α
  z : α
deriving DecidableEq, Repr

/-- Modelled from the spec: the `Task` record. Its declaration is in
`fix_emit_zsurf.h`, which is not among the sources; the members are those of
the data model of the specification, under the names `fix_emit_zsurf.cpp`
uses for them. The pointers `path` and `fracarea` are heap addresses, `0`
being `NULL`. -/
structure Task (α : Type) where
  area : α
  tan1 : Vec3 α
  tan2 : Vec3 α
  nrho : α
  temp_thermal : α
  temp_rot : α
  temp_vib : α
  vstream : Vec3 α
  path : Nat
  fracarea : Nat
  icell : Int
  isurf : Int
  pcell : Int
  npoint : Int
deriving DecidableEq, Repr

/-- A task all of whose bytes are zero (`memset(...,0,...)`). -/
def Task.zero {α : Type} [Zero α] : Task α :=
  { area := 0, tan1 := ⟨0, 0, 0⟩, tan2 := ⟨0, 0, 0⟩, nrho := 0, temp_thermal := 0,
    temp_rot := 0, temp_vib := 0, vstream := ⟨0, 0, 0⟩, path := 0, fracarea := 0,
    icell := 0, isurf := 0, pcell := 0, npoint := 0 }

/-- The heap of `double` buffers: `buf p` is the content of the live buffer at
address `p`, `next` is an address that `new` has never handed out. -/
structure Heap (α : Type) where
  next : Nat
  buf : Nat → Option (List α)

/-- Embeds `new double[n]`: a buffer at an address never handed out before. Its
content is indeterminate in C++; every caller overwrites all of it. -/
def Heap.new {α : Type} [Zero α] (h : Heap α) (n : Nat) : Nat × Heap α :=
  (h.next, { next := h.next + 1, buf := Function.update h.buf h.next (some (List.replicate n 0)) })

/-- Embeds `delete [] p`: no effect on `NULL`. -/
def Heap.delete {α : Type} (h : Heap α) (p : Nat) : Heap α :=
  if p = 0 then h else { h with buf := Function.update h.buf p none }

/-- Read of the first `n` doubles of the buffer at `p` (source side of a
`memcpy`); `none` when the read leaves the allocation. -/
def Heap.read {α : Type} (h : Heap α) (p : Nat) (n : Nat) : Option (List α) :=
  if n = 0 then some []
  else if p = 0 then none
  else match h.buf p with
    | some l => if n ≤ l.length then some (l.take n) else none
    | none => none

/-- Write of the doubles `l` at the start of the buffer at `p` (destination
side of a `memcpy`); `none` when the write leaves the allocation. -/
def Heap.write {α : Type} (h : Heap α) (p : Nat) (l : List α) : Option (Heap α) :=
  match h.buf p with
  | some old =>
    if l.length ≤ old.length then
      some { h with buf := Function.update h.buf p (some (l ++ old.drop l.length)) }
    else none
  | none => none

/-- The members of `FixEmitZSurf` (and of the classes it reads) that the
embedded functions use. `tasks i` is slot `i` of the `tasks` allocation, which
has `ntaskmax` slots. -/
structure Emit (α : Type) where
  dimension : Int
  axisymmetric : Int
  groupbit : Nat
  normalflag : Int
  np : Int
  npertask : Int
  nthresh : Int
  magvstream : α
  net : Option Nat
  nsingle : Int
  ntask : Nat
  ntaskmax : Nat
  tasks : Nat → Task α
  heap : Heap α

/-- Modelled from the spec: a grid cell (`Grid::ChildCell`, declared in
`grid.h`, not among the sources), with the members `fix_emit_zsurf.cpp`
reads. -/
structure ChildCell (α : Type) where
  lo : Vec3 α
  hi : Vec3 α
  nsurf : Int
  csurfs : List Int
  nsplit : Int
  isplit : Int

/-- Modelled from the spec: the split-cell table entry (`Grid::SplitInfo`,
declared in `grid.h`, not among the sources), with the members
`fix_emit_zsurf.cpp` reads. -/
structure SplitInfo where
  csplits : List Int
  csubs : List Int

/-- The grid: `grid->cells` and `grid->sinfo`. -/
structure Grid (α : Type) where
  cells : List (ChildCell α)
  sinfo : List SplitInfo

/-- Read of `l[i]` for a C `int` index; `none` outside the array. -/
def idx? {β : Type} (l : List β) (i : Int) : Option β :=
  if 0 ≤ i then l[i.toNat]? else none

/-! ### Ownership of the geometry buffers -/

/-- Ownership discipline of the store ("geometry buffers are never shared
between tasks"): `NULL` is never a live buffer, addresses from `heap.next` on
are unused, every pointer held by a slot was handed out earlier, and two
non-null pointers held by the slots (in different slots, or the `path` and the
`fracarea` of one slot) are different. -/
structure Owns {α : Type} (e : Emit α) : Prop where
  next_pos : 0 < e.heap.next
  null_free : e.heap.buf 0 = none
  fresh : ∀ a, e.heap.next ≤ a → e.heap.buf a = none
  below : ∀ i, i < e.ntaskmax →
    (e.tasks i).path < e.heap.next ∧ (e.tasks i).fracarea < e.heap.next
  path_path : ∀ i, i < e.ntaskmax → ∀ j, j < e.ntaskmax → i ≠ j →
    (e.tasks i).path ≠ 0 → (e.tasks i).path ≠ (e.tasks j).path
  frac_frac : ∀ i, i < e.ntaskmax → ∀ j, j < e.ntaskmax → i ≠ j →
    (e.tasks i).fracarea ≠ 0 → (e.tasks i).fracarea ≠ (e.tasks j).fracarea
  path_frac : ∀ i, i < e.ntaskmax → ∀ j, j < e.ntaskmax →
    (e.tasks i).path ≠ 0 → (e.tasks i).path ≠ (e.tasks j).fracarea

/-- Slot `i` holds a live task: `npoint >= 2`, its `path` holds (at least)
`3*npoint` doubles and its `fracarea` holds (at least) `npoint-2` doubles. -/
def Live {α : Type} (e : Emit α) (i : Nat) : Prop :=
  2 ≤ (e.tasks i).npoint
  ∧ (e.heap.read (e.tasks i).path ((e.tasks i).npoint * 3).toNat).isSome
  ∧ (e.heap.read (e.tasks i).fracarea ((e.tasks i).npoint - 2).toNat).isSome

/-! ### `grow_task` (lines 884-914) -/

/-- Embeds `FixEmitZSurf::grow_task`. -/
def grow_task {α : Type} [Zero α] (e : Emit α) : Emit α :=
  let oldmax := e.ntaskmax
  let ntaskmax := e.ntaskmax + DELTATASK
  { e with
    ntaskmax := ntaskmax
    tasks := fun i =>
      if oldmax ≤ i ∧ i < ntaskmax then { (Task.zero : Task α) with path := 0, fracarea := 0 }
      else e.tasks i }

/-! ### `copy_task` (lines 832-878) -/

/-- First loop of `copy_task` (lines 839-842): `n` iterations from `first`. -/
def copy_task_same {α : Type} (icell : Int) : Nat → Nat → Emit α → Option (Emit α)
  | 0, _, e => some e
  | n + 1, first, e =>
    if first < e.ntaskmax then
      copy_task_same icell n (first + 1)
        { e with tasks := Function.update e.tasks first { e.tasks first with icell := icell } }
    else none

/-- One iteration of the second loop of `copy_task` (lines 847-871). -/
def copy_task_one {α : Type} [Zero α] (icell : Int) (first oldfirst : Nat) (e : Emit α) :
    Option (Emit α) :=
  if first < e.ntaskmax ∧ oldfirst < e.ntaskmax then
    let path := (e.tasks first).path
    let fracarea := (e.tasks first).fracarea
    let tasks1 := Function.update e.tasks first (e.tasks oldfirst)
    let npoint := (tasks1 first).npoint
    let h1 := e.heap.delete path
    if 0 ≤ npoint * 3 then
      let (path, h2) := h1.new (npoint * 3).toNat
      match h2.read (tasks1 oldfirst).path (npoint * 3).toNat with
      | none => none
      | some src =>
        match h2.write path src with
        | none => none
        | some h3 =>
          let h4 := h3.delete fracarea
          if 0 ≤ npoint - 2 then
            let (fracarea, h5) := h4.new (npoint - 2).toNat
            match h5.read (tasks1 oldfirst).fracarea (npoint - 2).toNat with
            | none => none
            | some srcf =>
              match h5.write fracarea srcf with
              | none => none
              | some h6 =>
                some { e with
                  heap := h6
                  tasks := Function.update tasks1 first
                    { tasks1 first with path := path, fracarea := fracarea, icell := icell } }
          else none
    else none
  else none

/-- Second loop of `copy_task` (lines 846-874): `n` iterations from `first`
and `oldfirst`. -/
def copy_task_diff {α : Type} [Zero α] (icell : Int) :
    Nat → Nat → Nat → Emit α → Option (Emit α)
  | 0, _, _, e => some e
  | n + 1, first, oldfirst, e =>
    match copy_task_one icell first oldfirst e with
    | none => none
    | some e1 => copy_task_diff icell n (first + 1) (oldfirst + 1) e1

/-- Embeds `FixEmitZSurf::copy_task(icell, n, first, oldfirst)`; `none` when an access
leaves an allocation. -/
def copy_task {α : Type} [Zero α] (icell : Int) (n first oldfirst : Nat) (e : Emit α) :
    Option (Emit α) :=
  match (if first = oldfirst then copy_task_same icell n first e
         else copy_task_diff icell n first oldfirst e) with
  | none => none
  | some e1 => some { e1 with ntask := e1.ntask + n }

/-! ### `pack_task` (lines 731-755) and `unpack_task` (lines 761-826) -/

/-- Modelled from the spec: the two layout constants of the wire record that
are not in the sources, `sizeof(Task)` (the size of the fixed-size header) and
the alignment boundary of the `ROUNDUP` macro. -/
structure Layout where
  sizeof_Task : Nat
  align : Nat
deriving DecidableEq, Repr

/-- Modelled from the spec: the macro `ROUNDUP` (not in the sources), which
pads an address to the next multiple of the alignment boundary. -/
def ROUNDUP (L : Layout) (p : Nat) : Nat :=
  (p + (L.align - 1)) / L.align * L.align

/-- What a byte range of the message buffer holds: the image of a `Task`
(`sizeof(Task)` bytes) or a `double` (8 bytes). -/
inductive WItem (α : Type) where
  | task (t : Task α)
  | dbl (x : α)
deriving DecidableEq, Repr

/-- The memory behind `char *buf`: the item stored from a byte address on.
`pack_task` writes its items to byte ranges that do not overlap (the header
ends before `ROUNDUP` of its end, the doubles are 8 bytes apart), so every
item is read back from the address it was written to. -/
abbrev Wire (α : Type) := Nat → Option (WItem α)

/-- Embeds `memcpy(ptr, src, n*sizeof(double))` into the message buffer. -/
def Wire.put_doubles {α : Type} (w : Wire α) (ptr : Nat) : List α → Wire α
  | [] => w
  | x :: xs =>
    Wire.put_doubles (Function.update w ptr (some (WItem.dbl x))) (ptr + SIZEOF_DOUBLE) xs

/-- Embeds `memcpy(dst, ptr, n*sizeof(double))` out of the message buffer; `none`
when a byte range does not hold a double. -/
def Wire.get_doubles {α : Type} (w : Wire α) (ptr : Nat) : Nat → Option (List α)
  | 0 => some []
  | n + 1 =>
    match w ptr with
    | some (WItem.dbl x) =>
      match Wire.get_doubles w (ptr + SIZEOF_DOUBLE) n with
      | some xs => some (x :: xs)
      | none => none
    | _ => none

/-- Embeds `FixEmitZSurf::pack_task(itask, buf, memflag)`: the returned byte count
and the message buffer afterwards; `none` when an access leaves an
allocation. -/
def pack_task {α : Type} (L : Layout) (itask : Nat) (buf : Nat) (memflag : Int)
    (e : Emit α) (w : Wire α) : Option (Int × Wire α) :=
  if itask < e.ntaskmax then
    let ptr := buf
    let w1 := if memflag ≠ 0 then Function.update w ptr (some (WItem.task (e.tasks itask))) else w
    let ptr := ptr + L.sizeof_Task
    let ptr := ROUNDUP L ptr
    let npoint := (e.tasks itask).npoint
    if memflag ≠ 0 then
      if 0 ≤ npoint * 3 ∧ 0 ≤ npoint - 2 then
        match e.heap.read (e.tasks itask).path (npoint * 3).toNat with
        | none => none
        | some src =>
          let w2 := Wire.put_doubles w1 ptr src
          let ptr := ptr + (npoint * 3).toNat * SIZEOF_DOUBLE
          match e.heap.read (e.tasks itask).fracarea (npoint - 2).toNat with
          | none => none
          | some srcf =>
            let w3 := Wire.put_doubles w2 ptr srcf
            let ptr := ptr + (npoint - 2).toNat * SIZEOF_DOUBLE
            some ((ptr : Int) - (buf : Int), w3)
      else none
    else
      let ptr : Int := (ptr : Int) + npoint * 3 * (SIZEOF_DOUBLE : Int)
      let ptr : Int := ptr + (npoint - 2) * (SIZEOF_DOUBLE : Int)
      some (ptr - (buf : Int), w1)
  else none

/-- The scan `for (i = 0; i < nsurf; i++) if (csurfs[i] == isurf) break;` of
`unpack_task` (lines 815-818) and `post_compress_grid` (lines 938-941), from
index `i` with `k` indices left: the final value of the loop variable. -/
def scan_csurfs (csurfs : List Int) (isurf : Int) : Nat → Nat → Option Nat
  | 0, i => some i
  | k + 1, i =>
    match csurfs[i]? with
    | none => none
    | some c => if c = isurf then some i else scan_csurfs csurfs isurf k (i + 1)

/-- Lines 808-822 of `unpack_task`: `pcell` of a task of cell `icell` and
surface `isurf`. -/
def unpack_pcell {α : Type} (grid : Grid α) (icell isurf : Int) : Option Int :=
  match idx? grid.cells icell with
  | none => none
  | some cell =>
    if cell.nsplit = 1 then some icell
    else
      match scan_csurfs cell.csurfs isurf cell.nsurf.toNat 0 with
      | none => none
      | some i =>
        match idx? grid.sinfo cell.isplit with
        | none => none
        | some sp =>
          match sp.csplits[i]? with
          | none => none
          | some subcell => idx? sp.csubs subcell

/-- Lines 770-825 of `unpack_task`, once the slot `tasks[ntask]` exists. -/
def unpack_task_slot {α : Type} [Zero α] (L : Layout) (grid : Grid α) (buf : Nat)
    (icell : Int) (w : Wire α) (e : Emit α) : Option (Int × Emit α) :=
  let ptr := buf
  if e.ntask < e.ntaskmax then
    let path := (e.tasks e.ntask).path
    let fracarea := (e.tasks e.ntask).fracarea
    match w ptr with
    | some (WItem.task t) =>
      let ptr := ptr + L.sizeof_Task
      let ptr := ROUNDUP L ptr
      let npoint := t.npoint
      let h1 := e.heap.delete path
      if 0 ≤ npoint * 3 then
        let (path, h2) := h1.new (npoint * 3).toNat
        match Wire.get_doubles w ptr (npoint * 3).toNat with
        | none => none
        | some src =>
          match h2.write path src with
          | none => none
          | some h3 =>
            let ptr := ptr + (npoint * 3).toNat * SIZEOF_DOUBLE
            let h4 := h3.delete fracarea
            if 0 ≤ npoint - 2 then
              let (fracarea, h5) := h4.new (npoint - 2).toNat
              match Wire.get_doubles w ptr (npoint - 2).toNat with
              | none => none
              | some srcf =>
                match h5.write fracarea srcf with
                | none => none
                | some h6 =>
                  let ptr := ptr + (npoint - 2).toNat * SIZEOF_DOUBLE
                  match unpack_pcell grid icell t.isurf with
                  | none => none
                  | some pcell =>
                    some ((ptr : Int) - (buf : Int),
                      { e with
                        heap := h6
                        tasks := Function.update e.tasks e.ntask
                          { t with path := path, fracarea := fracarea, icell := icell,
                                   pcell := pcell }
                        ntask := e.ntask + 1 })
            else none
      else none
    | _ => none
  else none

/-- Embeds `FixEmitZSurf::unpack_task(buf, icell)`: the returned byte count and the
engine afterwards; `none` when an access leaves an allocation. -/
def unpack_task {α : Type} [Zero α] (L : Layout) (grid : Grid α) (buf : Nat) (icell : Int)
    (w : Wire α) (e : Emit α) : Option (Int × Emit α) :=
  unpack_task_slot L grid buf icell w (if e.ntask = e.ntaskmax then grow_task e else e)

/-! ### `post_compress_grid` (lines 924-947) -/

/-- Body of the loop of `post_compress_grid` (lines 930-945): the new `pcell`
of a task of cell `icell` and surface `isurf`. -/
def post_compress_pcell {α : Type} (grid : Grid α) (icell isurf : Int) : Option Int :=
  match idx? grid.cells icell with
  | none => none
  | some cell =>
    if cell.nsplit = 1 then some icell
    else
      match scan_csurfs cell.csurfs isurf cell.nsurf.toNat 0 with
      | none => none
      | some j =>
        match idx? grid.sinfo cell.isplit with
        | none => none
        | some sp =>
          match sp.csplits[j]? with
          | none => none
          | some subcell => idx? sp.csubs subcell

/-- The loop of `post_compress_grid` from task `i` with `k` tasks left. -/
def post_compress_loop {α : Type} (grid : Grid α) : Nat → Nat → Emit α → Option (Emit α)
  | 0, _, e => some e
  | k + 1, i, e =>
    if i < e.ntaskmax then
      match post_compress_pcell grid (e.tasks i).icell (e.tasks i).isurf with
      | none => none
      | some pcell =>
        post_compress_loop grid k (i + 1)
          { e with tasks := Function.update e.tasks i { e.tasks i with pcell := pcell } }
    else none

/-- Embeds `FixEmitZSurf::post_compress_grid`. -/
def post_compress_grid {α : Type} (grid : Grid α) (e : Emit α) : Option (Emit α) :=
  post_compress_loop grid e.ntask 0 e

/-! ### Collaborators of `create_task` and `perform_task` -/

/-- The functions of `math.h` and the constants of `math_const.h` that the
code uses on doubles. -/
structure MathOps (α : Type) where
  sqrt : α → α
  exp : α → α
  log : α → α
  sin : α → α
  cos : α → α
  MY_PI : α
  MY_2PI : α

/-- Modelled from the spec: `MathExtra::sub3` (`math_extra.h` is not among the
sources), the difference of two vectors. -/
def sub3 {α : Type} [Sub α] (v1 v2 : Vec3 α) : Vec3 α :=
  ⟨v1.x - v2.x, v1.y - v2.y, v1.z - v2.z⟩

/-- Modelled from the spec: `MathExtra::dot3` (not among the sources). -/
def dot3 {α : Type} [Add α] [Mul α] (v1 v2 : Vec3 α) : α :=
  v1.x * v2.x + v1.y * v2.y + v1.z * v2.z

/-- Modelled from the spec: `MathExtra::len3` (not among the sources), the
Euclidean length of a vector. -/
def len3 {α : Type} [Add α] [Mul α] (ops : MathOps α) (v : Vec3 α) : α :=
  ops.sqrt (v.x * v.x + v.y * v.y + v.z * v.z)

/-- Modelled from the spec: `MathExtra::cross3` (not among the sources), the
cross product. -/
def cross3 {α : Type} [Sub α] [Mul α] (v1 v2 : Vec3 α) : Vec3 α :=
  ⟨v1.y * v2.z - v1.z * v2.y, v1.z * v2.x - v1.x * v2.z, v1.x * v2.y - v1.y * v2.x⟩

/-- Modelled from the spec: `MathExtra::norm3` (not among the sources), the
vector scaled by the inverse of its length. -/
def norm3 {α : Type} [Field α] (ops : MathOps α) (v : Vec3 α) : Vec3 α :=
  let scale := 1 / ops.sqrt (v.x * v.x + v.y * v.y + v.z * v.z)
  ⟨v.x * scale, v.y * scale, v.z * scale⟩

/-- The three doubles from position `k` of a buffer (`&path[k]` used as a
`double[3]`). -/
def vec3_at {α : Type} [Zero α] (path : List α) (k : Nat) : Vec3 α :=
  ⟨path.getD k 0, path.getD (k + 1) 0, path.getD (k + 2) 0⟩

/-- Modelled from the spec: one particle-creating reaction of a surface
(`Zuzax::ZTask`, not among the sources), with the members `perform_task`
uses. -/
structure ZTask (α : Type) where
  nCAvgEvents : α
  area : α
  irxn : Nat
  rxn_dir : Int
  ntargetsp : List (Nat × α)
  nintervalActual : Int

/-- Modelled from the spec: the per-surface state object (`SurfState`, not
among the sources). `net` is the identity of the reaction network it is
bound to (`none` for a null pointer). -/
structure SurfState (α : Type) where
  net : Option Nat
  Area : α
  surfInitTaskList : List (ZTask α)

/-- Modelled from the spec: a line of `surf->lines` (`Surf::Line`, not among
the sources). `surfaceState` is the handle of its `SurfState` object (`none`
for `nullptr`). -/
structure Line (α : Type) where
  mask : Nat
  norm : Vec3 α
  p1 : Vec3 α
  p2 : Vec3 α
  surfaceState : Option Nat

/-- Modelled from the spec: a triangle of `surf->tris` (`Surf::Tri`, not among
the sources). -/
structure Tri (α : Type) where
  mask : Nat
  norm : Vec3 α
  p1 : Vec3 α
  p2 : Vec3 α
  p3 : Vec3 α
  surfaceState : Option Nat

/-- The surface elements `lines`, `tris`. -/
structure Surf (α : Type) where
  lines : List (Line α)
  tris : List (Tri α)

/-- Modelled from the spec: the members of `particle->mixture[imix]` that are
copied into a task. -/
structure Mixture (α : Type) where
  nrho : α
  temp_thermal : α
  temp_rot : α
  temp_vib : α
  vstream : Vec3 α

/-- The random number generator `random`: `draws k` is the value of the
`k`-th call of `uniform()`, `pos` counts the calls made. -/
structure Rng (α : Type) where
  draws : Nat → α
  pos : Nat

/-- Embeds `random->uniform()`. -/
def Rng.uniform {α : Type} (r : Rng α) : α × Rng α :=
  (r.draws r.pos, { r with pos := r.pos + 1 })

/-- External collaborators of the task builder: `math.h`, and the geometry
clipper (`Cut2d::clip_external`, `Cut3d::clip_external`), which returns the
point count and the doubles it wrote to `cpath`. -/
structure Ext (α : Type) where
  ops : MathOps α
  clip2d : Vec3 α → Vec3 α → Vec3 α → Vec3 α → Int × List α
  clip3d : Vec3 α → Vec3 α → Vec3 α → Vec3 α → Vec3 α → Int × List α

/-- How a run of the builder ends before its last statement. -/
inductive Abort where
  | no_surface_state
  | net_differs
  | undefined
deriving DecidableEq, Repr

/-- What `create_task` reads and writes: the engine, the `SurfState` objects
by handle, and the random number generator. -/
structure Build (α : Type) where
  e : Emit α
  states : Nat → SurfState α
  rng : Rng α

/-! ### `create_task` (lines 243-454) -/

/-- Lines 296-302: `pcell` of the task built for the surface at index `i` of
the surface list of cell `icell`. -/
def create_pcell {α : Type} (grid : Grid α) (cell : ChildCell α) (icell : Int) (i : Nat) :
    Option Int :=
  if cell.nsplit = 1 then some icell
  else
    match idx? grid.sinfo cell.isplit with
    | none => none
    | some sp =>
      match sp.csplits[i]? with
      | none => none
      | some subcell => idx? sp.csubs subcell

/-- Lines 338-345: the area of a 2-D task from its stored path. -/
def area_2d {α : Type} [Field α] (ops : MathOps α) (axisymmetric : Int) (path : List α) : α :=
  if axisymmetric ≠ 0 then
    let sqrtarg := (path.getD 1 0 - path.getD 4 0) * (path.getD 1 0 - path.getD 4 0)
      + (path.getD 0 0 - path.getD 3 0) * (path.getD 0 0 - path.getD 3 0)
    ops.MY_PI * (path.getD 1 0 + path.getD 4 0) * ops.sqrt sqrtarg
  else
    len3 ops (sub3 (vec3_at path 0) (vec3_at path 3))

/-- Lines 385-390: `areaone` of fan triangle `m` (vertices 0, `m+1`, `m+2`). -/
def areaone {α : Type} [LinearOrderedField α] (ops : MathOps α) (path : List α) (m : Nat) : α :=
  let p1 := vec3_at path 0
  let p2 := vec3_at path (3 * (m + 1))
  let p3 := vec3_at path (3 * (m + 2))
  let e1 := sub3 p2 p1
  let e2 := sub3 p3 p1
  let delta := cross3 e1 e2
  |0.5 * len3 ops delta|

/-- The loop of lines 384-393 from triangle `m` with `k` triangles left:
`area` is the running sum, `frac` the entries of `fracarea` written so far. -/
def fan_loop {α : Type} [LinearOrderedField α] (ops : MathOps α) (path : List α) :
    Nat → Nat → α → List α → α × List α
  | 0, _, area, frac => (area, frac)
  | k + 1, m, area, frac =>
    let area := area + areaone ops path m
    fan_loop ops path k (m + 1) area (frac ++ [area])

/-- Lines 382-397: `area` and the normalised `fracarea` of a 3-D task from
its stored path. -/
def fan_area {α : Type} [LinearOrderedField α] (ops : MathOps α) (path : List α)
    (npoint : Int) : α × List α :=
  let r := fan_loop ops path (npoint - 2).toNat 0 0 []
  (r.1, r.2.map (fun x => x / r.1))

/-- Lines 328-333: the six doubles stored as the path of a 2-D task, the
clipped end points with `z = 0`. -/
def path_2d {α : Type} [Zero α] (cpath : List α) : List α :=
  [cpath.getD 0 0, cpath.getD 1 0, 0, cpath.getD 2 0, cpath.getD 3 0, 0]

/-- Area of fan triangle `m` in the words of the specification: the triangle
with vertices 0, `m+1`, `m+2` of the path, of area `0.5*|e1 x e2|`. -/
def fan_triangle_area {α : Type} [LinearOrderedField α] (ops : MathOps α) (path : List α)
    (m : Nat) : α :=
  0.5 * len3 ops (cross3 (sub3 (vec3_at path (3 * (m + 1))) (vec3_at path 0))
    (sub3 (vec3_at path (3 * (m + 2))) (vec3_at path 0)))

/-- Lines 324-357: geometry of a 2-D task written into the slot content `t`. -/
def build_2d {α : Type} [Field α] (X : Ext α) (axisymmetric : Int) (normal : Vec3 α)
    (cpath : List α) (t : Task α) (h : Heap α) : Option (Task α × Heap α) :=
  if 4 ≤ cpath.length then
    let h1 := h.delete t.path
    let (path, h2) := h1.new 6
    match h2.write path (path_2d cpath) with
    | none => none
    | some h3 =>
      match h3.read path 6 with
      | none => none
      | some p =>
        some ({ t with
                npoint := 2
                path := path
                area := area_2d X.ops axisymmetric p
                tan1 := ⟨normal.y, -normal.x, 0⟩
                tan2 := ⟨0, 0, 1⟩ }, h3)
  else none

/-- Lines 374-408: geometry and tangents of a 3-D task written into the slot
content `t`; `npoint >= 3` is the point count of the clip. -/
def build_3d {α : Type} [LinearOrderedField α] (X : Ext α) (normal : Vec3 α)
    (npoint : Int) (cpath : List α) (t : Task α) (h : Heap α) (rng : Rng α) :
    Option (Task α × Heap α × Rng α) :=
  if (npoint * 3).toNat ≤ cpath.length ∧ (npoint * 3).toNat ≤ 36 then
    let h1 := h.delete t.path
    let (path, h2) := h1.new (npoint * 3).toNat
    match h2.write path (cpath.take (npoint * 3).toNat) with
    | none => none
    | some h3 =>
      let h4 := h3.delete t.fracarea
      let (fracarea, h5) := h4.new (npoint - 2).toNat
      match h5.read path (npoint * 3).toNat with
      | none => none
      | some p =>
        let r := fan_area X.ops p npoint
        match h5.write fracarea r.2 with
        | none => none
        | some h6 =>
          let (d0, rng1) := rng.uniform
          let (d1, rng2) := rng1.uniform
          let (d2, rng3) := rng2.uniform
          let tan1 := norm3 X.ops (cross3 normal ⟨d0, d1, d2⟩)
          let tan2 := norm3 X.ops (cross3 normal tan1)
          some ({ t with
                  npoint := npoint
                  path := path
                  fracarea := fracarea
                  area := r.1
                  tan1 := tan1
                  tan2 := tan2 }, h6, rng3)
  else none

/-- Lines 410-421: binding of the surface state of a triangle to the single
network handle `net`, and the store of the area into the surface state. -/
def bind_net {α : Type} (surfaceState : Option Nat) (area : α) (net : Option Nat)
    (states : Nat → SurfState α) : Except Abort (Option Nat × (Nat → SurfState α)) :=
  match surfaceState with
  | none => Except.error Abort.no_surface_state
  | some sid =>
    let snet := (states sid).net
    if net.isNone then
      Except.ok (snet, Function.update states sid { states sid with Area := area })
    else if net ≠ snet then Except.error Abort.net_differs
    else Except.ok (net, Function.update states sid { states sid with Area := area })

/-- Lines 440-450: the snapshot of the mixture. -/
def snapshot {α : Type} (mix : Mixture α) (t : Task α) : Task α :=
  { t with
    nrho := mix.nrho
    temp_thermal := mix.temp_thermal
    temp_rot := mix.temp_rot
    temp_vib := mix.temp_vib
    vstream := mix.vstream }

/-- Lines 294-450 of the loop of `create_task`, for index `i` of the surface
list of the cell and its surface `isurf`, once the slot `tasks[ntask]` exists.
Lines 429-435 only assign the local `ntargetsp`, which is never read, and are
left out, as is the local `indot` they use. -/
def create_task_slot {α : Type} [LinearOrderedField α] (X : Ext α) (grid : Grid α)
    (surf : Surf α) (mix : Mixture α) (icell : Int) (cell : ChildCell α) (i : Nat)
    (isurf : Int) (e : Emit α) (states : Nat → SurfState α) (rng : Rng α) :
    Except Abort (Build α) :=
  if e.ntask < e.ntaskmax then
    match create_pcell grid cell icell i with
    | none => Except.error Abort.undefined
    | some pcell =>
      let t := { e.tasks e.ntask with icell := icell, isurf := isurf, pcell := pcell }
      if e.dimension = 2 then
        match idx? surf.lines isurf with
        | none => Except.error Abort.undefined
        | some line =>
          let c := X.clip2d line.p1 line.p2 cell.lo cell.hi
          if c.1 < 2 then
            Except.ok
              { e := { e with tasks := Function.update e.tasks e.ntask t }
                states := states
                rng := rng }
          else
            match build_2d X e.axisymmetric line.norm c.2 t e.heap with
            | none => Except.error Abort.undefined
            | some r =>
              Except.ok
                { e := { e with
                    heap := r.2
                    tasks := Function.update e.tasks e.ntask (snapshot mix r.1)
                    ntask := e.ntask + 1 }
                  states := states
                  rng := rng }
      else
        match idx? surf.tris isurf with
        | none => Except.error Abort.undefined
        | some tri =>
          let c := X.clip3d tri.p1 tri.p2 tri.p3 cell.lo cell.hi
          if c.1 < 3 then
            Except.ok
              { e := { e with tasks := Function.update e.tasks e.ntask t }
                states := states
                rng := rng }
          else
            match build_3d X tri.norm c.1 c.2 t e.heap rng with
            | none => Except.error Abort.undefined
            | some r =>
              match bind_net tri.surfaceState r.1.area e.net states with
              | Except.error a => Except.error a
              | Except.ok n =>
                Except.ok
                  { e := { e with
                      heap := r.2.1
                      net := n.1
                      tasks := Function.update e.tasks e.ntask (snapshot mix r.1)
                      ntask := e.ntask + 1 }
                    states := n.2
                    rng := r.2.2 }
  else Except.error Abort.undefined

/-- One pass of the loop of `create_task` (lines 275-450), for index `i` of
the surface list of the cell. -/
def create_task_surf {α : Type} [LinearOrderedField α] (X : Ext α) (grid : Grid α)
    (surf : Surf α) (mix : Mixture α) (icell : Int) (cell : ChildCell α) (i : Nat)
    (b : Build α) : Except Abort (Build α) :=
  match cell.csurfs[i]? with
  | none => Except.error Abort.undefined
  | some isurf =>
    match (if b.e.dimension = 2 then (idx? surf.lines isurf).map (fun l => l.mask)
           else (idx? surf.tris isurf).map (fun t => t.mask)) with
    | none => Except.error Abort.undefined
    | some mask =>
      if mask &&& b.e.groupbit = 0 then Except.ok b
      else
        create_task_slot X grid surf mix icell cell i isurf
          (if b.e.ntask = b.e.ntaskmax then grow_task b.e else b.e) b.states b.rng

/-- The loop of `create_task` (line 274) from index `i` with `k` indices
left. -/
def create_task_loop {α : Type} [LinearOrderedField α] (X : Ext α) (grid : Grid α)
    (surf : Surf α) (mix : Mixture α) (icell : Int) (cell : ChildCell α) :
    Nat → Nat → Build α → Except Abort (Build α)
  | 0, _, b => Except.ok b
  | k + 1, i, b =>
    match create_task_surf X grid surf mix icell cell i b with
    | Except.error a => Except.error a
    | Except.ok b1 => create_task_loop X grid surf mix icell cell k (i + 1) b1

/-- Embeds `FixEmitZSurf::create_task(icell)`. -/
def create_task {α : Type} [LinearOrderedField α] (X : Ext α) (grid : Grid α)
    (surf : Surf α) (mix : Mixture α) (icell : Int) (b : Build α) : Except Abort (Build α) :=
  match idx? grid.cells icell with
  | none => Except.error Abort.undefined
  | some cell =>
    if cell.nsurf = 0 then Except.ok b
    else create_task_loop X grid surf mix icell cell cell.nsurf.toNat 0 b

/-! ### Checks of the constructor (lines 86-96) -/

/-- The fatal errors of lines 88-96 of the constructor. -/
inductive CtorError where
  | requires_surface_elements
  | distributed_surf_elements
  | n_with_perspecies
deriving DecidableEq, Repr

/-- Lines 88-96 of the constructor: the error raised, if any, from
`surf->exist`, `surf->distributed` and the values of `np` and `perspecies`
after `options()`. Before `options()` the constructor sets `perspecies = 1`
and `np = 0` (lines 77-80). -/
def constructor_checks (exist distributed np perspecies : Int) : Option CtorError :=
  if exist = 0 then some CtorError.requires_surface_elements
  else if distributed ≠ 0 then some CtorError.distributed_surf_elements
  else if np > 0 ∧ perspecies ≠ 0 then some CtorError.n_with_perspecies
  else none

/-! ### `perform_task` (lines 460-673) -/

/-- Embeds `enum {PKEEP,PINSERT,...}`: the value of `PINSERT`. -/
def PINSERT : Int := 1

/-- Modelled from the spec: a particle handed to the particle store
(`Particle::OnePart`, not among the sources), with the members that
`perform_task` sets. -/
structure Particle (α : Type) where
  id : Int
  ispecies : Int
  icell : Int
  x : Vec3 α
  v : Vec3 α
  erot : α
  evib : α
  flag : Int
  dtremain : α

/-- Modelled from the spec: what `perform_task` reads from its collaborators
(`update`, `particle`, `zuzax_setup`, `region`, the reaction network).
`doExplicitReaction k` is the value returned by the `k`-th call of
`net->doExplicitReaction` of the run. -/
structure Sim (α : Type) where
  boltz : α
  dt : α
  nspecies : Nat
  mass : List α
  ZutoSp_speciesMap : List Int
  region : Option (Vec3 α → Bool)
  erot : Int → α → Rng α → α × Rng α
  evib : Int → α → Rng α → α × Rng α
  MAXSMALLINT : α
  doExplicitReaction : Nat → Bool

/-- What `perform_task` changes: the random number generator, the number of
calls of `doExplicitReaction` made, the particles added to the particle store
(in order) and the counter `nsingle`. -/
structure Perf (α : Type) where
  rng : Rng α
  calls : Nat
  particles : List (Particle α)
  nsingle : Int

/-- The conversion of a `double` to `int` (`static_cast<int>`, `int n = x`):
truncation toward zero. -/
def trunc_int {α : Type} [LinearOrderedField α] [FloorRing α] (x : α) : Int :=
  if 0 ≤ x then ⌊x⌋ else ⌈x⌉

/-- The three doubles from position `k` of a buffer; `none` when the read
leaves the buffer. -/
def vec3_at? {α : Type} (path : List α) (k : Nat) : Option (Vec3 α) :=
  match path[k]?, path[k + 1]?, path[k + 2]? with
  | some a, some b, some c => some ⟨a, b, c⟩
  | _, _, _ => none

/-- Lines 589-592: `for (n = 0; n < ntri; n++) if (rn < fracarea[n]) break;`
from `n` with `k` indices left: the final value of `n`. -/
def tri_scan {α : Type} [LinearOrderedField α] (fracarea : List α) (rn : α) :
    Nat → Nat → Option Nat
  | 0, n => some n
  | k + 1, n =>
    match fracarea[n]? with
    | none => none
    | some f => if rn < f then some n else tri_scan fracarea rn k (n + 1)

/-- Lines 579-607: the position of a new particle. -/
def sample_position {α : Type} [LinearOrderedField α] (dimension : Int) (npoint : Int)
    (path fracarea : Option (List α)) (rng : Rng α) : Option (Vec3 α × Rng α) :=
  match path with
  | none => none
  | some path =>
    if dimension = 2 then
      let (rn, rng1) := rng.uniform
      match path[0]?, path[1]?, path[3]?, path[4]? with
      | some p10, some p11, some p20, some p21 =>
        some (⟨p10 + rn * (p20 - p10), p11 + rn * (p21 - p11), 0⟩, rng1)
      | _, _, _, _ => none
    else
      let (rn, rng1) := rng.uniform
      let ntri := npoint - 2
      match (if 0 < ntri then
              match fracarea with
              | none => none
              | some fa => tri_scan fa rn ntri.toNat 0
             else some 0) with
      | none => none
      | some n =>
        match vec3_at? path 0, vec3_at? path (3 * (n + 1)), vec3_at? path (3 * (n + 2)) with
        | some p1, some p2, some p3 =>
          let e1 := sub3 p2 p1
          let e2 := sub3 p3 p1
          let (alpha, rng2) := rng1.uniform
          let (beta, rng3) := rng2.uniform
          let ab := if alpha + beta > 1 then (1 - alpha, 1 - beta) else (alpha, beta)
          some (⟨p1.x + ab.1 * e1.x + ab.2 * e2.x,
                 p1.y + ab.1 * e1.y + ab.2 * e2.y,
                 p1.z + ab.1 * e1.z + ab.2 * e2.z⟩, rng3)
        | _, _, _ => none

/-- Lines 617-620: `normalized_distbn_fn`. -/
def normalized_distbn_fn {α : Type} [LinearOrderedField α] (ops : MathOps α)
    (scosine beta_un : α) : α :=
  2 * (beta_un + scosine) / (scosine + ops.sqrt (scosine * scosine + 2))
    * ops.exp (0.5 + (0.5 * scosine) * (scosine - ops.sqrt (scosine * scosine + 2))
        - beta_un * beta_un)

/-- Lines 613-621: the two nested `do ... while` loops, with at most `fuel`
draws of `beta_un`; `none` when the fuel runs out. -/
def normal_loop {α : Type} [LinearOrderedField α] (ops : MathOps α) (scosine : α) :
    Nat → Rng α → Option (α × Rng α)
  | 0, _ => none
  | fuel + 1, rng =>
    let (u, rng1) := rng.uniform
    let beta_un := 6 * u - 3
    if beta_un + scosine < 0 then normal_loop ops scosine fuel rng1
    else
      let (u2, rng2) := rng1.uniform
      if normalized_distbn_fn ops scosine beta_un < u2 then normal_loop ops scosine fuel rng2
      else some (beta_un, rng2)

/-- Lines 579-657: one pass of the loop over the particles of one product
species. The result is `none` when the pass does not complete (an access
outside a buffer, or the fuel of the accept/reject loops runs out), and
`some (none, rng)` when the region test of line 609 skips the particle. The
call of `modify->add_particle` (observers) is left out. -/
def insert_one {α : Type} [LinearOrderedField α] [FloorRing α] (ops : MathOps α) (S : Sim α)
    (fuel : Nat) (dimension normalflag : Int) (magvstream : α) (normal : Vec3 α)
    (t : Task α) (path fracarea : Option (List α)) (indot scosine vscale_isp : α)
    (ispecies : Int) (rng : Rng α) : Option (Option (Particle α) × Rng α) :=
  match sample_position dimension t.npoint path fracarea rng with
  | none => none
  | some (x, rng1) =>
    if (match S.region with
        | some r => !(r x)
        | none => false) then some (none, rng1)
    else
      match normal_loop ops scosine fuel rng1 with
      | none => none
      | some (beta_un, rng2) =>
        let vnmag := if normalflag ≠ 0 then beta_un * vscale_isp + magvstream
                     else beta_un * vscale_isp + indot
        let (u3, rng3) := rng2.uniform
        let theta := ops.MY_2PI * u3
        let (u4, rng4) := rng3.uniform
        let vr := vscale_isp * ops.sqrt (-(ops.log u4))
        let vamag := if normalflag ≠ 0 then vr * ops.sin theta
                     else vr * ops.sin theta + dot3 t.vstream t.tan1
        let vbmag := if normalflag ≠ 0 then vr * ops.cos theta
                     else vr * ops.cos theta + dot3 t.vstream t.tan2
        let v : Vec3 α :=
          ⟨vnmag * normal.x + vamag * t.tan1.x + vbmag * t.tan2.x,
           vnmag * normal.y + vamag * t.tan1.y + vbmag * t.tan2.y,
           vnmag * normal.z + vamag * t.tan1.z + vbmag * t.tan2.z⟩
        let (erot, rng5) := S.erot ispecies t.temp_rot rng4
        let (evib, rng6) := S.evib ispecies t.temp_vib rng5
        let (u7, rng7) := rng6.uniform
        let id := trunc_int (S.MAXSMALLINT * u7)
        let (u8, rng8) := rng7.uniform
        some (some { id := id, ispecies := ispecies, icell := t.pcell, x := x, v := v,
                     erot := erot, evib := evib, flag := PINSERT, dtremain := S.dt * u8 },
              rng8)

/-- The loop of line 578 with `k` passes left. -/
def insert_loop {α : Type} [LinearOrderedField α] [FloorRing α] (ops : MathOps α) (S : Sim α)
    (fuel : Nat) (dimension normalflag : Int) (magvstream : α) (normal : Vec3 α)
    (t : Task α) (path fracarea : Option (List α)) (indot scosine vscale_isp : α)
    (ispecies : Int) : Nat → Perf α → Option (Perf α)
  | 0, p => some p
  | k + 1, p =>
    match insert_one ops S fuel dimension normalflag magvstream normal t path fracarea indot
        scosine vscale_isp ispecies p.rng with
    | none => none
    | some (none, rng1) =>
      insert_loop ops S fuel dimension normalflag magvstream normal t path fracarea indot
        scosine vscale_isp ispecies k { p with rng := rng1 }
    | some (some q, rng1) =>
      insert_loop ops S fuel dimension normalflag magvstream normal t path fracarea indot
        scosine vscale_isp ispecies k { p with rng := rng1, particles := p.particles ++ [q] }

/-- The loop of line 566 over the product species `(kGas, stoich)` of one
reaction event that occurred (lines 566-661). `isp` is the value of the local
`isp`, which `perform_task` reads at lines 576-631 without assigning it, and
`vscale` the array behind the local pointer `vscale`. -/
def products_loop {α : Type} [LinearOrderedField α] [FloorRing α] (ops : MathOps α)
    (S : Sim α) (fuel : Nat) (dimension normalflag : Int) (magvstream : α) (normal : Vec3 α)
    (t : Task α) (path fracarea : Option (List α)) (indot : α) (vscale : List α) (isp : Int) :
    List (Nat × α) → Perf α → Option (Perf α)
  | [], p => some p
  | (kGas, stoich) :: rest, p =>
    match S.ZutoSp_speciesMap[kGas]?, idx? vscale isp with
    | some ispecies, some vscale_isp =>
      let nCreate := trunc_int stoich
      let scosine := indot / vscale_isp
      match insert_loop ops S fuel dimension normalflag magvstream normal t path fracarea indot
          scosine vscale_isp ispecies nCreate.toNat p with
      | none => none
      | some p1 =>
        products_loop ops S fuel dimension normalflag magvstream normal t path fracarea indot
          vscale isp rest { p1 with nsingle := p1.nsingle + nCreate }
    | _, _ => none

/-- The loop of line 556 over the `ninsert` reaction events of one reaction,
with `k` events left (lines 556-663): an event for which
`doExplicitReaction` returns `false` creates nothing. -/
def events_loop {α : Type} [LinearOrderedField α] [FloorRing α] (ops : MathOps α) (S : Sim α)
    (fuel : Nat) (dimension normalflag : Int) (magvstream : α) (normal : Vec3 α)
    (t : Task α) (path fracarea : Option (List α)) (indot : α) (vscale : List α) (isp : Int)
    (zt : ZTask α) : Nat → Perf α → Option (Perf α)
  | 0, p => some p
  | k + 1, p =>
    let ok := S.doExplicitReaction p.calls
    let p0 := { p with calls := p.calls + 1 }
    if ok then
      match products_loop ops S fuel dimension normalflag magvstream normal t path fracarea
          indot vscale isp zt.ntargetsp p0 with
      | none => none
      | some p1 =>
        events_loop ops S fuel dimension normalflag magvstream normal t path fracarea indot
          vscale isp zt k p1
    else
      events_loop ops S fuel dimension normalflag magvstream normal t path fracarea indot
        vscale isp zt k p0

/-- Lines 545-549: the number of reaction events of reaction `zt` for a task
of area `area`, from the uniform draw `u`. -/
def event_count {α : Type} [LinearOrderedField α] [FloorRing α] (zt : ZTask α) (area u : α) :
    Int :=
  let neventsCorrect := zt.nCAvgEvents * area / zt.area
  let ntarget := neventsCorrect + u
  trunc_int ntarget

/-- The loop of line 542 over the particle-creating reactions of the surface
of one task (lines 542-665). -/
def ztask_loop {α : Type} [LinearOrderedField α] [FloorRing α] (ops : MathOps α) (S : Sim α)
    (fuel : Nat) (dimension normalflag : Int) (magvstream : α) (normal : Vec3 α)
    (t : Task α) (path fracarea : Option (List α)) (indot : α) (vscale : List α) (isp : Int) :
    List (ZTask α) → Perf α → Option (Perf α)
  | [], p => some p
  | zt :: rest, p =>
    let (u, rng1) := p.rng.uniform
    let ninsert := event_count zt t.area u
    match (if ninsert > 0 then
            events_loop ops S fuel dimension normalflag magvstream normal t path fracarea indot
              vscale isp zt ninsert.toNat { p with rng := rng1 }
           else some { p with rng := rng1 }) with
    | none => none
    | some p1 =>
      ztask_loop ops S fuel dimension normalflag magvstream normal t path fracarea indot
        vscale isp rest p1

/-- Lines 532-534: the refreshed thermal scales of the species. -/
def refresh_vscale {α : Type} [LinearOrderedField α] (ops : MathOps α) (S : Sim α)
    (temp_thermal : α) : List α :=
  (List.range S.nspecies).map
    (fun k => ops.sqrt (2 * S.boltz * temp_thermal / S.mass.getD k 0))

/-- The loop of line 499 over the tasks, from task `i` with `k` tasks left
(lines 499-671). `indot` is carried from task to task: it is only assigned
when `normalflag` is 0. The calls `setState` and `saveState` and the reset of
the counters `nintervalActual`, which `perform_task` never reads, are left
out. -/
def task_loop {α : Type} [LinearOrderedField α] [FloorRing α] (ops : MathOps α) (S : Sim α)
    (surf : Surf α) (states : Nat → SurfState α) (fuel : Nat) (isp : Int)
    (dimension normalflag : Int) (magvstream : α) (ntaskmax : Nat) (tasks : Nat → Task α)
    (heap : Heap α) : Nat → Nat → α → Perf α → Option (Perf α)
  | 0, _, _, p => some p
  | k + 1, i, indot, p =>
    if i < ntaskmax then
      let t := tasks i
      match (if dimension = 2 then
              (idx? surf.lines t.isurf).map (fun l => (l.norm, l.surfaceState))
             else (idx? surf.tris t.isurf).map (fun l => (l.norm, l.surfaceState))) with
      | some (normal, some sid) =>
        let indot := if normalflag = 0 then dot3 t.vstream normal else indot
        let vscale := refresh_vscale ops S t.temp_thermal
        match ztask_loop ops S fuel dimension normalflag magvstream normal t
            (heap.buf t.path) (heap.buf t.fracarea) indot vscale isp
            (states sid).surfInitTaskList p with
        | none => none
        | some p1 =>
          task_loop ops S surf states fuel isp dimension normalflag magvstream ntaskmax tasks
            heap k (i + 1) indot p1
      | _ => none
    else none

/-- Embeds `FixEmitZSurf::perform_task`: the particles added, the draws consumed and
the new value of `nsingle`; `none` when the run does not complete. -/
def perform_task {α : Type} [LinearOrderedField α] [FloorRing α] (ops : MathOps α) (S : Sim α)
    (surf : Surf α) (states : Nat → SurfState α) (fuel : Nat) (isp : Int) (rng : Rng α)
    (e : Emit α) : Option (Perf α) :=
  task_loop ops S surf states fuel isp e.dimension e.normalflag e.magvstream e.ntaskmax
    e.tasks e.heap e.ntask 0 e.magvstream
    { rng := rng, calls := 0, particles := [], nsingle := e.nsingle }

/-- State of the second loop of `copy_task` after `k` iterations, relative to
the state `e` at loop entry. -/
structure CopyInv {α : Type} (icell : Int) (first oldfirst k : Nat) (e ek : Emit α) : Prop where
  ntaskmax_eq : ek.ntaskmax = e.ntaskmax
  ntask_eq : ek.ntask = e.ntask
  other : ∀ j, ¬ (first ≤ j ∧ j < first + k) → ek.tasks j = e.tasks j
  dest : ∀ i, i < k → ek.tasks (first + i)
    = { e.tasks (oldfirst + i) with
        path := e.heap.next + 2 * i, fracarea := e.heap.next + 2 * i + 1, icell := icell }
  next_eq : ek.heap.next = e.heap.next + 2 * k
  fresh : ∀ a, ek.heap.next ≤ a → ek.heap.buf a = none
  dest_path : ∀ i, i < k → ek.heap.buf (e.heap.next + 2 * i)
    = e.heap.read (e.tasks (oldfirst + i)).path ((e.tasks (oldfirst + i)).npoint * 3).toNat
  dest_frac : ∀ i, i < k → ek.heap.buf (e.heap.next + 2 * i + 1)
    = e.heap.read (e.tasks (oldfirst + i)).fracarea ((e.tasks (oldfirst + i)).npoint - 2).toNat
  old : ∀ a, a < e.heap.next →
    (∀ i, i < k → a ≠ (e.tasks (first + i)).path ∧ a ≠ (e.tasks (first + i)).fracarea) →
    ek.heap.buf a = e.heap.buf a

/-- A store of capacity 4 whose slot 0 holds a live 3-D task (a triangle with
area 1/2) and whose other slots are as `grow_task` leaves them. -/
def demoStore : Emit ℚ :=
  { dimension := 3, axisymmetric := 0, groupbit := 1, normalflag := 0, np := 0,
    npertask := 0, nthresh := 0, magvstream := 0, net := none, nsingle := 0,
    ntask := 1, ntaskmax := 4,
    tasks := fun i =>
      if i = 0 then
        { (Task.zero : Task ℚ) with area := 1 / 2, path := 1, fracarea := 2, npoint := 3 }
      else Task.zero
    heap :=
      { next := 3
        buf := fun a =>
          if a = 1 then some [0, 0, 0, 1, 0, 0, 0, 1, 0]
          else if a = 2 then some [1]
          else none } }

/-! ### The tasks of a cell, in the words of the specification -/

/-- The point count of the task that the specification gives surface `isurf`
of a cell: `none` when the surface is not in the configured group
(`mask & groupbit` is 0) or its clip against the cell bounds has fewer than 2
(2-D) or 3 (3-D) points, otherwise 2 in 2-D and the clip's point count in
3-D. -/
def task_npoint {α : Type} (X : Ext α) (surf : Surf α) (dimension : Int) (groupbit : Nat)
    (cell : ChildCell α) (isurf : Int) : Option Int :=
  if dimension = 2 then
    match idx? surf.lines isurf with
    | none => none
    | some line =>
      if line.mask &&& groupbit ≠ 0 ∧ 2 ≤ (X.clip2d line.p1 line.p2 cell.lo cell.hi).1 then some 2
      else none
  else
    match idx? surf.tris isurf with
    | none => none
    | some tri =>
      if tri.mask &&& groupbit ≠ 0 ∧ 3 ≤ (X.clip3d tri.p1 tri.p2 tri.p3 cell.lo cell.hi).1 then
        some (X.clip3d tri.p1 tri.p2 tri.p3 cell.lo cell.hi).1
      else none

/-- The surfaces of a list that get a task, in list order, each with the point
count of its task. -/
def emitting_surfs {α : Type} (X : Ext α) (surf : Surf α) (dimension : Int) (groupbit : Nat)
    (cell : ChildCell α) (csurfs : List Int) : List (Int × Int) :=
  csurfs.filterMap
    (fun isurf => (task_npoint X surf dimension groupbit cell isurf).map (fun n => (isurf, n)))

/-- Lines 352-357 and 402-408: the tangents of a task `t`, for the seed
`(draws p, draws (p+1), draws (p+2))` in 3-D. -/
def TangentsOf {α : Type} [Field α] (X : Ext α) (surf : Surf α) (dimension : Int)
    (draws : Nat → α) (p : Nat) (t : Task α) : Prop :=
  if dimension = 2 then
    ∃ line, idx? surf.lines t.isurf = some line
      ∧ t.tan1 = ⟨line.norm.y, -line.norm.x, 0⟩ ∧ t.tan2 = ⟨0, 0, 1⟩
  else
    ∃ tri, idx? surf.tris t.isurf = some tri
      ∧ t.tan1 = norm3 X.ops (cross3 tri.norm ⟨draws p, draws (p + 1), draws (p + 2)⟩)
      ∧ t.tan2 = norm3 X.ops (cross3 tri.norm t.tan1)

/-! ### The tangent frame, in the words of the specification -/

/-- The vectors `t1` and `t2` are unit vectors, each orthogonal to `n`, and
orthogonal to each other. -/
def TangentFrame {α : Type} [Add α] [Mul α] [Zero α] [One α] (n t1 t2 : Vec3 α) : Prop :=
  dot3 t1 t1 = 1 ∧ dot3 t2 t2 = 1 ∧ dot3 t1 n = 0 ∧ dot3 t2 n = 0 ∧ dot3 t1 t2 = 0

/-! ### Resolution of `pcell`, in the words of the specification -/

/-- The sub-cell of a task of cell `icell` and surface `isurf` is `pcell`: the
cell itself when the cell has `nsplit == 1`, and otherwise
`csubs[csplits[j]]` of the cell's split record, `j` being the first index of
the cell's surface list with `csurfs[j] == isurf`. -/
def ResolvesTo {α : Type} (grid : Grid α) (icell isurf pcell : Int) : Prop :=
  ∃ cell, idx? grid.cells icell = some cell
    ∧ ((cell.nsplit = 1 ∧ pcell = icell)
      ∨ (cell.nsplit ≠ 1
        ∧ ∃ j sp subcell, j < cell.nsurf.toNat ∧ cell.csurfs[j]? = some isurf
          ∧ (∀ m, m < j → cell.csurfs[m]? ≠ some isurf)
          ∧ idx? grid.sinfo cell.isplit = some sp
          ∧ sp.csplits[j]? = some subcell
          ∧ idx? sp.csubs subcell = some pcell))

/-! ### Acceptance on the first draw -/

/-- The first pass of the loops of lines 613-621 accepts: with `U1` the draw
of `beta_un` and `U2` the draw compared with `normalized_distbn_fn`, the loops
end after one `beta_un`. -/
def first_draw_accepts {α : Type} [LinearOrderedField α] (ops : MathOps α) (s U1 U2 : α) :
    Prop :=
  (normal_loop ops s 1 { draws := fun k => if k = 0 then U1 else U2, pos := 0 }).isSome

/-- The pairs of draws `(U1, U2)` of the unit square `[0,1) x [0,1)` on which
the first pass accepts. -/
def accept_set {α : Type} [LinearOrderedField α] (ops : MathOps α) (s : α) : Set (α × α) :=
  {p | 0 ≤ p.1 ∧ p.1 < 1 ∧ 0 ≤ p.2 ∧ p.2 < 1 ∧ first_draw_accepts ops s p.1 p.2}

/-! ### Setup: the constructor (lines 52-105) and `option` (lines 953-970) -/

/-- The fatal errors of the setup (`error->all`, `error->allf`): those of the
constructor, in the order of its checks, those of `option`, and `undefined`
for a read outside `arg`. -/
inductive Fatal where
  | illegal_command
  | mixture_not_exist
  | mixture_not_all
  | group_not_exist
  | checks (c : CtorError)
  | keyword_requires_react_id
  | react_not_found
  | illegal_keyword
  | undefined
deriving DecidableEq, Repr

/-- What the constructor reads from `particle` and `surf`. -/
structure Input where
  find_mixture : String → Int
  find_group : String → Int
  bitmask : List Nat
  find_react : String → Int
  exist : Int
  distributed : Int

/-- The members the constructor and `option` set. -/
structure Ctor where
  imix : Int
  groupbit : Nat
  perspecies : Int
  np : Int
  normalflag : Int
  isrZuzax : Int
  ntask : Nat
  ntaskmax : Nat
deriving DecidableEq, Repr

/-- Embeds `FixEmitZSurf::option(narg, arg)`: the returned count of arguments
consumed and the new value of the member `isrZuzax`, or the fatal error. -/
def option (find_react : String → Int) (narg : Int) (arg : List String) :
    Except Fatal (Int × Int) :=
  match arg[0]? with
  | none => Except.error Fatal.undefined
  | some a0 =>
    if a0 = "zuzaxReact" then
      if 2 > narg then Except.error Fatal.keyword_requires_react_id
      else
        match arg[1]? with
        | none => Except.error Fatal.undefined
        | some a1 =>
          let isrZuzax := find_react a1
          if isrZuzax < 0 then Except.error Fatal.react_not_found
          else Except.ok (2, isrZuzax)
    else Except.error Fatal.illegal_keyword

/-- Embeds the constructor `FixEmitZSurf::FixEmitZSurf(sparta, narg, arg)`: the
members it leaves, or the fatal error. `options` stands for `FixEmit::options`
of the base class (declared in `fix_emit.h`, not among the sources), which
parses the optional arguments from the members as set before the call and
hands the keywords it does not know to `option`; `isrZuzax` is the value the
member `isrZuzax` holds before. The constructor of the base class is left
out. -/
def FixEmitZSurf (I : Input) (options : Ctor → Int → List String → Except Fatal Ctor)
    (isrZuzax : Int) (narg : Int) (arg : List String) : Except Fatal Ctor :=
  if narg < 4 then Except.error Fatal.illegal_command
  else
    match arg[2]?, arg[3]? with
    | some a2, some a3 =>
      let imix := I.find_mixture a2
      if imix < 0 then Except.error Fatal.mixture_not_exist
      else if a2 ≠ "all" then Except.error Fatal.mixture_not_all
      else
        let igroup := I.find_group a3
        if igroup < 0 then Except.error Fatal.group_not_exist
        else
          match idx? I.bitmask igroup with
          | none => Except.error Fatal.undefined
          | some groupbit =>
            let iarg : Int := 4
            match options
                { imix := imix, groupbit := groupbit, perspecies := 1, np := 0, normalflag := 0,
                  isrZuzax := isrZuzax, ntask := 0, ntaskmax := 0 }
                (narg - iarg) (arg.drop 4) with
            | Except.error e => Except.error e
            | Except.ok c =>
              match constructor_checks I.exist I.distributed c.np c.perspecies with
              | some e => Except.error (Fatal.checks e)
              | none => Except.ok { c with ntask := 0, ntaskmax := 0 }
    | _, _ => Except.error Fatal.undefined

/-! ### The quota block with the undefined operations of C made explicit -/

/-- Embeds the operator `/` on `int`: undefined (`none`) for a zero divisor. -/
def int_div (a b : Int) : Option Int :=
  if b = 0 then none else some (Int.tdiv a b)

/-- Embeds the operator `%` on `int`: undefined (`none`) for a zero divisor. -/
def int_mod (a b : Int) : Option Int :=
  if b = 0 then none else some (Int.tmod a b)

/-- Lines 205-210 with `/` and `%` as `int_div` and `int_mod`: `npertask` and
`tasks_with_no_extra`, or `none` when an operand makes an operation
undefined. -/
def quota_base_checked (np all : Int) : Option (Int × Int) :=
  if all ≠ 0 then
    match int_div np all with
    | none => none
    | some q =>
      match int_mod np all with
      | none => none
      | some m => some (q, all - m)
  else some (0, 0)

/-- The quota block of `init` on one rank (lines 202-220) with `/` and `%` as
`int_div` and `int_mod`; the block has no call of `error`. -/
def init_quota_checked (np all nupto ntask : Int) (old : Quota) : Option Quota :=
  if np > 0 then
    match quota_base_checked np all with
    | none => none
    | some b => some { npertask := b.1, nthresh := quota_nthresh b.2 nupto ntask }
  else some old

/-- The checked quota block executed on rank `r` of a run whose ranks hold
`ntasks[0], ntasks[1], ...` tasks. -/
def init_quota_checked_rank (np : Int) (ntasks : List Nat) (r : Nat) (old : Quota) :
    Option Quota :=
  init_quota_checked np (MPI_Allreduce_sum ntasks) (MPI_Scan_sum ntasks r)
    ((ntasks.getD r 0 : Nat) : Int) old

/-! ### The build of the task list (lines 190-194) -/

/-- The calls `create_task(icell)` of a build. Lines 190-194: `FixEmit::init()`
of the base class (declared in `fix_emit.h`, not among the sources) "calls
create_task() for each grid cell"; the cells of these calls, in the order of
the calls, are the parameter `icells`. -/
def create_tasks {α : Type} [LinearOrderedField α] (X : Ext α) (grid : Grid α)
    (surf : Surf α) (mix : Mixture α) : List Int → Build α → Except Abort (Build α)
  | [], b => Except.ok b
  | icell :: rest, b =>
    match create_task X grid surf mix icell b with
    | Except.error a => Except.error a
    | Except.ok b1 => create_tasks X grid surf mix rest b1

/-- A task carries the sub-cell that `create_task` assigns (lines 296-302): its
cell is one of `icells`, its surface is at an index `i` of the surface list of
that cell, and its `pcell` is the value of lines 296-302 for that index. -/
def BuiltPcell {α : Type} (grid : Grid α) (icells : List Int) (t : Task α) : Prop :=
  t.icell ∈ icells
  ∧ ∃ cell i, idx? grid.cells t.icell = some cell ∧ i < cell.nsurf.toNat
    ∧ cell.csurfs[i]? = some t.isurf
    ∧ create_pcell grid cell t.icell i = some t.pcell

/-! ### The invariant of the task store, in the words of the specification -/

/-- A live task of a run of the given dimension, with the contents `path` and
`fracarea` of its two buffers: `npoint >= 2` and a path buffer of exactly
`3*npoint` doubles, and in 3-D (the `else` branch of `dimension == 2`)
`npoint >= 3` and a `fracarea` buffer of exactly `npoint-2` doubles. -/
def TaskInv {α : Type} (dimension : Int) (t : Task α) (path fracarea : Option (List α)) :
    Prop :=
  2 ≤ t.npoint ∧ t.path ≠ 0
    ∧ (∃ l, path = some l ∧ l.length = (t.npoint * 3).toNat)
    ∧ (dimension ≠ 2 →
        3 ≤ t.npoint ∧ t.fracarea ≠ 0
        ∧ ∃ l, fracarea = some l ∧ l.length = (t.npoint - 2).toNat)

/-- The invariant of the task store: `ntask <= ntaskmax`; `ntaskmax` is a
multiple of `DELTATASK`; no two slots share a buffer (`Owns`, which also
carries the bookkeeping of the heap model); every task with index below
`ntask` satisfies `TaskInv`. -/
structure StoreInv {α : Type} (e : Emit α) : Prop where
  cap : e.ntask ≤ e.ntaskmax
  mult : DELTATASK ∣ e.ntaskmax
  owns : Owns e
  live : ∀ i, i < e.ntask →
    TaskInv e.dimension (e.tasks i) (e.heap.buf (e.tasks i).path)
      (e.heap.buf (e.tasks i).fracarea)

/-- The states of the engine that a sequence of calls of `create_task`,
`grow_task` and `unpack_task` reaches from the empty store
(`ntask = ntaskmax = 0`, on a heap on which `NULL` is no buffer and the
addresses from `next` on are unused). Every call of `unpack_task` reads a
record that `pack_task` (with `memflag != 0`) wrote from a task `itask` of some
store `src` that satisfies `TaskInv`. -/
inductive Reach {α : Type} [LinearOrderedField α] (L : Layout) : Build α → Prop
  | empty (b : Build α) : b.e.ntask = 0 → b.e.ntaskmax = 0 → 0 < b.e.heap.next →
      b.e.heap.buf 0 = none → (∀ a, b.e.heap.next ≤ a → b.e.heap.buf a = none) → Reach L b
  | create (X : Ext α) (grid : Grid α) (surf : Surf α) (mix : Mixture α) (icell : Int)
      (b b1 : Build α) : Reach L b →
      create_task X grid surf mix icell b = Except.ok b1 → Reach L b1
  | grow (b : Build α) : Reach L b → Reach L { b with e := grow_task b.e }
  | unpack (grid : Grid α) (buf : Nat) (icell : Int) (b : Build α) (src : Emit α)
      (itask : Nat) (memflag : Int) (w w1 : Wire α) (c c1 : Int) (e1 : Emit α) :
      Reach L b →
      TaskInv b.e.dimension (src.tasks itask) (src.heap.buf (src.tasks itask).path)
        (src.heap.buf (src.tasks itask).fracarea) →
      memflag ≠ 0 →
      pack_task L itask buf memflag src w = some (c, w1) →
      unpack_task L grid buf icell w1 b.e = some (c1, e1) →
      Reach L { b with e := e1 }

/-! ### Conditions under which `perform_task` returns -/

/-- A square root on `ℚ` that is exact on squares of rationals. -/
def demoSqrt (x : ℚ) : ℚ :=
  (Nat.sqrt x.num.toNat : ℚ) / (Nat.sqrt x.den : ℚ)

/-- Stand-ins on `ℚ` for the functions of `math.h`, used to run the
definitions: `sqrt` is exact on squares; the others are only placeholders of
the right type. -/
def demoOps : MathOps ℚ :=
  { sqrt := demoSqrt
    exp := fun x => 1 + x
    log := fun x => x - 1
    sin := fun x => x
    cos := fun _ => 1
    MY_PI := 355 / 113
    MY_2PI := 710 / 113 }

/-- A clipper that returns the surface element unclipped: for a line its two
end points `x1 y1 x2 y2`, for a triangle its three corners. -/
def demoExt : Ext ℚ :=
  { ops := demoOps
    clip2d := fun p1 p2 _ _ => (2, [p1.x, p1.y, p2.x, p2.y])
    clip3d := fun p1 p2 p3 _ _ =>
      (3, [p1.x, p1.y, p1.z, p2.x, p2.y, p2.z, p3.x, p3.y, p3.z]) }

/-- A grid of one unsplit cell that holds surface 0. -/
def demoGrid : Grid ℚ :=
  { cells := [{ lo := ⟨0, 0, 0⟩, hi := ⟨10, 10, 10⟩, nsurf := 1, csurfs := [0],
                nsplit := 1, isplit := 0 }]
    sinfo := [] }

/-- One line from `(0,0)` to `(3,4)` and one triangle with corners `(0,0,0)`,
`(1,0,0)`, `(0,1,0)`, both in group 1. -/
def demoSurf : Surf ℚ :=
  { lines := [{ mask := 1, norm := ⟨4 / 5, -3 / 5, 0⟩, p1 := ⟨0, 0, 0⟩, p2 := ⟨3, 4, 0⟩,
                surfaceState := some 0 }]
    tris := [{ mask := 1, norm := ⟨0, 0, 1⟩, p1 := ⟨0, 0, 0⟩, p2 := ⟨1, 0, 0⟩,
               p3 := ⟨0, 1, 0⟩, surfaceState := some 0 }] }

/-- A degenerate triangle, its three corners at the origin, in group 1. -/
def demoTriFlat : Tri ℚ :=
  { mask := 1, norm := ⟨0, 0, 1⟩, p1 := ⟨0, 0, 0⟩, p2 := ⟨0, 0, 0⟩, p3 := ⟨0, 0, 0⟩,
    surfaceState := some 0 }

/-- The surface elements of a run whose only triangle is degenerate. -/
def demoSurfFlat : Surf ℚ :=
  { lines := [], tris := [demoTriFlat] }

/-- A mixture. -/
def demoMix : Mixture ℚ :=
  { nrho := 1, temp_thermal := 300, temp_rot := 300, temp_vib := 300, vstream := ⟨0, 0, 0⟩ }

/-- The engine right after construction (`tasks = NULL`, `ntask = ntaskmax = 0`)
in a run of the given dimension, with one surface state bound to network 0. -/
def demoBuild (dimension : Int) : Build ℚ :=
  { e :=
      { dimension := dimension, axisymmetric := 0, groupbit := 1, normalflag := 0, np := 0,
        npertask := 0, nthresh := 0, magvstream := 0, net := none, nsingle := 0,
        ntask := 0, ntaskmax := 0, tasks := fun _ => Task.zero,
        heap := { next := 1, buf := fun _ => none } }
    states := fun _ => { net := some 0, Area := 0, surfInitTaskList := [] }
    rng := { draws := fun k => 1 / ((k : ℚ) + 2), pos := 0 } }

/-- Collaborators of `perform_task` for a run with one species. -/
def demoSim : Sim ℚ :=
  { boltz := 1, dt := 1, nspecies := 1, mass := [1], ZutoSp_speciesMap := [0],
    region := none
    erot := fun _ _ r => (0, r)
    evib := fun _ _ r => (0, r)
    MAXSMALLINT := 2147483647
    doExplicitReaction := fun _ => true }

/-- A clipper that returns the surface element unclipped, with the functions
`ops` of `math.h`. -/
def unclipped {α : Type} (ops : MathOps α) : Ext α :=
  { ops := ops
    clip2d := fun p1 p2 _ _ => (2, [p1.x, p1.y, p2.x, p2.y])
    clip3d := fun p1 p2 p3 _ _ =>
      (3, [p1.x, p1.y, p1.z, p2.x, p2.y, p2.z, p3.x, p3.y, p3.z]) }

/-- A grid of one unsplit cell that holds surface 0, over any field. -/
def oneCellGrid {α : Type} [Field α] : Grid α :=
  { cells := [{ lo := ⟨0, 0, 0⟩, hi := ⟨10, 10, 10⟩, nsurf := 1, csurfs := [0],
                nsplit := 1, isplit := 0 }]
    sinfo := [] }

/-- The triangle with corners `(0,0,0)`, `(1,0,0)`, `(0,1,0)` and unit normal
`(0,0,1)`, in group 1, over any field. -/
def flatTri {α : Type} [Field α] : Tri α :=
  { mask := 1, norm := ⟨0, 0, 1⟩, p1 := ⟨0, 0, 0⟩, p2 := ⟨1, 0, 0⟩, p3 := ⟨0, 1, 0⟩,
    surfaceState := some 0 }

/-- The surface elements of a run whose only element is `flatTri`. -/
def oneTriSurf {α : Type} [Field α] : Surf α :=
  { lines := [], tris := [flatTri] }

/-- A mixture, over any field. -/
def oneMix {α : Type} [Field α] : Mixture α :=
  { nrho := 1, temp_thermal := 300, temp_rot := 300, temp_vib := 300, vstream := ⟨0, 0, 0⟩ }

/-- The engine right after construction in a 3-D run, over any field; draw `k`
of the random number generator is `1/(k+2)`. -/
def freshBuild {α : Type} [Field α] : Build α :=
  { e :=
      { dimension := 3, axisymmetric := 0, groupbit := 1, normalflag := 0, np := 0,
        npertask := 0, nthresh := 0, magvstream := 0, net := none, nsingle := 0,
        ntask := 0, ntaskmax := 0, tasks := fun _ => Task.zero,
        heap := { next := 1, buf := fun _ => none } }
    states := fun _ => { net := some 0, Area := 0, surfInitTaskList := [] }
    rng := { draws := fun k => 1 / ((k : α) + 2), pos := 0 } }

/-- A triangle with corners `(0,0,2)`, `(1,0,0)`, `(0,1,0)` and unit normal
`(2/3, 2/3, 1/3)`, in group 1. -/
def demoTriTilt : Tri ℚ :=
  { mask := 1, norm := ⟨2 / 3, 2 / 3, 1 / 3⟩, p1 := ⟨0, 0, 2⟩, p2 := ⟨1, 0, 0⟩,
    p3 := ⟨0, 1, 0⟩, surfaceState := some 0 }

/-- The surface elements of a run whose only element is `demoTriTilt`. -/
def demoSurfTilt : Surf ℚ :=
  { lines := [], tris := [demoTriTilt] }

/-- The engine right after construction in a 3-D run whose first three draws
are `1/2`, `1/2`, `1/4`. -/
def demoBuildSeed : Build ℚ :=
  { demoBuild 3 with rng := { draws := fun k => if k = 2 then 1 / 4 else 1 / 2, pos := 0 } }

/-- A grid of two cells: cell 0 is split in two by the surfaces 5 and 7 (its
split record sends surface index 0 to sub-cell entry 1 and surface index 1 to
sub-cell entry 0, the sub-cells being the cells 10 and 11), cell 1 is unsplit
and holds surface 5. -/
def demoSplitGrid : Grid ℚ :=
  { cells := [{ lo := ⟨0, 0, 0⟩, hi := ⟨1, 1, 1⟩, nsurf := 2, csurfs := [5, 7],
                nsplit := 2, isplit := 0 },
              { lo := ⟨1, 0, 0⟩, hi := ⟨2, 1, 1⟩, nsurf := 1, csurfs := [5],
                nsplit := 1, isplit := 0 }]
    sinfo := [{ csplits := [1, 0], csubs := [10, 11] }] }

/-- A store of capacity 4 with two live tasks, of surface 7 in cell 0 and of
surface 5 in cell 1, whose `pcell` is stale. -/
def demoSplitStore : Emit ℚ :=
  { demoStore with
    ntask := 2
    tasks := fun i =>
      if i = 0 then { (Task.zero : Task ℚ) with icell := 0, isurf := 7, pcell := -1 }
      else if i = 1 then { (Task.zero : Task ℚ) with icell := 1, isurf := 5, pcell := -1 }
      else Task.zero }

/-- Collaborators of `perform_task` for a run with two species, of mass 1 and
4, whose reaction network maps its gas species 0 to species 1; with
`boltz = 1/2`, a temperature of 4 gives the thermal scales `sqrt(4/1) = 2` and
`sqrt(4/4) = 1`. -/
def demoSim2 : Sim ℚ :=
  { boltz := 1 / 2, dt := 1, nspecies := 2, mass := [1, 4], ZutoSp_speciesMap := [1],
    region := none
    erot := fun _ _ r => (0, r)
    evib := fun _ _ r => (0, r)
    MAXSMALLINT := 2147483647
    doExplicitReaction := fun _ => true }

/-- A 2-D store with one live task, on the line of `demoSurf` (from `(0,0)` to
`(3,4)`, length 5, normal `(4/5, -3/5, 0)`), at temperature 4 and without
stream velocity. -/
def demoLineStore : Emit ℚ :=
  { dimension := 2, axisymmetric := 0, groupbit := 1, normalflag := 0, np := 0,
    npertask := 0, nthresh := 0, magvstream := 0, net := some 0, nsingle := 0,
    ntask := 1, ntaskmax := 4,
    tasks := fun i =>
      if i = 0 then
        { (Task.zero : Task ℚ) with
          area := 5, path := 1, npoint := 2, temp_thermal := 4,
          tan1 := ⟨-3 / 5, -4 / 5, 0⟩, tan2 := ⟨0, 0, 1⟩ }
      else Task.zero
    heap :=
      { next := 2
        buf := fun a => if a = 1 then some [0, 0, 0, 3, 4, 0] else none } }

/-- Surface states with one particle-creating reaction: on average one event
per step on a face of area 5, each event creating one particle of gas species
0 of the network. -/
def demoStates2 : Nat → SurfState ℚ :=
  fun _ => { net := some 0, Area := 5, surfInitTaskList := [⟨1, 5, 0, 1, [(0, 1)], 0⟩] }

/-- A run with the mixtures `all` (index 0) and `air` (index 1), the surface
group `inlet` (index 1, bit 2) and the surface reaction model `sr1`
(index 0). -/
def demoInput : Input :=
  { find_mixture := fun s => if s = "all" then 0 else if s = "air" then 1 else -1
    find_group := fun s => if s = "inlet" then 1 else -1
    bitmask := [1, 2]
    find_react := fun s => if s = "sr1" then 0 else -1
    exist := 1
    distributed := 0 }

/-- A stand-in for `FixEmit::options` that knows no keyword itself: it hands
the first optional argument, if there is one, to `option`. -/
def demoOptions (find_react : String → Int) (c : Ctor) (narg : Int) (arg : List String) :
    Except Fatal Ctor :=
  if narg ≤ 0 then Except.ok c
  else
    match option find_react narg arg with
    | Except.error e => Except.error e
    | Except.ok r => Except.ok { c with isrZuzax := r.2 }

/-- A grid of one unsplit cell that holds the surfaces 0 and 1. -/
def demoGridTwo : Grid ℚ :=
  { cells := [{ lo := ⟨0, 0, 0⟩, hi := ⟨10, 10, 10⟩, nsurf := 2, csurfs := [0, 1],
                nsplit := 1, isplit := 0 }]
    sinfo := [] }

/-- Surface elements without surface state: the line and the triangle of
`demoSurf` with `surfaceState == nullptr`. -/
def demoSurfBare : Surf ℚ :=
  { lines := [{ mask := 1, norm := ⟨4 / 5, -3 / 5, 0⟩, p1 := ⟨0, 0, 0⟩, p2 := ⟨3, 4, 0⟩,
                surfaceState := none }]
    tris := [{ mask := 1, norm := ⟨0, 0, 1⟩, p1 := ⟨0, 0, 0⟩, p2 := ⟨1, 0, 0⟩,
               p3 := ⟨0, 1, 0⟩, surfaceState := none }] }

/-- Two lines and two triangles, all in group 1; element 0 has the surface
state 0 and element 1 the surface state 1. -/
def demoSurfTwo : Surf ℚ :=
  { lines := [{ mask := 1, norm := ⟨4 / 5, -3 / 5, 0⟩, p1 := ⟨0, 0, 0⟩, p2 := ⟨3, 4, 0⟩,
                surfaceState := some 0 },
              { mask := 1, norm := ⟨0, 1, 0⟩, p1 := ⟨3, 4, 0⟩, p2 := ⟨5, 4, 0⟩,
                surfaceState := some 1 }]
    tris := [{ mask := 1, norm := ⟨0, 0, 1⟩, p1 := ⟨0, 0, 0⟩, p2 := ⟨1, 0, 0⟩,
               p3 := ⟨0, 1, 0⟩, surfaceState := some 0 },
             { mask := 1, norm := ⟨0, 0, 1⟩, p1 := ⟨1, 0, 0⟩, p2 := ⟨1, 1, 0⟩,
               p3 := ⟨0, 1, 0⟩, surfaceState := some 1 }] }

/-- The engine right after construction in a run of the given dimension whose
surface state 0 is bound to network 0 and whose other surface states are bound
to network 1. -/
def demoBuildNets (dimension : Int) : Build ℚ :=
  { demoBuild dimension with
    states := fun sid =>
      { net := if sid = 0 then some 0 else some 1, Area := 0, surfInitTaskList := [] } }

/-- A message buffer that holds, at address 64 with a header of 144 bytes, the
record of a 3-point task of surface 0: the header, nine path doubles from
address 208 on and one `fracarea` double at address 280. -/
def demoWire : Wire ℚ :=
  fun a =>
    if a = 64 then
      some (WItem.task { (Task.zero : Task ℚ) with area := 1 / 2, path := 7, fracarea := 9,
                                                    npoint := 3, icell := 5, pcell := 5 })
    else if a = 232 ∨ a = 272 then some (WItem.dbl 1)
    else if 208 ≤ a ∧ a ≤ 264 ∧ a % 8 = 0 then some (WItem.dbl 0)
    else if a = 280 then some (WItem.dbl 1)
    else none

/-- A store of capacity 4 whose slots 1 and 2 hold live 3-D tasks, of the
surfaces 11 and 12, and whose slots 0 and 3 are as `grow_task` leaves them. -/
def demoStoreShift : Emit ℚ :=
  { dimension := 3, axisymmetric := 0, groupbit := 1, normalflag := 0, np := 0,
    npertask := 0, nthresh := 0, magvstream := 0, net := none, nsingle := 0,
    ntask := 0, ntaskmax := 4,
    tasks := fun i =>
      if i = 1 then
        { (Task.zero : Task ℚ) with area := 1 / 2, path := 1, fracarea := 2, npoint := 3,
                                    isurf := 11 }
      else if i = 2 then
        { (Task.zero : Task ℚ) with area := 2, path := 3, fracarea := 4, npoint := 3,
                                    isurf := 12 }
      else Task.zero
    heap :=
      { next := 5
        buf := fun a =>
          if a = 1 then some [0, 0, 0, 1, 0, 0, 0, 1, 0]
          else if a = 2 then some [1]
          else if a = 3 then some [0, 0, 0, 2, 0, 0, 0, 2, 0]
          else if a = 4 then some [1]
          else none } }

/-- A grid whose cell 0 is split in two by the surfaces 0 and 1: its split
record sends surface index 0 to sub-cell entry 1 and surface index 1 to
sub-cell entry 0, the sub-cells being the cells 10 and 11. -/
def demoGridCut : Grid ℚ :=
  { cells := [{ lo := ⟨0, 0, 0⟩, hi := ⟨10, 10, 10⟩, nsurf := 2, csurfs := [0, 1],
                nsplit := 2, isplit := 0 }]
    sinfo := [{ csplits := [1, 0], csubs := [10, 11] }] }

/-- The inclusive scan on rank `r` is the number of tasks on the ranks before
`r` plus the rank's own count. -/
theorem scan_eq (ns : List Nat) (r : Nat) (h : r < ns.length) :
    MPI_Scan_sum ns r
      = (((ns.take r).sum : Nat) : Int) + ((ns.getD r 0 : Nat) : Int) := by
  unfold MPI_Scan_sum
  rw [List.sum_take_succ ns r h, List.getD_eq_getElem ns 0 h]
  push_cast
  rfl

theorem take_sum_le (ns : List Nat) (r : Nat) : (ns.take r).sum ≤ ns.sum := by
  conv_rhs => rw [← List.take_append_drop r ns]
  rw [List.sum_append]
  exact Nat.le_add_right _ _

theorem quota_base_pos (T N : Int) (hT : 0 < T) (hN : 1 ≤ N) :
    quota_base T N = (T / N, N - T % N) := by
  unfold quota_base
  have h0 : N ≠ 0 := by omega
  rw [if_pos h0, Int.tdiv_eq_ediv (le_of_lt hT) (by omega),
    Int.tmod_eq_emod (le_of_lt hT) (by omega)]

/-- The values the quota block computes in `int` arithmetic stay inside the
range of a 32-bit `int` when `np` and the global task count do, so no
operation of the block wraps. -/
theorem quota_no_overflow (T all nupto ntask : Int) (hT : 0 < T) (hT2 : T < 2 ^ 31)
    (hN : 1 ≤ all) (hN2 : all < 2 ^ 31) (h0 : 0 ≤ ntask) (h1 : ntask ≤ nupto)
    (h2 : nupto ≤ all) :
    (0 ≤ Int.tdiv T all ∧ Int.tdiv T all < 2 ^ 31)
    ∧ (0 ≤ Int.tmod T all ∧ Int.tmod T all < 2 ^ 31)
    ∧ (0 ≤ all - Int.tmod T all ∧ all - Int.tmod T all < 2 ^ 31)
    ∧ (0 ≤ nupto - ntask ∧ nupto - ntask < 2 ^ 31)
    ∧ (-(2 ^ 31) ≤ all - Int.tmod T all - (nupto - ntask)
        ∧ all - Int.tmod T all - (nupto - ntask) < 2 ^ 31) := by
  rw [Int.tdiv_eq_ediv (le_of_lt hT) (by omega), Int.tmod_eq_emod (le_of_lt hT) (by omega)]
  have hm := Int.emod_lt_of_pos T (show (0 : Int) < all by omega)
  have hm0 := Int.emod_nonneg T (show all ≠ 0 by omega)
  have hd0 : 0 ≤ T / all := Int.ediv_nonneg (le_of_lt hT) (by omega)
  have hd1 : T / all ≤ T := Int.ediv_le_self all (le_of_lt hT)
  norm_num at hT2 hN2 ⊢
  refine ⟨⟨hd0, ?_⟩, ⟨hm0, ?_⟩, ⟨?_, ?_⟩, ⟨?_, ?_⟩, ?_, ?_⟩ <;> omega

theorem quota_nthresh_bounds (w off n : Int) (hn : 0 ≤ n) :
    0 ≤ quota_nthresh w (off + n) n ∧ quota_nthresh w (off + n) n ≤ n := by
  unfold quota_nthresh
  split_ifs <;> constructor <;> omega

theorem quota_nthresh_extra (w off n : Int) (hn : 0 ≤ n) :
    n - quota_nthresh w (off + n) n = max 0 (off + n - w) - max 0 (off - w) := by
  unfold quota_nthresh
  split_ifs <;> omega

theorem quota_nthresh_iff (w off n i : Int) (hi : 0 ≤ i) (hin : i < n) :
    quota_nthresh w (off + n) n ≤ i ↔ w ≤ off + i := by
  unfold quota_nthresh
  split_ifs <;> constructor <;> intro _ <;> omega

theorem sum_quota_count (q : Quota) (n : Nat) :
    ∑ i in Finset.range n, quota_count q i
      = n * q.npertask + max 0 ((n : Int) - max 0 q.nthresh) := by
  induction n with
  | zero => simp
  | succ k ih =>
    rw [Finset.sum_range_succ, ih]
    unfold quota_count
    push_cast
    split_ifs <;> (try rw [add_mul]) <;> omega

theorem card_quota_extra (q : Quota) (n : Nat) :
    (((Finset.range n).filter (fun i : Nat => q.nthresh ≤ (i : Int))).card : Int)
      = max 0 ((n : Int) - max 0 q.nthresh) := by
  induction n with
  | zero => simp
  | succ k ih =>
    rw [Finset.range_succ, Finset.filter_insert]
    split_ifs with h
    · rw [Finset.card_insert_of_not_mem (by simp)]
      push_cast
      rw [ih]
      omega
    · rw [ih]
      push_cast
      omega

/-- On every rank the quota block yields `npertask = T / N` and the threshold
of the three-way branch taken at `tasks_with_no_extra = N - T % N`. -/
theorem init_quota_rank_eq (T : Int) (ns : List Nat) (old : Quota)
    (hT : 0 < T) (hN : 1 ≤ ns.sum) (r : Nat) (hr : r < ns.length) :
    init_quota_rank T ns r old
      = { npertask := T / (ns.sum : Int)
          nthresh := quota_nthresh ((ns.sum : Int) - T % (ns.sum : Int))
            ((((ns.take r).sum : Nat) : Int) + ((ns.getD r 0 : Nat) : Int))
            ((ns.getD r 0 : Nat) : Int) } := by
  unfold init_quota_rank init_quota
  have hN1 : (1 : Int) ≤ (ns.sum : Int) := by exact_mod_cast hN
  rw [if_pos (by omega), scan_eq ns r hr]
  unfold MPI_Allreduce_sum
  rw [quota_base_pos T _ hT hN1]

theorem quota_sum_upto (T : Int) (ns : List Nat) (old : Quota)
    (hT : 0 < T) (hN : 1 ≤ ns.sum) (k : Nat) (hk : k ≤ ns.length) :
    (∑ r in Finset.range k, ∑ i in Finset.range (ns.getD r 0),
        quota_count (init_quota_rank T ns r old) i)
      = (((ns.take k).sum : Nat) : Int) * (T / (ns.sum : Int))
        + max 0 ((((ns.take k).sum : Nat) : Int)
            - ((ns.sum : Int) - T % (ns.sum : Int))) := by
  have hN1 : (1 : Int) ≤ (ns.sum : Int) := by exact_mod_cast hN
  have hm := Int.emod_lt_of_pos T (show (0 : Int) < (ns.sum : Int) by omega)
  have hm0 := Int.emod_nonneg T (show (ns.sum : Int) ≠ 0 by omega)
  induction k with
  | zero =>
    simp only [Finset.range_zero, Finset.sum_empty, List.take_zero, List.sum_nil,
      Nat.cast_zero, zero_mul, zero_add]
    omega
  | succ k ih =>
    have hk1 : k < ns.length := by omega
    rw [Finset.sum_range_succ, ih (by omega), sum_quota_count,
      init_quota_rank_eq T ns old hT hN k hk1, List.sum_take_succ ns k hk1,
      List.getD_eq_getElem ns 0 hk1]
    have hb := quota_nthresh_bounds ((ns.sum : Int) - T % (ns.sum : Int))
      (((ns.take k).sum : Nat) : Int) ((ns[k] : Nat) : Int) (by omega)
    have he := quota_nthresh_extra ((ns.sum : Int) - T % (ns.sum : Int))
      (((ns.take k).sum : Nat) : Int) ((ns[k] : Nat) : Int) (by omega)
    rw [Nat.cast_add, add_mul]
    dsimp only
    omega

theorem quota_extra_upto (T : Int) (ns : List Nat) (old : Quota)
    (hT : 0 < T) (hN : 1 ≤ ns.sum) (k : Nat) (hk : k ≤ ns.length) :
    (∑ r in Finset.range k,
        (((Finset.range (ns.getD r 0)).filter
          (fun i : Nat => (init_quota_rank T ns r old).nthresh ≤ (i : Int))).card : Int))
      = max 0 ((((ns.take k).sum : Nat) : Int)
            - ((ns.sum : Int) - T % (ns.sum : Int))) := by
  have hN1 : (1 : Int) ≤ (ns.sum : Int) := by exact_mod_cast hN
  have hm := Int.emod_lt_of_pos T (show (0 : Int) < (ns.sum : Int) by omega)
  have hm0 := Int.emod_nonneg T (show (ns.sum : Int) ≠ 0 by omega)
  induction k with
  | zero =>
    simp only [Finset.range_zero, Finset.sum_empty, List.take_zero, List.sum_nil,
      Nat.cast_zero]
    omega
  | succ k ih =>
    have hk1 : k < ns.length := by omega
    rw [Finset.sum_range_succ, ih (by omega), card_quota_extra,
      init_quota_rank_eq T ns old hT hN k hk1, List.sum_take_succ ns k hk1,
      List.getD_eq_getElem ns 0 hk1]
    have hb := quota_nthresh_bounds ((ns.sum : Int) - T % (ns.sum : Int))
      (((ns.take k).sum : Nat) : Int) ((ns[k] : Nat) : Int) (by omega)
    have he := quota_nthresh_extra ((ns.sum : Int) - T % (ns.sum : Int))
      (((ns.take k).sum : Nat) : Int) ((ns[k] : Nat) : Int) (by omega)
    rw [Nat.cast_add]
    dsimp only
    omega

theorem quota_count_extra_iff (q : Quota) (i : Nat) :
    quota_count q i = q.npertask + 1 ↔ q.nthresh ≤ (i : Int) := by
  unfold quota_count
  split_ifs <;> constructor <;> intro _ <;> omega

/-- C1. Quota arithmetic of `init`: for a target `T > 0` and per-rank task
counts `ns` with `N = sum ns >= 1`, giving `npertask` to the local indices
below `nthresh` and `npertask + 1` to the others on every rank, the counts of
all tasks of all ranks add up to exactly `T`, every count is `T / N` or
`T / N + 1`, and exactly `T % N` tasks receive `T / N + 1`. -/
theorem quota_total_exact (T : Int) (ns : List Nat) (old : Quota)
    (hT : 0 < T) (hN : 1 ≤ ns.sum) :
    (∑ r in Finset.range ns.length, ∑ i in Finset.range (ns.getD r 0),
        quota_count (init_quota_rank T ns r old) i) = T
    ∧ (∀ r, r < ns.length → ∀ i, i < ns.getD r 0 →
        quota_count (init_quota_rank T ns r old) i = T / (ns.sum : Int)
        ∨ quota_count (init_quota_rank T ns r old) i = T / (ns.sum : Int) + 1)
    ∧ (∑ r in Finset.range ns.length,
        (((Finset.range (ns.getD r 0)).filter
          (fun i : Nat => quota_count (init_quota_rank T ns r old) i
            = T / (ns.sum : Int) + 1)).card : Int))
        = T % (ns.sum : Int) := by
  have hN1 : (1 : Int) ≤ (ns.sum : Int) := by exact_mod_cast hN
  have hm := Int.emod_lt_of_pos T (show (0 : Int) < (ns.sum : Int) by omega)
  have hm0 := Int.emod_nonneg T (show (ns.sum : Int) ≠ 0 by omega)
  refine ⟨?_, ?_, ?_⟩
  · rw [quota_sum_upto T ns old hT hN ns.length le_rfl, List.take_length]
    have h := Int.emod_add_ediv T (ns.sum : Int)
    omega
  · intro r hr i _
    have hq := init_quota_rank_eq T ns old hT hN r hr
    have hp : (init_quota_rank T ns r old).npertask = T / (ns.sum : Int) := by rw [hq]
    unfold quota_count
    split_ifs
    · exact Or.inl hp
    · exact Or.inr (by rw [hp])
  · have hc : ∀ r ∈ Finset.range ns.length,
        (((Finset.range (ns.getD r 0)).filter
          (fun i : Nat => quota_count (init_quota_rank T ns r old) i
            = T / (ns.sum : Int) + 1)).card : Int)
        = (((Finset.range (ns.getD r 0)).filter
          (fun i : Nat => (init_quota_rank T ns r old).nthresh ≤ (i : Int))).card : Int) := by
      intro r hr
      have hq := init_quota_rank_eq T ns old hT hN r (Finset.mem_range.mp hr)
      have hp : (init_quota_rank T ns r old).npertask = T / (ns.sum : Int) := by rw [hq]
      congr 2
      apply Finset.filter_congr
      intro i _
      rw [← hp]
      exact quota_count_extra_iff _ i
    rw [Finset.sum_congr rfl hc, quota_extra_upto T ns old hT hN ns.length le_rfl,
      List.take_length]
    omega

/-- Witness of C1: `T = 7` over three ranks holding 2, 0 and 3 tasks. -/
theorem quota_total_exact_witness :
    (0 : Int) < 7 ∧ 1 ≤ [2, 0, 3].sum
    ∧ (∑ r in Finset.range [2, 0, 3].length, ∑ i in Finset.range ([2, 0, 3].getD r 0),
        quota_count (init_quota_rank 7 [2, 0, 3] r ⟨0, 0⟩) i) = 7 :=
  ⟨by decide, by decide,
    (quota_total_exact 7 [2, 0, 3] ⟨0, 0⟩ (by decide) (by decide)).1⟩

/-- C2. The per-rank threshold rule is the global-ordering rule: on rank `r`
the local index `i` is at or above `nthresh` exactly when its global index
`g = (nupto - ntask) + i` is at or above `N - T % N`, and
`0 <= nthresh <= ntask`. -/
theorem quota_threshold_global (T : Int) (ns : List Nat) (old : Quota)
    (hT : 0 < T) (hN : 1 ≤ ns.sum) (r : Nat) (hr : r < ns.length)
    (i : Nat) (hi : i < ns.getD r 0) :
    ((init_quota_rank T ns r old).nthresh ≤ (i : Int)
      ↔ (ns.sum : Int) - T % (ns.sum : Int)
          ≤ (MPI_Scan_sum ns r - ((ns.getD r 0 : Nat) : Int)) + (i : Int))
    ∧ (quota_count (init_quota_rank T ns r old) i
        = if (ns.sum : Int) - T % (ns.sum : Int)
            ≤ (MPI_Scan_sum ns r - ((ns.getD r 0 : Nat) : Int)) + (i : Int)
          then T / (ns.sum : Int) + 1 else T / (ns.sum : Int))
    ∧ 0 ≤ (init_quota_rank T ns r old).nthresh
    ∧ (init_quota_rank T ns r old).nthresh ≤ ((ns.getD r 0 : Nat) : Int) := by
  have hq := init_quota_rank_eq T ns old hT hN r hr
  have hb := quota_nthresh_bounds ((ns.sum : Int) - T % (ns.sum : Int))
    (((ns.take r).sum : Nat) : Int) ((ns.getD r 0 : Nat) : Int) (by omega)
  have hiff := quota_nthresh_iff ((ns.sum : Int) - T % (ns.sum : Int))
    (((ns.take r).sum : Nat) : Int) ((ns.getD r 0 : Nat) : Int) (i : Int)
    (by omega) (by exact_mod_cast hi)
  have hth : (init_quota_rank T ns r old).nthresh
      = quota_nthresh ((ns.sum : Int) - T % (ns.sum : Int))
          ((((ns.take r).sum : Nat) : Int) + ((ns.getD r 0 : Nat) : Int))
          ((ns.getD r 0 : Nat) : Int) := by rw [hq]
  have hp : (init_quota_rank T ns r old).npertask = T / (ns.sum : Int) := by rw [hq]
  have hg : MPI_Scan_sum ns r - ((ns.getD r 0 : Nat) : Int)
      = (((ns.take r).sum : Nat) : Int) := by rw [scan_eq ns r hr]; omega
  rw [hg, hth]
  refine ⟨hiff, ?_, hb.1, hb.2⟩
  unfold quota_count
  rw [hth, hp]
  split_ifs with h1 h2 h2
  · omega
  · rfl
  · rfl
  · omega

/-- Witness of C2: `T = 7`, ranks holding 2, 0 and 3 tasks, rank 2, local
task 1 (global index 3, the first of the two tasks that get the extra one). -/
theorem quota_threshold_global_witness :
    (0 : Int) < 7 ∧ 1 ≤ [2, 0, 3].sum ∧ 2 < [2, 0, 3].length ∧ 1 < [2, 0, 3].getD 2 0
    ∧ (init_quota_rank 7 [2, 0, 3] 2 ⟨0, 0⟩).nthresh ≤ ((1 : Nat) : Int) :=
  ⟨by decide, by decide, by decide, by decide,
    ((quota_threshold_global 7 [2, 0, 3] ⟨0, 0⟩ (by decide) (by decide) 2 (by decide)
      1 (by decide)).1).mpr (by decide)⟩


/-! ### Heap -/

theorem Heap.read_congr {α : Type} (h1 h2 : Heap α) (p : Nat) (n : Nat)
    (hb : n = 0 ∨ h1.buf p = h2.buf p) : h1.read p n = h2.read p n := by
  unfold Heap.read
  rcases hb with hb | hb
  · rw [if_pos hb, if_pos hb]
  · rw [hb]

theorem Heap.read_length {α : Type} (h : Heap α) (p : Nat) (n : Nat) (l : List α)
    (hr : h.read p n = some l) : l.length = n := by
  unfold Heap.read at hr
  split_ifs at hr with h0 hp
  · cases hr
    exact h0.symm
  · cases hb : h.buf p with
    | none => rw [hb] at hr; cases hr
    | some b =>
      rw [hb] at hr
      dsimp only at hr
      split_ifs at hr with hl
      cases hr
      rw [List.length_take]
      omega

theorem Heap.read_buf {α : Type} (h : Heap α) (p : Nat) (n : Nat) (l : List α)
    (hn : n ≠ 0) (hr : h.read p n = some l) :
    p ≠ 0 ∧ ∃ b, h.buf p = some b ∧ n ≤ b.length ∧ l = b.take n := by
  unfold Heap.read at hr
  rw [if_neg hn] at hr
  split_ifs at hr with hp
  refine ⟨hp, ?_⟩
  cases hb : h.buf p with
  | none => rw [hb] at hr; cases hr
  | some b =>
    rw [hb] at hr
    dsimp only at hr
    split_ifs at hr with hl
    cases hr
    exact ⟨b, rfl, hl, rfl⟩

theorem Heap.delete_buf {α : Type} (h : Heap α) (p a : Nat) :
    (h.delete p).buf a = if p ≠ 0 ∧ a = p then none else h.buf a := by
  unfold Heap.delete
  by_cases hp : p = 0
  · rw [if_pos hp, if_neg (by simp [hp])]
  · rw [if_neg hp]
    by_cases ha : a = p
    · subst ha
      rw [if_pos ⟨hp, rfl⟩]
      simp
    · rw [if_neg (by simp [ha])]
      simp [Function.update_noteq ha]

theorem Heap.delete_next {α : Type} (h : Heap α) (p : Nat) : (h.delete p).next = h.next := by
  unfold Heap.delete
  split_ifs <;> rfl

theorem Heap.new_write {α : Type} [Zero α] (h : Heap α) (l : List α) :
    (h.new l.length).2.write (h.new l.length).1 l
      = some { next := h.next + 1, buf := Function.update h.buf h.next (some l) } := by
  unfold Heap.new Heap.write
  simp

theorem Heap.new_read {α : Type} [Zero α] (h : Heap α) (p n m : Nat)
    (hp : n = 0 ∨ p ≠ h.next) : (h.new m).2.read p n = h.read p n := by
  apply Heap.read_congr
  rcases hp with hp | hp
  · exact Or.inl hp
  · right
    unfold Heap.new
    simp [Function.update_noteq hp]

theorem Heap.delete_read {α : Type} (h : Heap α) (p q n : Nat)
    (hp : n = 0 ∨ q = 0 ∨ p ≠ q) : (h.delete q).read p n = h.read p n := by
  apply Heap.read_congr
  rcases hp with hp | hp | hp
  · exact Or.inl hp
  · right
    rw [Heap.delete_buf, if_neg (by simp [hp])]
  · right
    rw [Heap.delete_buf, if_neg (by simp [hp])]

theorem Heap.new_write_next {α : Type} [Zero α] (h : Heap α) (n : Nat) (l : List α)
    (hl : l.length = n) :
    (h.new n).2.write (h.new n).1 l
      = some { next := h.next + 1, buf := Function.update h.buf h.next (some l) } := by
  subst hl
  exact Heap.new_write h l

/-! ### `copy_task` -/

theorem copy_task_same_eq {α : Type} (icell : Int) (n : Nat) :
    ∀ (first : Nat) (e : Emit α), first + n ≤ e.ntaskmax →
      copy_task_same icell n first e
        = some { e with tasks := fun i =>
            if first ≤ i ∧ i < first + n then { e.tasks i with icell := icell }
            else e.tasks i } := by
  induction n with
  | zero =>
    intro first e _
    have : (fun i => if first ≤ i ∧ i < first + 0 then { e.tasks i with icell := icell }
        else e.tasks i) = e.tasks := by
      funext i
      rw [if_neg (by omega)]
    rw [this]
    rfl
  | succ k ih =>
    intro first e h
    unfold copy_task_same
    rw [if_pos (by omega), ih (first + 1) _ (by simpa using (by omega : first + 1 + k ≤ e.ntaskmax))]
    congr 2
    funext i
    by_cases h1 : i = first
    · subst h1
      rw [if_neg (by omega), if_pos (by omega)]
      simp
    · simp only [Function.update_noteq h1]
      by_cases h2 : first + 1 ≤ i ∧ i < first + 1 + k
      · rw [if_pos h2, if_pos (by omega)]
      · rw [if_neg h2, if_neg (by omega)]

/-- C6. `copy_task` with identical source and destination ranges
(`first == oldfirst`, range within the allocation): every task with index in
`[first, first+n)` gets `icell` set to the given cell and keeps every other
member, every other slot and the heap (so every buffer content) are
unchanged. -/
theorem copy_task_same_range {α : Type} [Zero α] (icell : Int) (n first : Nat) (e : Emit α)
    (hcap : first + n ≤ e.ntaskmax) :
    ∃ e1, copy_task icell n first first e = some e1
      ∧ (∀ i, first ≤ i → i < first + n → e1.tasks i = { e.tasks i with icell := icell })
      ∧ (∀ i, ¬ (first ≤ i ∧ i < first + n) → e1.tasks i = e.tasks i)
      ∧ e1.heap = e.heap ∧ e1.ntaskmax = e.ntaskmax := by
  have h : copy_task icell n first first e
      = some { e with
          ntask := e.ntask + n
          tasks := fun i =>
            if first ≤ i ∧ i < first + n then { e.tasks i with icell := icell }
            else e.tasks i } := by
    unfold copy_task
    rw [if_pos rfl, copy_task_same_eq icell n first e hcap]
  refine ⟨_, h, ?_, ?_, rfl, rfl⟩
  · intro i h1 h2
    simp only [if_pos (And.intro h1 h2)]
  · intro i h3
    simp only [if_neg h3]

/-- Witness of C6: two slots of a store of capacity 4 re-labelled in place. -/
theorem copy_task_same_range_witness :
    ∃ e1, copy_task 9 2 1 1
        ({ dimension := 2, axisymmetric := 0, groupbit := 1, normalflag := 0, np := 0,
           npertask := 0, nthresh := 0, magvstream := 0, net := none, nsingle := 0,
           ntask := 0, ntaskmax := 4, tasks := fun _ => Task.zero,
           heap := ⟨1, fun _ => none⟩ } : Emit ℚ) = some e1
      ∧ (e1.tasks 2).icell = 9 :=
  (copy_task_same_range 9 2 1
      ({ dimension := 2, axisymmetric := 0, groupbit := 1, normalflag := 0, np := 0,
         npertask := 0, nthresh := 0, magvstream := 0, net := none, nsingle := 0,
         ntask := 0, ntaskmax := 4, tasks := fun _ => Task.zero,
         heap := ⟨1, fun _ => none⟩ } : Emit ℚ) (by decide)).elim
    fun e1 h => ⟨e1, h.1, by rw [h.2.1 2 (by decide) (by decide)]⟩

theorem copy_task_one_eq {α : Type} [Zero α] (icell : Int) (f o : Nat) (e : Emit α)
    (pb fb : List α)
    (hf : f < e.ntaskmax) (ho : o < e.ntaskmax) (hfo : f ≠ o)
    (hnp : 2 ≤ (e.tasks o).npoint)
    (hfresh : ∀ a, e.heap.next ≤ a → e.heap.buf a = none)
    (hrp : e.heap.read (e.tasks o).path ((e.tasks o).npoint * 3).toNat = some pb)
    (hrf : e.heap.read (e.tasks o).fracarea ((e.tasks o).npoint - 2).toNat = some fb)
    (hdp : (e.tasks f).path = 0 ∨ ((e.tasks f).path ≠ (e.tasks o).path
      ∧ (e.tasks f).path ≠ (e.tasks o).fracarea))
    (hdf : (e.tasks f).fracarea = 0 ∨ ((e.tasks f).fracarea ≠ (e.tasks o).path
      ∧ (e.tasks f).fracarea ≠ (e.tasks o).fracarea)) :
    copy_task_one icell f o e
      = some { e with
          heap :=
            { next := e.heap.next + 2
              buf := Function.update
                ((Heap.delete
                  { next := e.heap.next + 1
                    buf := Function.update (e.heap.delete (e.tasks f).path).buf e.heap.next
                      (some pb) } (e.tasks f).fracarea).buf)
                (e.heap.next + 1) (some fb) }
          tasks := Function.update e.tasks f
            { e.tasks o with path := e.heap.next, fracarea := e.heap.next + 1, icell := icell } } := by
  have hlp := Heap.read_length _ _ _ _ hrp
  have hlf := Heap.read_length _ _ _ _ hrf
  have hpn : ((e.tasks o).npoint * 3).toNat ≠ 0 := by omega
  obtain ⟨hsp0, b, hb, hbl, hpb⟩ := Heap.read_buf _ _ _ _ hpn hrp
  have hsplt : (e.tasks o).path < e.heap.next := by
    by_contra hc
    rw [hfresh (e.tasks o).path (by omega)] at hb
    cases hb
  unfold copy_task_one
  rw [if_pos ⟨hf, ho⟩]
  simp only [Function.update_same, Function.update_noteq (Ne.symm hfo)]
  rw [if_pos (by omega)]
  have h1 : ((e.heap.delete (e.tasks f).path).new ((e.tasks o).npoint * 3).toNat).2.read
      (e.tasks o).path ((e.tasks o).npoint * 3).toNat = some pb := by
    rw [Heap.new_read _ _ _ _ (Or.inr (by rw [Heap.delete_next]; omega)),
      Heap.delete_read _ _ _ _ (by tauto), hrp]
  rw [h1]
  dsimp only
  rw [Heap.new_write_next _ _ _ hlp]
  dsimp only
  rw [if_pos (by omega)]
  have h2 : ((Heap.delete (Heap.mk ((e.heap.delete (e.tasks f).path).next + 1)
        (Function.update (e.heap.delete (e.tasks f).path).buf
          (e.heap.delete (e.tasks f).path).next (some pb))) (e.tasks f).fracarea).new
        ((e.tasks o).npoint - 2).toNat).2.read
      (e.tasks o).fracarea ((e.tasks o).npoint - 2).toNat = some fb := by
    rw [← hrf]
    apply Heap.read_congr
    by_cases hm : ((e.tasks o).npoint - 2).toNat = 0
    · exact Or.inl hm
    · right
      obtain ⟨hsf0, b2, hb2, _, _⟩ := Heap.read_buf _ _ _ _ hm hrf
      have hsflt : (e.tasks o).fracarea < e.heap.next := by
        by_contra hc
        rw [hfresh (e.tasks o).fracarea (by omega)] at hb2
        cases hb2
      have e1 : (e.tasks o).fracarea ≠ e.heap.next := by omega
      have e2 : (e.tasks o).fracarea ≠ e.heap.next + 1 := by omega
      have e3 : ¬ ((e.tasks f).fracarea ≠ 0 ∧ (e.tasks o).fracarea = (e.tasks f).fracarea) := by
        tauto
      have e4 : ¬ ((e.tasks f).path ≠ 0 ∧ (e.tasks o).fracarea = (e.tasks f).path) := by
        tauto
      simp only [Heap.new, Heap.delete_next, Heap.delete_buf, Function.update_apply, e1, e2,
        e3, e4, if_false]
  rw [h2]
  dsimp only
  rw [Heap.new_write_next _ _ _ hlf]
  simp only [Heap.delete_next, Function.update_idem, Heap.new]


theorem copy_task_diff_succ {α : Type} [Zero α] (icell : Int) (k : Nat) :
    ∀ (first oldfirst : Nat) (e : Emit α),
      copy_task_diff icell (k + 1) first oldfirst e
        = (copy_task_diff icell k first oldfirst e).bind
            (copy_task_one icell (first + k) (oldfirst + k)) := by
  induction k with
  | zero =>
    intro first oldfirst e
    simp only [copy_task_diff, Nat.add_zero, Option.some_bind]
    cases copy_task_one icell first oldfirst e <;> rfl
  | succ k ih =>
    intro first oldfirst e
    rw [copy_task_diff]
    cases h : copy_task_one icell first oldfirst e with
    | none => simp [copy_task_diff, h]
    | some e1 =>
      dsimp only
      rw [ih (first + 1) (oldfirst + 1) e1]
      conv_rhs => rw [copy_task_diff, h]
      dsimp only
      have h1 : first + 1 + k = first + (k + 1) := by omega
      have h2 : oldfirst + 1 + k = oldfirst + (k + 1) := by omega
      rw [h1, h2]

theorem copy_step_buf {α : Type} (h : Heap α) (dp df : Nat) (pb fb : List α) (a : Nat) :
    Function.update
        ((Heap.delete
          { next := h.next + 1
            buf := Function.update (h.delete dp).buf h.next (some pb) } df).buf)
        (h.next + 1) (some fb) a
      = if a = h.next + 1 then some fb
        else if df ≠ 0 ∧ a = df then none
        else if a = h.next then some pb
        else if dp ≠ 0 ∧ a = dp then none
        else h.buf a := by
  simp only [Function.update_apply, Heap.delete_buf]

theorem copy_task_diff_inv {α : Type} [Zero α] (icell : Int) (n first oldfirst : Nat)
    (e : Emit α) (hown : Owns e)
    (h1 : first + n ≤ e.ntaskmax) (h2 : oldfirst + n ≤ e.ntaskmax)
    (hdis : first + n ≤ oldfirst ∨ oldfirst + n ≤ first)
    (hlive : ∀ i, i < n → Live e (oldfirst + i)) :
    ∀ k, k ≤ n → ∃ ek, copy_task_diff icell k first oldfirst e = some ek
      ∧ CopyInv icell first oldfirst k e ek := by
  intro k
  induction k with
  | zero =>
    intro _
    refine ⟨e, rfl, ⟨rfl, rfl, fun _ _ => rfl, ?_, rfl, hown.fresh, ?_, ?_, fun _ _ _ => rfl⟩⟩
    · intro i hi; omega
    · intro i hi; omega
    · intro i hi; omega
  | succ k ih =>
    intro hk
    obtain ⟨ek, hek, inv⟩ := ih (by omega)
    have hsk : ek.tasks (oldfirst + k) = e.tasks (oldfirst + k) := inv.other _ (by omega)
    have hdk : ek.tasks (first + k) = e.tasks (first + k) := inv.other _ (by omega)
    obtain ⟨hnp, hp, hf⟩ := hlive k (by omega)
    obtain ⟨pb, hpb⟩ := Option.isSome_iff_exists.mp hp
    obtain ⟨fb, hfb⟩ := Option.isSome_iff_exists.mp hf
    have hpn : ((e.tasks (oldfirst + k)).npoint * 3).toNat ≠ 0 := by omega
    obtain ⟨hsp0, -, -, -, -⟩ := Heap.read_buf _ _ _ _ hpn hpb
    have bs := hown.below (oldfirst + k) (by omega)
    have bd := hown.below (first + k) (by omega)
    have hne : first + k ≠ oldfirst + k := by omega
    have hrp : ek.heap.read (ek.tasks (oldfirst + k)).path
        ((ek.tasks (oldfirst + k)).npoint * 3).toNat = some pb := by
      rw [hsk, ← hpb]
      apply Heap.read_congr
      right
      apply inv.old _ bs.1
      intro i hi
      exact ⟨hown.path_path _ (by omega) _ (by omega) (by omega) hsp0,
        hown.path_frac _ (by omega) _ (by omega) hsp0⟩
    have hrf : ek.heap.read (ek.tasks (oldfirst + k)).fracarea
        ((ek.tasks (oldfirst + k)).npoint - 2).toNat = some fb := by
      rw [hsk, ← hfb]
      apply Heap.read_congr
      by_cases hm : ((e.tasks (oldfirst + k)).npoint - 2).toNat = 0
      · exact Or.inl hm
      · right
        obtain ⟨hsf0, -, -, -, -⟩ := Heap.read_buf _ _ _ _ hm hfb
        apply inv.old _ bs.2
        intro i hi
        refine ⟨?_, hown.frac_frac _ (by omega) _ (by omega) (by omega) hsf0⟩
        intro hc
        by_cases h0 : (e.tasks (first + i)).path = 0
        · omega
        · exact hown.path_frac (first + i) (by omega) (oldfirst + k) (by omega) h0 hc.symm
    have hdp : (ek.tasks (first + k)).path = 0 ∨
        ((ek.tasks (first + k)).path ≠ (ek.tasks (oldfirst + k)).path
          ∧ (ek.tasks (first + k)).path ≠ (ek.tasks (oldfirst + k)).fracarea) := by
      rw [hsk, hdk]
      by_cases h0 : (e.tasks (first + k)).path = 0
      · exact Or.inl h0
      · exact Or.inr ⟨hown.path_path _ (by omega) _ (by omega) hne h0,
          hown.path_frac _ (by omega) _ (by omega) h0⟩
    have hdf : (ek.tasks (first + k)).fracarea = 0 ∨
        ((ek.tasks (first + k)).fracarea ≠ (ek.tasks (oldfirst + k)).path
          ∧ (ek.tasks (first + k)).fracarea ≠ (ek.tasks (oldfirst + k)).fracarea) := by
      rw [hsk, hdk]
      by_cases h0 : (e.tasks (first + k)).fracarea = 0
      · exact Or.inl h0
      · exact Or.inr ⟨fun hc => hown.path_frac (oldfirst + k) (by omega) (first + k) (by omega)
            hsp0 hc.symm,
          hown.frac_frac _ (by omega) _ (by omega) hne h0⟩
    have hstep := copy_task_one_eq icell (first + k) (oldfirst + k) ek pb fb
      (by rw [inv.ntaskmax_eq]; omega) (by rw [inv.ntaskmax_eq]; omega) hne
      (by rw [hsk]; exact hnp) inv.fresh hrp hrf hdp hdf
    rw [copy_task_diff_succ, hek, Option.some_bind, hstep]
    refine ⟨_, rfl, ?_⟩
    have hnext := inv.next_eq
    constructor
    · exact inv.ntaskmax_eq
    · exact inv.ntask_eq
    · intro j hj
      dsimp only
      rw [Function.update_noteq (by omega)]
      exact inv.other j (by omega)
    · intro i hi
      dsimp only
      by_cases hik : i = k
      · subst hik
        rw [Function.update_same, hsk, hnext]
      · rw [Function.update_noteq (by omega)]
        exact inv.dest i (by omega)
    · dsimp only
      rw [hnext]
      ring
    · intro a ha
      dsimp only at ha ⊢
      rw [copy_step_buf, hdk, if_neg (by omega), if_neg (by omega), if_neg (by omega),
        if_neg (by omega)]
      exact inv.fresh a (by omega)
    · intro i hi
      dsimp only
      rw [copy_step_buf, hdk]
      by_cases hik : i = k
      · subst hik
        rw [if_neg (by omega), if_neg (by omega), if_pos (by omega), hpb]
      · rw [if_neg (by omega), if_neg (by omega), if_neg (by omega), if_neg (by omega)]
        exact inv.dest_path i (by omega)
    · intro i hi
      dsimp only
      rw [copy_step_buf, hdk]
      by_cases hik : i = k
      · subst hik
        rw [if_pos (by omega), hfb]
      · rw [if_neg (by omega), if_neg (by omega), if_neg (by omega), if_neg (by omega)]
        exact inv.dest_frac i (by omega)
    · intro a ha hno
      dsimp only
      have hk1 := hno k (by omega)
      rw [copy_step_buf, hdk, if_neg (by omega), if_neg (by tauto), if_neg (by omega),
        if_neg (by tauto)]
      exact inv.old a ha (fun i hi => hno i (by omega))

theorem Heap.write_buf_other {α : Type} (h h2 : Heap α) (p a : Nat) (l : List α)
    (hw : h.write p l = some h2) (ha : a ≠ p) : h2.buf a = h.buf a := by
  unfold Heap.write at hw
  cases hb : h.buf p with
  | none => rw [hb] at hw; cases hw
  | some old =>
    rw [hb] at hw
    dsimp only at hw
    split_ifs at hw
    cases hw
    simp [Function.update_noteq ha]

/-- C7. `copy_task(icell, n, first, oldfirst)` with disjoint ranges within the
allocation, live source tasks and a store whose buffers are not shared: for
every `i < n` the destination task `first+i` has every scalar member of the
source task `oldfirst+i` except `icell`, which is the given cell; its `path`
and `fracarea` are non-null buffers of its own (held by no other slot) whose
contents are the first `3*npoint` and `npoint-2` doubles of the source
buffers; the source task and its buffers are unchanged, and a later write
into a buffer of the destination leaves the buffers of the source as they
are. -/
theorem copy_task_disjoint {α : Type} [Zero α] (icell : Int) (n first oldfirst : Nat)
    (e : Emit α) (hown : Owns e)
    (h1 : first + n ≤ e.ntaskmax) (h2 : oldfirst + n ≤ e.ntaskmax)
    (hdis : first + n ≤ oldfirst ∨ oldfirst + n ≤ first)
    (hlive : ∀ i, i < n → Live e (oldfirst + i)) :
    ∃ e1, copy_task icell n first oldfirst e = some e1
      ∧ e1.ntask = e.ntask + n ∧ e1.ntaskmax = e.ntaskmax
      ∧ ∀ i, i < n →
        e1.tasks (first + i)
            = { e.tasks (oldfirst + i) with
                icell := icell
                path := (e1.tasks (first + i)).path
                fracarea := (e1.tasks (first + i)).fracarea }
        ∧ e1.heap.buf (e1.tasks (first + i)).path
            = e.heap.read (e.tasks (oldfirst + i)).path
                ((e.tasks (oldfirst + i)).npoint * 3).toNat
        ∧ e1.heap.buf (e1.tasks (first + i)).fracarea
            = e.heap.read (e.tasks (oldfirst + i)).fracarea
                ((e.tasks (oldfirst + i)).npoint - 2).toNat
        ∧ (e1.tasks (first + i)).path ≠ 0 ∧ (e1.tasks (first + i)).fracarea ≠ 0
        ∧ (e1.tasks (first + i)).path ≠ (e1.tasks (first + i)).fracarea
        ∧ (∀ j, j < e1.ntaskmax → j ≠ first + i →
            (e1.tasks (first + i)).path ≠ (e1.tasks j).path
            ∧ (e1.tasks (first + i)).path ≠ (e1.tasks j).fracarea
            ∧ (e1.tasks (first + i)).fracarea ≠ (e1.tasks j).path
            ∧ (e1.tasks (first + i)).fracarea ≠ (e1.tasks j).fracarea)
        ∧ e1.tasks (oldfirst + i) = e.tasks (oldfirst + i)
        ∧ e1.heap.buf (e.tasks (oldfirst + i)).path = e.heap.buf (e.tasks (oldfirst + i)).path
        ∧ e1.heap.read (e.tasks (oldfirst + i)).fracarea
              ((e.tasks (oldfirst + i)).npoint - 2).toNat
            = e.heap.read (e.tasks (oldfirst + i)).fracarea
              ((e.tasks (oldfirst + i)).npoint - 2).toNat
        ∧ (∀ l hw, (e1.heap.write (e1.tasks (first + i)).path l = some hw
              ∨ e1.heap.write (e1.tasks (first + i)).fracarea l = some hw) →
            hw.buf (e1.tasks (oldfirst + i)).path = e1.heap.buf (e1.tasks (oldfirst + i)).path
            ∧ hw.read (e1.tasks (oldfirst + i)).fracarea
                  ((e1.tasks (oldfirst + i)).npoint - 2).toNat
                = e1.heap.read (e1.tasks (oldfirst + i)).fracarea
                  ((e1.tasks (oldfirst + i)).npoint - 2).toNat) := by
  by_cases hsame : first = oldfirst
  · have hn : n = 0 := by omega
    subst hn
    refine ⟨{ e with ntask := e.ntask + 0 }, ?_, rfl, rfl, ?_⟩
    · unfold copy_task
      rw [if_pos hsame]
      rfl
    · intro i hi
      omega
  · obtain ⟨en, hen, inv⟩ :=
      copy_task_diff_inv icell n first oldfirst e hown h1 h2 hdis hlive n le_rfl
    refine ⟨{ en with ntask := en.ntask + n }, ?_, ?_, inv.ntaskmax_eq, ?_⟩
    · unfold copy_task
      rw [if_neg hsame, hen]
    · dsimp only
      rw [inv.ntask_eq]
    · intro i hi
      dsimp only
      have hd := inv.dest i hi
      have hsrc : en.tasks (oldfirst + i) = e.tasks (oldfirst + i) := inv.other _ (by omega)
      obtain ⟨hnp, hp, hf⟩ := hlive i hi
      obtain ⟨pb, hpb⟩ := Option.isSome_iff_exists.mp hp
      have hpn : ((e.tasks (oldfirst + i)).npoint * 3).toNat ≠ 0 := by omega
      obtain ⟨hsp0, -, -, -, -⟩ := Heap.read_buf _ _ _ _ hpn hpb
      have bs := hown.below (oldfirst + i) (by omega)
      have hnp0 := hown.next_pos
      have hpold : en.heap.buf (e.tasks (oldfirst + i)).path
          = e.heap.buf (e.tasks (oldfirst + i)).path := by
        apply inv.old _ bs.1
        intro i2 hi2
        exact ⟨hown.path_path _ (by omega) _ (by omega) (by omega) hsp0,
          hown.path_frac _ (by omega) _ (by omega) hsp0⟩
      have hfold : (((e.tasks (oldfirst + i)).npoint - 2).toNat = 0
          ∨ (e.tasks (oldfirst + i)).fracarea ≠ 0)
          → en.heap.read (e.tasks (oldfirst + i)).fracarea
              ((e.tasks (oldfirst + i)).npoint - 2).toNat
            = e.heap.read (e.tasks (oldfirst + i)).fracarea
              ((e.tasks (oldfirst + i)).npoint - 2).toNat := by
        intro hcase
        apply Heap.read_congr
        rcases hcase with hm | hsf0
        · exact Or.inl hm
        · right
          apply inv.old _ bs.2
          intro i2 hi2
          refine ⟨?_, hown.frac_frac _ (by omega) _ (by omega) (by omega) hsf0⟩
          intro hc
          by_cases h0 : (e.tasks (first + i2)).path = 0
          · omega
          · exact hown.path_frac (first + i2) (by omega) (oldfirst + i) (by omega) h0 hc.symm
      have hfcase : ((e.tasks (oldfirst + i)).npoint - 2).toNat = 0
          ∨ (e.tasks (oldfirst + i)).fracarea ≠ 0 := by
        by_cases hm : ((e.tasks (oldfirst + i)).npoint - 2).toNat = 0
        · exact Or.inl hm
        · obtain ⟨fb, hfb⟩ := Option.isSome_iff_exists.mp hf
          exact Or.inr (Heap.read_buf _ _ _ _ hm hfb).1
      rw [hd, hsrc]
      dsimp only
      refine ⟨rfl, inv.dest_path i hi, inv.dest_frac i hi, by omega, by omega, by omega,
        ?_, rfl, hpold, hfold hfcase, ?_⟩
      · intro j hj hji
        by_cases hjr : first ≤ j ∧ j < first + n
        · obtain ⟨i2, rfl⟩ : ∃ i2, j = first + i2 := ⟨j - first, by omega⟩
          rw [inv.dest i2 (by omega)]
          dsimp only
          refine ⟨?_, ?_, ?_, ?_⟩ <;> omega
        · rw [inv.other j hjr]
          have bj := hown.below j (by rw [← inv.ntaskmax_eq]; exact hj)
          refine ⟨?_, ?_, ?_, ?_⟩ <;> omega
      · intro l hw hwr
        have hbuf : ∀ a, a < e.heap.next → hw.buf a = en.heap.buf a := by
          intro a ha
          rcases hwr with hwr | hwr
          · exact Heap.write_buf_other _ _ _ _ _ hwr (by omega)
          · exact Heap.write_buf_other _ _ _ _ _ hwr (by omega)
        refine ⟨hbuf _ bs.1, ?_⟩
        apply Heap.read_congr
        right
        exact hbuf _ bs.2

theorem demoStore_owns : Owns demoStore := by
  refine ⟨by decide, rfl, ?_, by decide, by decide, by decide, by decide⟩
  intro a ha
  show (if a = 1 then _ else if a = 2 then _ else none) = none
  have h3 : 3 ≤ a := ha
  rw [if_neg (by omega), if_neg (by omega)]

theorem demoStore_live : Live demoStore 0 := by
  refine ⟨by decide, by decide, by decide⟩

/-- Witness of C7: the live task of slot 0 copied to slot 2. -/
theorem copy_task_disjoint_witness :
    ∃ e1, copy_task 7 1 2 0 demoStore = some e1
      ∧ e1.ntask = 2
      ∧ (e1.tasks 2).icell = 7 ∧ (e1.tasks 2).npoint = 3
      ∧ e1.heap.buf (e1.tasks 2).path = some [0, 0, 0, 1, 0, 0, 0, 1, 0]
      ∧ (e1.tasks 2).path ≠ (e1.tasks 0).path :=
  (copy_task_disjoint 7 1 2 0 demoStore demoStore_owns (by decide) (by decide) (by decide)
      (fun i hi => by
        have h0 : i = 0 := by omega
        subst h0
        exact demoStore_live)).elim
    fun e1 h => ⟨e1, h.1, h.2.1, by rw [(h.2.2.2 0 (by decide)).1],
      by rw [(h.2.2.2 0 (by decide)).1]; rfl,
      by rw [(h.2.2.2 0 (by decide)).2.1]; rfl,
      ((h.2.2.2 0 (by decide)).2.2.2.2.2.2.1 0 (by rw [h.2.2.1]; decide) (by decide)).1⟩

/-! ### Capacity -/

theorem copy_task_same_ntaskmax {α : Type} (icell : Int) (n : Nat) :
    ∀ (first : Nat) (e e1 : Emit α), copy_task_same icell n first e = some e1 →
      e1.ntaskmax = e.ntaskmax := by
  induction n with
  | zero =>
    intro first e e1 h
    simp only [copy_task_same, Option.some.injEq] at h
    rw [← h]
  | succ k ih =>
    intro first e e1 h
    rw [copy_task_same] at h
    split_ifs at h
    have h3 := ih _ _ _ h
    exact h3

theorem copy_task_one_ntaskmax {α : Type} [Zero α] (icell : Int) (f o : Nat) (e e1 : Emit α)
    (h : copy_task_one icell f o e = some e1) : e1.ntaskmax = e.ntaskmax := by
  unfold copy_task_one at h
  dsimp only at h
  repeat' (first | split_ifs at h | split at h)
  all_goals (cases h <;> rfl)

theorem copy_task_diff_ntaskmax {α : Type} [Zero α] (icell : Int) (n : Nat) :
    ∀ (first oldfirst : Nat) (e e1 : Emit α),
      copy_task_diff icell n first oldfirst e = some e1 → e1.ntaskmax = e.ntaskmax := by
  induction n with
  | zero =>
    intro first oldfirst e e1 h
    simp only [copy_task_diff, Option.some.injEq] at h
    rw [← h]
  | succ k ih =>
    intro first oldfirst e e1 h
    rw [copy_task_diff] at h
    split at h
    · cases h
    · rename_i e2 h2
      rw [ih _ _ _ _ h, copy_task_one_ntaskmax icell _ _ _ _ h2]

theorem copy_task_ntaskmax {α : Type} [Zero α] (icell : Int) (n first oldfirst : Nat)
    (e e1 : Emit α) (h : copy_task icell n first oldfirst e = some e1) :
    e1.ntaskmax = e.ntaskmax := by
  unfold copy_task at h
  split at h
  · cases h
  · rename_i e2 h2
    simp only [Option.some.injEq] at h
    rw [← h]
    dsimp only
    split_ifs at h2
    · exact copy_task_same_ntaskmax _ _ _ _ _ h2
    · exact copy_task_diff_ntaskmax _ _ _ _ _ _ h2

theorem grow_task_ntaskmax {α : Type} [Zero α] (e : Emit α) :
    (grow_task e).ntaskmax = e.ntaskmax + DELTATASK := rfl

theorem unpack_task_slot_ntaskmax {α : Type} [Zero α] (L : Layout) (grid : Grid α)
    (buf : Nat) (icell : Int) (w : Wire α) (e e1 : Emit α) (c : Int)
    (h : unpack_task_slot L grid buf icell w e = some (c, e1)) :
    e1.ntaskmax = e.ntaskmax := by
  unfold unpack_task_slot at h
  dsimp only at h
  repeat' (first | split_ifs at h | split at h)
  all_goals (cases h <;> rfl)

theorem unpack_task_ntaskmax {α : Type} [Zero α] (L : Layout) (grid : Grid α) (buf : Nat)
    (icell : Int) (w : Wire α) (e e1 : Emit α) (c : Int)
    (h : unpack_task L grid buf icell w e = some (c, e1)) :
    e1.ntaskmax = e.ntaskmax ∨ e1.ntaskmax = e.ntaskmax + DELTATASK := by
  unfold unpack_task at h
  rw [unpack_task_slot_ntaskmax L grid buf icell w _ e1 c h]
  split_ifs
  · exact Or.inr rfl
  · exact Or.inl rfl

theorem post_compress_loop_ntaskmax {α : Type} (grid : Grid α) (k : Nat) :
    ∀ (i : Nat) (e e1 : Emit α), post_compress_loop grid k i e = some e1 →
      e1.ntaskmax = e.ntaskmax := by
  induction k with
  | zero =>
    intro i e e1 h
    simp only [post_compress_loop, Option.some.injEq] at h
    rw [← h]
  | succ k ih =>
    intro i e e1 h
    rw [post_compress_loop] at h
    repeat' (first | split_ifs at h | split at h)
    all_goals first
      | cases h
      | (have h3 := ih _ _ _ h; exact h3)

theorem bind_net_cases {α : Type} (ss : Option Nat) (area : α) (net : Option Nat)
    (states : Nat → SurfState α) (r : Option Nat × (Nat → SurfState α))
    (h : bind_net ss area net states = Except.ok r) :
    ∃ sid, ss = some sid
      ∧ r.2 = Function.update states sid { states sid with Area := area }
      ∧ r.1 = (states sid).net
      ∧ (net = none ∨ net = (states sid).net) := by
  unfold bind_net at h
  cases ss with
  | none => cases h
  | some sid =>
    dsimp only at h
    refine ⟨sid, rfl, ?_⟩
    split_ifs at h with h1 h2
    · cases h
      exact ⟨rfl, rfl, Or.inl (Option.isNone_iff_eq_none.mp h1)⟩
    · cases h
      have h3 : net = (states sid).net := by
        by_contra hc
        exact h2 hc
      exact ⟨rfl, h3, Or.inr h3⟩

theorem create_task_slot_ntaskmax {α : Type} [LinearOrderedField α] (X : Ext α)
    (grid : Grid α) (surf : Surf α) (mix : Mixture α) (icell : Int) (cell : ChildCell α)
    (i : Nat) (isurf : Int) (e : Emit α) (states : Nat → SurfState α) (rng : Rng α)
    (b1 : Build α)
    (h : create_task_slot X grid surf mix icell cell i isurf e states rng = Except.ok b1) :
    b1.e.ntaskmax = e.ntaskmax := by
  unfold create_task_slot at h
  dsimp only at h
  repeat' (first | split_ifs at h | split at h)
  all_goals (cases h <;> rfl)

theorem create_task_surf_ntaskmax {α : Type} [LinearOrderedField α] (X : Ext α) (grid : Grid α)
    (surf : Surf α) (mix : Mixture α) (icell : Int) (cell : ChildCell α) (i : Nat)
    (b b1 : Build α) (h : create_task_surf X grid surf mix icell cell i b = Except.ok b1) :
    b.e.ntaskmax ≤ b1.e.ntaskmax := by
  unfold create_task_surf at h
  split at h
  · cases h
  · split at h
    · cases h
    · split_ifs at h with h1 h2
      · cases h
        exact le_rfl
      · rw [create_task_slot_ntaskmax _ _ _ _ _ _ _ _ _ _ _ _ h]
        exact Nat.le_add_right _ _
      · rw [create_task_slot_ntaskmax _ _ _ _ _ _ _ _ _ _ _ _ h]

/-! ### `create_task` -/

theorem Heap.read_self {α : Type} (h : Heap α) (p : Nat) (l : List α)
    (hb : h.buf p = some l) (hp : p ≠ 0) (hl : l.length ≠ 0) :
    h.read p l.length = some l := by
  unfold Heap.read
  rw [if_neg hl, if_neg hp, hb]
  simp

theorem Heap.new_buf_other {α : Type} [Zero α] (h : Heap α) (n a : Nat) (ha : a ≠ h.next) :
    (h.new n).2.buf a = h.buf a := by
  unfold Heap.new
  simp [Function.update_noteq ha]

theorem build_2d_eq {α : Type} [Field α] (X : Ext α) (axisymmetric : Int) (normal : Vec3 α)
    (cpath : List α) (t : Task α) (h : Heap α) (hlen : 4 ≤ cpath.length)
    (hnext : 0 < h.next) :
    build_2d X axisymmetric normal cpath t h
      = some ({ t with
                npoint := 2
                path := h.next
                area := area_2d X.ops axisymmetric (path_2d cpath)
                tan1 := ⟨normal.y, -normal.x, 0⟩
                tan2 := ⟨0, 0, 1⟩ },
              { next := h.next + 1
                buf := Function.update (h.delete t.path).buf h.next (some (path_2d cpath)) }) := by
  unfold build_2d
  rw [if_pos hlen]
  dsimp only
  have hw := Heap.new_write_next (h.delete t.path) 6 (path_2d cpath) rfl
  rw [Heap.delete_next] at hw
  rw [hw]
  dsimp only
  have hr := Heap.read_self
    ({ next := h.next + 1
       buf := Function.update (h.delete t.path).buf h.next (some (path_2d cpath)) } : Heap α)
    h.next (path_2d cpath) (by simp) (by omega) (by simp [path_2d])
  have hnew : ((h.delete t.path).new 6).1 = h.next := by
    unfold Heap.new
    rw [Heap.delete_next]
  have h6 : (path_2d cpath).length = 6 := rfl
  rw [h6] at hr
  rw [hnew, hr]

theorem fan_loop_length {α : Type} [LinearOrderedField α] (ops : MathOps α) (path : List α)
    (k : Nat) : ∀ (m : Nat) (area : α) (frac : List α),
      (fan_loop ops path k m area frac).2.length = frac.length + k := by
  induction k with
  | zero => intro m area frac; rfl
  | succ k ih =>
    intro m area frac
    rw [fan_loop, ih]
    simp only [List.length_append, List.length_cons, List.length_nil]
    omega

theorem fan_area_length {α : Type} [LinearOrderedField α] (ops : MathOps α) (path : List α)
    (npoint : Int) : (fan_area ops path npoint).2.length = (npoint - 2).toNat := by
  unfold fan_area
  simp only [List.length_map, fan_loop_length, List.length_nil, Nat.zero_add]

theorem build_3d_eq {α : Type} [LinearOrderedField α] (X : Ext α) (normal : Vec3 α)
    (npoint : Int) (cpath : List α) (t : Task α) (h : Heap α) (rng : Rng α)
    (hnp : 3 ≤ npoint)
    (hlen : (npoint * 3).toNat ≤ cpath.length ∧ (npoint * 3).toNat ≤ 36)
    (hnext : 0 < h.next) (hfr : t.fracarea ≠ h.next) :
    build_3d X normal npoint cpath t h rng
      = some ({ t with
                npoint := npoint
                path := h.next
                fracarea := h.next + 1
                area := (fan_area X.ops (cpath.take (npoint * 3).toNat) npoint).1
                tan1 := norm3 X.ops (cross3 normal
                  ⟨rng.draws rng.pos, rng.draws (rng.pos + 1), rng.draws (rng.pos + 2)⟩)
                tan2 := norm3 X.ops (cross3 normal (norm3 X.ops (cross3 normal
                  ⟨rng.draws rng.pos, rng.draws (rng.pos + 1), rng.draws (rng.pos + 2)⟩))) },
              { next := h.next + 2
                buf := Function.update
                  ((Heap.delete
                    { next := h.next + 1
                      buf := Function.update (h.delete t.path).buf h.next
                        (some (cpath.take (npoint * 3).toNat)) } t.fracarea).buf)
                  (h.next + 1)
                  (some (fan_area X.ops (cpath.take (npoint * 3).toNat) npoint).2) },
              { rng with pos := rng.pos + 3 }) := by
  unfold build_3d
  rw [if_pos hlen]
  dsimp only
  have hl : (cpath.take (npoint * 3).toNat).length = (npoint * 3).toNat := by
    rw [List.length_take]
    omega
  have hw := Heap.new_write_next (h.delete t.path) (npoint * 3).toNat
    (cpath.take (npoint * 3).toNat) hl
  rw [Heap.delete_next] at hw
  rw [hw]
  dsimp only
  have hnew : ((h.delete t.path).new (npoint * 3).toNat).1 = h.next := by
    unfold Heap.new
    rw [Heap.delete_next]
  have hb : ((Heap.delete
      { next := h.next + 1
        buf := Function.update (h.delete t.path).buf h.next
          (some (cpath.take (npoint * 3).toNat)) } t.fracarea).new (npoint - 2).toNat).2.buf h.next
      = some (cpath.take (npoint * 3).toNat) := by
    rw [Heap.new_buf_other _ _ _ (by rw [Heap.delete_next]; dsimp only; omega),
      Heap.delete_buf, if_neg (by tauto)]
    simp
  have hr := Heap.read_self _ h.next _ hb (by omega) (by rw [hl]; omega)
  rw [hl] at hr
  rw [hnew, hr]
  dsimp only
  have hw2 := Heap.new_write_next
    (Heap.delete
      { next := h.next + 1
        buf := Function.update (h.delete t.path).buf h.next
          (some (cpath.take (npoint * 3).toNat)) } t.fracarea) (npoint - 2).toNat
    (fan_area X.ops (cpath.take (npoint * 3).toNat) npoint).2 (fan_area_length _ _ _)
  rw [hw2]
  simp only [Heap.delete_next, Heap.new, Rng.uniform]

theorem grow_task_old {α : Type} [Zero α] (e : Emit α) (i : Nat) (hi : i < e.ntaskmax) :
    (grow_task e).tasks i = e.tasks i := by
  unfold grow_task
  dsimp only
  rw [if_neg (by omega)]

theorem grow_task_new {α : Type} [Zero α] (e : Emit α) (i : Nat) (h1 : e.ntaskmax ≤ i)
    (h2 : i < e.ntaskmax + DELTATASK) : (grow_task e).tasks i = Task.zero := by
  unfold grow_task
  dsimp only
  rw [if_pos ⟨h1, h2⟩]
  rfl

theorem Owns.grow {α : Type} [Zero α] (e : Emit α) (hown : Owns e) : Owns (grow_task e) := by
  have hmax : (grow_task e).ntaskmax = e.ntaskmax + DELTATASK := rfl
  have hheap : (grow_task e).heap = e.heap := rfl
  have hcase : ∀ i, i < (grow_task e).ntaskmax →
      (i < e.ntaskmax ∧ (grow_task e).tasks i = e.tasks i)
      ∨ (((grow_task e).tasks i).path = 0 ∧ ((grow_task e).tasks i).fracarea = 0) := by
    intro i hi
    by_cases h : i < e.ntaskmax
    · exact Or.inl ⟨h, grow_task_old e i h⟩
    · right
      rw [grow_task_new e i (by omega) (by rw [hmax] at hi; exact hi)]
      exact ⟨rfl, rfl⟩
  have hp := hown.next_pos
  constructor
  · rw [hheap]; exact hown.next_pos
  · rw [hheap]; exact hown.null_free
  · rw [hheap]; exact hown.fresh
  · intro i hi
    rw [hheap]
    rcases hcase i hi with ⟨h1, h2⟩ | ⟨h1, h2⟩
    · rw [h2]; exact hown.below i h1
    · rw [h1, h2]; exact ⟨hp, hp⟩
  · intro i hi j hj hij hne
    rcases hcase i hi with ⟨h1, h2⟩ | ⟨h1, h2⟩
    · rw [h2] at hne ⊢
      rcases hcase j hj with ⟨h3, h4⟩ | ⟨h3, h4⟩
      · rw [h4]; exact hown.path_path i h1 j h3 hij hne
      · rw [h3]; exact hne
    · exact absurd h1 hne
  · intro i hi j hj hij hne
    rcases hcase i hi with ⟨h1, h2⟩ | ⟨h1, h2⟩
    · rw [h2] at hne ⊢
      rcases hcase j hj with ⟨h3, h4⟩ | ⟨h3, h4⟩
      · rw [h4]; exact hown.frac_frac i h1 j h3 hij hne
      · rw [h4]; exact hne
    · exact absurd h2 hne
  · intro i hi j hj hne
    rcases hcase i hi with ⟨h1, h2⟩ | ⟨h1, h2⟩
    · rw [h2] at hne ⊢
      rcases hcase j hj with ⟨h3, h4⟩ | ⟨h3, h4⟩
      · rw [h4]; exact hown.path_frac i h1 j h3 hne
      · rw [h4]; exact hne
    · exact absurd h1 hne

/-- Ownership is kept by a step that leaves the pointers of all slots but `k`
alone and gives slot `k`, for each of its two pointers, either the pointer it
had or a buffer allocated by the step. -/
theorem Owns.step {α : Type} (e e1 : Emit α) (k : Nat) (hown : Owns e)
    (hmax : e1.ntaskmax = e.ntaskmax)
    (hnext : e.heap.next ≤ e1.heap.next)
    (hnull : e1.heap.buf 0 = none)
    (hfresh : ∀ a, e1.heap.next ≤ a → e1.heap.buf a = none)
    (hother : ∀ j, j ≠ k → (e1.tasks j).path = (e.tasks j).path
      ∧ (e1.tasks j).fracarea = (e.tasks j).fracarea)
    (hpath : (e1.tasks k).path = (e.tasks k).path
      ∨ (e.heap.next ≤ (e1.tasks k).path ∧ (e1.tasks k).path < e1.heap.next))
    (hfrac : (e1.tasks k).fracarea = (e.tasks k).fracarea
      ∨ (e.heap.next ≤ (e1.tasks k).fracarea ∧ (e1.tasks k).fracarea < e1.heap.next))
    (hne : (e1.tasks k).path ≠ 0 → (e1.tasks k).path ≠ (e1.tasks k).fracarea) :
    Owns e1 := by
  have hp := hown.next_pos
  have hbelow : ∀ j, j < e.ntaskmax →
      (e1.tasks j).path < e1.heap.next ∧ (e1.tasks j).fracarea < e1.heap.next := by
    intro j hj
    have bj := hown.below j hj
    by_cases hjk : j = k
    · subst hjk
      constructor
      · rcases hpath with h | h
        · rw [h]; omega
        · exact h.2
      · rcases hfrac with h | h
        · rw [h]; omega
        · exact h.2
    · rw [(hother j hjk).1, (hother j hjk).2]
      omega
  -- every pointer of `e1` is an old pointer of the same slot or a new buffer
  have hpc : ∀ j, j < e.ntaskmax → (e1.tasks j).path = (e.tasks j).path
      ∨ (j = k ∧ e.heap.next ≤ (e1.tasks j).path) := by
    intro j _
    by_cases hjk : j = k
    · subst hjk
      rcases hpath with h | h
      · exact Or.inl h
      · exact Or.inr ⟨rfl, h.1⟩
    · exact Or.inl (hother j hjk).1
  have hfc : ∀ j, j < e.ntaskmax → (e1.tasks j).fracarea = (e.tasks j).fracarea
      ∨ (j = k ∧ e.heap.next ≤ (e1.tasks j).fracarea) := by
    intro j _
    by_cases hjk : j = k
    · subst hjk
      rcases hfrac with h | h
      · exact Or.inl h
      · exact Or.inr ⟨rfl, h.1⟩
    · exact Or.inl (hother j hjk).2
  constructor
  · omega
  · exact hnull
  · exact hfresh
  · intro j hj
    exact hbelow j (by rw [← hmax]; exact hj)
  · intro i hi j hj hij hne0
    rw [hmax] at hi hj
    have bi := hown.below i hi
    have bj := hown.below j hj
    rcases hpc i hi with h1 | ⟨h1, h1b⟩ <;> rcases hpc j hj with h2 | ⟨h2, h2b⟩
    · rw [h1] at hne0 ⊢
      rw [h2]
      exact hown.path_path i hi j hj hij hne0
    · rw [h1]; omega
    · rw [h2]; omega
    · omega
  · intro i hi j hj hij hne0
    rw [hmax] at hi hj
    have bi := hown.below i hi
    have bj := hown.below j hj
    rcases hfc i hi with h1 | ⟨h1, h1b⟩ <;> rcases hfc j hj with h2 | ⟨h2, h2b⟩
    · rw [h1] at hne0 ⊢
      rw [h2]
      exact hown.frac_frac i hi j hj hij hne0
    · rw [h1]; omega
    · rw [h2]; omega
    · omega
  · intro i hi j hj hne0
    rw [hmax] at hi hj
    have bi := hown.below i hi
    have bj := hown.below j hj
    rcases hpc i hi with h1 | ⟨h1, h1b⟩ <;> rcases hfc j hj with h2 | ⟨h2, h2b⟩
    · rw [h1] at hne0 ⊢
      rw [h2]
      exact hown.path_frac i hi j hj hne0
    · rw [h1]; omega
    · rw [h2]; omega
    · have hij : i = j := by omega
      subst hij
      subst h1
      exact hne hne0

theorem build_2d_some {α : Type} [Field α] (X : Ext α) (axisymmetric : Int) (normal : Vec3 α)
    (cpath : List α) (t : Task α) (h : Heap α) (r : Task α × Heap α)
    (hr : build_2d X axisymmetric normal cpath t h = some r) (hnext : 0 < h.next) :
    r = ({ t with
            npoint := 2
            path := h.next
            area := area_2d X.ops axisymmetric (path_2d cpath)
            tan1 := ⟨normal.y, -normal.x, 0⟩
            tan2 := ⟨0, 0, 1⟩ },
          { next := h.next + 1
            buf := Function.update (h.delete t.path).buf h.next (some (path_2d cpath)) }) := by
  by_cases hlen : 4 ≤ cpath.length
  · rw [build_2d_eq X axisymmetric normal cpath t h hlen hnext] at hr
    cases hr
    rfl
  · unfold build_2d at hr
    rw [if_neg hlen] at hr
    cases hr

theorem build_3d_some {α : Type} [LinearOrderedField α] (X : Ext α) (normal : Vec3 α)
    (npoint : Int) (cpath : List α) (t : Task α) (h : Heap α) (rng : Rng α)
    (r : Task α × Heap α × Rng α)
    (hr : build_3d X normal npoint cpath t h rng = some r)
    (hnp : 3 ≤ npoint) (hnext : 0 < h.next) (hfr : t.fracarea ≠ h.next) :
    r = ({ t with
            npoint := npoint
            path := h.next
            fracarea := h.next + 1
            area := (fan_area X.ops (cpath.take (npoint * 3).toNat) npoint).1
            tan1 := norm3 X.ops (cross3 normal
              ⟨rng.draws rng.pos, rng.draws (rng.pos + 1), rng.draws (rng.pos + 2)⟩)
            tan2 := norm3 X.ops (cross3 normal (norm3 X.ops (cross3 normal
              ⟨rng.draws rng.pos, rng.draws (rng.pos + 1), rng.draws (rng.pos + 2)⟩))) },
          { next := h.next + 2
            buf := Function.update
              ((Heap.delete
                { next := h.next + 1
                  buf := Function.update (h.delete t.path).buf h.next
                    (some (cpath.take (npoint * 3).toNat)) } t.fracarea).buf)
              (h.next + 1)
              (some (fan_area X.ops (cpath.take (npoint * 3).toNat) npoint).2) },
          { rng with pos := rng.pos + 3 })
      ∧ (npoint * 3).toNat ≤ cpath.length := by
  by_cases hlen : (npoint * 3).toNat ≤ cpath.length ∧ (npoint * 3).toNat ≤ 36
  · rw [build_3d_eq X normal npoint cpath t h rng hnp hlen hnext hfr] at hr
    cases hr
    exact ⟨rfl, hlen.1⟩
  · unfold build_3d at hr
    rw [if_neg hlen] at hr
    cases hr

theorem step_buf_2d {α : Type} (h : Heap α) (dp : Nat) (pb : List α) (a : Nat) :
    Function.update (h.delete dp).buf h.next (some pb) a
      = if a = h.next then some pb
        else if dp ≠ 0 ∧ a = dp then none
        else h.buf a := by
  simp only [Function.update_apply, Heap.delete_buf]

/-- The slot part of one pass of `create_task`: what it leaves alone. -/
theorem create_task_slot_frame {α : Type} [LinearOrderedField α] (X : Ext α)
    (grid : Grid α) (surf : Surf α) (mix : Mixture α) (icell : Int) (cell : ChildCell α)
    (i : Nat) (isurf : Int) (e : Emit α) (states : Nat → SurfState α) (rng : Rng α)
    (b1 : Build α)
    (h : create_task_slot X grid surf mix icell cell i isurf e states rng = Except.ok b1)
    (hown : Owns e) :
    e.ntask < e.ntaskmax ∧ Owns b1.e ∧ b1.e.ntaskmax = e.ntaskmax
      ∧ b1.e.dimension = e.dimension ∧ b1.e.axisymmetric = e.axisymmetric
      ∧ b1.e.groupbit = e.groupbit
      ∧ (∀ j, j ≠ e.ntask → b1.e.tasks j = e.tasks j)
      ∧ (∀ j, j < e.ntaskmax → j ≠ e.ntask →
          b1.e.heap.buf (e.tasks j).path = e.heap.buf (e.tasks j).path
          ∧ b1.e.heap.buf (e.tasks j).fracarea = e.heap.buf (e.tasks j).fracarea)
      ∧ (b1.e.ntask = e.ntask ∨ b1.e.ntask = e.ntask + 1) := by
  have hp := hown.next_pos
  unfold create_task_slot at h
  by_cases hk : e.ntask < e.ntaskmax
  swap
  · rw [if_neg hk] at h
    cases h
  rw [if_pos hk] at h
  refine ⟨hk, ?_⟩
  have bk := hown.below e.ntask hk
  -- the skipped surface: only scalars of the slot are written
  have hskip : ∀ t : Task α, t.path = (e.tasks e.ntask).path →
      t.fracarea = (e.tasks e.ntask).fracarea →
      Owns ({ e with tasks := Function.update e.tasks e.ntask t } : Emit α) := by
    intro t h1 h2
    refine Owns.step e _ e.ntask hown rfl le_rfl hown.null_free hown.fresh ?_ ?_ ?_ ?_
    · intro j hj
      dsimp only
      rw [Function.update_noteq hj]
      exact ⟨rfl, rfl⟩
    · dsimp only
      rw [Function.update_same]
      exact Or.inl h1
    · dsimp only
      rw [Function.update_same]
      exact Or.inl h2
    · dsimp only
      rw [Function.update_same, h1, h2]
      exact hown.path_frac e.ntask hk e.ntask hk
  split at h
  · cases h
  · rename_i pcell hpc
    dsimp only at h
    by_cases hd : e.dimension = 2
    · rw [if_pos hd] at h
      split at h
      · cases h
      · rename_i line hline
        by_cases hc : (X.clip2d line.p1 line.p2 cell.lo cell.hi).1 < 2
        · rw [if_pos hc] at h
          cases h
          refine ⟨hskip _ rfl rfl, rfl, rfl, rfl, rfl, ?_, ?_, Or.inl rfl⟩
          · intro j hj
            dsimp only
            rw [Function.update_noteq hj]
          · intro j _ _
            exact ⟨rfl, rfl⟩
        · rw [if_neg hc] at h
          split at h
          · cases h
          · rename_i r hr
            have hr2 := build_2d_some _ _ _ _ _ _ _ hr hp
            subst hr2
            cases h
            dsimp only
            refine ⟨?_, rfl, rfl, rfl, rfl, ?_, ?_, Or.inr rfl⟩
            · refine Owns.step e _ e.ntask hown rfl (by dsimp only; omega) ?_ ?_ ?_ ?_ ?_ ?_
              · dsimp only
                rw [step_buf_2d, if_neg (by omega), hown.null_free]
                simp
              · intro a ha
                dsimp only at ha ⊢
                rw [step_buf_2d, if_neg (by omega), hown.fresh a (by omega)]
                simp
              · intro j hj
                dsimp only
                rw [Function.update_noteq hj]
                exact ⟨rfl, rfl⟩
              · dsimp only
                rw [Function.update_same]
                right
                dsimp only [snapshot]
                omega
              · dsimp only
                rw [Function.update_same]
                left
                rfl
              · dsimp only
                rw [Function.update_same]
                dsimp only [snapshot]
                omega
            · intro j hj
              rw [Function.update_noteq hj]
            · intro j hj hjk
              have bj := hown.below j hj
              constructor
              · rw [step_buf_2d, if_neg (by omega), if_neg (fun hc2 =>
                  hown.path_path e.ntask hk j hj (Ne.symm hjk) hc2.1 hc2.2.symm)]
              · rw [step_buf_2d, if_neg (by omega), if_neg (fun hc2 =>
                  hown.path_frac e.ntask hk j hj hc2.1 hc2.2.symm)]
    · rw [if_neg hd] at h
      split at h
      · cases h
      · rename_i tri htri
        by_cases hc : (X.clip3d tri.p1 tri.p2 tri.p3 cell.lo cell.hi).1 < 3
        · rw [if_pos hc] at h
          cases h
          refine ⟨hskip _ rfl rfl, rfl, rfl, rfl, rfl, ?_, ?_, Or.inl rfl⟩
          · intro j hj
            dsimp only
            rw [Function.update_noteq hj]
          · intro j _ _
            exact ⟨rfl, rfl⟩
        · rw [if_neg hc] at h
          split at h
          · cases h
          · rename_i r hr
            have hr2 := (build_3d_some _ _ _ _ _ _ _ _ hr (by omega) hp
              (by dsimp only; omega)).1
            subst hr2
            split at h
            · cases h
            · cases h
              dsimp only
              refine ⟨?_, rfl, rfl, rfl, rfl, ?_, ?_, Or.inr rfl⟩
              · refine Owns.step e _ e.ntask hown rfl (by dsimp only; omega) ?_ ?_ ?_ ?_ ?_ ?_
                · dsimp only
                  rw [copy_step_buf, if_neg (by omega), if_neg (by omega), if_neg (by omega),
                    if_neg (by omega), hown.null_free]
                · intro a ha
                  dsimp only at ha ⊢
                  rw [copy_step_buf, if_neg (by omega), if_neg (by omega), if_neg (by omega),
                    if_neg (by omega), hown.fresh a (by omega)]
                · intro j hj
                  dsimp only
                  rw [Function.update_noteq hj]
                  exact ⟨rfl, rfl⟩
                · dsimp only
                  rw [Function.update_same]
                  right
                  dsimp only [snapshot]
                  omega
                · dsimp only
                  rw [Function.update_same]
                  right
                  dsimp only [snapshot]
                  omega
                · dsimp only
                  rw [Function.update_same]
                  dsimp only [snapshot]
                  omega
              · intro j hj
                rw [Function.update_noteq hj]
              · intro j hj hjk
                have bj := hown.below j hj
                constructor
                · rw [copy_step_buf, if_neg (by omega), if_neg (fun hc2 =>
                      hown.path_frac j hj e.ntask hk (by omega) hc2.2), if_neg (by omega),
                    if_neg (fun hc2 =>
                      hown.path_path e.ntask hk j hj (Ne.symm hjk) hc2.1 hc2.2.symm)]
                · rw [copy_step_buf, if_neg (by omega), if_neg (fun hc2 =>
                      hown.frac_frac e.ntask hk j hj (Ne.symm hjk) hc2.1 hc2.2.symm),
                    if_neg (by omega),
                    if_neg (fun hc2 => hown.path_frac e.ntask hk j hj hc2.1 hc2.2.symm)]

/-- One pass of the loop of `create_task`: ownership is kept, the tasks below
`ntask` and their buffers are left alone, at most one task is appended, and an
appended task has every property `P` that the slot part gives the task it
builds. -/
theorem create_task_surf_frame {α : Type} [LinearOrderedField α] (X : Ext α)
    (grid : Grid α) (surf : Surf α) (mix : Mixture α) (icell : Int) (cell : ChildCell α)
    (i : Nat) (b b1 : Build α)
    (P : Task α → Option (List α) → Option (List α) → Prop)
    (hnew : ∀ isurf (e : Emit α) states rng b2, Owns e → e.dimension = b.e.dimension →
      e.axisymmetric = b.e.axisymmetric →
      create_task_slot X grid surf mix icell cell i isurf e states rng = Except.ok b2 →
      b2.e.ntask = e.ntask + 1 →
      P (b2.e.tasks e.ntask) (b2.e.heap.buf (b2.e.tasks e.ntask).path)
        (b2.e.heap.buf (b2.e.tasks e.ntask).fracarea))
    (h : create_task_surf X grid surf mix icell cell i b = Except.ok b1)
    (hown : Owns b.e) (hcap : b.e.ntask ≤ b.e.ntaskmax) :
    Owns b1.e ∧ b1.e.ntask ≤ b1.e.ntaskmax
      ∧ b1.e.dimension = b.e.dimension ∧ b1.e.axisymmetric = b.e.axisymmetric
      ∧ (∀ j, j < b.e.ntask → b1.e.tasks j = b.e.tasks j
          ∧ b1.e.heap.buf (b.e.tasks j).path = b.e.heap.buf (b.e.tasks j).path
          ∧ b1.e.heap.buf (b.e.tasks j).fracarea = b.e.heap.buf (b.e.tasks j).fracarea)
      ∧ (b1.e.ntask = b.e.ntask
        ∨ (b1.e.ntask = b.e.ntask + 1
          ∧ P (b1.e.tasks b.e.ntask) (b1.e.heap.buf (b1.e.tasks b.e.ntask).path)
              (b1.e.heap.buf (b1.e.tasks b.e.ntask).fracarea))) := by
  unfold create_task_surf at h
  split at h
  · cases h
  · rename_i isurf _
    split at h
    · cases h
    · rename_i mask _
      by_cases hm : mask &&& b.e.groupbit = 0
      · rw [if_pos hm] at h
        cases h
        exact ⟨hown, hcap, rfl, rfl, fun j _ => ⟨rfl, rfl, rfl⟩, Or.inl rfl⟩
      · rw [if_neg hm] at h
        -- the engine once the slot exists
        have he : ∃ e : Emit α, e = (if b.e.ntask = b.e.ntaskmax then grow_task b.e else b.e)
            ∧ Owns e ∧ e.ntask = b.e.ntask ∧ e.heap = b.e.heap
            ∧ e.dimension = b.e.dimension ∧ e.axisymmetric = b.e.axisymmetric
            ∧ (∀ j, j < b.e.ntaskmax → e.tasks j = b.e.tasks j)
            ∧ b.e.ntaskmax ≤ e.ntaskmax := by
          refine ⟨_, rfl, ?_⟩
          split_ifs
          · exact ⟨Owns.grow _ hown, rfl, rfl, rfl, rfl, fun j hj => grow_task_old _ j hj,
              Nat.le_add_right _ _⟩
          · exact ⟨hown, rfl, rfl, rfl, rfl, fun _ _ => rfl, le_rfl⟩
        obtain ⟨e, hedef, heown, hent, heheap, hedim, heax, hetasks, hemax⟩ := he
        rw [← hedef] at h
        obtain ⟨hk, hown1, hmax1, hdim1, hax1, _, htasks1, hbuf1, hnt1⟩ :=
          create_task_slot_frame X grid surf mix icell cell i isurf e b.states b.rng b1 h heown
        refine ⟨hown1, ?_, by rw [hdim1, hedim], by rw [hax1, heax], ?_, ?_⟩
        · rw [hmax1]
          omega
        · intro j hj
          have hj1 : j < b.e.ntaskmax := by omega
          have hj2 : j ≠ e.ntask := by omega
          have hb := hbuf1 j (by omega) hj2
          rw [hetasks j hj1, heheap] at hb
          exact ⟨by rw [htasks1 j hj2, hetasks j hj1], hb.1, hb.2⟩
        · rcases hnt1 with hn | hn
          · exact Or.inl (by rw [hn, hent])
          · right
            refine ⟨by rw [hn, hent], ?_⟩
            have hP := hnew isurf e b.states b.rng b1 heown hedim heax h hn
            rw [hent] at hP
            exact hP

theorem create_task_loop_created {α : Type} [LinearOrderedField α] (X : Ext α)
    (grid : Grid α) (surf : Surf α) (mix : Mixture α) (icell : Int) (cell : ChildCell α)
    (dimension axisymmetric : Int)
    (P : Task α → Option (List α) → Option (List α) → Prop)
    (hnew : ∀ i isurf (e : Emit α) states rng b2, Owns e → e.dimension = dimension →
      e.axisymmetric = axisymmetric →
      create_task_slot X grid surf mix icell cell i isurf e states rng = Except.ok b2 →
      b2.e.ntask = e.ntask + 1 →
      P (b2.e.tasks e.ntask) (b2.e.heap.buf (b2.e.tasks e.ntask).path)
        (b2.e.heap.buf (b2.e.tasks e.ntask).fracarea))
    (k : Nat) : ∀ (i : Nat) (b b1 : Build α),
      create_task_loop X grid surf mix icell cell k i b = Except.ok b1 →
      Owns b.e → b.e.ntask ≤ b.e.ntaskmax →
      b.e.dimension = dimension → b.e.axisymmetric = axisymmetric →
      Owns b1.e ∧ b1.e.ntask ≤ b1.e.ntaskmax ∧ b.e.ntask ≤ b1.e.ntask
        ∧ b1.e.dimension = dimension ∧ b1.e.axisymmetric = axisymmetric
        ∧ (∀ j, j < b.e.ntask → b1.e.tasks j = b.e.tasks j
            ∧ b1.e.heap.buf (b.e.tasks j).path = b.e.heap.buf (b.e.tasks j).path
            ∧ b1.e.heap.buf (b.e.tasks j).fracarea = b.e.heap.buf (b.e.tasks j).fracarea)
        ∧ (∀ j, b.e.ntask ≤ j → j < b1.e.ntask →
            P (b1.e.tasks j) (b1.e.heap.buf (b1.e.tasks j).path)
              (b1.e.heap.buf (b1.e.tasks j).fracarea)) := by
  induction k with
  | zero =>
    intro i b b1 h hown hcap hdim hax
    simp only [create_task_loop, Except.ok.injEq] at h
    subst h
    exact ⟨hown, hcap, le_rfl, hdim, hax, fun j _ => ⟨rfl, rfl, rfl⟩, fun j h1 h2 => by omega⟩
  | succ k ih =>
    intro i b b1 h hown hcap hdim hax
    rw [create_task_loop] at h
    split at h
    · cases h
    · rename_i bm hbm
      obtain ⟨hownm, hcapm, hdimm, haxm, hfrm, hntm⟩ :=
        create_task_surf_frame X grid surf mix icell cell i b bm P
          (fun isurf e states rng b2 h1 h2 h3 =>
            hnew i isurf e states rng b2 h1 (by rw [h2, hdim]) (by rw [h3, hax]))
          hbm hown hcap
      obtain ⟨hown1, hcap1, hle1, hdim1, hax1, hfr1, hP1⟩ :=
        ih (i + 1) bm b1 h hownm hcapm (by rw [hdimm, hdim]) (by rw [haxm, hax])
      have hlem : b.e.ntask ≤ bm.e.ntask := by
        rcases hntm with h0 | h0 <;> omega
      refine ⟨hown1, hcap1, by omega, hdim1, hax1, ?_, ?_⟩
      · intro j hj
        obtain ⟨t1, p1, f1⟩ := hfr1 j (by omega)
        obtain ⟨t2, p2, f2⟩ := hfrm j hj
        rw [t2] at t1 p1 f1
        exact ⟨t1, by rw [p1, p2], by rw [f1, f2]⟩
      · intro j hj1 hj2
        by_cases hjm : bm.e.ntask ≤ j
        · exact hP1 j hjm hj2
        · rcases hntm with h0 | ⟨h0, hPm⟩
          · omega
          · have hjeq : j = b.e.ntask := by omega
            subst hjeq
            obtain ⟨t1, p1, f1⟩ := hfr1 b.e.ntask (by omega)
            rw [t1, p1, f1]
            exact hPm

/-- Every task appended by `create_task` has every property `P` that the slot
part of a pass gives the task it builds; the tasks that were live before and
their buffers are left alone, and ownership is kept. -/
theorem create_task_created {α : Type} [LinearOrderedField α] (X : Ext α)
    (grid : Grid α) (surf : Surf α) (mix : Mixture α) (icell : Int) (b b1 : Build α)
    (P : Task α → Option (List α) → Option (List α) → Prop)
    (hnew : ∀ cell i isurf (e : Emit α) states rng b2, Owns e →
      e.dimension = b.e.dimension → e.axisymmetric = b.e.axisymmetric →
      create_task_slot X grid surf mix icell cell i isurf e states rng = Except.ok b2 →
      b2.e.ntask = e.ntask + 1 →
      P (b2.e.tasks e.ntask) (b2.e.heap.buf (b2.e.tasks e.ntask).path)
        (b2.e.heap.buf (b2.e.tasks e.ntask).fracarea))
    (h : create_task X grid surf mix icell b = Except.ok b1)
    (hown : Owns b.e) (hcap : b.e.ntask ≤ b.e.ntaskmax) :
    Owns b1.e ∧ b1.e.ntask ≤ b1.e.ntaskmax ∧ b.e.ntask ≤ b1.e.ntask
      ∧ (∀ j, j < b.e.ntask → b1.e.tasks j = b.e.tasks j
          ∧ b1.e.heap.buf (b.e.tasks j).path = b.e.heap.buf (b.e.tasks j).path
          ∧ b1.e.heap.buf (b.e.tasks j).fracarea = b.e.heap.buf (b.e.tasks j).fracarea)
      ∧ (∀ j, b.e.ntask ≤ j → j < b1.e.ntask →
          P (b1.e.tasks j) (b1.e.heap.buf (b1.e.tasks j).path)
            (b1.e.heap.buf (b1.e.tasks j).fracarea)) := by
  unfold create_task at h
  split at h
  · cases h
  · rename_i cell _
    split_ifs at h
    · cases h
      exact ⟨hown, hcap, le_rfl, fun j _ => ⟨rfl, rfl, rfl⟩, fun j h1 h2 => by omega⟩
    · obtain ⟨h1, h2, h3, _, _, h4, h5⟩ :=
        create_task_loop_created X grid surf mix icell cell b.e.dimension b.e.axisymmetric P
          (hnew cell) _ 0 b b1 h hown hcap rfl rfl
      exact ⟨h1, h2, h3, h4, h5⟩

/-- The task built by the slot part of a pass in 2-D. -/
theorem create_task_slot_new_2d {α : Type} [LinearOrderedField α] (X : Ext α)
    (grid : Grid α) (surf : Surf α) (mix : Mixture α) (icell : Int) (cell : ChildCell α)
    (i : Nat) (isurf : Int) (e : Emit α) (states : Nat → SurfState α) (rng : Rng α)
    (b1 : Build α)
    (h : create_task_slot X grid surf mix icell cell i isurf e states rng = Except.ok b1)
    (hp : 0 < e.heap.next) (hd : e.dimension = 2) (hnew : b1.e.ntask = e.ntask + 1) :
    ∃ line pcell, idx? surf.lines isurf = some line
      ∧ create_pcell grid cell icell i = some pcell
      ∧ 2 ≤ (X.clip2d line.p1 line.p2 cell.lo cell.hi).1
      ∧ b1.e.tasks e.ntask
        = snapshot mix
            { e.tasks e.ntask with
              icell := icell, isurf := isurf, pcell := pcell, npoint := 2
              path := e.heap.next
              area := area_2d X.ops e.axisymmetric
                (path_2d (X.clip2d line.p1 line.p2 cell.lo cell.hi).2)
              tan1 := ⟨line.norm.y, -line.norm.x, 0⟩
              tan2 := ⟨0, 0, 1⟩ }
      ∧ b1.e.heap.buf e.heap.next
        = some (path_2d (X.clip2d line.p1 line.p2 cell.lo cell.hi).2) := by
  unfold create_task_slot at h
  by_cases hk : e.ntask < e.ntaskmax
  swap
  · rw [if_neg hk] at h
    cases h
  rw [if_pos hk] at h
  split at h
  · cases h
  · rename_i pcell hpc
    dsimp only at h
    rw [if_pos hd] at h
    split at h
    · cases h
    · rename_i line hline
      by_cases hc : (X.clip2d line.p1 line.p2 cell.lo cell.hi).1 < 2
      · rw [if_pos hc] at h
        cases h
        dsimp only at hnew
        omega
      · rw [if_neg hc] at h
        split at h
        · cases h
        · rename_i r hr
          have hr2 := build_2d_some _ _ _ _ _ _ _ hr hp
          subst hr2
          cases h
          refine ⟨line, pcell, hline, hpc, by omega, ?_, ?_⟩
          · dsimp only
            rw [Function.update_same]
          · dsimp only
            rw [Function.update_same]

/-- The task built by the slot part of a pass in 3-D. -/
theorem create_task_slot_new_3d {α : Type} [LinearOrderedField α] (X : Ext α)
    (grid : Grid α) (surf : Surf α) (mix : Mixture α) (icell : Int) (cell : ChildCell α)
    (i : Nat) (isurf : Int) (e : Emit α) (states : Nat → SurfState α) (rng : Rng α)
    (b1 : Build α)
    (h : create_task_slot X grid surf mix icell cell i isurf e states rng = Except.ok b1)
    (hown : Owns e) (hd : e.dimension ≠ 2) (hnew : b1.e.ntask = e.ntask + 1) :
    ∃ tri pcell, idx? surf.tris isurf = some tri
      ∧ create_pcell grid cell icell i = some pcell
      ∧ 3 ≤ (X.clip3d tri.p1 tri.p2 tri.p3 cell.lo cell.hi).1
      ∧ ((X.clip3d tri.p1 tri.p2 tri.p3 cell.lo cell.hi).1 * 3).toNat
          ≤ (X.clip3d tri.p1 tri.p2 tri.p3 cell.lo cell.hi).2.length
      ∧ b1.e.tasks e.ntask
        = snapshot mix
            { e.tasks e.ntask with
              icell := icell, isurf := isurf, pcell := pcell
              npoint := (X.clip3d tri.p1 tri.p2 tri.p3 cell.lo cell.hi).1
              path := e.heap.next
              fracarea := e.heap.next + 1
              area := (fan_area X.ops ((X.clip3d tri.p1 tri.p2 tri.p3 cell.lo cell.hi).2.take
                ((X.clip3d tri.p1 tri.p2 tri.p3 cell.lo cell.hi).1 * 3).toNat)
                (X.clip3d tri.p1 tri.p2 tri.p3 cell.lo cell.hi).1).1
              tan1 := norm3 X.ops (cross3 tri.norm
                ⟨rng.draws rng.pos, rng.draws (rng.pos + 1), rng.draws (rng.pos + 2)⟩)
              tan2 := norm3 X.ops (cross3 tri.norm (norm3 X.ops (cross3 tri.norm
                ⟨rng.draws rng.pos, rng.draws (rng.pos + 1), rng.draws (rng.pos + 2)⟩))) }
      ∧ b1.e.heap.buf e.heap.next
        = some ((X.clip3d tri.p1 tri.p2 tri.p3 cell.lo cell.hi).2.take
            ((X.clip3d tri.p1 tri.p2 tri.p3 cell.lo cell.hi).1 * 3).toNat)
      ∧ b1.e.heap.buf (e.heap.next + 1)
        = some (fan_area X.ops ((X.clip3d tri.p1 tri.p2 tri.p3 cell.lo cell.hi).2.take
            ((X.clip3d tri.p1 tri.p2 tri.p3 cell.lo cell.hi).1 * 3).toNat)
            (X.clip3d tri.p1 tri.p2 tri.p3 cell.lo cell.hi).1).2
      ∧ bind_net tri.surfaceState (b1.e.tasks e.ntask).area e.net states
        = Except.ok (b1.e.net, b1.states)
      ∧ b1.rng = { rng with pos := rng.pos + 3 } := by
  have hp := hown.next_pos
  unfold create_task_slot at h
  by_cases hk : e.ntask < e.ntaskmax
  swap
  · rw [if_neg hk] at h
    cases h
  rw [if_pos hk] at h
  have bk := hown.below e.ntask hk
  split at h
  · cases h
  · rename_i pcell hpc
    dsimp only at h
    rw [if_neg hd] at h
    split at h
    · cases h
    · rename_i tri htri
      by_cases hc : (X.clip3d tri.p1 tri.p2 tri.p3 cell.lo cell.hi).1 < 3
      · rw [if_pos hc] at h
        cases h
        dsimp only at hnew
        omega
      · rw [if_neg hc] at h
        split at h
        · cases h
        · rename_i r hr
          obtain ⟨hr2, hlen⟩ := build_3d_some _ _ _ _ _ _ _ _ hr (by omega) hp
            (by dsimp only; omega)
          subst hr2
          split at h
          · cases h
          · rename_i n hn
            cases h
            refine ⟨tri, pcell, htri, hpc, by omega, hlen, ?_, ?_, ?_, ?_, rfl⟩
            · dsimp only
              rw [Function.update_same]
            · dsimp only
              rw [copy_step_buf, if_neg (by omega), if_neg (by omega), if_pos rfl]
            · dsimp only
              rw [copy_step_buf, if_pos rfl]
            · dsimp only
              rw [Function.update_same]
              exact hn

/-! ### Areas -/

theorem area_2d_eq {α : Type} [Field α] (ops : MathOps α) (axisymmetric : Int)
    (x1 y1 x2 y2 : α) :
    area_2d ops axisymmetric [x1, y1, 0, x2, y2, 0]
      = if axisymmetric ≠ 0 then
          ops.MY_PI * (y1 + y2) * ops.sqrt ((y1 - y2) ^ 2 + (x1 - x2) ^ 2)
        else ops.sqrt ((x1 - x2) ^ 2 + (y1 - y2) ^ 2) := by
  unfold area_2d
  split_ifs
  · simp only [List.getD_cons_zero, List.getD_cons_succ]
    congr 2
    ring
  · simp only [len3, sub3, vec3_at, List.getD_cons_zero, List.getD_cons_succ]
    congr 1
    ring

theorem build_2d_length {α : Type} [Field α] (X : Ext α) (axisymmetric : Int) (normal : Vec3 α)
    (cpath : List α) (t : Task α) (h : Heap α) (r : Task α × Heap α)
    (hr : build_2d X axisymmetric normal cpath t h = some r) : 4 ≤ cpath.length := by
  unfold build_2d at hr
  by_cases hl : 4 ≤ cpath.length
  · exact hl
  · rw [if_neg hl] at hr
    cases hr

/-- A 2-D task is only built from a clip that wrote its four doubles. -/
theorem create_task_slot_clip_2d {α : Type} [LinearOrderedField α] (X : Ext α)
    (grid : Grid α) (surf : Surf α) (mix : Mixture α) (icell : Int) (cell : ChildCell α)
    (i : Nat) (isurf : Int) (e : Emit α) (states : Nat → SurfState α) (rng : Rng α)
    (b1 : Build α)
    (h : create_task_slot X grid surf mix icell cell i isurf e states rng = Except.ok b1)
    (hd : e.dimension = 2) (hnew : b1.e.ntask = e.ntask + 1) :
    ∀ line, idx? surf.lines isurf = some line →
      4 ≤ (X.clip2d line.p1 line.p2 cell.lo cell.hi).2.length := by
  intro line0 hline0
  unfold create_task_slot at h
  by_cases hk : e.ntask < e.ntaskmax
  swap
  · rw [if_neg hk] at h
    cases h
  rw [if_pos hk] at h
  split at h
  · cases h
  · dsimp only at h
    rw [if_pos hd, hline0] at h
    dsimp only at h
    by_cases hc : (X.clip2d line0.p1 line0.p2 cell.lo cell.hi).1 < 2
    · rw [if_pos hc] at h
      cases h
      dsimp only at hnew
      omega
    · rw [if_neg hc] at h
      split at h
      · cases h
      · rename_i r hr
        exact build_2d_length _ _ _ _ _ _ _ hr

/-- C10. Every task appended by `create_task(icell)` in 2-D is built from the
clip of its line against the cell: with `(x1,y1)` and `(x2,y2)` the two points
that `clip_external` wrote to `cpath` for the line `lines[isurf]` and the
bounds of the cell `icell` (a clip of at least 2 points), the stored path is
`(x1,y1,0), (x2,y2,0)`, six doubles, `npoint` is 2, and the area is
`MY_PI*(y1+y2)*sqrt((y1-y2)^2+(x1-x2)^2)` in axisymmetric mode and
`sqrt((x1-x2)^2+(y1-y2)^2)`, the Euclidean length of the clipped segment,
otherwise. -/
theorem create_task_area_2d {α : Type} [LinearOrderedField α] (X : Ext α)
    (grid : Grid α) (surf : Surf α) (mix : Mixture α) (icell : Int) (b b1 : Build α)
    (h : create_task X grid surf mix icell b = Except.ok b1)
    (hown : Owns b.e) (hcap : b.e.ntask ≤ b.e.ntaskmax) (hd : b.e.dimension = 2) :
    ∀ j, b.e.ntask ≤ j → j < b1.e.ntask →
      ∃ (cell : ChildCell α) (line : Line α) (x1 y1 x2 y2 : α),
        idx? grid.cells icell = some cell
        ∧ idx? surf.lines (b1.e.tasks j).isurf = some line
        ∧ 2 ≤ (X.clip2d line.p1 line.p2 cell.lo cell.hi).1
        ∧ (X.clip2d line.p1 line.p2 cell.lo cell.hi).2[0]? = some x1
        ∧ (X.clip2d line.p1 line.p2 cell.lo cell.hi).2[1]? = some y1
        ∧ (X.clip2d line.p1 line.p2 cell.lo cell.hi).2[2]? = some x2
        ∧ (X.clip2d line.p1 line.p2 cell.lo cell.hi).2[3]? = some y2
        ∧ b1.e.heap.buf (b1.e.tasks j).path = some [x1, y1, 0, x2, y2, 0]
        ∧ (b1.e.tasks j).npoint = 2
        ∧ (b.e.axisymmetric ≠ 0 → (b1.e.tasks j).area
            = X.ops.MY_PI * (y1 + y2) * X.ops.sqrt ((y1 - y2) ^ 2 + (x1 - x2) ^ 2))
        ∧ (b.e.axisymmetric = 0 → (b1.e.tasks j).area
            = X.ops.sqrt ((x1 - x2) ^ 2 + (y1 - y2) ^ 2)) := by
  unfold create_task at h
  cases hcell : idx? grid.cells icell with
  | none =>
    rw [hcell] at h
    cases h
  | some cell =>
    rw [hcell] at h
    dsimp only at h
    by_cases hns : cell.nsurf = 0
    · rw [if_pos hns] at h
      cases h
      intro j h1 h2
      omega
    · rw [if_neg hns] at h
      have hall := (create_task_loop_created X grid surf mix icell cell b.e.dimension
        b.e.axisymmetric
        (fun t pc _ => ∃ (line : Line α) (x1 y1 x2 y2 : α),
            idx? surf.lines t.isurf = some line
            ∧ 2 ≤ (X.clip2d line.p1 line.p2 cell.lo cell.hi).1
            ∧ (X.clip2d line.p1 line.p2 cell.lo cell.hi).2[0]? = some x1
            ∧ (X.clip2d line.p1 line.p2 cell.lo cell.hi).2[1]? = some y1
            ∧ (X.clip2d line.p1 line.p2 cell.lo cell.hi).2[2]? = some x2
            ∧ (X.clip2d line.p1 line.p2 cell.lo cell.hi).2[3]? = some y2
            ∧ pc = some [x1, y1, 0, x2, y2, 0]
            ∧ t.npoint = 2
            ∧ t.area = if b.e.axisymmetric ≠ 0 then
                X.ops.MY_PI * (y1 + y2) * X.ops.sqrt ((y1 - y2) ^ 2 + (x1 - x2) ^ 2)
              else X.ops.sqrt ((x1 - x2) ^ 2 + (y1 - y2) ^ 2))
        (by
          intro i isurf e states rng b2 hown2 hdim hax hs hn
          obtain ⟨line, pcell, hline, -, hclip, ht, hbuf⟩ :=
            create_task_slot_new_2d X grid surf mix icell cell i isurf e states rng b2 hs
              hown2.next_pos (by rw [hdim, hd]) hn
          have hlen := create_task_slot_clip_2d X grid surf mix icell cell i isurf e states rng
            b2 hs (by rw [hdim, hd]) hn line hline
          have hg : ∀ k, k < 4 →
              (X.clip2d line.p1 line.p2 cell.lo cell.hi).2[k]?
                = some ((X.clip2d line.p1 line.p2 cell.lo cell.hi).2.getD k 0) := by
            intro k hk
            rw [List.getD_eq_getElem?_getD, List.getElem?_eq_getElem (by omega)]
            rfl
          refine ⟨line, _, _, _, _, ?_, hclip, hg 0 (by omega), hg 1 (by omega),
            hg 2 (by omega), hg 3 (by omega), ?_, ?_, ?_⟩
          · rw [ht]
            exact hline
          · rw [ht]
            exact hbuf
          · rw [ht]
            rfl
          · rw [ht, ← hax]
            exact area_2d_eq X.ops e.axisymmetric _ _ _ _)
        _ 0 b b1 h hown hcap rfl rfl).2.2.2.2.2.2
      intro j h1 h2
      obtain ⟨line, x1, y1, x2, y2, hl, hc, g0, g1, g2, g3, hp, hn, ha⟩ := hall j h1 h2
      refine ⟨cell, line, x1, y1, x2, y2, rfl, hl, hc, g0, g1, g2, g3, hp, hn, ?_, ?_⟩
      · intro hax
        rw [ha, if_pos hax]
      · intro hax
        rw [ha, if_neg (by simpa using hax)]

theorem areaone_nonneg {α : Type} [LinearOrderedField α] (ops : MathOps α) (path : List α)
    (m : Nat) : 0 ≤ areaone ops path m := by
  unfold areaone
  exact abs_nonneg _

theorem areaone_eq {α : Type} [LinearOrderedField α] (ops : MathOps α) (path : List α)
    (m : Nat) (hsqrt : ∀ x, 0 ≤ ops.sqrt x) :
    areaone ops path m = fan_triangle_area ops path m := by
  unfold areaone fan_triangle_area
  dsimp only
  apply abs_of_nonneg
  apply mul_nonneg
  · norm_num
  · exact hsqrt _

theorem fan_loop_eq {α : Type} [LinearOrderedField α] (ops : MathOps α) (path : List α)
    (k : Nat) : ∀ (m : Nat) (area : α) (frac : List α),
      fan_loop ops path k m area frac
        = (area + ∑ i in Finset.range k, areaone ops path (m + i),
           frac ++ (List.range k).map
             (fun j => area + ∑ i in Finset.range (j + 1), areaone ops path (m + i))) := by
  induction k with
  | zero =>
    intro m area frac
    simp [fan_loop]
  | succ k ih =>
    intro m area frac
    rw [fan_loop, ih]
    refine Prod.ext ?_ ?_
    · dsimp only
      rw [Finset.sum_range_succ', add_assoc]
      congr 1
      rw [add_comm]
      congr 1
      apply Finset.sum_congr rfl
      intro i _
      congr 1
      omega
    · dsimp only
      rw [List.range_succ_eq_map, List.map_cons, List.map_map, List.append_assoc]
      congr 1
      simp only [List.singleton_append, Finset.range_one, Finset.sum_singleton, Nat.add_zero,
        zero_add, List.cons.injEq, true_and]
      apply List.map_congr_left
      intro j _
      simp only [Function.comp]
      rw [Finset.sum_range_succ' _ (j + 1), add_assoc]
      congr 1
      rw [add_comm]
      congr 1
      apply Finset.sum_congr rfl
      intro i _
      congr 1
      omega

/-- The result of lines 382-397: the area is the sum of the `areaone` of the
`npoint-2` fan triangles and entry `m` of `fracarea` is the sum of the first
`m+1` of them divided by the area. -/
theorem fan_area_eq {α : Type} [LinearOrderedField α] (ops : MathOps α) (path : List α)
    (npoint : Int) :
    fan_area ops path npoint
      = (∑ i in Finset.range (npoint - 2).toNat, areaone ops path i,
         (List.range (npoint - 2).toNat).map
           (fun m => (∑ i in Finset.range (m + 1), areaone ops path i)
             / ∑ i in Finset.range (npoint - 2).toNat, areaone ops path i)) := by
  unfold fan_area
  rw [fan_loop_eq]
  simp only [zero_add, List.nil_append, List.map_map]
  rfl

theorem cum_mono {α : Type} [LinearOrderedField α] (f : Nat → α) (hf : ∀ i, 0 ≤ f i)
    (a c : Nat) (hac : a ≤ c) :
    ∑ i in Finset.range a, f i ≤ ∑ i in Finset.range c, f i := by
  apply Finset.sum_le_sum_of_subset_of_nonneg
  · intro x hx
    rw [Finset.mem_range] at hx ⊢
    omega
  · intro i _ _
    exact hf i

theorem frac_list_props {α : Type} [LinearOrderedField α] (f : Nat → α)
    (hf : ∀ i, 0 ≤ f i) (n : Nat) (hn : 1 ≤ n)
    (h0 : ∑ i in Finset.range n, f i ≠ 0) :
    (∀ m, m < n →
        ((List.range n).map (fun m => (∑ i in Finset.range (m + 1), f i)
            / ∑ i in Finset.range n, f i))[m]?
          = some ((∑ i in Finset.range (m + 1), f i) / ∑ i in Finset.range n, f i))
    ∧ (∀ m1 m2, m1 ≤ m2 → m2 < n →
        ((List.range n).map (fun m => (∑ i in Finset.range (m + 1), f i)
            / ∑ i in Finset.range n, f i)).getD m1 0
        ≤ ((List.range n).map (fun m => (∑ i in Finset.range (m + 1), f i)
            / ∑ i in Finset.range n, f i)).getD m2 0)
    ∧ ((List.range n).map (fun m => (∑ i in Finset.range (m + 1), f i)
            / ∑ i in Finset.range n, f i)).getLast? = some 1 := by
  have hget : ∀ m, m < n →
      ((List.range n).map (fun m => (∑ i in Finset.range (m + 1), f i)
          / ∑ i in Finset.range n, f i))[m]?
        = some ((∑ i in Finset.range (m + 1), f i) / ∑ i in Finset.range n, f i) := by
    intro m hm
    rw [List.getElem?_map, List.getElem?_range hm]
    rfl
  have hS : 0 ≤ ∑ i in Finset.range n, f i := Finset.sum_nonneg (fun i _ => hf i)
  refine ⟨hget, ?_, ?_⟩
  · intro m1 m2 h12 h2
    rw [List.getD_eq_getElem?_getD, List.getD_eq_getElem?_getD, hget m1 (by omega), hget m2 h2]
    simp only [Option.getD_some]
    exact div_le_div_of_nonneg_right (cum_mono f hf _ _ (by omega)) hS
  · rw [List.getLast?_eq_getElem?, List.length_map, List.length_range, hget (n - 1) (by omega)]
    have : n - 1 + 1 = n := by omega
    rw [this, div_self h0]

theorem idx_mem {β : Type} (l : List β) (i : Int) (x : β) (h : idx? l i = some x) : x ∈ l := by
  unfold idx? at h
  split_ifs at h
  exact List.getElem?_mem h

/-- Every task appended by `create_task` in 3-D stores the clipped polygon of
one of the triangles as its path, and the `area` and `fracarea` that lines
382-397 compute from that path. -/
theorem create_task_geom_3d {α : Type} [LinearOrderedField α] (X : Ext α)
    (grid : Grid α) (surf : Surf α) (mix : Mixture α) (icell : Int) (b b1 : Build α)
    (h : create_task X grid surf mix icell b = Except.ok b1)
    (hown : Owns b.e) (hcap : b.e.ntask ≤ b.e.ntaskmax) (hd : b.e.dimension ≠ 2) :
    ∀ j, b.e.ntask ≤ j → j < b1.e.ntask →
      ∃ path : List α,
        3 ≤ (b1.e.tasks j).npoint
        ∧ b1.e.heap.buf (b1.e.tasks j).path = some path
        ∧ path.length = ((b1.e.tasks j).npoint * 3).toNat
        ∧ (∃ tri lo hi, tri ∈ surf.tris
            ∧ (b1.e.tasks j).npoint = (X.clip3d tri.p1 tri.p2 tri.p3 lo hi).1
            ∧ path = (X.clip3d tri.p1 tri.p2 tri.p3 lo hi).2.take
                ((b1.e.tasks j).npoint * 3).toNat)
        ∧ b1.e.heap.buf (b1.e.tasks j).fracarea
            = some (fan_area X.ops path (b1.e.tasks j).npoint).2
        ∧ (b1.e.tasks j).area = (fan_area X.ops path (b1.e.tasks j).npoint).1 := by
  exact (create_task_created X grid surf mix icell b b1
    (fun t pc fc => ∃ path : List α,
        3 ≤ t.npoint
        ∧ pc = some path
        ∧ path.length = (t.npoint * 3).toNat
        ∧ (∃ tri lo hi, tri ∈ surf.tris
            ∧ t.npoint = (X.clip3d tri.p1 tri.p2 tri.p3 lo hi).1
            ∧ path = (X.clip3d tri.p1 tri.p2 tri.p3 lo hi).2.take (t.npoint * 3).toNat)
        ∧ fc = some (fan_area X.ops path t.npoint).2
        ∧ t.area = (fan_area X.ops path t.npoint).1)
    (by
      intro cell i isurf e states rng b2 hown2 hdim _ hs hn
      obtain ⟨tri, pcell, htri, -, hnp, hlen, ht, hbuf, hfr, -, -⟩ :=
        create_task_slot_new_3d X grid surf mix icell cell i isurf e states rng b2 hs
          hown2 (by rw [hdim]; exact hd) hn
      rw [ht]
      refine ⟨_, hnp, hbuf, ?_, ⟨tri, cell.lo, cell.hi, idx_mem _ _ _ htri, rfl, rfl⟩, hfr, rfl⟩
      rw [List.length_take]
      exact Nat.min_eq_left hlen)
    h hown hcap).2.2.2.2

/-- The fan of a task appended by `create_task` in 3-D, read from the task's
path buffer, with a `sqrt` that returns no negative value: `area` is the sum
of the areas of the `npoint-2` fan triangles and, when it is not zero,
`fracarea` holds the normalised running sums, which are non-decreasing and end
in 1. -/
theorem create_task_fan_3d {α : Type} [LinearOrderedField α] (X : Ext α)
    (grid : Grid α) (surf : Surf α) (mix : Mixture α) (icell : Int) (b b1 : Build α)
    (h : create_task X grid surf mix icell b = Except.ok b1)
    (hown : Owns b.e) (hcap : b.e.ntask ≤ b.e.ntaskmax) (hd : b.e.dimension ≠ 2)
    (hsqrt : ∀ x, 0 ≤ X.ops.sqrt x) :
    ∀ j, b.e.ntask ≤ j → j < b1.e.ntask →
      ∃ path frac : List α,
        3 ≤ (b1.e.tasks j).npoint
        ∧ b1.e.heap.buf (b1.e.tasks j).path = some path
        ∧ path.length = ((b1.e.tasks j).npoint * 3).toNat
        ∧ b1.e.heap.buf (b1.e.tasks j).fracarea = some frac
        ∧ frac.length = ((b1.e.tasks j).npoint - 2).toNat
        ∧ (b1.e.tasks j).area
            = ∑ m in Finset.range ((b1.e.tasks j).npoint - 2).toNat,
                fan_triangle_area X.ops path m
        ∧ ((b1.e.tasks j).area ≠ 0 →
            (∀ m, m < ((b1.e.tasks j).npoint - 2).toNat →
                frac[m]? = some ((∑ k in Finset.range (m + 1), fan_triangle_area X.ops path k)
                  / (b1.e.tasks j).area))
            ∧ (∀ m1 m2, m1 ≤ m2 → m2 < ((b1.e.tasks j).npoint - 2).toNat →
                frac.getD m1 0 ≤ frac.getD m2 0)
            ∧ frac.getLast? = some 1) := by
  intro j h1 h2
  obtain ⟨path, hnp, hp, hlen, -, hf, ha⟩ :=
    create_task_geom_3d X grid surf mix icell b b1 h hown hcap hd j h1 h2
  have hfun : (fun m => areaone X.ops path m) = fun m => fan_triangle_area X.ops path m :=
    funext (fun m => areaone_eq X.ops path m hsqrt)
  rw [fan_area_eq] at hf ha
  dsimp only at hf ha
  rw [hfun] at hf ha
  refine ⟨path, _, hnp, hp, hlen, hf, ?_, ha, ?_⟩
  · rw [List.length_map, List.length_range]
  · intro h0
    rw [ha] at h0 ⊢
    exact frac_list_props (fun m => fan_triangle_area X.ops path m)
      (fun m => by
        show 0 ≤ fan_triangle_area X.ops path m
        rw [← areaone_eq X.ops path m hsqrt]
        exact areaone_nonneg _ _ _)
      _ (by omega) h0

/-- Every task appended by `create_task(icell)` in 3-D stores the polygon that
`clip_external` wrote for the triangle `tris[isurf]` and the bounds of the
cell `icell`: `npoint` is the returned point count and the path buffer is the
first `3*npoint` doubles of `cpath`. -/
theorem create_task_clip_3d {α : Type} [LinearOrderedField α] (X : Ext α)
    (grid : Grid α) (surf : Surf α) (mix : Mixture α) (icell : Int) (b b1 : Build α)
    (h : create_task X grid surf mix icell b = Except.ok b1)
    (hown : Owns b.e) (hcap : b.e.ntask ≤ b.e.ntaskmax) (hd : b.e.dimension ≠ 2) :
    ∀ j, b.e.ntask ≤ j → j < b1.e.ntask →
      ∃ (cell : ChildCell α) (tri : Tri α),
        idx? grid.cells icell = some cell
        ∧ idx? surf.tris (b1.e.tasks j).isurf = some tri
        ∧ (b1.e.tasks j).npoint = (X.clip3d tri.p1 tri.p2 tri.p3 cell.lo cell.hi).1
        ∧ b1.e.heap.buf (b1.e.tasks j).path
            = some ((X.clip3d tri.p1 tri.p2 tri.p3 cell.lo cell.hi).2.take
                ((b1.e.tasks j).npoint * 3).toNat) := by
  unfold create_task at h
  cases hcell : idx? grid.cells icell with
  | none =>
    rw [hcell] at h
    cases h
  | some cell =>
    rw [hcell] at h
    dsimp only at h
    by_cases hns : cell.nsurf = 0
    · rw [if_pos hns] at h
      cases h
      intro j h1 h2
      omega
    · rw [if_neg hns] at h
      have hall := (create_task_loop_created X grid surf mix icell cell b.e.dimension
        b.e.axisymmetric
        (fun t pc _ => ∃ tri : Tri α,
            idx? surf.tris t.isurf = some tri
            ∧ t.npoint = (X.clip3d tri.p1 tri.p2 tri.p3 cell.lo cell.hi).1
            ∧ pc = some ((X.clip3d tri.p1 tri.p2 tri.p3 cell.lo cell.hi).2.take
                (t.npoint * 3).toNat))
        (by
          intro i isurf e states rng b2 hown2 hdim _ hs hn
          obtain ⟨tri, pcell, htri, -, -, -, ht, hbuf, -, -, -⟩ :=
            create_task_slot_new_3d X grid surf mix icell cell i isurf e states rng b2 hs
              hown2 (by rw [hdim]; exact hd) hn
          rw [ht]
          exact ⟨tri, htri, rfl, hbuf⟩)
        _ 0 b b1 h hown hcap rfl rfl).2.2.2.2.2.2
      intro j h1 h2
      obtain ⟨tri, ht, hn, hp⟩ := hall j h1 h2
      exact ⟨cell, tri, rfl, ht, hn, hp⟩

/-- C9 (as amended). Every task appended by `create_task(icell)` in 3-D is
built from the clip of its triangle against the cell: with a `sqrt` that
returns no negative value, `npoint >= 3` is the point count that
`clip_external` returned for the triangle `tris[isurf]` and the bounds of the
cell `icell`, the path holds the `3*npoint` doubles of that clipped polygon,
`fracarea` holds `npoint-2` doubles and `area` is the sum of the areas
`0.5*|e1 x e2|` of the `npoint-2` fan triangles of the polygon; when that area
is not zero, entry `m` of `fracarea` is the sum of the areas of the fan
triangles `0..m` divided by `area`, the entries are non-decreasing and the
last one is 1. -/
theorem create_task_fracarea {α : Type} [LinearOrderedField α] (X : Ext α)
    (grid : Grid α) (surf : Surf α) (mix : Mixture α) (icell : Int) (b b1 : Build α)
    (h : create_task X grid surf mix icell b = Except.ok b1)
    (hown : Owns b.e) (hcap : b.e.ntask ≤ b.e.ntaskmax) (hd : b.e.dimension ≠ 2)
    (hsqrt : ∀ x, 0 ≤ X.ops.sqrt x) :
    ∀ j, b.e.ntask ≤ j → j < b1.e.ntask →
      ∃ path frac : List α,
        3 ≤ (b1.e.tasks j).npoint
        ∧ b1.e.heap.buf (b1.e.tasks j).path = some path
        ∧ path.length = ((b1.e.tasks j).npoint * 3).toNat
        ∧ b1.e.heap.buf (b1.e.tasks j).fracarea = some frac
        ∧ frac.length = ((b1.e.tasks j).npoint - 2).toNat
        ∧ (b1.e.tasks j).area
            = ∑ m in Finset.range ((b1.e.tasks j).npoint - 2).toNat,
                fan_triangle_area X.ops path m
        ∧ ((b1.e.tasks j).area ≠ 0 →
            (∀ m, m < ((b1.e.tasks j).npoint - 2).toNat →
                frac[m]? = some ((∑ k in Finset.range (m + 1), fan_triangle_area X.ops path k)
                  / (b1.e.tasks j).area))
            ∧ (∀ m1 m2, m1 ≤ m2 → m2 < ((b1.e.tasks j).npoint - 2).toNat →
                frac.getD m1 0 ≤ frac.getD m2 0)
            ∧ frac.getLast? = some 1)
        ∧ ∃ (cell : ChildCell α) (tri : Tri α),
            idx? grid.cells icell = some cell
            ∧ idx? surf.tris (b1.e.tasks j).isurf = some tri
            ∧ (b1.e.tasks j).npoint = (X.clip3d tri.p1 tri.p2 tri.p3 cell.lo cell.hi).1
            ∧ path = (X.clip3d tri.p1 tri.p2 tri.p3 cell.lo cell.hi).2.take
                ((b1.e.tasks j).npoint * 3).toNat := by
  intro j h1 h2
  obtain ⟨path, frac, a1, a2, a3, a4, a5, a6, a7⟩ :=
    create_task_fan_3d X grid surf mix icell b b1 h hown hcap hd hsqrt j h1 h2
  obtain ⟨cell, tri, c1, c2, c3, c4⟩ :=
    create_task_clip_3d X grid surf mix icell b b1 h hown hcap hd j h1 h2
  refine ⟨path, frac, a1, a2, a3, a4, a5, a6, a7, cell, tri, c1, c2, c3, ?_⟩
  rw [a2] at c4
  exact Option.some.inj c4

theorem demoBuild_owns (d : Int) : Owns (demoBuild d).e := by
  refine ⟨Nat.one_pos, rfl, fun _ _ => rfl, ?_, ?_, ?_, ?_⟩
  · intro i hi
    exact absurd hi (Nat.not_lt_zero i)
  · intro i hi
    exact absurd hi (Nat.not_lt_zero i)
  · intro i hi
    exact absurd hi (Nat.not_lt_zero i)
  · intro i hi
    exact absurd hi (Nat.not_lt_zero i)

theorem demoSqrt_nonneg (x : ℚ) : 0 ≤ demoOps.sqrt x := by
  show 0 ≤ demoSqrt x
  unfold demoSqrt
  positivity

set_option maxRecDepth 100000 in
theorem demo_run_2d : ∃ b1, create_task demoExt demoGrid demoSurf demoMix 0 (demoBuild 2)
    = Except.ok b1 ∧ b1.e.ntask = 1 := ⟨_, rfl, rfl⟩

set_option maxRecDepth 100000 in
theorem demo_run_3d : ∃ b1, create_task demoExt demoGrid demoSurf demoMix 0 (demoBuild 3)
    = Except.ok b1 ∧ b1.e.ntask = 1 := ⟨_, rfl, rfl⟩

set_option maxRecDepth 100000 in
theorem demo_run_flat : ∃ b1, create_task demoExt demoGrid demoSurfFlat demoMix 0 (demoBuild 3)
    = Except.ok b1 ∧ b1.e.ntask = 1 := ⟨_, rfl, rfl⟩

/-- Counterexample to C9 as stated: for a triangle whose three corners
coincide the clip has 3 points, the task is created with `area = 0`, and the
single entry of its `fracarea` (`0/0`) is not 1. -/
theorem create_task_fracarea_degenerate :
    ∃ b1, create_task demoExt demoGrid demoSurfFlat demoMix 0 (demoBuild 3) = Except.ok b1
      ∧ b1.e.ntask = 1 ∧ 3 ≤ (b1.e.tasks 0).npoint
      ∧ ∃ frac, b1.e.heap.buf (b1.e.tasks 0).fracarea = some frac
          ∧ frac.getLast? ≠ some 1 := by
  obtain ⟨b1, hrun, hnt⟩ := demo_run_flat
  obtain ⟨path, hnp, -, -, ⟨tri, lo, hi, htri, hn, hpath⟩, hf, -⟩ :=
    create_task_geom_3d demoExt demoGrid demoSurfFlat demoMix 0 (demoBuild 3) b1 hrun
      (demoBuild_owns 3) (le_refl _) (by decide) 0 (Nat.zero_le _) (by rw [hnt]; exact Nat.one_pos)
  refine ⟨b1, hrun, hnt, hnp, _, hf, ?_⟩
  have htri2 : tri = demoTriFlat := by
    simpa [demoSurfFlat] using htri
  subst htri2
  have hn3 : (b1.e.tasks 0).npoint = 3 := hn
  rw [hn3] at hpath ⊢
  have hp0 : path = [0, 0, 0, 0, 0, 0, 0, 0, 0] := by
    rw [hpath]
    rfl
  subst hp0
  rw [fan_area_eq]
  have ha : areaone demoExt.ops ([0, 0, 0, 0, 0, 0, 0, 0, 0] : List ℚ) 0 = 0 := by
    simp [areaone, len3, cross3, sub3, vec3_at, demoExt, demoOps, demoSqrt]
  have h1 : ((3 : Int) - 2).toNat = 1 := by decide
  have hr1 : List.range 1 = [0] := rfl
  simp only [h1, hr1, List.map_cons, List.map_nil, Finset.range_one,
    Finset.sum_singleton, zero_add, ha, div_zero, List.getLast?_singleton]
  intro hc
  cases hc

/-- Witness of C9 (as amended): the unclipped triangle `(0,0,0), (1,0,0),
(0,1,0)` in a 3-D run from the engine as constructed. -/
theorem create_task_fracarea_witness :
    ∃ b1, create_task demoExt demoGrid demoSurf demoMix 0 (demoBuild 3) = Except.ok b1
      ∧ b1.e.ntask = 1
      ∧ ∃ path frac : List ℚ,
        3 ≤ (b1.e.tasks 0).npoint
        ∧ b1.e.heap.buf (b1.e.tasks 0).path = some path
        ∧ b1.e.heap.buf (b1.e.tasks 0).fracarea = some frac
        ∧ (b1.e.tasks 0).area
            = ∑ m in Finset.range ((b1.e.tasks 0).npoint - 2).toNat,
                fan_triangle_area demoExt.ops path m :=
  demo_run_3d.elim fun b1 hb =>
    ⟨b1, hb.1, hb.2,
      (create_task_fracarea demoExt demoGrid demoSurf demoMix 0 (demoBuild 3) b1 hb.1
        (demoBuild_owns 3) (le_refl _) (by decide) demoSqrt_nonneg 0 (Nat.zero_le _)
        (by rw [hb.2]; exact Nat.one_pos)).elim
        fun path hp => hp.elim fun frac hf =>
          ⟨path, frac, hf.1, hf.2.1, hf.2.2.2.1, hf.2.2.2.2.2.1⟩⟩

/-- Witness of C10: the line from `(0,0)` to `(3,4)`, which the clipper of
`demoExt` returns unclipped, in a 2-D run from the engine as constructed: the
stored path is `(0,0,0), (3,4,0)` and the area is `sqrt((0-3)^2 + (0-4)^2)`,
which is 5. -/
theorem create_task_area_2d_witness :
    ∃ b1, create_task demoExt demoGrid demoSurf demoMix 0 (demoBuild 2) = Except.ok b1
      ∧ b1.e.ntask = 1
      ∧ b1.e.heap.buf (b1.e.tasks 0).path = some [0, 0, 0, 3, 4, 0]
      ∧ (b1.e.tasks 0).area = demoExt.ops.sqrt ((0 - 3) ^ 2 + (0 - 4) ^ 2)
      ∧ demoExt.ops.sqrt ((0 - 3) ^ 2 + (0 - 4) ^ 2) = 5 := by
  obtain ⟨b1, hrun, hnt, his⟩ : ∃ b1,
      create_task demoExt demoGrid demoSurf demoMix 0 (demoBuild 2) = Except.ok b1
        ∧ b1.e.ntask = 1 ∧ (b1.e.tasks 0).isurf = 0 := ⟨_, rfl, rfl, rfl⟩
  obtain ⟨cell, line, x1, y1, x2, y2, hcell, hline, -, g0, g1, g2, g3, hp, -, -, ha⟩ :=
    create_task_area_2d demoExt demoGrid demoSurf demoMix 0 (demoBuild 2) b1 hrun
      (demoBuild_owns 2) (le_refl _) rfl 0 (Nat.zero_le _) (by rw [hnt]; exact Nat.one_pos)
  rw [his] at hline
  cases hcell
  cases hline
  cases g0
  cases g1
  cases g2
  cases g3
  refine ⟨b1, hrun, hnt, hp, ha rfl, ?_⟩
  show demoSqrt ((0 - 3) ^ 2 + (0 - 4) ^ 2) = 5
  have h25 : ((0 - 3 : ℚ) ^ 2 + (0 - 4) ^ 2) = 25 := by norm_num
  rw [h25]
  unfold demoSqrt
  have hn : (25 : ℚ).num.toNat = 25 := rfl
  have hdn : (25 : ℚ).den = 1 := rfl
  rw [hn, hdn]
  have h5 : Nat.sqrt 25 = 5 := by
    symm
    rw [Nat.eq_sqrt]
    decide
  have h1 : Nat.sqrt 1 = 1 := by
    symm
    rw [Nat.eq_sqrt]
    decide
  rw [h5, h1]
  norm_num

/-! ### `pack_task` and `unpack_task` -/

theorem Wire.put_doubles_lt {α : Type} (l : List α) :
    ∀ (w : Wire α) (ptr a : Nat), a < ptr → Wire.put_doubles w ptr l a = w a := by
  induction l with
  | nil => intro w ptr a _; rfl
  | cons x xs ih =>
    intro w ptr a ha
    rw [Wire.put_doubles, ih _ _ _ (by omega), Function.update_noteq (by omega)]

theorem Wire.get_doubles_congr {α : Type} (n : Nat) :
    ∀ (w1 w2 : Wire α) (ptr : Nat),
      (∀ a, ptr ≤ a → a < ptr + n * SIZEOF_DOUBLE → w1 a = w2 a) →
      Wire.get_doubles w1 ptr n = Wire.get_doubles w2 ptr n := by
  have h8 : SIZEOF_DOUBLE = 8 := rfl
  induction n with
  | zero => intro w1 w2 ptr _; rfl
  | succ k ih =>
    intro w1 w2 ptr h
    rw [Wire.get_doubles, Wire.get_doubles, h ptr le_rfl (by rw [h8]; omega),
      ih w1 w2 (ptr + SIZEOF_DOUBLE) (fun a h1 h2 => h a (by omega) (by rw [h8] at h1 h2 ⊢; omega))]

theorem Wire.get_put_doubles {α : Type} (l : List α) :
    ∀ (w : Wire α) (ptr : Nat),
      Wire.get_doubles (Wire.put_doubles w ptr l) ptr l.length = some l := by
  have h8 : SIZEOF_DOUBLE = 8 := rfl
  induction l with
  | nil => intro w ptr; rfl
  | cons x xs ih =>
    intro w ptr
    rw [Wire.put_doubles, List.length_cons, Wire.get_doubles,
      Wire.put_doubles_lt xs _ _ _ (by rw [h8]; omega), Function.update_same, ih]

theorem ROUNDUP_ge (L : Layout) (hpos : 0 < L.align) (p : Nat) : p ≤ ROUNDUP L p := by
  unfold ROUNDUP
  have h := Nat.div_add_mod (p + (L.align - 1)) L.align
  have h2 := Nat.mod_lt (p + (L.align - 1)) hpos
  rw [Nat.mul_comm] at h
  omega

theorem ROUNDUP_add (L : Layout) (hpos : 0 < L.align) (buf s : Nat) (hal : L.align ∣ buf) :
    ROUNDUP L (buf + s) = buf + ROUNDUP L s := by
  obtain ⟨q, rfl⟩ := hal
  unfold ROUNDUP
  rw [Nat.add_assoc, Nat.mul_add_div hpos, Nat.add_mul, Nat.mul_comm]

theorem Wire.get_doubles_length {α : Type} (n : Nat) :
    ∀ (w : Wire α) (ptr : Nat) (l : List α), Wire.get_doubles w ptr n = some l →
      l.length = n := by
  induction n with
  | zero =>
    intro w ptr l h
    simp only [Wire.get_doubles, Option.some.injEq] at h
    rw [← h]
    rfl
  | succ k ih =>
    intro w ptr l h
    rw [Wire.get_doubles] at h
    split at h
    · split at h
      · rename_i xs hxs
        cases h
        rw [List.length_cons, ih _ _ _ hxs]
      · cases h
    · cases h

theorem pack_task_query {α : Type} (L : Layout) (itask buf : Nat) (e : Emit α) (w : Wire α)
    (hit : itask < e.ntaskmax) :
    pack_task L itask buf 0 e w
      = some ((ROUNDUP L (buf + L.sizeof_Task) : Int)
          + (e.tasks itask).npoint * 3 * (SIZEOF_DOUBLE : Int)
          + ((e.tasks itask).npoint - 2) * (SIZEOF_DOUBLE : Int) - (buf : Int), w) := by
  unfold pack_task
  rw [if_pos hit]
  simp

theorem pack_task_write {α : Type} (L : Layout) (itask buf : Nat) (m : Int) (e : Emit α)
    (w : Wire α) (pb fb : List α) (hm : m ≠ 0) (hit : itask < e.ntaskmax)
    (hnp : 2 ≤ (e.tasks itask).npoint)
    (hp : e.heap.read (e.tasks itask).path ((e.tasks itask).npoint * 3).toNat = some pb)
    (hf : e.heap.read (e.tasks itask).fracarea ((e.tasks itask).npoint - 2).toNat = some fb) :
    pack_task L itask buf m e w
      = some ((ROUNDUP L (buf + L.sizeof_Task) : Int)
          + (e.tasks itask).npoint * 3 * (SIZEOF_DOUBLE : Int)
          + ((e.tasks itask).npoint - 2) * (SIZEOF_DOUBLE : Int) - (buf : Int),
          Wire.put_doubles
            (Wire.put_doubles (Function.update w buf (some (WItem.task (e.tasks itask))))
              (ROUNDUP L (buf + L.sizeof_Task)) pb)
            (ROUNDUP L (buf + L.sizeof_Task)
              + ((e.tasks itask).npoint * 3).toNat * SIZEOF_DOUBLE) fb) := by
  unfold pack_task
  rw [if_pos hit]
  dsimp only
  rw [if_pos hm, if_pos hm, if_pos ⟨by omega, by omega⟩, hp]
  dsimp only
  rw [hf]
  dsimp only
  congr 2
  push_cast
  rw [Int.toNat_of_nonneg (by omega), Int.toNat_of_nonneg (by omega)]

theorem unpack_task_slot_eq {α : Type} [Zero α] (L : Layout) (grid : Grid α) (buf : Nat)
    (icell : Int) (w : Wire α) (e : Emit α) (t : Task α) (pb fb : List α) (pcell : Int)
    (hk : e.ntask < e.ntaskmax)
    (hw : w buf = some (WItem.task t)) (hnp : 2 ≤ t.npoint)
    (hgp : Wire.get_doubles w (ROUNDUP L (buf + L.sizeof_Task)) (t.npoint * 3).toNat = some pb)
    (hgf : Wire.get_doubles w
      (ROUNDUP L (buf + L.sizeof_Task) + (t.npoint * 3).toNat * SIZEOF_DOUBLE)
      (t.npoint - 2).toNat = some fb)
    (hpc : unpack_pcell grid icell t.isurf = some pcell) :
    unpack_task_slot L grid buf icell w e
      = some ((ROUNDUP L (buf + L.sizeof_Task) : Int)
          + t.npoint * 3 * (SIZEOF_DOUBLE : Int)
          + (t.npoint - 2) * (SIZEOF_DOUBLE : Int) - (buf : Int),
          { e with
            heap :=
              { next := e.heap.next + 2
                buf := Function.update
                  ((Heap.delete
                    { next := e.heap.next + 1
                      buf := Function.update (e.heap.delete (e.tasks e.ntask).path).buf
                        e.heap.next (some pb) } (e.tasks e.ntask).fracarea).buf)
                  (e.heap.next + 1) (some fb) }
            tasks := Function.update e.tasks e.ntask
              { t with path := e.heap.next, fracarea := e.heap.next + 1, icell := icell,
                       pcell := pcell }
            ntask := e.ntask + 1 }) := by
  have hlp := Wire.get_doubles_length _ _ _ _ hgp
  have hlf := Wire.get_doubles_length _ _ _ _ hgf
  unfold unpack_task_slot
  dsimp only
  rw [if_pos hk, hw]
  dsimp only
  rw [if_pos (by omega), hgp]
  dsimp only
  rw [Heap.new_write_next _ _ _ hlp]
  dsimp only
  rw [if_pos (by omega), hgf]
  dsimp only
  rw [Heap.new_write_next _ _ _ hlf, hpc]
  simp only [Heap.delete_next, Heap.new]
  congr 2
  push_cast
  rw [Int.toNat_of_nonneg (by omega), Int.toNat_of_nonneg (by omega)]

/-- What `unpack_task` finds in a message buffer written by `pack_task`: the
header at `buf` and the two runs of doubles behind it. -/
theorem packed_wire {α : Type} (L : Layout) (buf : Nat) (w : Wire α) (t : Task α)
    (pb fb : List α) (hpos : 0 < L.align) (hsz : 0 < L.sizeof_Task)
    (hlp : pb.length = (t.npoint * 3).toNat) (hlf : fb.length = (t.npoint - 2).toNat) :
    (Wire.put_doubles
        (Wire.put_doubles (Function.update w buf (some (WItem.task t)))
          (ROUNDUP L (buf + L.sizeof_Task)) pb)
        (ROUNDUP L (buf + L.sizeof_Task) + (t.npoint * 3).toNat * SIZEOF_DOUBLE) fb) buf
      = some (WItem.task t)
    ∧ Wire.get_doubles
        (Wire.put_doubles
          (Wire.put_doubles (Function.update w buf (some (WItem.task t)))
            (ROUNDUP L (buf + L.sizeof_Task)) pb)
          (ROUNDUP L (buf + L.sizeof_Task) + (t.npoint * 3).toNat * SIZEOF_DOUBLE) fb)
        (ROUNDUP L (buf + L.sizeof_Task)) (t.npoint * 3).toNat = some pb
    ∧ Wire.get_doubles
        (Wire.put_doubles
          (Wire.put_doubles (Function.update w buf (some (WItem.task t)))
            (ROUNDUP L (buf + L.sizeof_Task)) pb)
          (ROUNDUP L (buf + L.sizeof_Task) + (t.npoint * 3).toNat * SIZEOF_DOUBLE) fb)
        (ROUNDUP L (buf + L.sizeof_Task) + (t.npoint * 3).toNat * SIZEOF_DOUBLE)
        (t.npoint - 2).toNat = some fb := by
  have hge := ROUNDUP_ge L hpos (buf + L.sizeof_Task)
  refine ⟨?_, ?_, ?_⟩
  · rw [Wire.put_doubles_lt _ _ _ _ (by omega), Wire.put_doubles_lt _ _ _ _ (by omega),
      Function.update_same]
  · rw [Wire.get_doubles_congr _ _
      (Wire.put_doubles (Function.update w buf (some (WItem.task t)))
        (ROUNDUP L (buf + L.sizeof_Task)) pb) _
      (fun a _ h2 => Wire.put_doubles_lt _ _ _ _ h2), ← hlp]
    exact Wire.get_put_doubles _ _ _
  · rw [← hlf]
    exact Wire.get_put_doubles _ _ _

/-- C5. Byte count of the wire record: for a live task and a buffer address
on the alignment boundary, `pack_task` returns the same count for
`memflag = 0` and `memflag = 1`, namely `sizeof(Task)` rounded up to the
alignment boundary plus `8*(3*npoint)` plus `8*(npoint-2)`; and `unpack_task`
applied to the record written with `memflag = 1` returns the same count. -/
theorem pack_task_bytes {α : Type} [Zero α] (L : Layout) (itask buf : Nat) (e : Emit α)
    (w : Wire α) (hpos : 0 < L.align) (hsz : 0 < L.sizeof_Task) (hal : L.align ∣ buf)
    (hit : itask < e.ntaskmax) (hlive : Live e itask) :
    ∃ w1,
      pack_task L itask buf 0 e w
        = some ((ROUNDUP L L.sizeof_Task : Int) + 8 * (3 * (e.tasks itask).npoint)
            + 8 * ((e.tasks itask).npoint - 2), w)
      ∧ pack_task L itask buf 1 e w
        = some ((ROUNDUP L L.sizeof_Task : Int) + 8 * (3 * (e.tasks itask).npoint)
            + 8 * ((e.tasks itask).npoint - 2), w1)
      ∧ ∀ (grid : Grid α) (icell : Int) (e2 : Emit α), e2.ntask ≤ e2.ntaskmax →
          (unpack_pcell grid icell (e.tasks itask).isurf).isSome →
          ∃ e3, unpack_task L grid buf icell w1 e2
            = some ((ROUNDUP L L.sizeof_Task : Int) + 8 * (3 * (e.tasks itask).npoint)
                + 8 * ((e.tasks itask).npoint - 2), e3) := by
  obtain ⟨hnp, hp, hf⟩ := hlive
  obtain ⟨pb, hpb⟩ := Option.isSome_iff_exists.mp hp
  obtain ⟨fb, hfb⟩ := Option.isSome_iff_exists.mp hf
  have hcount : (ROUNDUP L (buf + L.sizeof_Task) : Int)
      + (e.tasks itask).npoint * 3 * (SIZEOF_DOUBLE : Int)
      + ((e.tasks itask).npoint - 2) * (SIZEOF_DOUBLE : Int) - (buf : Int)
      = (ROUNDUP L L.sizeof_Task : Int) + 8 * (3 * (e.tasks itask).npoint)
        + 8 * ((e.tasks itask).npoint - 2) := by
    rw [ROUNDUP_add L hpos buf _ hal]
    have h8 : (SIZEOF_DOUBLE : Int) = 8 := rfl
    rw [h8]
    push_cast
    ring
  refine ⟨Wire.put_doubles
      (Wire.put_doubles (Function.update w buf (some (WItem.task (e.tasks itask))))
        (ROUNDUP L (buf + L.sizeof_Task)) pb)
      (ROUNDUP L (buf + L.sizeof_Task)
        + ((e.tasks itask).npoint * 3).toNat * SIZEOF_DOUBLE) fb, ?_, ?_, ?_⟩
  · rw [pack_task_query L itask buf e w hit, hcount]
  · rw [pack_task_write L itask buf 1 e w pb fb (by decide) hit hnp hpb hfb, hcount]
  · intro grid icell e2 hcap hpc
    obtain ⟨pcell, hpcell⟩ := Option.isSome_iff_exists.mp hpc
    obtain ⟨h1, h2, h3⟩ := packed_wire L buf w (e.tasks itask) pb fb hpos hsz
      (Heap.read_length _ _ _ _ hpb) (Heap.read_length _ _ _ _ hfb)
    have hk : (if e2.ntask = e2.ntaskmax then grow_task e2 else e2).ntask
        < (if e2.ntask = e2.ntaskmax then grow_task e2 else e2).ntaskmax := by
      split_ifs with hc
      · show e2.ntask < e2.ntaskmax + DELTATASK
        have : DELTATASK = 256 := rfl
        omega
      · omega
    unfold unpack_task
    rw [unpack_task_slot_eq L grid buf icell _ _ (e.tasks itask) pb fb pcell hk h1 hnp h2 h3
      hpcell, hcount]
    exact ⟨_, rfl⟩

/-- C4. Round trip: for a live task of a store whose buffers are not shared,
any buffer address (on the alignment boundary or not) and a cell for which
the re-resolution of `pcell` is defined, `pack_task(itask, buf, 1)` followed by
`unpack_task(buf, icell)` appends a task with the scalar members of the packed
task (`area`, `npoint`, `isurf`, tangents, `nrho`, temperatures, `vstream`),
with buffers holding the `3*npoint` path doubles and the `npoint-2` `fracarea`
doubles of the packed task, with `icell` the given cell and with `pcell` the
value that the re-resolution of `post_compress_grid` gives for
`(icell, isurf)`; both calls return the same byte count. -/
theorem pack_unpack_roundtrip {α : Type} [Zero α] (L : Layout) (grid : Grid α)
    (itask buf : Nat) (icell : Int) (e : Emit α) (w : Wire α)
    (hpos : 0 < L.align) (hsz : 0 < L.sizeof_Task)
    (hown : Owns e) (hcap : e.ntask ≤ e.ntaskmax)
    (hit : itask < e.ntaskmax) (hlive : Live e itask)
    (hres : (post_compress_pcell grid icell (e.tasks itask).isurf).isSome) :
    ∃ c w1 e1, pack_task L itask buf 1 e w = some (c, w1)
      ∧ unpack_task L grid buf icell w1 e = some (c, e1)
      ∧ e1.ntask = e.ntask + 1
      ∧ e1.tasks e.ntask
          = { e.tasks itask with
              path := (e1.tasks e.ntask).path
              fracarea := (e1.tasks e.ntask).fracarea
              icell := icell
              pcell := (e1.tasks e.ntask).pcell }
      ∧ e1.heap.buf (e1.tasks e.ntask).path
          = e.heap.read (e.tasks itask).path ((e.tasks itask).npoint * 3).toNat
      ∧ e1.heap.buf (e1.tasks e.ntask).fracarea
          = e.heap.read (e.tasks itask).fracarea ((e.tasks itask).npoint - 2).toNat
      ∧ post_compress_pcell grid icell (e.tasks itask).isurf
          = some (e1.tasks e.ntask).pcell := by
  obtain ⟨hnp, hp, hf⟩ := hlive
  obtain ⟨pb, hpb⟩ := Option.isSome_iff_exists.mp hp
  obtain ⟨fb, hfb⟩ := Option.isSome_iff_exists.mp hf
  obtain ⟨pcell, hpcell⟩ := Option.isSome_iff_exists.mp hres
  have hpc : unpack_pcell grid icell (e.tasks itask).isurf = some pcell := hpcell
  obtain ⟨h1, h2, h3⟩ := packed_wire L buf w (e.tasks itask) pb fb hpos hsz
    (Heap.read_length _ _ _ _ hpb) (Heap.read_length _ _ _ _ hfb)
  -- the engine once the slot exists
  have he : ∃ e2 : Emit α, e2 = (if e.ntask = e.ntaskmax then grow_task e else e)
      ∧ Owns e2 ∧ e2.ntask = e.ntask ∧ e2.heap = e.heap ∧ e2.ntask < e2.ntaskmax := by
    refine ⟨_, rfl, ?_⟩
    split_ifs with hc
    · refine ⟨Owns.grow _ hown, rfl, rfl, ?_⟩
      show e.ntask < e.ntaskmax + DELTATASK
      have : DELTATASK = 256 := rfl
      omega
    · exact ⟨hown, rfl, rfl, by omega⟩
  obtain ⟨e2, he2, hown2, hnt2, hheap2, hk2⟩ := he
  have bk := hown2.below e2.ntask hk2
  have hpn := hown2.next_pos
  have hun := unpack_task_slot_eq L grid buf icell
    (Wire.put_doubles
      (Wire.put_doubles (Function.update w buf (some (WItem.task (e.tasks itask))))
        (ROUNDUP L (buf + L.sizeof_Task)) pb)
      (ROUNDUP L (buf + L.sizeof_Task)
        + ((e.tasks itask).npoint * 3).toNat * SIZEOF_DOUBLE) fb)
    e2 (e.tasks itask) pb fb pcell hk2 h1 hnp h2 h3 hpc
  rw [he2] at hun
  refine ⟨_, _, _, pack_task_write L itask buf 1 e w pb fb (by decide) hit hnp hpb hfb,
    hun, ?_⟩
  rw [← he2]
  dsimp only
  rw [← hnt2, Function.update_same]
  dsimp only
  refine ⟨rfl, rfl, ?_, ?_, hpcell⟩
  · rw [copy_step_buf, if_neg (by omega), if_neg (by omega), if_pos rfl, hpb]
  · rw [copy_step_buf, if_pos rfl, hfb]

/-- Witness of C4: the live task of slot 0 of `demoStore` packed at address 64
and unpacked for cell 0. -/
theorem pack_unpack_roundtrip_witness :
    ∃ c w1 e1, pack_task ⟨144, 8⟩ 0 64 1 demoStore (fun _ => none) = some (c, w1)
      ∧ unpack_task ⟨144, 8⟩ demoGrid 64 0 w1 demoStore = some (c, e1)
      ∧ e1.ntask = 2
      ∧ (e1.tasks 1).area = 1 / 2 ∧ (e1.tasks 1).npoint = 3
      ∧ e1.heap.buf (e1.tasks 1).path = some [0, 0, 0, 1, 0, 0, 0, 1, 0]
      ∧ e1.heap.buf (e1.tasks 1).fracarea = some [1] :=
  (pack_unpack_roundtrip ⟨144, 8⟩ demoGrid 0 64 0 demoStore (fun _ => none)
      (by decide) (by decide) demoStore_owns (by decide) (by decide) demoStore_live
      (by decide)).elim
    fun c h => h.elim fun w1 h => h.elim fun e1 h =>
      ⟨c, w1, e1, h.1, h.2.1, h.2.2.1,
        by rw [show (1 : Nat) = demoStore.ntask from rfl, h.2.2.2.1]; rfl,
        by rw [show (1 : Nat) = demoStore.ntask from rfl, h.2.2.2.1]; rfl,
        by rw [show (1 : Nat) = demoStore.ntask from rfl, h.2.2.2.2.1]; rfl,
        by rw [show (1 : Nat) = demoStore.ntask from rfl, h.2.2.2.2.2.1]; rfl⟩

/-- Witness of C5: the live task of slot 0 of `demoStore` (3 points) at the
aligned address 64 with a header of 144 bytes: 144 + 72 + 8 = 224 bytes. -/
theorem pack_task_bytes_witness :
    ∃ w1, pack_task ⟨144, 8⟩ 0 64 0 demoStore (fun _ => none) = some (224, fun _ => none)
      ∧ pack_task ⟨144, 8⟩ 0 64 1 demoStore (fun _ => none) = some (224, w1)
      ∧ ∃ e3, unpack_task ⟨144, 8⟩ demoGrid 64 0 w1 demoStore = some (224, e3) :=
  (pack_task_bytes ⟨144, 8⟩ 0 64 demoStore (fun _ => none) (by decide) (by decide)
      (by decide) (by decide) demoStore_live).elim
    fun w1 h => ⟨w1, h.1, h.2.1, h.2.2 demoGrid 0 demoStore (by decide) (by decide)⟩

/-! ### Capacity of the store -/

theorem create_task_loop_ntaskmax {α : Type} [LinearOrderedField α] (X : Ext α)
    (grid : Grid α) (surf : Surf α) (mix : Mixture α) (icell : Int) (cell : ChildCell α)
    (k : Nat) : ∀ (i : Nat) (b b1 : Build α),
      create_task_loop X grid surf mix icell cell k i b = Except.ok b1 →
      b.e.ntaskmax ≤ b1.e.ntaskmax := by
  induction k with
  | zero =>
    intro i b b1 h
    simp only [create_task_loop, Except.ok.injEq] at h
    rw [h]
  | succ k ih =>
    intro i b b1 h
    rw [create_task_loop] at h
    split at h
    · cases h
    · rename_i bm hbm
      exact le_trans (create_task_surf_ntaskmax X grid surf mix icell cell i b bm hbm)
        (ih _ _ _ h)

theorem create_task_ntaskmax {α : Type} [LinearOrderedField α] (X : Ext α)
    (grid : Grid α) (surf : Surf α) (mix : Mixture α) (icell : Int) (b b1 : Build α)
    (h : create_task X grid surf mix icell b = Except.ok b1) :
    b.e.ntaskmax ≤ b1.e.ntaskmax := by
  unfold create_task at h
  split at h
  · cases h
  · split_ifs at h
    · cases h
      exact le_rfl
    · exact create_task_loop_ntaskmax X grid surf mix icell _ _ _ _ _ h

/-- C8. `grow_task` raises the capacity `ntaskmax` by exactly 256
(`DELTATASK`), leaves `ntask`, the heap and every slot below the old
`ntaskmax` unchanged, and leaves every slot with index in
`[old ntaskmax, new ntaskmax)` with all members zero and with null `path` and
`fracarea`; and none of the operations that work on the store (`grow_task`,
`copy_task`, `unpack_task`, `post_compress_grid`, `create_task`) decreases
`ntaskmax`. -/
theorem grow_task_spec {α : Type} [LinearOrderedField α] (e : Emit α) :
    (grow_task e).ntaskmax = e.ntaskmax + 256
    ∧ (grow_task e).ntask = e.ntask
    ∧ (grow_task e).heap = e.heap
    ∧ (∀ i, i < e.ntaskmax → (grow_task e).tasks i = e.tasks i)
    ∧ (∀ i, e.ntaskmax ≤ i → i < e.ntaskmax + 256 →
        (grow_task e).tasks i = Task.zero
        ∧ ((grow_task e).tasks i).path = 0 ∧ ((grow_task e).tasks i).fracarea = 0)
    ∧ e.ntaskmax ≤ (grow_task e).ntaskmax
    ∧ (∀ icell n first oldfirst e1, copy_task icell n first oldfirst e = some e1 →
        e.ntaskmax ≤ e1.ntaskmax)
    ∧ (∀ L (grid : Grid α) buf icell w c e1, unpack_task L grid buf icell w e = some (c, e1) →
        e.ntaskmax ≤ e1.ntaskmax)
    ∧ (∀ (grid : Grid α) e1, post_compress_grid grid e = some e1 → e.ntaskmax ≤ e1.ntaskmax)
    ∧ (∀ X (grid : Grid α) surf mix icell states rng b1,
        create_task X grid surf mix icell { e := e, states := states, rng := rng }
          = Except.ok b1 →
        e.ntaskmax ≤ b1.e.ntaskmax) := by
  refine ⟨rfl, rfl, rfl, fun i hi => grow_task_old e i hi, ?_, Nat.le_add_right _ _, ?_, ?_,
    ?_, ?_⟩
  · intro i h1 h2
    have h := grow_task_new e i h1 h2
    rw [h]
    exact ⟨rfl, rfl, rfl⟩
  · intro icell n first oldfirst e1 h
    rw [copy_task_ntaskmax icell n first oldfirst e e1 h]
  · intro L grid buf icell w c e1 h
    rcases unpack_task_ntaskmax L grid buf icell w e e1 c h with h1 | h1 <;> rw [h1]
    exact Nat.le_add_right _ _
  · intro grid e1 h
    unfold post_compress_grid at h
    rw [post_compress_loop_ntaskmax grid _ _ _ _ h]
  · intro X grid surf mix icell states rng b1 h
    exact create_task_ntaskmax X grid surf mix icell _ b1 h

/-! ### `perform_task` and the quota -/

theorem build_2d_fields {α : Type} [Field α] (X : Ext α) (axisymmetric : Int) (normal : Vec3 α)
    (cpath : List α) (t : Task α) (h : Heap α) (r : Task α × Heap α)
    (hr : build_2d X axisymmetric normal cpath t h = some r) :
    r.1.npoint = 2 ∧ r.1.icell = t.icell ∧ r.1.isurf = t.isurf ∧ r.1.pcell = t.pcell
      ∧ r.1.tan1 = ⟨normal.y, -normal.x, 0⟩ ∧ r.1.tan2 = ⟨0, 0, 1⟩ := by
  unfold build_2d at hr
  dsimp only at hr
  repeat' (first | split_ifs at hr | split at hr)
  all_goals (cases hr <;> exact ⟨rfl, rfl, rfl, rfl, rfl, rfl⟩)

theorem build_3d_fields {α : Type} [LinearOrderedField α] (X : Ext α) (normal : Vec3 α)
    (npoint : Int) (cpath : List α) (t : Task α) (h : Heap α) (rng : Rng α)
    (r : Task α × Heap α × Rng α)
    (hr : build_3d X normal npoint cpath t h rng = some r) :
    r.1.npoint = npoint ∧ r.1.icell = t.icell ∧ r.1.isurf = t.isurf ∧ r.1.pcell = t.pcell
      ∧ r.1.tan1 = norm3 X.ops (cross3 normal
          ⟨rng.draws rng.pos, rng.draws (rng.pos + 1), rng.draws (rng.pos + 2)⟩)
      ∧ r.1.tan2 = norm3 X.ops (cross3 normal (norm3 X.ops (cross3 normal
          ⟨rng.draws rng.pos, rng.draws (rng.pos + 1), rng.draws (rng.pos + 2)⟩)))
      ∧ r.2.2.draws = rng.draws ∧ r.2.2.pos = rng.pos + 3 := by
  unfold build_3d at hr
  dsimp only at hr
  repeat' (first | split_ifs at hr | split at hr)
  all_goals (cases hr <;> exact ⟨rfl, rfl, rfl, rfl, rfl, rfl, rfl, rfl⟩)

/-- The slot part of one pass of `create_task`: whether a task is appended, and
the cell, surface, point count and tangents of the appended task. -/
theorem create_task_slot_fields {α : Type} [LinearOrderedField α] (X : Ext α)
    (grid : Grid α) (surf : Surf α) (mix : Mixture α) (icell : Int) (cell : ChildCell α)
    (i : Nat) (isurf : Int) (e : Emit α) (states : Nat → SurfState α) (rng : Rng α)
    (b1 : Build α)
    (h : create_task_slot X grid surf mix icell cell i isurf e states rng = Except.ok b1) :
    e.ntask < e.ntaskmax ∧ b1.e.dimension = e.dimension ∧ b1.e.groupbit = e.groupbit
      ∧ b1.e.ntaskmax = e.ntaskmax ∧ b1.rng.draws = rng.draws
      ∧ (∀ j, j ≠ e.ntask → b1.e.tasks j = e.tasks j)
      ∧ (e.dimension = 2 → ∃ line, idx? surf.lines isurf = some line
          ∧ ((X.clip2d line.p1 line.p2 cell.lo cell.hi).1 < 2 → b1.e.ntask = e.ntask)
          ∧ (2 ≤ (X.clip2d line.p1 line.p2 cell.lo cell.hi).1 →
              b1.e.ntask = e.ntask + 1
              ∧ (b1.e.tasks e.ntask).icell = icell ∧ (b1.e.tasks e.ntask).isurf = isurf
              ∧ (b1.e.tasks e.ntask).npoint = 2
              ∧ (b1.e.tasks e.ntask).tan1 = ⟨line.norm.y, -line.norm.x, 0⟩
              ∧ (b1.e.tasks e.ntask).tan2 = ⟨0, 0, 1⟩))
      ∧ (e.dimension ≠ 2 → ∃ tri, idx? surf.tris isurf = some tri
          ∧ ((X.clip3d tri.p1 tri.p2 tri.p3 cell.lo cell.hi).1 < 3 → b1.e.ntask = e.ntask)
          ∧ (3 ≤ (X.clip3d tri.p1 tri.p2 tri.p3 cell.lo cell.hi).1 →
              b1.e.ntask = e.ntask + 1
              ∧ (b1.e.tasks e.ntask).icell = icell ∧ (b1.e.tasks e.ntask).isurf = isurf
              ∧ (b1.e.tasks e.ntask).npoint = (X.clip3d tri.p1 tri.p2 tri.p3 cell.lo cell.hi).1
              ∧ (b1.e.tasks e.ntask).tan1 = norm3 X.ops (cross3 tri.norm
                  ⟨rng.draws rng.pos, rng.draws (rng.pos + 1), rng.draws (rng.pos + 2)⟩)
              ∧ (b1.e.tasks e.ntask).tan2 = norm3 X.ops (cross3 tri.norm (norm3 X.ops
                  (cross3 tri.norm
                    ⟨rng.draws rng.pos, rng.draws (rng.pos + 1), rng.draws (rng.pos + 2)⟩))))) := by
  unfold create_task_slot at h
  by_cases hlt : e.ntask < e.ntaskmax
  swap
  · rw [if_neg hlt] at h
    cases h
  rw [if_pos hlt] at h
  cases hpc : create_pcell grid cell icell i with
  | none =>
    rw [hpc] at h
    cases h
  | some pcell =>
    rw [hpc] at h
    dsimp only at h
    by_cases hd : e.dimension = 2
    · rw [if_pos hd] at h
      cases hl : idx? surf.lines isurf with
      | none =>
        rw [hl] at h
        cases h
      | some line =>
        rw [hl] at h
        dsimp only at h
        by_cases hc : (X.clip2d line.p1 line.p2 cell.lo cell.hi).1 < 2
        · rw [if_pos hc] at h
          cases h
          refine ⟨hlt, rfl, rfl, rfl, rfl, ?_, ?_, fun hn => absurd hd hn⟩
          · intro j hj
            exact Function.update_noteq hj _ _
          · intro _
            exact ⟨line, rfl, fun _ => rfl, fun h2 => absurd hc (not_lt.mpr h2)⟩
        · rw [if_neg hc] at h
          cases hb : build_2d X e.axisymmetric line.norm
              (X.clip2d line.p1 line.p2 cell.lo cell.hi).2
              { e.tasks e.ntask with icell := icell, isurf := isurf, pcell := pcell } e.heap with
          | none =>
            rw [hb] at h
            cases h
          | some r =>
            rw [hb] at h
            obtain ⟨f1, f2, f3, -, f5, f6⟩ := build_2d_fields X _ _ _ _ _ r hb
            cases h
            refine ⟨hlt, rfl, rfl, rfl, rfl, ?_, ?_, fun hn => absurd hd hn⟩
            · intro j hj
              exact Function.update_noteq hj _ _
            · intro _
              refine ⟨line, rfl, fun h2 => absurd h2 hc, fun _ => ⟨rfl, ?_, ?_, ?_, ?_, ?_⟩⟩
              · show ((Function.update e.tasks e.ntask (snapshot mix r.1)) e.ntask).icell = icell
                rw [Function.update_same]
                exact f2
              · show ((Function.update e.tasks e.ntask (snapshot mix r.1)) e.ntask).isurf = isurf
                rw [Function.update_same]
                exact f3
              · show ((Function.update e.tasks e.ntask (snapshot mix r.1)) e.ntask).npoint = 2
                rw [Function.update_same]
                exact f1
              · show ((Function.update e.tasks e.ntask (snapshot mix r.1)) e.ntask).tan1 = _
                rw [Function.update_same]
                exact f5
              · show ((Function.update e.tasks e.ntask (snapshot mix r.1)) e.ntask).tan2 = _
                rw [Function.update_same]
                exact f6
    · rw [if_neg hd] at h
      cases hl : idx? surf.tris isurf with
      | none =>
        rw [hl] at h
        cases h
      | some tri =>
        rw [hl] at h
        dsimp only at h
        by_cases hc : (X.clip3d tri.p1 tri.p2 tri.p3 cell.lo cell.hi).1 < 3
        · rw [if_pos hc] at h
          cases h
          refine ⟨hlt, rfl, rfl, rfl, rfl, ?_, fun hn => absurd hn hd, ?_⟩
          · intro j hj
            exact Function.update_noteq hj _ _
          · intro _
            exact ⟨tri, rfl, fun _ => rfl, fun h2 => absurd hc (not_lt.mpr h2)⟩
        · rw [if_neg hc] at h
          cases hb : build_3d X tri.norm (X.clip3d tri.p1 tri.p2 tri.p3 cell.lo cell.hi).1
              (X.clip3d tri.p1 tri.p2 tri.p3 cell.lo cell.hi).2
              { e.tasks e.ntask with icell := icell, isurf := isurf, pcell := pcell } e.heap
              rng with
          | none =>
            rw [hb] at h
            cases h
          | some r =>
            rw [hb] at h
            obtain ⟨f1, f2, f3, -, f5, f6, f7, -⟩ := build_3d_fields X _ _ _ _ _ _ r hb
            dsimp only at h
            cases hn : bind_net tri.surfaceState r.1.area e.net states with
            | error a =>
              rw [hn] at h
              cases h
            | ok n =>
              rw [hn] at h
              cases h
              refine ⟨hlt, rfl, rfl, rfl, f7, ?_, fun hn => absurd hn hd, ?_⟩
              · intro j hj
                exact Function.update_noteq hj _ _
              · intro _
                refine ⟨tri, rfl, fun h2 => absurd h2 hc, fun _ => ⟨rfl, ?_, ?_, ?_, ?_, ?_⟩⟩
                · show ((Function.update e.tasks e.ntask (snapshot mix r.1)) e.ntask).icell = icell
                  rw [Function.update_same]
                  exact f2
                · show ((Function.update e.tasks e.ntask (snapshot mix r.1)) e.ntask).isurf = isurf
                  rw [Function.update_same]
                  exact f3
                · show ((Function.update e.tasks e.ntask (snapshot mix r.1)) e.ntask).npoint = _
                  rw [Function.update_same]
                  exact f1
                · show ((Function.update e.tasks e.ntask (snapshot mix r.1)) e.ntask).tan1 = _
                  rw [Function.update_same]
                  exact f5
                · show ((Function.update e.tasks e.ntask (snapshot mix r.1)) e.ntask).tan2 = _
                  rw [Function.update_same]
                  exact f6

/-- One pass of the loop of `create_task`: the surface at index `i` gets a
task exactly when `task_npoint` gives it a point count. -/
theorem create_task_surf_fields {α : Type} [LinearOrderedField α] (X : Ext α)
    (grid : Grid α) (surf : Surf α) (mix : Mixture α) (icell : Int) (cell : ChildCell α)
    (i : Nat) (b b1 : Build α)
    (h : create_task_surf X grid surf mix icell cell i b = Except.ok b1)
    (hcap : b.e.ntask ≤ b.e.ntaskmax) :
    ∃ isurf, cell.csurfs[i]? = some isurf
      ∧ b1.e.dimension = b.e.dimension ∧ b1.e.groupbit = b.e.groupbit
      ∧ b1.e.ntask ≤ b1.e.ntaskmax ∧ b1.rng.draws = b.rng.draws
      ∧ (∀ j, j < b.e.ntask → b1.e.tasks j = b.e.tasks j)
      ∧ (task_npoint X surf b.e.dimension b.e.groupbit cell isurf = none →
          b1.e.ntask = b.e.ntask)
      ∧ (∀ n, task_npoint X surf b.e.dimension b.e.groupbit cell isurf = some n →
          b1.e.ntask = b.e.ntask + 1
          ∧ (b1.e.tasks b.e.ntask).icell = icell ∧ (b1.e.tasks b.e.ntask).isurf = isurf
          ∧ (b1.e.tasks b.e.ntask).npoint = n
          ∧ TangentsOf X surf b.e.dimension b.rng.draws b.rng.pos (b1.e.tasks b.e.ntask)) := by
  unfold create_task_surf at h
  cases hs : cell.csurfs[i]? with
  | none =>
    rw [hs] at h
    cases h
  | some isurf =>
    rw [hs] at h
    dsimp only at h
    refine ⟨isurf, rfl, ?_⟩
    by_cases hd : b.e.dimension = 2
    · rw [if_pos hd] at h
      cases hl : idx? surf.lines isurf with
      | none =>
        rw [hl] at h
        cases h
      | some line =>
        rw [hl] at h
        simp only [Option.map_some'] at h
        have htn : task_npoint X surf b.e.dimension b.e.groupbit cell isurf
            = if line.mask &&& b.e.groupbit ≠ 0
                ∧ 2 ≤ (X.clip2d line.p1 line.p2 cell.lo cell.hi).1 then some 2 else none := by
          unfold task_npoint
          rw [if_pos hd, hl]
        rw [htn]
        by_cases hm : line.mask &&& b.e.groupbit = 0
        · rw [if_pos hm] at h
          cases h
          refine ⟨rfl, rfl, hcap, rfl, fun _ _ => rfl, fun _ => rfl, ?_⟩
          intro n hn
          rw [if_neg (fun hc => hc.1 hm)] at hn
          cases hn
        · rw [if_neg hm] at h
          obtain ⟨g1, g2, g3, g4, g7, g5, g6, -⟩ :=
            create_task_slot_fields X grid surf mix icell cell i isurf _ _ _ b1 h
          have he : (if b.e.ntask = b.e.ntaskmax then grow_task b.e else b.e).ntask
              = b.e.ntask := by
            split_ifs <;> rfl
          have hdim : (if b.e.ntask = b.e.ntaskmax then grow_task b.e else b.e).dimension
              = b.e.dimension := by
            split_ifs <;> rfl
          have hgb : (if b.e.ntask = b.e.ntaskmax then grow_task b.e else b.e).groupbit
              = b.e.groupbit := by
            split_ifs <;> rfl
          have htk : ∀ j, j < b.e.ntask →
              (if b.e.ntask = b.e.ntaskmax then grow_task b.e else b.e).tasks j
                = b.e.tasks j := by
            intro j hj
            split_ifs
            · exact grow_task_old b.e j (by omega)
            · rfl
          rw [he] at g1 g5 g6
          rw [hdim] at g2 g6
          rw [hgb] at g3
          obtain ⟨line2, hl2, k1, k2⟩ := g6 hd
          rw [hl] at hl2
          cases hl2
          refine ⟨g2, g3, ?_, g7, ?_, ?_, ?_⟩
          · by_cases hc : (X.clip2d line.p1 line.p2 cell.lo cell.hi).1 < 2
            · rw [k1 hc, g4]
              omega
            · rw [(k2 (not_lt.mp hc)).1, g4]
              omega
          · intro j hj
            rw [g5 j (by omega), htk j hj]
          · intro hn
            by_cases hc : (X.clip2d line.p1 line.p2 cell.lo cell.hi).1 < 2
            · exact k1 hc
            · rw [if_pos ⟨hm, not_lt.mp hc⟩] at hn
              cases hn
          · intro n hn
            by_cases hc : (X.clip2d line.p1 line.p2 cell.lo cell.hi).1 < 2
            · rw [if_neg (fun hc2 => absurd hc (not_lt.mpr hc2.2))] at hn
              cases hn
            · rw [if_pos ⟨hm, not_lt.mp hc⟩] at hn
              cases hn
              obtain ⟨q1, q2, q3, q4, q5, q6⟩ := k2 (not_lt.mp hc)
              refine ⟨q1, q2, q3, q4, ?_⟩
              unfold TangentsOf
              rw [if_pos hd, q3]
              exact ⟨line, hl, q5, q6⟩
    · rw [if_neg hd] at h
      cases hl : idx? surf.tris isurf with
      | none =>
        rw [hl] at h
        cases h
      | some tri =>
        rw [hl] at h
        simp only [Option.map_some'] at h
        have htn : task_npoint X surf b.e.dimension b.e.groupbit cell isurf
            = if tri.mask &&& b.e.groupbit ≠ 0
                ∧ 3 ≤ (X.clip3d tri.p1 tri.p2 tri.p3 cell.lo cell.hi).1 then
                some (X.clip3d tri.p1 tri.p2 tri.p3 cell.lo cell.hi).1 else none := by
          unfold task_npoint
          rw [if_neg hd, hl]
        rw [htn]
        by_cases hm : tri.mask &&& b.e.groupbit = 0
        · rw [if_pos hm] at h
          cases h
          refine ⟨rfl, rfl, hcap, rfl, fun _ _ => rfl, fun _ => rfl, ?_⟩
          intro n hn
          rw [if_neg (fun hc => hc.1 hm)] at hn
          cases hn
        · rw [if_neg hm] at h
          obtain ⟨g1, g2, g3, g4, g7, g5, -, g6⟩ :=
            create_task_slot_fields X grid surf mix icell cell i isurf _ _ _ b1 h
          have he : (if b.e.ntask = b.e.ntaskmax then grow_task b.e else b.e).ntask
              = b.e.ntask := by
            split_ifs <;> rfl
          have hdim : (if b.e.ntask = b.e.ntaskmax then grow_task b.e else b.e).dimension
              = b.e.dimension := by
            split_ifs <;> rfl
          have hgb : (if b.e.ntask = b.e.ntaskmax then grow_task b.e else b.e).groupbit
              = b.e.groupbit := by
            split_ifs <;> rfl
          have htk : ∀ j, j < b.e.ntask →
              (if b.e.ntask = b.e.ntaskmax then grow_task b.e else b.e).tasks j
                = b.e.tasks j := by
            intro j hj
            split_ifs
            · exact grow_task_old b.e j (by omega)
            · rfl
          rw [he] at g1 g5 g6
          rw [hdim] at g2 g6
          rw [hgb] at g3
          obtain ⟨tri2, hl2, k1, k2⟩ := g6 hd
          rw [hl] at hl2
          cases hl2
          refine ⟨g2, g3, ?_, g7, ?_, ?_, ?_⟩
          · by_cases hc : (X.clip3d tri.p1 tri.p2 tri.p3 cell.lo cell.hi).1 < 3
            · rw [k1 hc, g4]
              omega
            · rw [(k2 (not_lt.mp hc)).1, g4]
              omega
          · intro j hj
            rw [g5 j (by omega), htk j hj]
          · intro hn
            by_cases hc : (X.clip3d tri.p1 tri.p2 tri.p3 cell.lo cell.hi).1 < 3
            · exact k1 hc
            · rw [if_pos ⟨hm, not_lt.mp hc⟩] at hn
              cases hn
          · intro n hn
            by_cases hc : (X.clip3d tri.p1 tri.p2 tri.p3 cell.lo cell.hi).1 < 3
            · rw [if_neg (fun hc2 => absurd hc (not_lt.mpr hc2.2))] at hn
              cases hn
            · rw [if_pos ⟨hm, not_lt.mp hc⟩] at hn
              cases hn
              obtain ⟨q1, q2, q3, q4, q5, q6⟩ := k2 (not_lt.mp hc)
              refine ⟨q1, q2, q3, q4, ?_⟩
              unfold TangentsOf
              rw [if_neg hd, q3]
              refine ⟨tri, hl, q5, ?_⟩
              rw [q6, q5]

/-- The loop of `create_task` from index `i` with `k` indices left appends, in
list order, one task for each surface among `csurfs[i], ..., csurfs[i+k-1]`
that `task_npoint` gives a point count. -/
theorem create_task_loop_count {α : Type} [LinearOrderedField α] (X : Ext α)
    (grid : Grid α) (surf : Surf α) (mix : Mixture α) (icell : Int) (cell : ChildCell α)
    (k : Nat) : ∀ (i : Nat) (b b1 : Build α),
      create_task_loop X grid surf mix icell cell k i b = Except.ok b1 →
      b.e.ntask ≤ b.e.ntaskmax →
      b1.e.ntask ≤ b1.e.ntaskmax
        ∧ b1.e.dimension = b.e.dimension ∧ b1.e.groupbit = b.e.groupbit
        ∧ (∀ j, j < b.e.ntask → b1.e.tasks j = b.e.tasks j)
        ∧ b1.e.ntask = b.e.ntask
            + (emitting_surfs X surf b.e.dimension b.e.groupbit cell
                ((cell.csurfs.drop i).take k)).length
        ∧ (∀ m s n, (emitting_surfs X surf b.e.dimension b.e.groupbit cell
              ((cell.csurfs.drop i).take k))[m]? = some (s, n) →
            (b1.e.tasks (b.e.ntask + m)).icell = icell
            ∧ (b1.e.tasks (b.e.ntask + m)).isurf = s
            ∧ (b1.e.tasks (b.e.ntask + m)).npoint = n) := by
  induction k with
  | zero =>
    intro i b b1 h hcap
    unfold create_task_loop at h
    cases h
    refine ⟨hcap, rfl, rfl, fun _ _ => rfl, ?_, ?_⟩
    · simp [emitting_surfs]
    · intro m s n hm
      simp [emitting_surfs] at hm
  | succ k ih =>
    intro i b b1 h hcap
    unfold create_task_loop at h
    cases hs : create_task_surf X grid surf mix icell cell i b with
    | error a =>
      rw [hs] at h
      cases h
    | ok b2 =>
      rw [hs] at h
      dsimp only at h
      obtain ⟨isurf, hi, d2, g2, c2, -, t2, n2, s2⟩ :=
        create_task_surf_fields X grid surf mix icell cell i b b2 hs hcap
      obtain ⟨c1, d1, g1, t1, n1, s1⟩ := ih (i + 1) b2 b1 h c2
      rw [d2, g2] at n1 s1
      have hlt : i < cell.csurfs.length := by
        rcases Nat.lt_or_ge i cell.csurfs.length with hl | hl
        · exact hl
        · rw [List.getElem?_eq_none hl] at hi
          cases hi
      have hget : cell.csurfs[i] = isurf := by
        rw [List.getElem?_eq_getElem hlt] at hi
        exact Option.some.inj hi
      have hdrop : (cell.csurfs.drop i).take (k + 1)
          = isurf :: (cell.csurfs.drop (i + 1)).take k := by
        rw [List.drop_eq_getElem_cons hlt, List.take_succ_cons, hget]
      rw [hdrop]
      refine ⟨c1, d1.trans d2, g1.trans g2, ?_, ?_, ?_⟩
      · intro j hj
        have hle : b.e.ntask ≤ b2.e.ntask := by
          cases htn : task_npoint X surf b.e.dimension b.e.groupbit cell isurf with
          | none => rw [n2 htn]
          | some n => rw [(s2 n htn).1]; omega
        rw [t1 j (by omega), t2 j hj]
      · cases htn : task_npoint X surf b.e.dimension b.e.groupbit cell isurf with
        | none =>
          rw [n1, n2 htn]
          simp [emitting_surfs, List.filterMap_cons, htn]
        | some n =>
          rw [n1, (s2 n htn).1]
          simp [emitting_surfs, List.filterMap_cons, htn]
          omega
      · intro m s n hm
        cases htn : task_npoint X surf b.e.dimension b.e.groupbit cell isurf with
        | none =>
          have hm2 : (emitting_surfs X surf b.e.dimension b.e.groupbit cell
              ((cell.csurfs.drop (i + 1)).take k))[m]? = some (s, n) := by
            simpa [emitting_surfs, List.filterMap_cons, htn] using hm
          have := s1 m s n hm2
          rw [n2 htn] at this
          exact this
        | some n0 =>
          obtain ⟨q1, q2, q3, q4, -⟩ := s2 n0 htn
          have hcons : emitting_surfs X surf b.e.dimension b.e.groupbit cell
              (isurf :: (cell.csurfs.drop (i + 1)).take k)
              = (isurf, n0) :: emitting_surfs X surf b.e.dimension b.e.groupbit cell
                  ((cell.csurfs.drop (i + 1)).take k) := by
            simp [emitting_surfs, List.filterMap_cons, htn]
          rw [hcons] at hm
          cases m with
          | zero =>
            simp only [List.getElem?_cons_zero, Option.some.injEq, Prod.mk.injEq] at hm
            obtain ⟨e1, e2⟩ := hm
            subst e1
            subst e2
            rw [Nat.add_zero, t1 _ (by omega)]
            exact ⟨q2, q3, q4⟩
          | succ m =>
            rw [List.getElem?_cons_succ] at hm
            have := s1 m s n hm
            rw [q1] at this
            have he : b.e.ntask + (m + 1) = b.e.ntask + 1 + m := by omega
            rw [he]
            exact this

/-- C11. A run of `create_task(icell)` that returns appends exactly one task
for each surface among the first `nsurf` entries of the cell's surface list
that is in the configured group (`mask & groupbit != 0`) and whose clip has
at least 2 points (2-D) or 3 points (3-D), and none for the other surfaces:
`ntask` grows by the number of such surfaces, the new tasks stand in
surface-list order, task `ntask + m` having `icell` the cell, `isurf` the
`m`-th such surface and `npoint` 2 in 2-D and the clip's point count in 3-D;
the tasks that were there before are kept; and for a cell with `nsurf == 0`
the engine, the surface states and the random number generator are left as
they were. -/
theorem create_task_count {α : Type} [LinearOrderedField α] (X : Ext α)
    (grid : Grid α) (surf : Surf α) (mix : Mixture α) (icell : Int) (b b1 : Build α)
    (h : create_task X grid surf mix icell b = Except.ok b1)
    (hcap : b.e.ntask ≤ b.e.ntaskmax) :
    ∃ cell, idx? grid.cells icell = some cell
      ∧ b1.e.ntask = b.e.ntask
          + (emitting_surfs X surf b.e.dimension b.e.groupbit cell
              (cell.csurfs.take cell.nsurf.toNat)).length
      ∧ (∀ m s n, (emitting_surfs X surf b.e.dimension b.e.groupbit cell
            (cell.csurfs.take cell.nsurf.toNat))[m]? = some (s, n) →
          (b1.e.tasks (b.e.ntask + m)).icell = icell
          ∧ (b1.e.tasks (b.e.ntask + m)).isurf = s
          ∧ (b1.e.tasks (b.e.ntask + m)).npoint = n
          ∧ (if b.e.dimension = 2 then n = 2 else 3 ≤ n))
      ∧ (∀ j, j < b.e.ntask → b1.e.tasks j = b.e.tasks j)
      ∧ (cell.nsurf = 0 → b1 = b) := by
  unfold create_task at h
  cases hc : idx? grid.cells icell with
  | none =>
    rw [hc] at h
    cases h
  | some cell =>
    rw [hc] at h
    dsimp only at h
    refine ⟨cell, rfl, ?_⟩
    by_cases h0 : cell.nsurf = 0
    · rw [if_pos h0] at h
      cases h
      have ht : cell.nsurf.toNat = 0 := by rw [h0]; rfl
      rw [ht]
      refine ⟨by simp [emitting_surfs], ?_, fun _ _ => rfl, fun _ => rfl⟩
      intro m s n hm
      simp [emitting_surfs] at hm
    · rw [if_neg h0] at h
      obtain ⟨-, -, -, t1, n1, s1⟩ :=
        create_task_loop_count X grid surf mix icell cell cell.nsurf.toNat 0 b b1 h hcap
      rw [List.drop_zero] at n1 s1
      refine ⟨n1, ?_, t1, fun hc0 => absurd hc0 h0⟩
      intro m s n hm
      obtain ⟨q1, q2, q3⟩ := s1 m s n hm
      refine ⟨q1, q2, q3, ?_⟩
      have hmem := List.getElem?_mem hm
      unfold emitting_surfs at hmem
      rw [List.mem_filterMap] at hmem
      obtain ⟨a, -, ha⟩ := hmem
      unfold task_npoint at ha
      by_cases hd : b.e.dimension = 2
      · rw [if_pos hd] at ha ⊢
        cases hl : idx? surf.lines a with
        | none =>
          rw [hl] at ha
          cases ha
        | some line =>
          rw [hl] at ha
          dsimp only at ha
          split_ifs at ha with hcond
          · cases ha
            rfl
          · cases ha
      · rw [if_neg hd] at ha ⊢
        cases hl : idx? surf.tris a with
        | none =>
          rw [hl] at ha
          cases ha
        | some tri =>
          rw [hl] at ha
          dsimp only at ha
          split_ifs at ha with hcond
          · cases ha
            exact hcond.2
          · cases ha

/-- Witness of C11: the cell of the demonstration grid in a 2-D run; its one
surface is in the group and its clip has 2 points. -/
theorem create_task_count_witness :
    ∃ b1, create_task demoExt demoGrid demoSurf demoMix 0 (demoBuild 2) = Except.ok b1
      ∧ b1.e.ntask = 1
      ∧ ∃ cell, idx? demoGrid.cells 0 = some cell
        ∧ b1.e.ntask = (demoBuild 2).e.ntask
            + (emitting_surfs demoExt demoSurf (demoBuild 2).e.dimension
                (demoBuild 2).e.groupbit cell (cell.csurfs.take cell.nsurf.toNat)).length
        ∧ (∀ m s n, (emitting_surfs demoExt demoSurf (demoBuild 2).e.dimension
              (demoBuild 2).e.groupbit cell (cell.csurfs.take cell.nsurf.toNat))[m]?
              = some (s, n) →
            (b1.e.tasks ((demoBuild 2).e.ntask + m)).icell = 0
            ∧ (b1.e.tasks ((demoBuild 2).e.ntask + m)).isurf = s
            ∧ (b1.e.tasks ((demoBuild 2).e.ntask + m)).npoint = n
            ∧ (if (demoBuild 2).e.dimension = 2 then n = 2 else 3 ≤ n))
        ∧ (∀ j, j < (demoBuild 2).e.ntask → b1.e.tasks j = (demoBuild 2).e.tasks j)
        ∧ (cell.nsurf = 0 → b1 = demoBuild 2) :=
  demo_run_2d.elim fun b1 hb =>
    ⟨b1, hb.1, hb.2, create_task_count demoExt demoGrid demoSurf demoMix 0 (demoBuild 2) b1 hb.1
      (le_refl _)⟩

/-! ### Tangent vectors -/

theorem frame_2d {α : Type} [LinearOrderedField α] (n : Vec3 α) (hn : dot3 n n = 1)
    (hz : n.z = 0) : TangentFrame n ⟨n.y, -n.x, 0⟩ ⟨0, 0, 1⟩ := by
  obtain ⟨nx, ny, nz⟩ := n
  simp only [dot3] at hn
  simp only at hz
  subst hz
  refine ⟨?_, ?_, ?_, ?_, ?_⟩ <;> simp only [dot3]
  · linear_combination hn
  · ring
  · ring
  · ring
  · ring

theorem sq_sum_pos {α : Type} [LinearOrderedField α] (c : Vec3 α) (hc : c ≠ ⟨0, 0, 0⟩) :
    0 < c.x * c.x + c.y * c.y + c.z * c.z := by
  obtain ⟨x, y, z⟩ := c
  show 0 < x * x + y * y + z * z
  rcases lt_or_eq_of_le (add_nonneg (add_nonneg (mul_self_nonneg x) (mul_self_nonneg y))
    (mul_self_nonneg z)) with h | h
  · exact h
  · exfalso
    apply hc
    have hx : x * x = 0 := by nlinarith [mul_self_nonneg x, mul_self_nonneg y, mul_self_nonneg z]
    have hy : y * y = 0 := by nlinarith [mul_self_nonneg x, mul_self_nonneg y, mul_self_nonneg z]
    have hz : z * z = 0 := by nlinarith [mul_self_nonneg x, mul_self_nonneg y, mul_self_nonneg z]
    rw [mul_self_eq_zero.mp hx, mul_self_eq_zero.mp hy, mul_self_eq_zero.mp hz]

/-- The two tangents of lines 402-408 form a tangent frame of the unit normal
`n` when the seed `d` is not parallel to `n` and `sqrt` is a square root. -/
theorem frame_3d {α : Type} [LinearOrderedField α] (ops : MathOps α)
    (hsqrt : ∀ x, 0 ≤ x → ops.sqrt x * ops.sqrt x = x) (n d : Vec3 α)
    (hn : dot3 n n = 1) (hd : cross3 n d ≠ ⟨0, 0, 0⟩) :
    TangentFrame n (norm3 ops (cross3 n d))
      (norm3 ops (cross3 n (norm3 ops (cross3 n d)))) := by
  have hq := sq_sum_pos (cross3 n d) hd
  have hs := hsqrt _ hq.le
  obtain ⟨nx, ny, nz⟩ := n
  obtain ⟨dx, dy, dz⟩ := d
  simp only [dot3] at hn
  simp only [cross3] at hq hs
  set q := (ny * dz - nz * dy) * (ny * dz - nz * dy) + (nz * dx - nx * dz) * (nz * dx - nx * dz)
    + (nx * dy - ny * dx) * (nx * dy - ny * dx) with hqdef
  set s := ops.sqrt q with hsdef
  have hs0 : s ≠ 0 := by
    intro h0
    rw [h0, mul_zero] at hs
    exact absurd hs.symm (ne_of_gt hq)
  -- the first tangent
  set t1 : Vec3 α := norm3 ops (cross3 ⟨nx, ny, nz⟩ ⟨dx, dy, dz⟩) with ht1
  have ht1x : t1.x = (ny * dz - nz * dy) * (1 / s) := rfl
  have ht1y : t1.y = (nz * dx - nx * dz) * (1 / s) := rfl
  have ht1z : t1.z = (nx * dy - ny * dx) * (1 / s) := rfl
  have h11 : t1.x * t1.x + t1.y * t1.y + t1.z * t1.z = 1 := by
    rw [ht1x, ht1y, ht1z]
    have : (ny * dz - nz * dy) * (1 / s) * ((ny * dz - nz * dy) * (1 / s))
        + (nz * dx - nx * dz) * (1 / s) * ((nz * dx - nx * dz) * (1 / s))
        + (nx * dy - ny * dx) * (1 / s) * ((nx * dy - ny * dx) * (1 / s))
        = q / (s * s) := by
      rw [hqdef]
      field_simp
    rw [this, hs]
    exact div_self (ne_of_gt hq)
  have h1n : t1.x * nx + t1.y * ny + t1.z * nz = 0 := by
    rw [ht1x, ht1y, ht1z]
    ring
  -- the second tangent
  have hq2 : (ny * t1.z - nz * t1.y) * (ny * t1.z - nz * t1.y)
      + (nz * t1.x - nx * t1.z) * (nz * t1.x - nx * t1.z)
      + (nx * t1.y - ny * t1.x) * (nx * t1.y - ny * t1.x) = 1 := by
    have hl : (ny * t1.z - nz * t1.y) * (ny * t1.z - nz * t1.y)
        + (nz * t1.x - nx * t1.z) * (nz * t1.x - nx * t1.z)
        + (nx * t1.y - ny * t1.x) * (nx * t1.y - ny * t1.x)
        = (nx * nx + ny * ny + nz * nz) * (t1.x * t1.x + t1.y * t1.y + t1.z * t1.z)
          - (t1.x * nx + t1.y * ny + t1.z * nz) * (t1.x * nx + t1.y * ny + t1.z * nz) := by
      ring
    rw [hl, hn, h11, h1n]
    ring
  have hs2 := hsqrt 1 zero_le_one
  set s2 := ops.sqrt 1 with hs2def
  have hs20 : s2 ≠ 0 := by
    intro h0
    rw [h0, mul_zero] at hs2
    exact zero_ne_one hs2
  have hi2 : (1 / s2) * (1 / s2) = 1 := by
    field_simp
    exact hs2.symm
  have ht2 : norm3 ops (cross3 ⟨nx, ny, nz⟩ t1)
      = ⟨(ny * t1.z - nz * t1.y) * (1 / s2), (nz * t1.x - nx * t1.z) * (1 / s2),
         (nx * t1.y - ny * t1.x) * (1 / s2)⟩ := by
    show (⟨_, _, _⟩ : Vec3 α) = _
    simp only [cross3]
    rw [hq2]
  rw [ht2]
  refine ⟨h11, ?_, h1n, ?_, ?_⟩
  · show (ny * t1.z - nz * t1.y) * (1 / s2) * ((ny * t1.z - nz * t1.y) * (1 / s2))
      + (nz * t1.x - nx * t1.z) * (1 / s2) * ((nz * t1.x - nx * t1.z) * (1 / s2))
      + (nx * t1.y - ny * t1.x) * (1 / s2) * ((nx * t1.y - ny * t1.x) * (1 / s2)) = 1
    have : (ny * t1.z - nz * t1.y) * (1 / s2) * ((ny * t1.z - nz * t1.y) * (1 / s2))
      + (nz * t1.x - nx * t1.z) * (1 / s2) * ((nz * t1.x - nx * t1.z) * (1 / s2))
      + (nx * t1.y - ny * t1.x) * (1 / s2) * ((nx * t1.y - ny * t1.x) * (1 / s2))
      = ((ny * t1.z - nz * t1.y) * (ny * t1.z - nz * t1.y)
      + (nz * t1.x - nx * t1.z) * (nz * t1.x - nx * t1.z)
      + (nx * t1.y - ny * t1.x) * (nx * t1.y - ny * t1.x)) * ((1 / s2) * (1 / s2)) := by ring
    rw [this, hq2, hi2, mul_one]
  · show (ny * t1.z - nz * t1.y) * (1 / s2) * nx + (nz * t1.x - nx * t1.z) * (1 / s2) * ny
      + (nx * t1.y - ny * t1.x) * (1 / s2) * nz = 0
    ring
  · show t1.x * ((ny * t1.z - nz * t1.y) * (1 / s2))
      + t1.y * ((nz * t1.x - nx * t1.z) * (1 / s2))
      + t1.z * ((nx * t1.y - ny * t1.x) * (1 / s2)) = 0
    ring

/-- The loop of `create_task`: every task it appends has the tangents of lines
352-357 (2-D) or 402-408 (3-D), the seed of a 3-D task being three
consecutive draws of the random number generator. -/
theorem create_task_loop_tangents {α : Type} [LinearOrderedField α] (X : Ext α)
    (grid : Grid α) (surf : Surf α) (mix : Mixture α) (icell : Int) (cell : ChildCell α)
    (k : Nat) : ∀ (i : Nat) (b b1 : Build α),
      create_task_loop X grid surf mix icell cell k i b = Except.ok b1 →
      b.e.ntask ≤ b.e.ntaskmax →
      b1.e.ntask ≤ b1.e.ntaskmax ∧ b.e.ntask ≤ b1.e.ntask
        ∧ b1.e.dimension = b.e.dimension ∧ b1.rng.draws = b.rng.draws
        ∧ (∀ j, j < b.e.ntask → b1.e.tasks j = b.e.tasks j)
        ∧ (∀ j, b.e.ntask ≤ j → j < b1.e.ntask →
            ∃ p, TangentsOf X surf b.e.dimension b.rng.draws p (b1.e.tasks j)) := by
  induction k with
  | zero =>
    intro i b b1 h hcap
    unfold create_task_loop at h
    cases h
    exact ⟨hcap, le_refl _, rfl, rfl, fun _ _ => rfl, fun j h1 h2 => absurd h2 (not_lt.mpr h1)⟩
  | succ k ih =>
    intro i b b1 h hcap
    unfold create_task_loop at h
    cases hs : create_task_surf X grid surf mix icell cell i b with
    | error a =>
      rw [hs] at h
      cases h
    | ok b2 =>
      rw [hs] at h
      dsimp only at h
      obtain ⟨isurf, -, d2, -, c2, r2, t2, n2, s2⟩ :=
        create_task_surf_fields X grid surf mix icell cell i b b2 hs hcap
      obtain ⟨c1, l1, d1, r1, t1, s1⟩ := ih (i + 1) b2 b1 h c2
      rw [d2, r2] at s1
      cases htn : task_npoint X surf b.e.dimension b.e.groupbit cell isurf with
      | none =>
        have hn := n2 htn
        rw [hn] at l1 t1 s1
        exact ⟨c1, l1, d1.trans d2, r1.trans r2, fun j hj => by rw [t1 j hj, t2 j hj], s1⟩
      | some n =>
        obtain ⟨q1, -, -, -, q5⟩ := s2 n htn
        rw [q1] at l1 t1 s1
        refine ⟨c1, by omega, d1.trans d2, r1.trans r2, ?_, ?_⟩
        · intro j hj
          rw [t1 j (by omega), t2 j hj]
        · intro j hj1 hj2
          rcases Nat.lt_or_ge j (b.e.ntask + 1) with hlt | hge
          · have hj : j = b.e.ntask := by omega
            subst hj
            refine ⟨b.rng.pos, ?_⟩
            rw [t1 _ (by omega)]
            exact q5
          · exact s1 j hge hj2

/-- C12 (as amended). Every task appended by a run of `create_task` that
returns has, in 2-D, `tan1 = (n_y, -n_x, 0)` and `tan2 = (0, 0, 1)` for the
normal `n` of its line, and in 3-D `tan1 = normalize(n x d)` and
`tan2 = normalize(n x tan1)` for the normal `n` of its triangle and a seed `d`
of three consecutive `uniform()` draws. For a unit normal (with `n_z = 0` in
2-D) these are unit vectors, each orthogonal to `n`, and orthogonal to each
other, in 2-D always and in 3-D when `n x d` is not the zero vector (`sqrt`
being a square root). -/
theorem create_task_tangents {α : Type} [LinearOrderedField α] (X : Ext α)
    (grid : Grid α) (surf : Surf α) (mix : Mixture α) (icell : Int) (b b1 : Build α)
    (h : create_task X grid surf mix icell b = Except.ok b1)
    (hcap : b.e.ntask ≤ b.e.ntaskmax)
    (hsqrt : ∀ x, 0 ≤ x → X.ops.sqrt x * X.ops.sqrt x = x) :
    ∀ j, b.e.ntask ≤ j → j < b1.e.ntask →
      (b.e.dimension = 2 →
        ∃ line, idx? surf.lines (b1.e.tasks j).isurf = some line
          ∧ (b1.e.tasks j).tan1 = ⟨line.norm.y, -line.norm.x, 0⟩
          ∧ (b1.e.tasks j).tan2 = ⟨0, 0, 1⟩
          ∧ (dot3 line.norm line.norm = 1 → line.norm.z = 0 →
              TangentFrame line.norm (b1.e.tasks j).tan1 (b1.e.tasks j).tan2))
      ∧ (b.e.dimension ≠ 2 →
        ∃ tri p, idx? surf.tris (b1.e.tasks j).isurf = some tri
          ∧ (b1.e.tasks j).tan1 = norm3 X.ops (cross3 tri.norm
              ⟨b.rng.draws p, b.rng.draws (p + 1), b.rng.draws (p + 2)⟩)
          ∧ (b1.e.tasks j).tan2 = norm3 X.ops (cross3 tri.norm (b1.e.tasks j).tan1)
          ∧ (dot3 tri.norm tri.norm = 1 →
              cross3 tri.norm ⟨b.rng.draws p, b.rng.draws (p + 1), b.rng.draws (p + 2)⟩
                ≠ ⟨0, 0, 0⟩ →
              TangentFrame tri.norm (b1.e.tasks j).tan1 (b1.e.tasks j).tan2)) := by
  intro j hj1 hj2
  unfold create_task at h
  cases hc : idx? grid.cells icell with
  | none =>
    rw [hc] at h
    cases h
  | some cell =>
    rw [hc] at h
    dsimp only at h
    by_cases h0 : cell.nsurf = 0
    · rw [if_pos h0] at h
      cases h
      exact absurd hj2 (not_lt.mpr hj1)
    · rw [if_neg h0] at h
      obtain ⟨-, -, -, -, -, s1⟩ :=
        create_task_loop_tangents X grid surf mix icell cell cell.nsurf.toNat 0 b b1 h hcap
      obtain ⟨p, hp⟩ := s1 j hj1 hj2
      unfold TangentsOf at hp
      constructor
      · intro hd
        rw [if_pos hd] at hp
        obtain ⟨line, hl, e1, e2⟩ := hp
        refine ⟨line, hl, e1, e2, ?_⟩
        intro hn hz
        rw [e1, e2]
        exact frame_2d line.norm hn hz
      · intro hd
        rw [if_neg hd] at hp
        obtain ⟨tri, hl, e1, e2⟩ := hp
        refine ⟨tri, p, hl, e1, e2, ?_⟩
        intro hn hne
        rw [e2, e1]
        exact frame_3d X.ops hsqrt tri.norm _ hn hne

set_option maxRecDepth 100000 in
theorem real_run_3d : ∃ b1, create_task
      (unclipped ⟨Real.sqrt, Real.exp, Real.log, Real.sin, Real.cos, Real.pi, 2 * Real.pi⟩)
      oneCellGrid oneTriSurf oneMix 0 freshBuild = Except.ok b1
    ∧ b1.e.ntask = 1 ∧ (b1.e.tasks 0).isurf = 0 := ⟨_, rfl, rfl, rfl⟩

/-- Witness of C12 (as amended): the triangle `(0,0,0), (1,0,0), (0,1,0)`
with normal `(0,0,1)` in a 3-D run over the reals with the real square root;
the tangents of its task form a tangent frame of the normal. -/
theorem create_task_tangents_witness :
    ∃ b1, create_task
        (unclipped ⟨Real.sqrt, Real.exp, Real.log, Real.sin, Real.cos, Real.pi, 2 * Real.pi⟩)
        oneCellGrid oneTriSurf oneMix 0 freshBuild = Except.ok b1
      ∧ b1.e.ntask = 1
      ∧ TangentFrame (⟨0, 0, 1⟩ : Vec3 ℝ) (b1.e.tasks 0).tan1 (b1.e.tasks 0).tan2 := by
  obtain ⟨b1, hrun, hnt, his⟩ := real_run_3d
  refine ⟨b1, hrun, hnt, ?_⟩
  obtain ⟨tri, p, hl, -, -, hf⟩ :=
    (create_task_tangents
      (unclipped ⟨Real.sqrt, Real.exp, Real.log, Real.sin, Real.cos, Real.pi, 2 * Real.pi⟩)
      oneCellGrid oneTriSurf oneMix 0 freshBuild b1 hrun (le_refl _)
      (fun x hx => Real.mul_self_sqrt hx) 0 (Nat.zero_le _)
      (by rw [hnt]; exact Nat.one_pos)).2 (by decide)
  rw [his] at hl
  have htri : tri = flatTri := by
    simpa [idx?, oneTriSurf] using hl.symm
  subst htri
  refine hf ?_ ?_
  · simp [dot3, flatTri]
  · intro hc
    have hx := congrArg Vec3.y hc
    simp only [cross3, flatTri, freshBuild] at hx
    have hp : (0 : ℝ) < (p : ℝ) + 2 := by positivity
    have : (1 : ℝ) / ((p : ℝ) + 2) ≠ 0 := by positivity
    apply this
    linarith

set_option maxRecDepth 100000 in
theorem demo_run_tilt : ∃ b1, create_task demoExt demoGrid demoSurfTilt demoMix 0 demoBuildSeed
      = Except.ok b1
    ∧ b1.e.ntask = 1 ∧ (b1.e.tasks 0).isurf = 0
    ∧ create_task_slot demoExt demoGrid demoSurfTilt demoMix 0
        { lo := ⟨0, 0, 0⟩, hi := ⟨10, 10, 10⟩, nsurf := 1, csurfs := [0], nsplit := 1,
          isplit := 0 } 0 0 (grow_task demoBuildSeed.e) demoBuildSeed.states demoBuildSeed.rng
      = Except.ok b1 := ⟨_, rfl, rfl, rfl, rfl⟩

/-- Counterexample to C12 as stated: the triangle `(0,0,2), (1,0,0), (0,1,0)`
has the unit normal `n = (2/3, 2/3, 1/3)`; when the three draws of the seed
are `1/2, 1/2, 1/4` the seed is parallel to `n`, `n x d` is the zero vector,
and the stored `tan1` (every component `0 * (1/sqrt(0))`) is not a unit
vector. -/
theorem create_task_tangent_degenerate :
    ∃ b1, create_task demoExt demoGrid demoSurfTilt demoMix 0 demoBuildSeed = Except.ok b1
      ∧ b1.e.ntask = 1 ∧ (b1.e.tasks 0).isurf = 0
      ∧ idx? demoSurfTilt.tris 0 = some demoTriTilt
      ∧ dot3 demoTriTilt.norm demoTriTilt.norm = 1
      ∧ (∀ k, 0 < demoBuildSeed.rng.draws k ∧ demoBuildSeed.rng.draws k < 1)
      ∧ dot3 (b1.e.tasks 0).tan1 (b1.e.tasks 0).tan1 = 0
      ∧ ¬ TangentFrame demoTriTilt.norm (b1.e.tasks 0).tan1 (b1.e.tasks 0).tan2 := by
  obtain ⟨b1, hrun, hnt, his, hslot⟩ := demo_run_tilt
  obtain ⟨-, -, -, -, -, -, -, h3⟩ := create_task_slot_fields _ _ _ _ _ _ _ _ _ _ _ b1 hslot
  obtain ⟨tri, hl, -, hb⟩ := h3 (by decide)
  have htri : tri = demoTriTilt := by
    simpa [idx?, demoSurfTilt] using hl.symm
  subst htri
  obtain ⟨-, -, -, -, ht1, -⟩ := hb (by decide)
  have ht0 : (b1.e.tasks 0).tan1 = ⟨0, 0, 0⟩ := by
    have h0 : (grow_task demoBuildSeed.e).ntask = 0 := rfl
    rw [h0] at ht1
    rw [ht1]
    simp only [norm3, cross3, demoTriTilt, demoBuildSeed]
    norm_num
  have hd0 : dot3 (b1.e.tasks 0).tan1 (b1.e.tasks 0).tan1 = 0 := by
    rw [ht0]
    simp [dot3]
  refine ⟨b1, hrun, hnt, his, rfl, ?_, ?_, hd0, ?_⟩
  · simp only [dot3, demoTriTilt]
    norm_num
  · intro k
    simp only [demoBuildSeed]
    split_ifs <;> norm_num
  · intro hf
    have h1 := hf.1
    rw [hd0] at h1
    exact zero_ne_one h1

/-! ### `post_compress_grid` -/

/-- The scan of a surface list stops at the first index that holds `isurf`. -/
theorem scan_csurfs_first (csurfs : List Int) (isurf : Int) (k : Nat) :
    ∀ i j, i ≤ j → j < i + k → csurfs[j]? = some isurf →
      (∀ m, i ≤ m → m < j → csurfs[m]? ≠ some isurf) →
      scan_csurfs csurfs isurf k i = some j := by
  induction k with
  | zero =>
    intro i j h1 h2
    omega
  | succ k ih =>
    intro i j h1 h2 hj hfirst
    unfold scan_csurfs
    have hjl : j < csurfs.length := by
      rcases Nat.lt_or_ge j csurfs.length with hl | hl
      · exact hl
      · rw [List.getElem?_eq_none hl] at hj
        cases hj
    have hil : i < csurfs.length := by omega
    rw [List.getElem?_eq_getElem hil]
    dsimp only
    by_cases hc : csurfs[i] = isurf
    · rw [if_pos hc]
      rcases Nat.eq_or_lt_of_le h1 with he | hlt
      · rw [he]
      · exfalso
        apply hfirst i (le_refl _) hlt
        rw [List.getElem?_eq_getElem hil, hc]
    · rw [if_neg hc]
      have hne : i ≠ j := by
        intro he
        subst he
        rw [List.getElem?_eq_getElem hil] at hj
        exact hc (Option.some.inj hj)
      exact ih (i + 1) j (by omega) (by omega) hj (fun m hm1 hm2 => hfirst m (by omega) hm2)

/-- The body of the loop of `post_compress_grid` computes the sub-cell the
specification describes. -/
theorem post_compress_pcell_resolves {α : Type} (grid : Grid α) (icell isurf pcell : Int)
    (h : ResolvesTo grid icell isurf pcell) :
    post_compress_pcell grid icell isurf = some pcell := by
  obtain ⟨cell, hc, hcase⟩ := h
  unfold post_compress_pcell
  rw [hc]
  dsimp only
  rcases hcase with ⟨h1, hp⟩ | ⟨h1, j, sp, subcell, hj, hcs, hfirst, hsp, hsub, hpc⟩
  · rw [if_pos h1, hp]
  · rw [if_neg h1,
      scan_csurfs_first cell.csurfs isurf cell.nsurf.toNat 0 j (Nat.zero_le _) (by omega) hcs
        (fun m _ hm => hfirst m hm)]
    dsimp only
    rw [hsp]
    dsimp only
    rw [hsub]
    exact hpc

/-- The loop of `post_compress_grid` from task `i` with `k` tasks left, when it
completes: it has only written `pcell` of the tasks `i, ..., i+k-1`. -/
theorem post_compress_loop_some {α : Type} (grid : Grid α) (k : Nat) :
    ∀ (i : Nat) (e e1 : Emit α), post_compress_loop grid k i e = some e1 →
      { e1 with tasks := e.tasks } = e
      ∧ (∀ m, ¬ (i ≤ m ∧ m < i + k) → e1.tasks m = e.tasks m)
      ∧ (∀ m, i ≤ m → m < i + k →
          ∃ pc, post_compress_pcell grid (e.tasks m).icell (e.tasks m).isurf = some pc
            ∧ e1.tasks m = { e.tasks m with pcell := pc }) := by
  induction k with
  | zero =>
    intro i e e1 h
    unfold post_compress_loop at h
    cases h
    exact ⟨rfl, fun _ _ => rfl, fun m h1 h2 => absurd h2 (by omega)⟩
  | succ k ih =>
    intro i e e1 h
    unfold post_compress_loop at h
    by_cases hi : i < e.ntaskmax
    swap
    · rw [if_neg hi] at h
      cases h
    rw [if_pos hi] at h
    cases hp : post_compress_pcell grid (e.tasks i).icell (e.tasks i).isurf with
    | none =>
      rw [hp] at h
      cases h
    | some pc =>
      rw [hp] at h
      dsimp only at h
      obtain ⟨f1, f2, f3⟩ := ih (i + 1) _ e1 h
      refine ⟨?_, ?_, ?_⟩
      · have := congrArg (fun x : Emit α => { x with tasks := e.tasks }) f1
        exact this
      · intro m hm
        rw [f2 m (by omega)]
        show Function.update e.tasks i _ m = e.tasks m
        exact Function.update_noteq (by omega) _ _
      · intro m hm1 hm2
        rcases Nat.eq_or_lt_of_le hm1 with he | hlt
        · subst he
          refine ⟨pc, hp, ?_⟩
          rw [f2 i (by omega)]
          show Function.update e.tasks i _ i = _
          rw [Function.update_same]
        · obtain ⟨pc2, hp2, ht2⟩ := f3 m (by omega) (by omega)
          have hm : Function.update e.tasks i { e.tasks i with pcell := pc } m = e.tasks m :=
            Function.update_noteq (by omega) _ _
          simp only [hm] at hp2 ht2
          exact ⟨pc2, hp2, ht2⟩

/-- The loop of `post_compress_grid` completes when the tasks it visits are in
the allocation and the sub-cell of each can be resolved. -/
theorem post_compress_loop_total {α : Type} (grid : Grid α) (k : Nat) :
    ∀ (i : Nat) (e : Emit α), i + k ≤ e.ntaskmax →
      (∀ m, i ≤ m → m < i + k →
        (post_compress_pcell grid (e.tasks m).icell (e.tasks m).isurf).isSome) →
      (post_compress_loop grid k i e).isSome := by
  induction k with
  | zero =>
    intro i e _ _
    rfl
  | succ k ih =>
    intro i e hcap hres
    unfold post_compress_loop
    rw [if_pos (by omega)]
    have h0 := hres i (le_refl _) (by omega)
    cases hp : post_compress_pcell grid (e.tasks i).icell (e.tasks i).isurf with
    | none =>
      rw [hp] at h0
      cases h0
    | some pc =>
      dsimp only
      apply ih (i + 1)
      · show i + 1 + k ≤ e.ntaskmax
        omega
      · intro m hm1 hm2
        have hm : Function.update e.tasks i { e.tasks i with pcell := pc } m = e.tasks m :=
          Function.update_noteq (by omega) _ _
        show (post_compress_pcell grid
          (Function.update e.tasks i { e.tasks i with pcell := pc } m).icell
          (Function.update e.tasks i { e.tasks i with pcell := pc } m).isurf).isSome
        rw [hm]
        exact hres m (by omega) (by omega)

/-- C13. `post_compress_grid` returns when the live tasks are inside the
allocation and the sub-cell of each can be resolved (its cell exists and has
`nsplit == 1`, or its surface occurs in the cell's list and the entries of the
split record it selects exist). When it returns, every live task `i` whose
sub-cell resolves to `pc` in the words of the specification has `pcell = pc`
and all its other fields as before; every live task has all fields but
`pcell` as before; the slots at index `>= ntask` are unchanged, and so are
`ntask` and every member of the engine other than the tasks. -/
theorem post_compress_grid_spec {α : Type} (grid : Grid α) (e : Emit α) :
    (e.ntask ≤ e.ntaskmax →
      (∀ i, i < e.ntask → ∃ pc, ResolvesTo grid (e.tasks i).icell (e.tasks i).isurf pc) →
      (post_compress_grid grid e).isSome)
    ∧ (∀ e1, post_compress_grid grid e = some e1 →
        { e1 with tasks := e.tasks } = e
        ∧ e1.ntask = e.ntask
        ∧ (∀ i, e.ntask ≤ i → e1.tasks i = e.tasks i)
        ∧ (∀ i, i < e.ntask → ∃ pc, e1.tasks i = { e.tasks i with pcell := pc })
        ∧ (∀ i pc, i < e.ntask → ResolvesTo grid (e.tasks i).icell (e.tasks i).isurf pc →
            e1.tasks i = { e.tasks i with pcell := pc })) := by
  constructor
  · intro hcap hres
    unfold post_compress_grid
    apply post_compress_loop_total grid e.ntask 0 e (by omega)
    intro m _ hm
    obtain ⟨pc, hpc⟩ := hres m (by omega)
    rw [post_compress_pcell_resolves grid _ _ pc hpc]
    rfl
  · intro e1 h
    unfold post_compress_grid at h
    obtain ⟨f1, f2, f3⟩ := post_compress_loop_some grid e.ntask 0 e e1 h
    refine ⟨f1, ?_, ?_, ?_, ?_⟩
    · have := congrArg Emit.ntask f1
      exact this
    · intro i hi
      exact f2 i (by omega)
    · intro i hi
      obtain ⟨pc, -, ht⟩ := f3 i (Nat.zero_le _) (by omega)
      exact ⟨pc, ht⟩
    · intro i pc hi hr
      obtain ⟨pc2, hp2, ht⟩ := f3 i (Nat.zero_le _) (by omega)
      rw [post_compress_pcell_resolves grid _ _ pc hr] at hp2
      cases hp2
      exact ht

theorem demoSplit_resolves_0 :
    ResolvesTo demoSplitGrid (demoSplitStore.tasks 0).icell (demoSplitStore.tasks 0).isurf 10 := by
  refine ⟨_, rfl, Or.inr ⟨by decide, 1, ⟨[1, 0], [10, 11]⟩, 0, by decide, rfl, ?_, rfl, rfl, rfl⟩⟩
  intro m hm
  have h0 : m = 0 := by omega
  subst h0
  decide

theorem demoSplit_resolves_1 :
    ResolvesTo demoSplitGrid (demoSplitStore.tasks 1).icell (demoSplitStore.tasks 1).isurf 1 :=
  ⟨_, rfl, Or.inl ⟨rfl, rfl⟩⟩

/-- Witness of C13: a store with a task of surface 7 in the split cell 0 (the
first index of surface 7 is 1, `csplits[1] = 0`, `csubs[0] = 10`) and a task
in the unsplit cell 1. -/
theorem post_compress_grid_spec_witness :
    ∃ e1, post_compress_grid demoSplitGrid demoSplitStore = some e1
      ∧ (e1.tasks 0).pcell = 10 ∧ (e1.tasks 1).pcell = 1
      ∧ e1.tasks 0 = { demoSplitStore.tasks 0 with pcell := 10 }
      ∧ e1.tasks 1 = { demoSplitStore.tasks 1 with pcell := 1 }
      ∧ e1.ntask = 2 ∧ { e1 with tasks := demoSplitStore.tasks } = demoSplitStore := by
  have hres : ∀ i, i < demoSplitStore.ntask →
      ∃ pc, ResolvesTo demoSplitGrid (demoSplitStore.tasks i).icell
        (demoSplitStore.tasks i).isurf pc := by
    intro i hi
    have h2 : i < 2 := hi
    rcases Nat.lt_or_ge i 1 with h1 | h1
    · have h0 : i = 0 := by omega
      subst h0
      exact ⟨10, demoSplit_resolves_0⟩
    · have h0 : i = 1 := by omega
      subst h0
      exact ⟨1, demoSplit_resolves_1⟩
  have hsome := (post_compress_grid_spec demoSplitGrid demoSplitStore).1 (by decide) hres
  obtain ⟨e1, he1⟩ := Option.isSome_iff_exists.mp hsome
  obtain ⟨f1, f2, -, -, f5⟩ := (post_compress_grid_spec demoSplitGrid demoSplitStore).2 e1 he1
  have t0 := f5 0 10 (by decide) demoSplit_resolves_0
  have t1 := f5 1 1 (by decide) demoSplit_resolves_1
  refine ⟨e1, he1, ?_, ?_, t0, t1, f2, f1⟩
  · rw [t0]
  · rw [t1]

/-! ### Stochastic rounding of the event count -/

/-- The event count of lines 545-549 for an expected count `x >= 0` and a
draw `u` in `[0,1)`, over any ordered field with a floor. -/
theorem event_count_floor {α : Type} [LinearOrderedField α] [FloorRing α] (zt : ZTask α)
    (area u : α) (hx : 0 ≤ zt.nCAvgEvents * area / zt.area) (hu0 : 0 ≤ u) (hu1 : u < 1) :
    event_count zt area u = ⌊zt.nCAvgEvents * area / zt.area + u⌋
      ∧ (event_count zt area u = ⌊zt.nCAvgEvents * area / zt.area⌋
        ∨ event_count zt area u = ⌊zt.nCAvgEvents * area / zt.area⌋ + 1)
      ∧ (event_count zt area u = ⌊zt.nCAvgEvents * area / zt.area⌋ + 1
        ↔ 1 - (zt.nCAvgEvents * area / zt.area - ⌊zt.nCAvgEvents * area / zt.area⌋) ≤ u)
      ∧ 0 ≤ event_count zt area u := by
  set x := zt.nCAvgEvents * area / zt.area with hxdef
  have he : event_count zt area u = ⌊x + u⌋ := by
    unfold event_count trunc_int
    dsimp only
    rw [if_pos (add_nonneg hx hu0)]
  have hlo : (⌊x⌋ : α) ≤ x := Int.floor_le x
  have hhi : x < (⌊x⌋ : α) + 1 := Int.lt_floor_add_one x
  have hge : ⌊x⌋ ≤ ⌊x + u⌋ := Int.floor_mono (by linarith)
  have hle : ⌊x + u⌋ ≤ ⌊x⌋ + 1 := by
    have : ⌊x + u⌋ < ⌊x⌋ + 2 := by
      rw [Int.floor_lt]
      push_cast
      linarith
    omega
  have hiff : ⌊x + u⌋ = ⌊x⌋ + 1 ↔ 1 - (x - ⌊x⌋) ≤ u := by
    constructor
    · intro h
      have h1 : ((⌊x⌋ + 1 : Int) : α) ≤ x + u := by
        rw [← h]
        exact Int.floor_le _
      push_cast at h1
      linarith
    · intro h
      have h1 : ⌊x⌋ + 1 ≤ ⌊x + u⌋ := by
        rw [Int.le_floor]
        push_cast
        linarith
      omega
  refine ⟨he, ?_, ?_, ?_⟩
  · rw [he]
    omega
  · rw [he]
    exact hiff
  · rw [he]
    exact Int.floor_nonneg.mpr (add_nonneg hx hu0)

/-- C14. Stochastic rounding of the event count in `perform_task` (lines
545-549), reals standing for doubles and `Int` for `int`: for every expected
count `x = nCAvgEvents * area / zt.area >= 0` and every draw `u` in `[0,1)`,
`ninsert = (int)(x + u)` is `floor(x + u)`, is `floor(x)` or `floor(x) + 1`,
and is `floor(x) + 1` exactly when `u >= 1 - (x - floor(x))`; it is not
negative and below `2^31` when `x + u` is; and the mean of `ninsert` over `u`
uniform on `[0,1)` is `x`. -/
theorem event_count_rounding (zt : ZTask ℝ) (area : ℝ)
    (hx : 0 ≤ zt.nCAvgEvents * area / zt.area) :
    (∀ u : ℝ, 0 ≤ u → u < 1 →
      event_count zt area u = ⌊zt.nCAvgEvents * area / zt.area + u⌋
      ∧ (event_count zt area u = ⌊zt.nCAvgEvents * area / zt.area⌋
        ∨ event_count zt area u = ⌊zt.nCAvgEvents * area / zt.area⌋ + 1)
      ∧ (event_count zt area u = ⌊zt.nCAvgEvents * area / zt.area⌋ + 1
        ↔ 1 - (zt.nCAvgEvents * area / zt.area - ⌊zt.nCAvgEvents * area / zt.area⌋) ≤ u)
      ∧ 0 ≤ event_count zt area u
      ∧ (zt.nCAvgEvents * area / zt.area + u < 2 ^ 31 → event_count zt area u < 2 ^ 31))
    ∧ ∫ u in Set.Ico (0 : ℝ) 1, ((event_count zt area u : Int) : ℝ)
        = zt.nCAvgEvents * area / zt.area := by
  constructor
  · intro u hu0 hu1
    obtain ⟨h1, h2, h3, h4⟩ := event_count_floor zt area u hx hu0 hu1
    refine ⟨h1, h2, h3, h4, ?_⟩
    intro hb
    rw [h1, Int.floor_lt]
    have h31 : (((2 : Int) ^ 31 : Int) : ℝ) = 2 ^ 31 := by norm_num
    rw [h31]
    exact hb
  · set x := zt.nCAvgEvents * area / zt.area with hxdef
    have hlo : (⌊x⌋ : ℝ) ≤ x := Int.floor_le x
    have hhi : x < (⌊x⌋ : ℝ) + 1 := Int.lt_floor_add_one x
    set c := 1 - (x - (⌊x⌋ : ℝ)) with hcdef
    have hc0 : 0 ≤ c := by rw [hcdef]; linarith
    have hc1 : c ≤ 1 := by rw [hcdef]; linarith
    have hg1 : Set.EqOn (fun u : ℝ => ((event_count zt area u : Int) : ℝ))
        (fun _ => (⌊x⌋ : ℝ)) (Set.Ico 0 c) := by
      intro u hu
      obtain ⟨-, h2, h3, -⟩ := event_count_floor zt area u hx hu.1 (lt_of_lt_of_le hu.2 hc1)
      have hne : ¬ event_count zt area u = ⌊x⌋ + 1 := by
        rw [h3]
        exact not_le.mpr hu.2
      rcases h2 with h2 | h2
      · show ((event_count zt area u : Int) : ℝ) = (⌊x⌋ : ℝ)
        rw [h2]
      · exact absurd h2 hne
    have hg2 : Set.EqOn (fun u : ℝ => ((event_count zt area u : Int) : ℝ))
        (fun _ => (⌊x⌋ : ℝ) + 1) (Set.Ico c 1) := by
      intro u hu
      obtain ⟨-, -, h3, -⟩ := event_count_floor zt area u hx (le_trans hc0 hu.1) hu.2
      show ((event_count zt area u : Int) : ℝ) = (⌊x⌋ : ℝ) + 1
      rw [h3.mpr hu.1]
      push_cast
      rfl
    have hi1 : MeasureTheory.IntegrableOn (fun u : ℝ => ((event_count zt area u : Int) : ℝ))
        (Set.Ico 0 c) :=
      (MeasureTheory.integrableOn_const.2 (Or.inr measure_Ico_lt_top)).congr_fun hg1.symm
        measurableSet_Ico
    have hi2 : MeasureTheory.IntegrableOn (fun u : ℝ => ((event_count zt area u : Int) : ℝ))
        (Set.Ico c 1) :=
      (MeasureTheory.integrableOn_const.2 (Or.inr measure_Ico_lt_top)).congr_fun hg2.symm
        measurableSet_Ico
    rw [← Set.Ico_union_Ico_eq_Ico hc0 hc1,
      MeasureTheory.setIntegral_union Set.Ico_disjoint_Ico_same measurableSet_Ico
        hi1 hi2,
      MeasureTheory.setIntegral_congr_fun measurableSet_Ico hg1,
      MeasureTheory.setIntegral_congr_fun measurableSet_Ico hg2,
      MeasureTheory.setIntegral_const, MeasureTheory.setIntegral_const,
      Real.volume_Ico, Real.volume_Ico, ENNReal.toReal_ofReal (by linarith),
      ENNReal.toReal_ofReal (by linarith)]
    simp only [smul_eq_mul]
    rw [hcdef]
    ring

/-- Witness of C14: a reaction with `nCAvgEvents = 5/2` on a task that covers
the whole face (`x = 5/2`); the draw `u = 1/2` gives 3 events. -/
theorem event_count_rounding_witness :
    (0 : ℝ) ≤ (5 / 2 : ℝ) * 1 / 1
    ∧ event_count (⟨5 / 2, 1, 0, 1, [], 0⟩ : ZTask ℝ) 1 (1 / 2) = 3
    ∧ ∫ u in Set.Ico (0 : ℝ) 1, ((event_count (⟨5 / 2, 1, 0, 1, [], 0⟩ : ZTask ℝ) 1 u : Int) : ℝ)
        = (5 / 2 : ℝ) * 1 / 1 := by
  have hx : (0 : ℝ) ≤ (5 / 2 : ℝ) * 1 / 1 := by norm_num
  refine ⟨hx, ?_, (event_count_rounding ⟨5 / 2, 1, 0, 1, [], 0⟩ 1 hx).2⟩
  have h := ((event_count_rounding ⟨5 / 2, 1, 0, 1, [], 0⟩ 1 hx).1 (1 / 2) (by norm_num)
    (by norm_num)).1
  rw [h]
  show ⌊(5 / 2 : ℝ) * 1 / 1 + 1 / 2⌋ = 3
  rw [Int.floor_eq_iff]
  norm_num

/-! ### Position of a new particle -/

theorem vec3_at_some {α : Type} [Zero α] (path : List α) (k : Nat) (hk : k + 2 < path.length) :
    vec3_at? path k = some (vec3_at path k) := by
  unfold vec3_at? vec3_at
  rw [List.getElem?_eq_getElem (by omega : k < path.length),
    List.getElem?_eq_getElem (by omega : k + 1 < path.length),
    List.getElem?_eq_getElem hk]
  simp only [List.getD_eq_getElem?_getD]
  rw [List.getElem?_eq_getElem (by omega : k < path.length),
    List.getElem?_eq_getElem (by omega : k + 1 < path.length),
    List.getElem?_eq_getElem hk]
  rfl

/-- The scan of lines 589-592 ends at the first triangle whose cumulative
fraction exceeds the draw, or behind the last one. -/
theorem tri_scan_first {α : Type} [LinearOrderedField α] (fracarea : List α) (rn : α)
    (k : Nat) : ∀ n0, n0 + k ≤ fracarea.length →
      ∃ n, tri_scan fracarea rn k n0 = some n ∧ n0 ≤ n ∧ n ≤ n0 + k
        ∧ (∀ m, n0 ≤ m → m < n → ∃ f, fracarea[m]? = some f ∧ f ≤ rn)
        ∧ (n < n0 + k → ∃ f, fracarea[n]? = some f ∧ rn < f) := by
  induction k with
  | zero =>
    intro n0 _
    exact ⟨n0, rfl, le_refl _, le_refl _, fun m h1 h2 => absurd h2 (by omega),
      fun h => absurd h (by omega)⟩
  | succ k ih =>
    intro n0 hlen
    unfold tri_scan
    have hl : n0 < fracarea.length := by omega
    rw [List.getElem?_eq_getElem hl]
    dsimp only
    by_cases hc : rn < fracarea[n0]
    · rw [if_pos hc]
      refine ⟨n0, rfl, le_refl _, by omega, fun m h1 h2 => absurd h2 (by omega), fun _ => ?_⟩
      exact ⟨fracarea[n0], List.getElem?_eq_getElem hl, hc⟩
    · rw [if_neg hc]
      obtain ⟨n, h1, h2, h3, h4, h5⟩ := ih (n0 + 1) (by omega)
      refine ⟨n, h1, by omega, by omega, ?_, fun h => h5 (by omega)⟩
      intro m hm1 hm2
      rcases Nat.eq_or_lt_of_le hm1 with he | hlt
      · subst he
        exact ⟨fracarea[n0], List.getElem?_eq_getElem hl, not_lt.mp hc⟩
      · exact h4 m (by omega) hm2

/-- The fold of lines 600-603 puts two draws of `[0,1)` into the unit
simplex. -/
theorem fold_simplex {α : Type} [LinearOrderedField α] (alpha beta : α)
    (ha0 : 0 ≤ alpha) (ha1 : alpha < 1) (hb0 : 0 ≤ beta) (hb1 : beta < 1) :
    0 ≤ (if alpha + beta > 1 then (1 - alpha, 1 - beta) else (alpha, beta)).1
      ∧ 0 ≤ (if alpha + beta > 1 then (1 - alpha, 1 - beta) else (alpha, beta)).2
      ∧ (if alpha + beta > 1 then (1 - alpha, 1 - beta) else (alpha, beta)).1
        + (if alpha + beta > 1 then (1 - alpha, 1 - beta) else (alpha, beta)).2 ≤ 1 := by
  by_cases h : alpha + beta > 1
  · rw [if_pos h]
    refine ⟨?_, ?_, ?_⟩
    · show 0 ≤ 1 - alpha
      linarith
    · show 0 ≤ 1 - beta
      linarith
    · show 1 - alpha + (1 - beta) ≤ 1
      linarith
  · rw [if_neg h]
    exact ⟨ha0, hb0, not_lt.mp h⟩

/-- C15. Position sampling of lines 579-607 for draws in `[0,1)`. In 2-D the
position is `(1-rn)*p1 + rn*p2` for the two stored end points of the clipped
segment and the draw `rn` in `[0,1)`, with `z = 0`. In 3-D, for a task with
`npoint >= 3` points whose last cumulative area fraction is 1, the scan
selects a fan triangle `n < npoint-2` (the first with `rn < fracarea[n]`), the
folded coefficients satisfy `a >= 0`, `b >= 0`, `a + b <= 1`, and the position
is the convex combination `(1-a-b)*p1 + a*p2 + b*p3` of the vertices `0`,
`n+1`, `n+2` of the path. -/
theorem sample_position_inside {α : Type} [LinearOrderedField α] (dimension npoint : Int)
    (path frac : List α) (fracarea : Option (List α)) (rng : Rng α)
    (hdraw : ∀ k, 0 ≤ rng.draws k ∧ rng.draws k < 1) :
    (dimension = 2 → 5 ≤ path.length →
      ∃ rn, 0 ≤ rn ∧ rn < 1 ∧ rn = rng.draws rng.pos
        ∧ sample_position dimension npoint (some path) fracarea rng
          = some (⟨(1 - rn) * path.getD 0 0 + rn * path.getD 3 0,
                   (1 - rn) * path.getD 1 0 + rn * path.getD 4 0, 0⟩,
                  { rng with pos := rng.pos + 1 }))
    ∧ (dimension ≠ 2 → 3 ≤ npoint → (npoint * 3).toNat ≤ path.length →
        (npoint - 2).toNat ≤ frac.length → frac[(npoint - 3).toNat]? = some 1 →
      ∃ n a b, n < (npoint - 2).toNat
        ∧ (∃ f, frac[n]? = some f ∧ rng.draws rng.pos < f)
        ∧ (∀ m, m < n → ∃ f, frac[m]? = some f ∧ f ≤ rng.draws rng.pos)
        ∧ 0 ≤ a ∧ 0 ≤ b ∧ a + b ≤ 1
        ∧ (a, b) = (if rng.draws (rng.pos + 1) + rng.draws (rng.pos + 2) > 1 then
            (1 - rng.draws (rng.pos + 1), 1 - rng.draws (rng.pos + 2))
          else (rng.draws (rng.pos + 1), rng.draws (rng.pos + 2)))
        ∧ sample_position dimension npoint (some path) (some frac) rng
          = some (⟨(1 - a - b) * (vec3_at path 0).x + a * (vec3_at path (3 * (n + 1))).x
                     + b * (vec3_at path (3 * (n + 2))).x,
                   (1 - a - b) * (vec3_at path 0).y + a * (vec3_at path (3 * (n + 1))).y
                     + b * (vec3_at path (3 * (n + 2))).y,
                   (1 - a - b) * (vec3_at path 0).z + a * (vec3_at path (3 * (n + 1))).z
                     + b * (vec3_at path (3 * (n + 2))).z⟩,
                  { rng with pos := rng.pos + 3 })) := by
  constructor
  · intro hd hlen
    refine ⟨rng.draws rng.pos, (hdraw _).1, (hdraw _).2, rfl, ?_⟩
    unfold sample_position
    dsimp only
    rw [if_pos hd]
    simp only [Rng.uniform]
    rw [List.getElem?_eq_getElem (by omega : 0 < path.length),
      List.getElem?_eq_getElem (by omega : 1 < path.length),
      List.getElem?_eq_getElem (by omega : 3 < path.length),
      List.getElem?_eq_getElem (by omega : 4 < path.length)]
    simp only [List.getD_eq_getElem?_getD]
    rw [List.getElem?_eq_getElem (by omega : 0 < path.length),
      List.getElem?_eq_getElem (by omega : 1 < path.length),
      List.getElem?_eq_getElem (by omega : 3 < path.length),
      List.getElem?_eq_getElem (by omega : 4 < path.length)]
    simp only [Option.getD_some]
    congr 2
    congr 1
    · ring
    · ring
  · intro hd hnp hplen hflen hlast
    have hnt : (npoint - 2).toNat = (npoint - 3).toNat + 1 := by omega
    obtain ⟨n, hn1, -, hn3, hn4, hn5⟩ :=
      tri_scan_first frac (rng.draws rng.pos) (npoint - 2).toNat 0 (by omega)
    have hnlt : n < (npoint - 2).toNat := by
      rcases Nat.lt_or_ge n (npoint - 2).toNat with h | h
      · exact h
      · exfalso
        obtain ⟨f, hf1, hf2⟩ := hn4 (npoint - 3).toNat (Nat.zero_le _) (by omega)
        rw [hlast] at hf1
        cases hf1
        exact absurd (hdraw rng.pos).2 (not_lt.mpr hf2)
    obtain ⟨ha, hb, hab⟩ := fold_simplex (rng.draws (rng.pos + 1)) (rng.draws (rng.pos + 2))
      (hdraw _).1 (hdraw _).2 (hdraw _).1 (hdraw _).2
    refine ⟨n, _, _, hnlt, hn5 (by omega), fun m hm => hn4 m (Nat.zero_le _) hm, ha, hb, hab,
      rfl, ?_⟩
    unfold sample_position
    dsimp only
    rw [if_neg hd]
    simp only [Rng.uniform]
    rw [if_pos (by omega : (0 : Int) < npoint - 2)]
    rw [hn1]
    dsimp only
    have e2 : rng.pos + 1 + 1 = rng.pos + 2 := rfl
    have e3 : rng.pos + 2 + 1 = rng.pos + 3 := rfl
    rw [e2, e3]
    have h3 : (npoint * 3).toNat = 3 * (npoint - 2).toNat + 6 := by omega
    rw [vec3_at_some path 0 (by omega), vec3_at_some path (3 * (n + 1)) (by omega),
      vec3_at_some path (3 * (n + 2)) (by omega)]
    simp only [sub3]
    refine congrArg some (Prod.ext ?_ rfl)
    show (⟨_, _, _⟩ : Vec3 α) = ⟨_, _, _⟩
    congr 1 <;> ring

/-- Witness of C15: all draws `3/4`. In 3-D, for the triangle
`(0,0,0), (1,0,0), (0,1,0)`, the draws `3/4, 3/4` are folded to `1/4, 1/4` and
the position is `(1/4, 1/4, 0)`; in 2-D, for the segment from `(0,0)` to
`(3,4)`, the position is `(9/4, 3, 0)`. -/
theorem sample_position_inside_witness :
    (∀ k : Nat, 0 ≤ (⟨fun _ => 3 / 4, 0⟩ : Rng ℚ).draws k
      ∧ (⟨fun _ => 3 / 4, 0⟩ : Rng ℚ).draws k < 1)
    ∧ sample_position 3 3 (some [0, 0, 0, 1, 0, 0, 0, 1, 0]) (some [1])
        (⟨fun _ => 3 / 4, 0⟩ : Rng ℚ)
      = some (⟨1 / 4, 1 / 4, 0⟩, ⟨fun _ => 3 / 4, 3⟩)
    ∧ sample_position 2 2 (some [0, 0, 0, 3, 4, 0]) none (⟨fun _ => 3 / 4, 0⟩ : Rng ℚ)
      = some (⟨9 / 4, 3, 0⟩, ⟨fun _ => 3 / 4, 1⟩) := by
  have hdraw : ∀ k : Nat, 0 ≤ (⟨fun _ => 3 / 4, 0⟩ : Rng ℚ).draws k
      ∧ (⟨fun _ => 3 / 4, 0⟩ : Rng ℚ).draws k < 1 := by
    intro k
    constructor <;> norm_num
  refine ⟨hdraw, ?_, ?_⟩
  · obtain ⟨n, a, b, hn, -, -, -, -, -, hab, hs⟩ :=
      (sample_position_inside 3 3 [0, 0, 0, 1, 0, 0, 0, 1, 0] [1] (some [1])
        (⟨fun _ => 3 / 4, 0⟩ : Rng ℚ) hdraw).2 (by decide) (by decide) (by decide) (by decide)
        rfl
    have hn0 : n = 0 := by
      have : n < 1 := hn
      omega
    subst hn0
    have hgt : (3 / 4 : ℚ) + 3 / 4 > 1 := by norm_num
    rw [if_pos hgt] at hab
    obtain ⟨ha, hb⟩ := Prod.mk.inj hab
    subst ha
    subst hb
    rw [hs]
    simp only [vec3_at, List.getD_cons_zero, List.getD_cons_succ]
    norm_num
  · obtain ⟨rn, -, -, hrn, hs⟩ :=
      (sample_position_inside 2 2 [0, 0, 0, 3, 4, 0] [] none
        (⟨fun _ => 3 / 4, 0⟩ : Rng ℚ) hdraw).1 rfl (by decide)
    subst hrn
    rw [hs]
    simp only [List.getD_cons_zero, List.getD_cons_succ]
    norm_num

/-! ### The accept/reject loops of the normal velocity -/

/-- A value accepted by the loops of lines 613-621 is `6*u - 3` for a draw `u`,
passes the test of the inner loop and is not rejected by the outer one. -/
theorem normal_loop_accept {α : Type} [LinearOrderedField α] (ops : MathOps α) (scosine : α)
    (fuel : Nat) : ∀ (rng : Rng α) (beta_un : α) (rng2 : Rng α),
      normal_loop ops scosine fuel rng = some (beta_un, rng2) →
      ∃ k, rng.pos ≤ k ∧ beta_un = 6 * rng.draws k - 3
        ∧ ¬ (beta_un + scosine < 0)
        ∧ ¬ (normalized_distbn_fn ops scosine beta_un < rng.draws (k + 1))
        ∧ rng2 = { rng with pos := k + 2 } := by
  induction fuel with
  | zero =>
    intro rng beta_un rng2 h
    unfold normal_loop at h
    cases h
  | succ fuel ih =>
    intro rng beta_un rng2 h
    unfold normal_loop at h
    simp only [Rng.uniform] at h
    by_cases h1 : 6 * rng.draws rng.pos - 3 + scosine < 0
    · rw [if_pos h1] at h
      obtain ⟨k, hk1, hk2, hk3, hk4, hk5⟩ := ih _ _ _ h
      exact ⟨k, by simp only at hk1; omega, hk2, hk3, hk4, hk5⟩
    · rw [if_neg h1] at h
      by_cases h2 : normalized_distbn_fn ops scosine (6 * rng.draws rng.pos - 3)
          < rng.draws (rng.pos + 1)
      · rw [if_pos h2] at h
        obtain ⟨k, hk1, hk2, hk3, hk4, hk5⟩ := ih _ _ _ h
        exact ⟨k, by simp only at hk1; omega, hk2, hk3, hk4, hk5⟩
      · rw [if_neg h2] at h
        cases h
        exact ⟨rng.pos, le_refl _, rfl, h1, h2, rfl⟩

/-- More fuel does not change the result of the loops. -/
theorem normal_loop_mono {α : Type} [LinearOrderedField α] (ops : MathOps α) (scosine : α)
    (fuel : Nat) : ∀ (rng : Rng α) (r : α × Rng α),
      normal_loop ops scosine fuel rng = some r →
      ∀ m, fuel ≤ m → normal_loop ops scosine m rng = some r := by
  induction fuel with
  | zero =>
    intro rng r h
    unfold normal_loop at h
    cases h
  | succ fuel ih =>
    intro rng r h m hm
    obtain ⟨m, rfl⟩ : ∃ m2, m = m2 + 1 := ⟨m - 1, by omega⟩
    unfold normal_loop at h ⊢
    simp only [Rng.uniform] at h ⊢
    by_cases h1 : 6 * rng.draws rng.pos - 3 + scosine < 0
    · rw [if_pos h1] at h ⊢
      exact ih _ _ h m (by omega)
    · rw [if_neg h1] at h ⊢
      by_cases h2 : normalized_distbn_fn ops scosine (6 * rng.draws rng.pos - 3)
          < rng.draws (rng.pos + 1)
      · rw [if_pos h2] at h ⊢
        exact ih _ _ h m (by omega)
      · rw [if_neg h2] at h ⊢
        exact h

/-- Position sampling only advances the random number generator. -/
theorem sample_position_draws {α : Type} [LinearOrderedField α] (dimension npoint : Int)
    (path fracarea : Option (List α)) (rng : Rng α) (x : Vec3 α) (rng1 : Rng α)
    (h : sample_position dimension npoint path fracarea rng = some (x, rng1)) :
    rng1.draws = rng.draws := by
  unfold sample_position at h
  simp only [Rng.uniform] at h
  repeat' (first | split_ifs at h | split at h)
  all_goals (first | (cases h; rfl) | cases h)

/-- One pass of the loop of line 578 that adds a particle: the position is
sampled, the loops of lines 613-621 accept a value `beta_un`, and the velocity
is assembled from `beta_un`, the thermal scale `vscale_isp` handed to the pass
and the two draws that follow the loops. -/
theorem insert_one_velocity {α : Type} [LinearOrderedField α] [FloorRing α] (ops : MathOps α)
    (S : Sim α) (fuel : Nat) (dimension normalflag : Int) (magvstream : α) (normal : Vec3 α)
    (t : Task α) (path fracarea : Option (List α)) (indot scosine vscale_isp : α)
    (ispecies : Int) (rng : Rng α) (q : Particle α) (rng9 : Rng α)
    (h : insert_one ops S fuel dimension normalflag magvstream normal t path fracarea indot
      scosine vscale_isp ispecies rng = some (some q, rng9)) :
    ∃ x rng1 beta_un rng2,
      sample_position dimension t.npoint path fracarea rng = some (x, rng1)
      ∧ normal_loop ops scosine fuel rng1 = some (beta_un, rng2)
      ∧ q.x = x ∧ q.ispecies = ispecies ∧ q.icell = t.pcell
      ∧ q.v =
        ⟨(if normalflag ≠ 0 then beta_un * vscale_isp + magvstream
            else beta_un * vscale_isp + indot) * normal.x
          + (if normalflag ≠ 0 then
              vscale_isp * ops.sqrt (-(ops.log (rng2.draws (rng2.pos + 1))))
                * ops.sin (ops.MY_2PI * rng2.draws rng2.pos)
            else vscale_isp * ops.sqrt (-(ops.log (rng2.draws (rng2.pos + 1))))
                * ops.sin (ops.MY_2PI * rng2.draws rng2.pos) + dot3 t.vstream t.tan1) * t.tan1.x
          + (if normalflag ≠ 0 then
              vscale_isp * ops.sqrt (-(ops.log (rng2.draws (rng2.pos + 1))))
                * ops.cos (ops.MY_2PI * rng2.draws rng2.pos)
            else vscale_isp * ops.sqrt (-(ops.log (rng2.draws (rng2.pos + 1))))
                * ops.cos (ops.MY_2PI * rng2.draws rng2.pos) + dot3 t.vstream t.tan2) * t.tan2.x,
         (if normalflag ≠ 0 then beta_un * vscale_isp + magvstream
            else beta_un * vscale_isp + indot) * normal.y
          + (if normalflag ≠ 0 then
              vscale_isp * ops.sqrt (-(ops.log (rng2.draws (rng2.pos + 1))))
                * ops.sin (ops.MY_2PI * rng2.draws rng2.pos)
            else vscale_isp * ops.sqrt (-(ops.log (rng2.draws (rng2.pos + 1))))
                * ops.sin (ops.MY_2PI * rng2.draws rng2.pos) + dot3 t.vstream t.tan1) * t.tan1.y
          + (if normalflag ≠ 0 then
              vscale_isp * ops.sqrt (-(ops.log (rng2.draws (rng2.pos + 1))))
                * ops.cos (ops.MY_2PI * rng2.draws rng2.pos)
            else vscale_isp * ops.sqrt (-(ops.log (rng2.draws (rng2.pos + 1))))
                * ops.cos (ops.MY_2PI * rng2.draws rng2.pos) + dot3 t.vstream t.tan2) * t.tan2.y,
         (if normalflag ≠ 0 then beta_un * vscale_isp + magvstream
            else beta_un * vscale_isp + indot) * normal.z
          + (if normalflag ≠ 0 then
              vscale_isp * ops.sqrt (-(ops.log (rng2.draws (rng2.pos + 1))))
                * ops.sin (ops.MY_2PI * rng2.draws rng2.pos)
            else vscale_isp * ops.sqrt (-(ops.log (rng2.draws (rng2.pos + 1))))
                * ops.sin (ops.MY_2PI * rng2.draws rng2.pos) + dot3 t.vstream t.tan1) * t.tan1.z
          + (if normalflag ≠ 0 then
              vscale_isp * ops.sqrt (-(ops.log (rng2.draws (rng2.pos + 1))))
                * ops.cos (ops.MY_2PI * rng2.draws rng2.pos)
            else vscale_isp * ops.sqrt (-(ops.log (rng2.draws (rng2.pos + 1))))
                * ops.cos (ops.MY_2PI * rng2.draws rng2.pos) + dot3 t.vstream t.tan2)
              * t.tan2.z⟩ := by
  unfold insert_one at h
  cases hsp : sample_position dimension t.npoint path fracarea rng with
  | none =>
    rw [hsp] at h
    cases h
  | some xr =>
    obtain ⟨x, rng1⟩ := xr
    rw [hsp] at h
    dsimp only at h
    split at h
    · cases h
    · cases hnl : normal_loop ops scosine fuel rng1 with
      | none =>
        rw [hnl] at h
        cases h
      | some br =>
        obtain ⟨beta_un, rng2⟩ := br
        rw [hnl] at h
        simp only [Rng.uniform, Option.some.injEq, Prod.mk.injEq] at h
        obtain ⟨hq, -⟩ := h
        subst hq
        exact ⟨x, rng1, beta_un, rng2, rfl, hnl, rfl, rfl, rfl, rfl⟩

/-- C16. Postcondition of the accept/reject loops of lines 613-621, for draws
in `[0,1)`: whenever the loops end, the accepted `beta_un` lies in `[-3, 3)`
and `beta_un + scosine >= 0`, for speed ratio 0 it is `>= 0`, for a thermal
scale `> 0` and `scosine = indot/scale` the value `beta_un*scale + indot` is
`>= 0`, and the result is the same for every larger bound on the number of
draws. For a particle added by a pass of the loop of line 578 with
`normalflag = 0`, a thermal scale `vscale[isp] > 0` and
`scosine = indot/vscale[isp]`, the velocity is
`vnmag*normal + vamag*tan1 + vbmag*tan2` with
`vnmag = beta_un*vscale[isp] + indot >= 0`. -/
theorem normal_speed_inward {α : Type} [LinearOrderedField α] [FloorRing α] (ops : MathOps α)
    (scosine : α) :
    (∀ (fuel : Nat) (rng : Rng α) (beta_un : α) (rng2 : Rng α),
      (∀ k, 0 ≤ rng.draws k ∧ rng.draws k < 1) →
      normal_loop ops scosine fuel rng = some (beta_un, rng2) →
      -3 ≤ beta_un ∧ beta_un < 3 ∧ 0 ≤ beta_un + scosine
        ∧ (scosine = 0 → 0 ≤ beta_un)
        ∧ (∀ scale indot : α, 0 < scale → scosine = indot / scale →
            0 ≤ beta_un * scale + indot)
        ∧ (∀ m, fuel ≤ m → normal_loop ops scosine m rng = some (beta_un, rng2)))
    ∧ (∀ (S : Sim α) (fuel : Nat) (dimension : Int) (magvstream : α) (normal : Vec3 α)
        (t : Task α) (path fracarea : Option (List α)) (indot vscale_isp : α) (ispecies : Int)
        (rng : Rng α) (q : Particle α) (rng9 : Rng α),
      (∀ k, 0 ≤ rng.draws k ∧ rng.draws k < 1) →
      0 < vscale_isp → scosine = indot / vscale_isp →
      insert_one ops S fuel dimension 0 magvstream normal t path fracarea indot scosine
        vscale_isp ispecies rng = some (some q, rng9) →
      ∃ beta_un vnmag vamag vbmag : α,
        -3 ≤ beta_un ∧ beta_un < 3 ∧ 0 ≤ beta_un + scosine
        ∧ vnmag = beta_un * vscale_isp + indot ∧ 0 ≤ vnmag
        ∧ q.v = ⟨vnmag * normal.x + vamag * t.tan1.x + vbmag * t.tan2.x,
                 vnmag * normal.y + vamag * t.tan1.y + vbmag * t.tan2.y,
                 vnmag * normal.z + vamag * t.tan1.z + vbmag * t.tan2.z⟩) := by
  have hpost : ∀ (fuel : Nat) (rng : Rng α) (beta_un : α) (rng2 : Rng α),
      (∀ k, 0 ≤ rng.draws k ∧ rng.draws k < 1) →
      normal_loop ops scosine fuel rng = some (beta_un, rng2) →
      -3 ≤ beta_un ∧ beta_un < 3 ∧ 0 ≤ beta_un + scosine
        ∧ (∀ scale indot : α, 0 < scale → scosine = indot / scale →
            0 ≤ beta_un * scale + indot) := by
    intro fuel rng beta_un rng2 hdraw h
    obtain ⟨k, -, hb, hin, -, -⟩ := normal_loop_accept ops scosine fuel rng beta_un rng2 h
    have h0 := (hdraw k).1
    have h1 := (hdraw k).2
    have hs : 0 ≤ beta_un + scosine := not_lt.mp hin
    refine ⟨by rw [hb]; linarith, by rw [hb]; linarith, hs, ?_⟩
    intro scale indot hsc he
    have : beta_un * scale + indot = (beta_un + scosine) * scale := by
      rw [he]
      field_simp
    rw [this]
    exact mul_nonneg hs hsc.le
  constructor
  · intro fuel rng beta_un rng2 hdraw h
    obtain ⟨p1, p2, p3, p4⟩ := hpost fuel rng beta_un rng2 hdraw h
    refine ⟨p1, p2, p3, ?_, p4, normal_loop_mono ops scosine fuel rng _ h⟩
    intro h0
    rw [h0, add_zero] at p3
    exact p3
  · intro S fuel dimension magvstream normal t path fracarea indot vscale_isp ispecies rng q
      rng9 hdraw hsc he h
    obtain ⟨x, rng1, beta_un, rng2, hsp, hnl, -, -, -, hv⟩ :=
      insert_one_velocity ops S fuel dimension 0 magvstream normal t path fracarea indot
        scosine vscale_isp ispecies rng q rng9 h
    have hd1 : ∀ k, 0 ≤ rng1.draws k ∧ rng1.draws k < 1 := by
      rw [sample_position_draws dimension t.npoint path fracarea rng x rng1 hsp]
      exact hdraw
    obtain ⟨p1, p2, p3, p4⟩ := hpost fuel rng1 beta_un rng2 hd1 hnl
    refine ⟨beta_un, beta_un * vscale_isp + indot,
      vscale_isp * ops.sqrt (-(ops.log (rng2.draws (rng2.pos + 1))))
        * ops.sin (ops.MY_2PI * rng2.draws rng2.pos) + dot3 t.vstream t.tan1,
      vscale_isp * ops.sqrt (-(ops.log (rng2.draws (rng2.pos + 1))))
        * ops.cos (ops.MY_2PI * rng2.draws rng2.pos) + dot3 t.vstream t.tan2,
      p1, p2, p3, rfl, p4 _ _ hsc he, ?_⟩
    rw [hv]
    simp only [ne_eq, not_true_eq_false, if_false]

/-- Witness of C16: speed ratio 0 and all draws `2/3`. The first `beta_un` is
`6*(2/3) - 3 = 1` and is accepted; the pass of a 2-D task on the segment from
`(0,0)` to `(3,4)` with thermal scale 2 adds a particle. -/
theorem normal_speed_inward_witness :
    (∀ k : Nat, 0 ≤ (⟨fun _ => 2 / 3, 0⟩ : Rng ℚ).draws k
      ∧ (⟨fun _ => 2 / 3, 0⟩ : Rng ℚ).draws k < 1)
    ∧ normal_loop demoOps 0 1 ⟨fun _ => 2 / 3, 0⟩ = some (1, ⟨fun _ => 2 / 3, 2⟩)
    ∧ (-3 : ℚ) ≤ 1 ∧ (1 : ℚ) < 3 ∧ (0 : ℚ) ≤ 1 + 0
    ∧ ∃ q rng9, insert_one demoOps demoSim 1 2 0 0 ⟨4 / 5, -3 / 5, 0⟩
          { (Task.zero : Task ℚ) with npoint := 2, tan1 := ⟨-3 / 5, -4 / 5, 0⟩,
                                      tan2 := ⟨0, 0, 1⟩ }
          (some [0, 0, 0, 3, 4, 0]) none 0 0 2 0 ⟨fun _ => 2 / 3, 0⟩ = some (some q, rng9)
        ∧ ∃ beta_un vnmag vamag vbmag : ℚ,
          -3 ≤ beta_un ∧ beta_un < 3 ∧ 0 ≤ beta_un + 0
          ∧ vnmag = beta_un * 2 + 0 ∧ 0 ≤ vnmag
          ∧ q.v = ⟨vnmag * (4 / 5) + vamag * (-3 / 5) + vbmag * 0,
                   vnmag * (-3 / 5) + vamag * (-4 / 5) + vbmag * 0,
                   vnmag * 0 + vamag * 0 + vbmag * 1⟩ := by
  have hdraw : ∀ k : Nat, 0 ≤ (⟨fun _ => 2 / 3, 0⟩ : Rng ℚ).draws k
      ∧ (⟨fun _ => 2 / 3, 0⟩ : Rng ℚ).draws k < 1 := by
    intro k
    constructor <;> norm_num
  have hs2 : demoSqrt 2 = 1 := by
    have h1 : Nat.sqrt 2 = 1 := (Nat.eq_sqrt.2 ⟨by norm_num, by norm_num⟩).symm
    have h0 : ((2 : ℚ).num).toNat = 2 := rfl
    have h3 : (2 : ℚ).den = 1 := rfl
    unfold demoSqrt
    rw [h0, h3, h1, Nat.sqrt_one]
    norm_num
  have hrun : normal_loop demoOps 0 1 ⟨fun _ => 2 / 3, 0⟩ = some (1, ⟨fun _ => 2 / 3, 2⟩) := by
    simp only [normal_loop, Rng.uniform, normalized_distbn_fn, demoOps]
    norm_num [hs2]
  obtain ⟨p1, p2, p3, -⟩ := (normal_speed_inward demoOps (0 : ℚ)).1 1 _ _ _ hdraw hrun
  refine ⟨hdraw, hrun, p1, p2, p3, ?_⟩
  have hins : ∃ q rng9, insert_one demoOps demoSim 1 2 0 0 ⟨4 / 5, -3 / 5, 0⟩
      { (Task.zero : Task ℚ) with npoint := 2, tan1 := ⟨-3 / 5, -4 / 5, 0⟩,
                                  tan2 := ⟨0, 0, 1⟩ }
      (some [0, 0, 0, 3, 4, 0]) none 0 0 2 0 ⟨fun _ => 2 / 3, 0⟩ = some (some q, rng9) := by
    simp only [insert_one, sample_position, normal_loop, Rng.uniform, normalized_distbn_fn,
      demoOps, demoSim]
    norm_num [hs2]
  obtain ⟨q, rng9, hq⟩ := hins
  exact ⟨q, rng9, hq, (normal_speed_inward demoOps (0 : ℚ)).2 demoSim 1 2 0 _ _ _ none 0 2 0 _ q
    rng9 hdraw (by norm_num) (by norm_num) hq⟩

/-! ### Acceptance on the first draw for a large speed ratio -/

/-- The first pass accepts exactly when `beta_un = 6*U1 - 3` passes the test
of the inner loop and `normalized_distbn_fn` is not below `U2`. -/
theorem first_draw_accepts_iff {α : Type} [LinearOrderedField α] (ops : MathOps α)
    (s U1 U2 : α) :
    first_draw_accepts ops s U1 U2
      ↔ ¬ (6 * U1 - 3 + s < 0) ∧ ¬ (normalized_distbn_fn ops s (6 * U1 - 3) < U2) := by
  unfold first_draw_accepts
  simp only [normal_loop, Rng.uniform]
  have h0 : (if True then U1 else U2) = U1 := if_pos trivial
  have h1 : (if (0 + 1 : Nat) = 0 then U1 else U2) = U2 := if_neg (by decide)
  rw [h0, h1]
  by_cases ha : 6 * U1 - 3 + s < 0
  · rw [if_pos ha]
    simp [ha]
  · rw [if_neg ha]
    by_cases hb : normalized_distbn_fn ops s (6 * U1 - 3) < U2
    · rw [if_pos hb]
      simp [hb]
    · rw [if_neg hb]
      simp [ha, hb]

/-- For a speed ratio `s >= 3`, a value `beta_un` in `[2, 3)` has
`normalized_distbn_fn < 1/2`. -/
theorem normalized_distbn_fn_small (ops : MathOps ℝ) (hsqrt : ops.sqrt = Real.sqrt)
    (hexp : ops.exp = Real.exp) (s b : ℝ) (hs : 3 ≤ s) (hb2 : 2 ≤ b) (hb3 : b < 3) :
    normalized_distbn_fn ops s b < 1 / 2 := by
  unfold normalized_distbn_fn
  rw [hsqrt, hexp]
  have hr : s ≤ Real.sqrt (s * s + 2) := by
    apply Real.le_sqrt_of_sq_le
    nlinarith
  have hD : 0 < s + Real.sqrt (s * s + 2) := by linarith
  have hA0 : 0 ≤ 2 * (b + s) / (s + Real.sqrt (s * s + 2)) := by
    apply div_nonneg _ hD.le
    linarith
  have hA2 : 2 * (b + s) / (s + Real.sqrt (s * s + 2)) < 2 := by
    rw [div_lt_iff₀ hD]
    linarith
  have hexpo : 0.5 + 0.5 * s * (s - Real.sqrt (s * s + 2)) - b * b ≤ -(7 / 2) := by
    have h1 : 0.5 * s * (s - Real.sqrt (s * s + 2)) ≤ 0 := by
      apply mul_nonpos_of_nonneg_of_nonpos
      · norm_num
        linarith
      · linarith
    have h2 : 4 ≤ b * b := by nlinarith
    norm_num at h1 ⊢
    linarith
  have hE : Real.exp (0.5 + 0.5 * s * (s - Real.sqrt (s * s + 2)) - b * b) ≤ 2 / 9 := by
    have h1 := Real.exp_le_exp.mpr hexpo
    have h2 : Real.exp (-(7 / 2)) = (Real.exp (7 / 2))⁻¹ := Real.exp_neg _
    have h3 : (9 / 2 : ℝ) ≤ Real.exp (7 / 2) := by
      have := Real.add_one_le_exp (7 / 2 : ℝ)
      linarith
    have h4 : (Real.exp (7 / 2))⁻¹ ≤ (9 / 2 : ℝ)⁻¹ :=
      inv_anti₀ (by norm_num) h3
    rw [h2] at h1
    have h5 : (9 / 2 : ℝ)⁻¹ = 2 / 9 := by norm_num
    linarith
  have hE0 : 0 < Real.exp (0.5 + 0.5 * s * (s - Real.sqrt (s * s + 2)) - b * b) :=
    Real.exp_pos _
  nlinarith

/-- For a speed ratio `s >= 3` the first pass rejects every pair of draws with
`U1` in `[5/6, 1)` and `U2` in `[1/2, 1)`. -/
theorem accept_set_subset (ops : MathOps ℝ) (hsqrt : ops.sqrt = Real.sqrt)
    (hexp : ops.exp = Real.exp) (s : ℝ) (hs : 3 ≤ s) :
    accept_set ops s
      ⊆ (Set.Ico (0 : ℝ) (5 / 6) ×ˢ Set.Ico (0 : ℝ) 1)
        ∪ (Set.Ico (5 / 6 : ℝ) 1 ×ˢ Set.Ico (0 : ℝ) (1 / 2)) := by
  intro p hp
  obtain ⟨h1, h2, h3, h4, hacc⟩ := hp
  rw [first_draw_accepts_iff] at hacc
  by_cases hc : p.1 < 5 / 6
  · exact Or.inl ⟨⟨h1, hc⟩, ⟨h3, h4⟩⟩
  · refine Or.inr ⟨⟨not_lt.mp hc, h2⟩, ⟨h3, ?_⟩⟩
    have hf := normalized_distbn_fn_small ops hsqrt hexp s (6 * p.1 - 3) hs
      (by linarith [not_lt.mp hc]) (by linarith)
    have := not_lt.mp hacc.2
    linarith

/-- For a speed ratio `s >= 3` the probability that the first pass accepts is
at most `11/12`. -/
theorem accept_volume_le (ops : MathOps ℝ) (hsqrt : ops.sqrt = Real.sqrt)
    (hexp : ops.exp = Real.exp) (s : ℝ) (hs : 3 ≤ s) :
    (MeasureTheory.volume (accept_set ops s)).toReal ≤ 11 / 12 := by
  apply ENNReal.toReal_le_of_le_ofReal (by norm_num)
  calc MeasureTheory.volume (accept_set ops s)
      ≤ MeasureTheory.volume ((Set.Ico (0 : ℝ) (5 / 6) ×ˢ Set.Ico (0 : ℝ) 1)
          ∪ (Set.Ico (5 / 6 : ℝ) 1 ×ˢ Set.Ico (0 : ℝ) (1 / 2))) :=
        MeasureTheory.measure_mono (accept_set_subset ops hsqrt hexp s hs)
    _ ≤ MeasureTheory.volume (Set.Ico (0 : ℝ) (5 / 6) ×ˢ Set.Ico (0 : ℝ) 1)
          + MeasureTheory.volume (Set.Ico (5 / 6 : ℝ) 1 ×ˢ Set.Ico (0 : ℝ) (1 / 2)) :=
        MeasureTheory.measure_union_le _ _
    _ = ENNReal.ofReal (11 / 12) := by
        rw [MeasureTheory.Measure.volume_eq_prod, MeasureTheory.Measure.prod_prod,
          MeasureTheory.Measure.prod_prod, Real.volume_Ico, Real.volume_Ico, Real.volume_Ico,
          Real.volume_Ico, ← ENNReal.ofReal_mul (by norm_num), ← ENNReal.ofReal_mul (by norm_num),
          ← ENNReal.ofReal_add (by norm_num) (by norm_num)]
        norm_num

/-- C17 (as amended). With `U1`, `U2` independent and uniform on `[0,1)`, the
probability that the first pass of the accept/reject loops accepts is at most
`11/12` for every speed ratio `s >= 3`: a pair of draws with `U1 >= 5/6`
(`beta_un >= 2`) and `U2 >= 1/2` is rejected, since there
`normalized_distbn_fn < 2*exp(-7/2) < 1/2`. -/
theorem first_draw_acceptance_bound (ops : MathOps ℝ) (hsqrt : ops.sqrt = Real.sqrt)
    (hexp : ops.exp = Real.exp) (s : ℝ) (hs : 3 ≤ s) :
    (MeasureTheory.volume (accept_set ops s)).toReal ≤ 11 / 12
      ∧ ∀ U1 U2 : ℝ, 5 / 6 ≤ U1 → U1 < 1 → 1 / 2 ≤ U2 → ¬ first_draw_accepts ops s U1 U2 := by
  refine ⟨accept_volume_le ops hsqrt hexp s hs, ?_⟩
  intro U1 U2 h1 h2 h3 hacc
  rw [first_draw_accepts_iff] at hacc
  have hf := normalized_distbn_fn_small ops hsqrt hexp s (6 * U1 - 3) hs (by linarith)
    (by linarith)
  have := not_lt.mp hacc.2
  linarith

/-- Witness of C17 (as amended): the speed ratio 3 with the functions of
`math.h` on the reals. -/
theorem first_draw_acceptance_bound_witness :
    (3 : ℝ) ≤ 3
    ∧ (MeasureTheory.volume (accept_set
        (⟨Real.sqrt, Real.exp, Real.log, Real.sin, Real.cos, Real.pi, 2 * Real.pi⟩ : MathOps ℝ)
        3)).toReal ≤ 11 / 12
    ∧ ¬ first_draw_accepts
        (⟨Real.sqrt, Real.exp, Real.log, Real.sin, Real.cos, Real.pi, 2 * Real.pi⟩ : MathOps ℝ)
        3 (11 / 12) (3 / 4) :=
  ⟨le_refl _,
    (first_draw_acceptance_bound ⟨Real.sqrt, Real.exp, Real.log, Real.sin, Real.cos, Real.pi,
      2 * Real.pi⟩ rfl rfl 3 (le_refl _)).1,
    (first_draw_acceptance_bound ⟨Real.sqrt, Real.exp, Real.log, Real.sin, Real.cos, Real.pi,
      2 * Real.pi⟩ rfl rfl 3 (le_refl _)).2 (11 / 12) (3 / 4) (by norm_num) (by norm_num)
      (by norm_num)⟩

/-- Counterexample to C17 as stated: with the functions of `math.h` on the
reals, the probability `A(s)` that the first pass accepts does not tend to 1
as the speed ratio `s` tends to `+infinity` (it stays at or below `11/12`
from `s = 3` on). -/
theorem first_draw_acceptance_not_one :
    ¬ Filter.Tendsto
      (fun s : ℝ => (MeasureTheory.volume (accept_set
        (⟨Real.sqrt, Real.exp, Real.log, Real.sin, Real.cos, Real.pi, 2 * Real.pi⟩ : MathOps ℝ)
        s)).toReal)
      Filter.atTop (nhds 1) := by
  intro h
  have h1 := h.eventually (lt_mem_nhds (by norm_num : (11 / 12 : ℝ) < 1))
  have h2 : ∀ᶠ s : ℝ in Filter.atTop, 3 ≤ s := Filter.eventually_ge_atTop 3
  obtain ⟨s, hs1, hs2⟩ := (h1.and h2).exists
  have := accept_volume_le ⟨Real.sqrt, Real.exp, Real.log, Real.sin, Real.cos, Real.pi,
    2 * Real.pi⟩ rfl rfl s hs2
  linarith

/-! ### The thermal scale of a new particle -/

theorem demoSqrt_values : demoSqrt 1 = 1 ∧ demoSqrt 2 = 1 ∧ demoSqrt 4 = 2
    ∧ demoSqrt (1 / 3) = 1 := by
  have h1 : Nat.sqrt 2 = 1 := (Nat.eq_sqrt.2 ⟨by norm_num, by norm_num⟩).symm
  have h3 : Nat.sqrt 3 = 1 := (Nat.eq_sqrt.2 ⟨by norm_num, by norm_num⟩).symm
  have h4 : Nat.sqrt 4 = 2 := (Nat.eq_sqrt.2 ⟨by norm_num, by norm_num⟩).symm
  have e1 : ((1 : ℚ).num).toNat = 1 := rfl
  have e2 : ((2 : ℚ).num).toNat = 2 := rfl
  have e4 : ((4 : ℚ).num).toNat = 4 := rfl
  have d1 : (1 : ℚ).den = 1 := rfl
  have d2 : (2 : ℚ).den = 1 := rfl
  have d4 : (4 : ℚ).den = 1 := rfl
  have e3 : ((1 / 3 : ℚ).num).toNat = 1 := by
    have : (1 / 3 : ℚ).num = 1 := by norm_num
    rw [this]
    rfl
  have d3 : (1 / 3 : ℚ).den = 3 := by norm_num
  refine ⟨?_, ?_, ?_, ?_⟩
  · unfold demoSqrt
    rw [e1, d1, Nat.sqrt_one]
    norm_num
  · unfold demoSqrt
    rw [e2, d2, h1, Nat.sqrt_one]
    norm_num
  · unfold demoSqrt
    rw [e4, d4, h4, Nat.sqrt_one]
    norm_num
  · unfold demoSqrt
    rw [e3, d3, h3, Nat.sqrt_one]
    norm_num

theorem demo_vscale : refresh_vscale demoOps demoSim2 4 = [2, 1] := by
  have hr : List.range 2 = [0, 1] := rfl
  simp only [refresh_vscale, demoSim2, demoOps, hr, List.map_cons, List.map_nil,
    List.getD_cons_zero, List.getD_cons_succ]
  norm_num [demoSqrt_values]

theorem demo_perform_isp0 :
    perform_task demoOps demoSim2 demoSurf demoStates2 1 0 ⟨fun _ => 2 / 3, 0⟩ demoLineStore
      = some
          { rng := ⟨fun _ => 2 / 3, 8⟩, calls := 1, nsingle := 1,
            particles :=
              [{ id := 1431655764, ispecies := 1, icell := 0, x := ⟨2, 8 / 3, 0⟩,
                 v := ⟨2 * (4 / 5) + 2840 / 339 * (-3 / 5) + 2 * 0,
                       2 * (-3 / 5) + 2840 / 339 * (-4 / 5) + 2 * 0,
                       2 * 0 + 2840 / 339 * 0 + 2 * 1⟩,
                 erot := 0, evib := 0, flag := 1, dtremain := 2 / 3 }] } := by
  have hr : List.range 2 = [0, 1] := rfl
  have hfl : ⌊(4294967294 / 3 : ℚ)⌋ = 1431655764 := by
    rw [Int.floor_eq_iff]
    norm_num
  simp only [perform_task, task_loop, ztask_loop, events_loop, products_loop, insert_loop,
    insert_one, sample_position, normal_loop, normalized_distbn_fn, event_count, trunc_int,
    refresh_vscale, Rng.uniform, demoSim2, demoOps, demoSurf, demoStates2, demoLineStore, idx?,
    hr, dot3, Task.zero, PINSERT]
  norm_num [demoSqrt_values]
  simp only [events_loop, products_loop, insert_loop,
    insert_one, sample_position, normal_loop, normalized_distbn_fn, trunc_int,
    Rng.uniform, idx?, PINSERT, dot3]
  norm_num [demoSqrt_values, hfl]

theorem demo_perform_isp1 :
    perform_task demoOps demoSim2 demoSurf demoStates2 1 1 ⟨fun _ => 2 / 3, 0⟩ demoLineStore
      = some
          { rng := ⟨fun _ => 2 / 3, 8⟩, calls := 1, nsingle := 1,
            particles :=
              [{ id := 1431655764, ispecies := 1, icell := 0, x := ⟨2, 8 / 3, 0⟩,
                 v := ⟨1 * (4 / 5) + 1420 / 339 * (-3 / 5) + 1 * 0,
                       1 * (-3 / 5) + 1420 / 339 * (-4 / 5) + 1 * 0,
                       1 * 0 + 1420 / 339 * 0 + 1 * 1⟩,
                 erot := 0, evib := 0, flag := 1, dtremain := 2 / 3 }] } := by
  have hr : List.range 2 = [0, 1] := rfl
  have hfl : ⌊(4294967294 / 3 : ℚ)⌋ = 1431655764 := by
    rw [Int.floor_eq_iff]
    norm_num
  simp only [perform_task, task_loop, ztask_loop, events_loop, products_loop, insert_loop,
    insert_one, sample_position, normal_loop, normalized_distbn_fn, event_count, trunc_int,
    refresh_vscale, Rng.uniform, demoSim2, demoOps, demoSurf, demoStates2, demoLineStore, idx?,
    hr, dot3, Task.zero, PINSERT]
  norm_num [demoSqrt_values]
  simp only [events_loop, products_loop, insert_loop,
    insert_one, sample_position, normal_loop, normalized_distbn_fn, trunc_int,
    Rng.uniform, idx?, PINSERT, dot3]
  norm_num [demoSqrt_values, hfl]

theorem demo_perform_isp2 :
    perform_task demoOps demoSim2 demoSurf demoStates2 1 2 ⟨fun _ => 2 / 3, 0⟩ demoLineStore
      = none := by
  have hr : List.range 2 = [0, 1] := rfl
  simp only [perform_task, task_loop, ztask_loop, events_loop, products_loop, insert_loop,
    event_count, trunc_int,
    refresh_vscale, Rng.uniform, demoSim2, demoOps, demoSurf, demoStates2, demoLineStore, idx?,
    hr, dot3, Task.zero]
  norm_num [demoSqrt_values]
  have ht : (2 : Int).toNat = 2 := rfl
  simp only [events_loop, products_loop, idx?]
  simp [ht]

/-- The loop over the product species reads the thermal scales only at the
index `isp`: two arrays of scales that agree there give the same particles,
whatever the product species are. -/
theorem products_loop_scale_index {α : Type} [LinearOrderedField α] [FloorRing α]
    (ops : MathOps α) (S : Sim α) (fuel : Nat) (dimension normalflag : Int) (magvstream : α)
    (normal : Vec3 α) (t : Task α) (path fracarea : Option (List α)) (indot : α)
    (vscale vscale2 : List α) (isp : Int) (hidx : idx? vscale isp = idx? vscale2 isp)
    (l : List (Nat × α)) : ∀ p : Perf α,
      products_loop ops S fuel dimension normalflag magvstream normal t path fracarea indot
          vscale isp l p
        = products_loop ops S fuel dimension normalflag magvstream normal t path fracarea indot
          vscale2 isp l p := by
  induction l with
  | nil =>
    intro p
    rfl
  | cons a l ih =>
    intro p
    obtain ⟨kGas, stoich⟩ := a
    unfold products_loop
    rw [hidx]
    cases h1 : S.ZutoSp_speciesMap[kGas]? with
    | none => rfl
    | some ispecies =>
      cases h2 : idx? vscale2 isp with
      | none => rfl
      | some vscale_isp =>
        dsimp only
        cases h3 : insert_loop ops S fuel dimension normalflag magvstream normal t path
            fracarea indot (indot / vscale_isp) vscale_isp ispecies (trunc_int stoich).toNat
            p with
        | none => rfl
        | some p1 => exact ih _

/-- C18 (the code at the failing input). Two species of mass 1 and 4 at
temperature 4 have the refreshed scales `vscale = [2, 1]`. A reaction event of
a 2-D task creates one particle of species 1 (`beta_un = 1`, `indot = 0`).
With the unassigned local `isp` holding 0 the normal speed of the particle is
`beta_un*vscale[0] + indot = 2`, not `beta_un*vscale[1] + indot = 1`; with
`isp` holding 1 it is 1; with `isp` holding 2 the read `vscale[isp]` leaves
the array. -/
theorem perform_task_scale_index :
    refresh_vscale demoOps demoSim2 4 = [2, 1]
    ∧ (∃ p q, perform_task demoOps demoSim2 demoSurf demoStates2 1 0 ⟨fun _ => 2 / 3, 0⟩
          demoLineStore = some p
        ∧ p.particles = [q] ∧ q.ispecies = 1
        ∧ dot3 q.v ⟨4 / 5, -3 / 5, 0⟩ = 1 * 2 + 0
        ∧ dot3 q.v ⟨4 / 5, -3 / 5, 0⟩ ≠ 1 * 1 + 0)
    ∧ (∃ p q, perform_task demoOps demoSim2 demoSurf demoStates2 1 1 ⟨fun _ => 2 / 3, 0⟩
          demoLineStore = some p
        ∧ p.particles = [q] ∧ q.ispecies = 1
        ∧ dot3 q.v ⟨4 / 5, -3 / 5, 0⟩ = 1 * 1 + 0)
    ∧ perform_task demoOps demoSim2 demoSurf demoStates2 1 2 ⟨fun _ => 2 / 3, 0⟩
          demoLineStore = none := by
  refine ⟨demo_vscale, ⟨_, _, demo_perform_isp0, rfl, rfl, ?_, ?_⟩,
    ⟨_, _, demo_perform_isp1, rfl, rfl, ?_⟩, demo_perform_isp2⟩
  · simp only [dot3]
    norm_num
  · simp only [dot3]
    norm_num
  · simp only [dot3]
    norm_num

/-! ### Reaction events -/

/-- C20. The setup ends in a fatal error when there are fewer than 4
arguments, when the mixture ID is not found, when it is found and is not
`"all"`, when the surface group ID is not found, and when `options`, called with
`perspecies = 1`, comes back with a fixed count `np > 0` and per-species
accounting; `option` ends in a
fatal error for the keyword `zuzaxReact` without a following react ID or with
an unknown one and for every other keyword, and for `zuzaxReact` with a known
react ID it returns 2 and the react index for the member `isrZuzax`. -/
theorem setup_errors (I : Input) (options : Ctor → Int → List String → Except Fatal Ctor)
    (isrZuzax : Int) (narg : Int) (arg : List String) :
    (narg < 4 →
      FixEmitZSurf I options isrZuzax narg arg = Except.error Fatal.illegal_command)
    ∧ (∀ a2 a3, 4 ≤ narg → arg[2]? = some a2 → arg[3]? = some a3 →
        (I.find_mixture a2 < 0 →
          FixEmitZSurf I options isrZuzax narg arg = Except.error Fatal.mixture_not_exist)
        ∧ (0 ≤ I.find_mixture a2 → a2 ≠ "all" →
          FixEmitZSurf I options isrZuzax narg arg = Except.error Fatal.mixture_not_all)
        ∧ (0 ≤ I.find_mixture a2 → a2 = "all" → I.find_group a3 < 0 →
          FixEmitZSurf I options isrZuzax narg arg = Except.error Fatal.group_not_exist))
    ∧ ((∀ c c1, c.perspecies = 1 → options c (narg - 4) (arg.drop 4) = Except.ok c1 →
          0 < c1.np ∧ c1.perspecies ≠ 0) →
        ∃ e, FixEmitZSurf I options isrZuzax narg arg = Except.error e)
    ∧ (∀ (n : Int) (a : List String), a[0]? = some "zuzaxReact" → n < 2 →
        option I.find_react n a = Except.error Fatal.keyword_requires_react_id)
    ∧ (∀ (n : Int) (a : List String) (id : String), a[0]? = some "zuzaxReact" → 2 ≤ n →
        a[1]? = some id → I.find_react id < 0 →
        option I.find_react n a = Except.error Fatal.react_not_found)
    ∧ (∀ (n : Int) (a : List String) (kw : String), a[0]? = some kw → kw ≠ "zuzaxReact" →
        option I.find_react n a = Except.error Fatal.illegal_keyword)
    ∧ (∀ (n : Int) (a : List String) (id : String), a[0]? = some "zuzaxReact" → 2 ≤ n →
        a[1]? = some id → 0 ≤ I.find_react id →
        option I.find_react n a = Except.ok (2, I.find_react id)) := by
  refine ⟨?_, ?_, ?_, ?_, ?_, ?_, ?_⟩
  · intro h
    unfold FixEmitZSurf
    rw [if_pos h]
  · intro a2 a3 h4 h2 h3
    refine ⟨?_, ?_, ?_⟩
    · intro hm
      unfold FixEmitZSurf
      rw [if_neg (not_lt.mpr h4), h2, h3]
      dsimp only
      rw [if_pos hm]
    · intro hm hall
      unfold FixEmitZSurf
      rw [if_neg (not_lt.mpr h4), h2, h3]
      dsimp only
      rw [if_neg (not_lt.mpr hm), if_pos hall]
    · intro hm hall hg
      unfold FixEmitZSurf
      rw [if_neg (not_lt.mpr h4), h2, h3]
      dsimp only
      rw [if_neg (not_lt.mpr hm), if_neg (not_not.mpr hall), if_pos hg]
  · intro hopt
    cases hres : FixEmitZSurf I options isrZuzax narg arg with
    | error e => exact ⟨e, rfl⟩
    | ok cfin =>
      exfalso
      unfold FixEmitZSurf at hres
      by_cases h4 : narg < 4
      · rw [if_pos h4] at hres
        cases hres
      rw [if_neg h4] at hres
      cases h2 : arg[2]? with
      | none =>
        rw [h2] at hres
        cases hres
      | some a2 =>
        cases h3 : arg[3]? with
        | none =>
          rw [h2, h3] at hres
          cases hres
        | some a3 =>
          rw [h2, h3] at hres
          dsimp only at hres
          by_cases hm : I.find_mixture a2 < 0
          · rw [if_pos hm] at hres
            cases hres
          rw [if_neg hm] at hres
          by_cases hall : a2 ≠ "all"
          · rw [if_pos hall] at hres
            cases hres
          rw [if_neg hall] at hres
          by_cases hg : I.find_group a3 < 0
          · rw [if_pos hg] at hres
            cases hres
          rw [if_neg hg] at hres
          cases hb : idx? I.bitmask (I.find_group a3) with
          | none =>
            rw [hb] at hres
            cases hres
          | some groupbit =>
            rw [hb] at hres
            dsimp only at hres
            cases ho : options
                { imix := I.find_mixture a2, groupbit := groupbit, perspecies := 1, np := 0,
                  normalflag := 0, isrZuzax := isrZuzax, ntask := 0, ntaskmax := 0 }
                (narg - 4) (arg.drop 4) with
            | error e =>
              rw [ho] at hres
              cases hres
            | ok c1 =>
              rw [ho] at hres
              dsimp only at hres
              obtain ⟨k1, k2⟩ := hopt _ c1 rfl ho
              cases hk : constructor_checks I.exist I.distributed c1.np c1.perspecies with
              | some e =>
                rw [hk] at hres
                cases hres
              | none =>
                unfold constructor_checks at hk
                split_ifs at hk with q1 q2 q3
                exact q3 ⟨k1, k2⟩
  · intro n a h0 hn
    unfold option
    rw [h0]
    dsimp only
    rw [if_pos rfl, if_pos (by omega)]
  · intro n a id h0 hn h1 hr
    unfold option
    rw [h0]
    dsimp only
    rw [if_pos rfl, if_neg (by omega), h1]
    dsimp only
    rw [if_pos hr]
  · intro n a kw h0 hk
    unfold option
    rw [h0]
    dsimp only
    rw [if_neg hk]
  · intro n a id h0 hn h1 hr
    unfold option
    rw [h0]
    dsimp only
    rw [if_pos rfl, if_neg (by omega), h1]
    dsimp only
    rw [if_neg (not_lt.mpr hr)]

/-- Witness of C20: the run of `demoInput`. -/
theorem setup_errors_witness :
    FixEmitZSurf demoInput (demoOptions demoInput.find_react) (-1) 3
        ["f1", "emit/zsurf", "all"] = Except.error Fatal.illegal_command
    ∧ FixEmitZSurf demoInput (demoOptions demoInput.find_react) (-1) 4
        ["f1", "emit/zsurf", "xyz", "inlet"] = Except.error Fatal.mixture_not_exist
    ∧ FixEmitZSurf demoInput (demoOptions demoInput.find_react) (-1) 4
        ["f1", "emit/zsurf", "air", "inlet"] = Except.error Fatal.mixture_not_all
    ∧ FixEmitZSurf demoInput (demoOptions demoInput.find_react) (-1) 4
        ["f1", "emit/zsurf", "all", "wall"] = Except.error Fatal.group_not_exist
    ∧ (∃ e, FixEmitZSurf demoInput (fun c _ _ => Except.ok { c with np := 100 }) (-1) 4
        ["f1", "emit/zsurf", "all", "inlet"] = Except.error e)
    ∧ option demoInput.find_react 1 ["zuzaxReact"]
        = Except.error Fatal.keyword_requires_react_id
    ∧ option demoInput.find_react 2 ["zuzaxReact", "sr9"] = Except.error Fatal.react_not_found
    ∧ option demoInput.find_react 2 ["n", "100"] = Except.error Fatal.illegal_keyword
    ∧ option demoInput.find_react 2 ["zuzaxReact", "sr1"] = Except.ok (2, 0)
    ∧ FixEmitZSurf demoInput (demoOptions demoInput.find_react) (-1) 5
        ["f1", "emit/zsurf", "all", "inlet", "zuzaxReact"]
        = Except.error Fatal.keyword_requires_react_id
    ∧ FixEmitZSurf demoInput (demoOptions demoInput.find_react) (-1) 6
        ["f1", "emit/zsurf", "all", "inlet", "zuzaxReact", "sr1"]
        = Except.ok { imix := 0, groupbit := 2, perspecies := 1, np := 0, normalflag := 0,
                      isrZuzax := 0, ntask := 0, ntaskmax := 0 } :=
  ⟨(setup_errors demoInput (demoOptions demoInput.find_react) (-1) 3
      ["f1", "emit/zsurf", "all"]).1 (by decide),
   ((setup_errors demoInput (demoOptions demoInput.find_react) (-1) 4
      ["f1", "emit/zsurf", "xyz", "inlet"]).2.1 "xyz" "inlet" (by decide) rfl rfl).1 (by decide),
   ((setup_errors demoInput (demoOptions demoInput.find_react) (-1) 4
      ["f1", "emit/zsurf", "air", "inlet"]).2.1 "air" "inlet" (by decide) rfl rfl).2.1
      (by decide) (by decide),
   ((setup_errors demoInput (demoOptions demoInput.find_react) (-1) 4
      ["f1", "emit/zsurf", "all", "wall"]).2.1 "all" "wall" (by decide) rfl rfl).2.2
      (by decide) rfl (by decide),
   (setup_errors demoInput (fun c _ _ => Except.ok { c with np := 100 }) (-1) 4
      ["f1", "emit/zsurf", "all", "inlet"]).2.2.1
      (fun c c1 hc h => by
        cases h
        exact ⟨show (0 : Int) < 100 by decide,
          by rw [show ({ c with np := 100 } : Ctor).perspecies = 1 from hc]; decide⟩),
   (setup_errors demoInput (demoOptions demoInput.find_react) (-1) 0 []).2.2.2.1 1
      ["zuzaxReact"] rfl (by decide),
   (setup_errors demoInput (demoOptions demoInput.find_react) (-1) 0 []).2.2.2.2.1 2
      ["zuzaxReact", "sr9"] "sr9" rfl (by decide) rfl (by decide),
   (setup_errors demoInput (demoOptions demoInput.find_react) (-1) 0 []).2.2.2.2.2.1 2
      ["n", "100"] "n" rfl (by decide),
   (setup_errors demoInput (demoOptions demoInput.find_react) (-1) 0 []).2.2.2.2.2.2 2
      ["zuzaxReact", "sr1"] "sr1" rfl (by decide) rfl (by decide),
   rfl, rfl⟩

/-! ### Binding of the reaction network in `create_task` -/

set_option maxRecDepth 100000 in
/-- C21, evaluation of the code. In a 2-D run `create_task` builds a task for
a line that has no surface state, and builds the tasks of two lines whose
surface states are bound to different networks; both runs end without error
and leave `net` unset. The same surfaces as triangles of a 3-D run end in the
fatal errors of lines 411-419. -/
theorem create_task_2d_no_binding :
    (∃ b1, create_task demoExt demoGrid demoSurfBare demoMix 0 (demoBuild 2) = Except.ok b1
      ∧ b1.e.ntask = 1 ∧ b1.e.net = none
      ∧ ((idx? demoSurfBare.lines (b1.e.tasks 0).isurf).map (fun l => l.surfaceState))
          = some none)
    ∧ (∃ b1, create_task demoExt demoGridTwo demoSurfTwo demoMix 0 (demoBuildNets 2)
        = Except.ok b1
      ∧ b1.e.ntask = 2 ∧ b1.e.net = none
      ∧ (b1.e.tasks 0).isurf = 0 ∧ (b1.e.tasks 1).isurf = 1
      ∧ (b1.states 0).net = some 0 ∧ (b1.states 1).net = some 1)
    ∧ create_task demoExt demoGrid demoSurfBare demoMix 0 (demoBuild 3)
        = Except.error Abort.no_surface_state
    ∧ create_task demoExt demoGridTwo demoSurfTwo demoMix 0 (demoBuildNets 3)
        = Except.error Abort.net_differs :=
  ⟨⟨_, rfl, rfl, rfl, rfl⟩, ⟨_, rfl, rfl, rfl, rfl, rfl, rfl, rfl⟩, rfl, rfl⟩

/-! ### The quota block without tasks -/

/-- The quota block never divides by zero: with `/` and `%` undefined for a
zero divisor it still returns, and returns what `init_quota` returns. -/
theorem init_quota_checked_eq (np all nupto ntask : Int) (old : Quota) :
    init_quota_checked np all nupto ntask old = some (init_quota np all nupto ntask old) := by
  unfold init_quota_checked init_quota quota_base_checked quota_base int_div int_mod
  by_cases hnp : np > 0
  · rw [if_pos hnp, if_pos hnp]
    by_cases hall : all ≠ 0
    · rw [if_pos hall, if_pos hall, if_neg hall, if_neg hall]
    · rw [if_neg hall, if_neg hall]
  · rw [if_neg hnp, if_neg hnp]

/-- C22. With `np > 0` and no task on any rank, the quota block of `init`, run
with `/` and `%` undefined for a zero divisor, returns on every rank `r`
(neither operation is applied to a zero divisor, and the block has no error
call), and it leaves `npertask = 0` and `nthresh = 0`; the unchecked block
gives the same, and the per-task counts of the rank's (no) tasks add up to
0. -/
theorem init_quota_no_tasks (np : Int) (ntasks : List Nat) (r : Nat) (old : Quota)
    (hnp : 0 < np) (h0 : ∀ n ∈ ntasks, n = 0) :
    MPI_Allreduce_sum ntasks = 0
      ∧ init_quota_checked_rank np ntasks r old = some ⟨0, 0⟩
      ∧ init_quota_rank np ntasks r old = ⟨0, 0⟩
      ∧ ((List.range (ntasks.getD r 0)).map
          (quota_count (init_quota_rank np ntasks r old))).sum = 0 := by
  have hall : MPI_Allreduce_sum ntasks = 0 := by
    unfold MPI_Allreduce_sum
    rw [List.sum_eq_zero h0]
    rfl
  have hscan : MPI_Scan_sum ntasks r = 0 := by
    unfold MPI_Scan_sum
    rw [List.sum_eq_zero (fun n hn => h0 n (List.mem_of_mem_take hn))]
    rfl
  have hloc : ntasks.getD r 0 = 0 := by
    by_cases hr : r < ntasks.length
    · rw [List.getD_eq_getElem ntasks 0 hr]
      exact h0 _ (List.getElem_mem hr)
    · rw [List.getD_eq_default ntasks 0 (by omega)]
  have hq : init_quota_rank np ntasks r old = ⟨0, 0⟩ := by
    unfold init_quota_rank init_quota quota_base quota_nthresh
    rw [hall, hscan, hloc, if_pos hnp]
    simp
  refine ⟨hall, ?_, hq, ?_⟩
  · unfold init_quota_checked_rank
    rw [init_quota_checked_eq]
    exact congrArg some hq
  · rw [hloc]
    rfl

/-- Witness of C22: `np = 100` on rank 1 of three ranks without tasks. -/
theorem init_quota_no_tasks_witness :
    MPI_Allreduce_sum [0, 0, 0] = 0
      ∧ init_quota_checked_rank 100 [0, 0, 0] 1 ⟨5, 7⟩ = some ⟨0, 0⟩
      ∧ init_quota_rank 100 [0, 0, 0] 1 ⟨5, 7⟩ = ⟨0, 0⟩
      ∧ ((List.range (([0, 0, 0] : List Nat).getD 1 0)).map
          (quota_count (init_quota_rank 100 [0, 0, 0] 1 ⟨5, 7⟩))).sum = 0 :=
  init_quota_no_tasks 100 [0, 0, 0] 1 ⟨5, 7⟩ (by decide) (by decide)

/-! ### `unpack_task` appends -/

/-- C23. `unpack_task(buf, icell)` on a store whose buffers are not shared and
a message buffer that holds a record (a header `t` with `npoint >= 2`, the
`3*npoint` path doubles `pb` and the `npoint-2` `fracarea` doubles `fb`) for a
cell in which the surface of the record resolves: the call returns; `ntask` is
increased by exactly 1; the capacity grows by 256 exactly when `ntask ==
ntaskmax` held at the call; the slot at the old `ntask` holds the scalar
members of the received header with `icell` the given cell, and buffers with
the received doubles; and every task with index below the old `ntask` has all
its members and the contents of its two buffers unchanged. -/
theorem unpack_task_appends {α : Type} [Zero α] (L : Layout) (grid : Grid α) (buf : Nat)
    (icell : Int) (w : Wire α) (e : Emit α) (t : Task α) (pb fb : List α) (pcell : Int)
    (hown : Owns e) (hcap : e.ntask ≤ e.ntaskmax)
    (hw : w buf = some (WItem.task t)) (hnp : 2 ≤ t.npoint)
    (hgp : Wire.get_doubles w (ROUNDUP L (buf + L.sizeof_Task)) (t.npoint * 3).toNat = some pb)
    (hgf : Wire.get_doubles w
      (ROUNDUP L (buf + L.sizeof_Task) + (t.npoint * 3).toNat * SIZEOF_DOUBLE)
      (t.npoint - 2).toNat = some fb)
    (hpc : unpack_pcell grid icell t.isurf = some pcell) :
    ∃ c e1, unpack_task L grid buf icell w e = some (c, e1)
      ∧ e1.ntask = e.ntask + 1
      ∧ e1.ntaskmax = (if e.ntask = e.ntaskmax then e.ntaskmax + 256 else e.ntaskmax)
      ∧ e1.tasks e.ntask
          = { t with
              path := (e1.tasks e.ntask).path
              fracarea := (e1.tasks e.ntask).fracarea
              icell := icell
              pcell := pcell }
      ∧ (e1.tasks e.ntask).icell = icell
      ∧ e1.heap.buf (e1.tasks e.ntask).path = some pb
      ∧ e1.heap.buf (e1.tasks e.ntask).fracarea = some fb
      ∧ ∀ j, j < e.ntask →
          e1.tasks j = e.tasks j
          ∧ e1.heap.buf (e.tasks j).path = e.heap.buf (e.tasks j).path
          ∧ e1.heap.buf (e.tasks j).fracarea = e.heap.buf (e.tasks j).fracarea := by
  -- the engine once the slot exists
  have he : ∃ e2 : Emit α, e2 = (if e.ntask = e.ntaskmax then grow_task e else e)
      ∧ Owns e2 ∧ e2.ntask = e.ntask ∧ e2.heap = e.heap ∧ e2.ntask < e2.ntaskmax
      ∧ e2.ntaskmax = (if e.ntask = e.ntaskmax then e.ntaskmax + 256 else e.ntaskmax)
      ∧ (∀ j, j < e.ntaskmax → e2.tasks j = e.tasks j) := by
    refine ⟨_, rfl, ?_⟩
    split_ifs with hc
    · refine ⟨Owns.grow _ hown, rfl, rfl, ?_, rfl, fun j hj => grow_task_old _ j hj⟩
      show e.ntask < e.ntaskmax + DELTATASK
      have : DELTATASK = 256 := rfl
      omega
    · exact ⟨hown, rfl, rfl, by omega, rfl, fun _ _ => rfl⟩
  obtain ⟨e2, he2, hown2, hnt2, hheap2, hk2, hmax2, hold2⟩ := he
  have bk := hown2.below e2.ntask hk2
  have hpn := hown2.next_pos
  have hun := unpack_task_slot_eq L grid buf icell w e2 t pb fb pcell hk2 hw hnp hgp hgf hpc
  refine ⟨_, _, (by unfold unpack_task; rw [← he2]; exact hun), ?_⟩
  dsimp only
  rw [← hnt2, Function.update_same]
  dsimp only
  refine ⟨rfl, by rw [hnt2]; exact hmax2, rfl, rfl, ?_, ?_, ?_⟩
  · rw [copy_step_buf, if_neg (by omega), if_neg (by omega), if_pos rfl]
  · rw [copy_step_buf, if_pos rfl]
  · intro j hj
    have hj2 : j < e2.ntaskmax := by omega
    have hjk : j ≠ e2.ntask := by omega
    have hjm : j < e.ntaskmax := by omega
    have bj := hown2.below j hj2
    rw [Function.update_noteq hjk, ← hold2 j hjm]
    refine ⟨rfl, ?_, ?_⟩
    · by_cases h0 : (e2.tasks j).path = 0
      · rw [h0, copy_step_buf, if_neg (by omega), if_neg (by omega), if_neg (by omega),
          if_neg (by omega), ← hheap2]
      · rw [copy_step_buf, if_neg (by omega),
          if_neg (fun hc2 => hown2.path_frac j hj2 e2.ntask hk2 h0 hc2.2),
          if_neg (by omega),
          if_neg (fun hc2 => hown2.path_path j hj2 e2.ntask hk2 hjk h0 hc2.2), ← hheap2]
    · by_cases h0 : (e2.tasks j).fracarea = 0
      · rw [h0, copy_step_buf, if_neg (by omega), if_neg (by omega), if_neg (by omega),
          if_neg (by omega), ← hheap2]
      · rw [copy_step_buf, if_neg (by omega),
          if_neg (fun hc2 => hown2.frac_frac j hj2 e2.ntask hk2 hjk h0 hc2.2),
          if_neg (by omega),
          if_neg (fun hc2 => hown2.path_frac e2.ntask hk2 j hj2 hc2.1 hc2.2.symm), ← hheap2]

/-- Witness of C23: the record of `demoWire` unpacked for cell 0 into
`demoStore`, whose slot 0 is live. -/
theorem unpack_task_appends_witness :
    ∃ c e1, unpack_task ⟨144, 8⟩ demoGrid 64 0 demoWire demoStore = some (c, e1)
      ∧ e1.ntask = 2 ∧ e1.ntaskmax = 4
      ∧ (e1.tasks 1).npoint = 3 ∧ (e1.tasks 1).icell = 0
      ∧ e1.heap.buf (e1.tasks 1).path = some [0, 0, 0, 1, 0, 0, 0, 0, 1]
      ∧ e1.tasks 0 = demoStore.tasks 0
      ∧ e1.heap.buf (demoStore.tasks 0).path = some [0, 0, 0, 1, 0, 0, 0, 1, 0] :=
  (unpack_task_appends ⟨144, 8⟩ demoGrid 64 0 demoWire demoStore
      { (Task.zero : Task ℚ) with area := 1 / 2, path := 7, fracarea := 9,
                                  npoint := 3, icell := 5, pcell := 5 }
      [0, 0, 0, 1, 0, 0, 0, 0, 1] [1] 0
      demoStore_owns (by decide) rfl (by decide) rfl rfl rfl).elim
    fun c h => h.elim fun e1 h =>
      ⟨c, e1, h.1, h.2.1, h.2.2.1,
        by rw [show (1 : Nat) = demoStore.ntask from rfl, h.2.2.2.1],
        h.2.2.2.2.1,
        h.2.2.2.2.2.1,
        (h.2.2.2.2.2.2.2 0 (by decide)).1,
        by rw [(h.2.2.2.2.2.2.2 0 (by decide)).2.1]; rfl⟩

/-! ### The triangle scan stays inside the buffers -/

/-- C24. Triangle selection of lines 587-597 for a 3-D task with `npoint >= 3`
whose `fracarea` holds `npoint-2` doubles, the last of them 1, whose path
holds `3*npoint` doubles, and a draw `rn < 1`: the scan
returns the smallest `n` with `rn < fracarea[n]`; each read of `fracarea` it
makes is inside the buffer; `n <= npoint-3`; and the three doubles at the
offsets `3*(n+1)` and `3*(n+2)` lie inside the path, so both vertex reads
succeed. (That `fracarea` is non-decreasing is not needed.) -/
theorem tri_scan_in_bounds {α : Type} [LinearOrderedField α] (npoint : Int)
    (path frac : List α) (rn : α)
    (hnp : 3 ≤ npoint) (hplen : path.length = (npoint * 3).toNat)
    (hflen : frac.length = (npoint - 2).toNat)
    (hlast : frac[(npoint - 3).toNat]? = some 1) (hrn : rn < 1) :
    ∃ n, tri_scan frac rn (npoint - 2).toNat 0 = some n
      ∧ (∃ f, frac[n]? = some f ∧ rn < f)
      ∧ (∀ m, m < n → ∃ f, frac[m]? = some f ∧ ¬ rn < f)
      ∧ (n : Int) ≤ npoint - 3
      ∧ 3 * (n + 1) + 2 < path.length ∧ 3 * (n + 2) + 2 < path.length
      ∧ ((3 * (n + 2) + 2 : Nat) : Int) < 3 * npoint
      ∧ vec3_at? path (3 * (n + 1)) = some (vec3_at path (3 * (n + 1)))
      ∧ vec3_at? path (3 * (n + 2)) = some (vec3_at path (3 * (n + 2))) := by
  obtain ⟨n, hn1, -, hn3, hn4, hn5⟩ :=
    tri_scan_first frac rn (npoint - 2).toNat 0 (by omega)
  have hnlt : n < (npoint - 2).toNat := by
    rcases Nat.lt_or_ge n (npoint - 2).toNat with h | h
    · exact h
    · exfalso
      obtain ⟨f, hf1, hf2⟩ := hn4 (npoint - 3).toNat (Nat.zero_le _) (by omega)
      rw [hlast] at hf1
      cases hf1
      exact absurd hrn (not_lt.mpr hf2)
  have h1 : 3 * (n + 1) + 2 < path.length := by omega
  have h2 : 3 * (n + 2) + 2 < path.length := by omega
  refine ⟨n, hn1, hn5 (by omega), ?_, by omega, h1, h2, by omega,
    vec3_at_some path _ h1, vec3_at_some path _ h2⟩
  intro m hm
  obtain ⟨f, hf1, hf2⟩ := hn4 m (Nat.zero_le _) hm
  exact ⟨f, hf1, not_lt.mpr hf2⟩

/-- Witness of C24: a task of 4 points (two fan triangles with cumulative
fractions `1/3` and `1`) and the draw `1/2`: the scan stops at `n = 1`, whose
vertices are read at the offsets 6 and 9 of the 12 path doubles. -/
theorem tri_scan_in_bounds_witness :
    ∃ n, tri_scan ([1 / 3, 1] : List ℚ) (1 / 2) 2 0 = some n
      ∧ (∃ f, ([1 / 3, 1] : List ℚ)[n]? = some f ∧ (1 / 2 : ℚ) < f)
      ∧ (n : Int) ≤ 4 - 3
      ∧ 3 * (n + 2) + 2 < ([0, 0, 0, 1, 0, 0, 1, 1, 0, 0, 1, 0] : List ℚ).length :=
  (tri_scan_in_bounds 4 ([0, 0, 0, 1, 0, 0, 1, 1, 0, 0, 1, 0] : List ℚ) [1 / 3, 1] (1 / 2)
      (by decide) rfl rfl rfl (by norm_num)).elim
    fun n h => ⟨n, h.1, h.2.1, h.2.2.2.1, h.2.2.2.2.2.1⟩

/-! ### `copy_task` toward lower indices -/

/-- The second loop of `copy_task` toward lower indices (`first < oldfirst`,
the ranges may overlap): after `k` iterations the state is as `CopyInv`
describes. Iteration `k` reads slot `oldfirst+k`, which lies above every slot
written so far. -/
theorem copy_task_diff_down {α : Type} [Zero α] (icell : Int) (n first oldfirst : Nat)
    (e : Emit α) (hown : Owns e)
    (h2 : oldfirst + n ≤ e.ntaskmax) (hlt : first < oldfirst)
    (hlive : ∀ i, i < n → Live e (oldfirst + i)) :
    ∀ k, k ≤ n → ∃ ek, copy_task_diff icell k first oldfirst e = some ek
      ∧ CopyInv icell first oldfirst k e ek := by
  intro k
  induction k with
  | zero =>
    intro _
    refine ⟨e, rfl, ⟨rfl, rfl, fun _ _ => rfl, ?_, rfl, hown.fresh, ?_, ?_, fun _ _ _ => rfl⟩⟩
    · intro i hi; omega
    · intro i hi; omega
    · intro i hi; omega
  | succ k ih =>
    intro hk
    obtain ⟨ek, hek, inv⟩ := ih (by omega)
    have hsk : ek.tasks (oldfirst + k) = e.tasks (oldfirst + k) := inv.other _ (by omega)
    have hdk : ek.tasks (first + k) = e.tasks (first + k) := inv.other _ (by omega)
    obtain ⟨hnp, hp, hf⟩ := hlive k (by omega)
    obtain ⟨pb, hpb⟩ := Option.isSome_iff_exists.mp hp
    obtain ⟨fb, hfb⟩ := Option.isSome_iff_exists.mp hf
    have hpn : ((e.tasks (oldfirst + k)).npoint * 3).toNat ≠ 0 := by omega
    obtain ⟨hsp0, -, -, -, -⟩ := Heap.read_buf _ _ _ _ hpn hpb
    have bs := hown.below (oldfirst + k) (by omega)
    have bd := hown.below (first + k) (by omega)
    have hne : first + k ≠ oldfirst + k := by omega
    have hrp : ek.heap.read (ek.tasks (oldfirst + k)).path
        ((ek.tasks (oldfirst + k)).npoint * 3).toNat = some pb := by
      rw [hsk, ← hpb]
      apply Heap.read_congr
      right
      apply inv.old _ bs.1
      intro i hi
      exact ⟨hown.path_path _ (by omega) _ (by omega) (by omega) hsp0,
        hown.path_frac _ (by omega) _ (by omega) hsp0⟩
    have hrf : ek.heap.read (ek.tasks (oldfirst + k)).fracarea
        ((ek.tasks (oldfirst + k)).npoint - 2).toNat = some fb := by
      rw [hsk, ← hfb]
      apply Heap.read_congr
      by_cases hm : ((e.tasks (oldfirst + k)).npoint - 2).toNat = 0
      · exact Or.inl hm
      · right
        obtain ⟨hsf0, -, -, -, -⟩ := Heap.read_buf _ _ _ _ hm hfb
        apply inv.old _ bs.2
        intro i hi
        refine ⟨?_, hown.frac_frac _ (by omega) _ (by omega) (by omega) hsf0⟩
        intro hc
        by_cases h0 : (e.tasks (first + i)).path = 0
        · omega
        · exact hown.path_frac (first + i) (by omega) (oldfirst + k) (by omega) h0 hc.symm
    have hdp : (ek.tasks (first + k)).path = 0 ∨
        ((ek.tasks (first + k)).path ≠ (ek.tasks (oldfirst + k)).path
          ∧ (ek.tasks (first + k)).path ≠ (ek.tasks (oldfirst + k)).fracarea) := by
      rw [hsk, hdk]
      by_cases h0 : (e.tasks (first + k)).path = 0
      · exact Or.inl h0
      · exact Or.inr ⟨hown.path_path _ (by omega) _ (by omega) hne h0,
          hown.path_frac _ (by omega) _ (by omega) h0⟩
    have hdf : (ek.tasks (first + k)).fracarea = 0 ∨
        ((ek.tasks (first + k)).fracarea ≠ (ek.tasks (oldfirst + k)).path
          ∧ (ek.tasks (first + k)).fracarea ≠ (ek.tasks (oldfirst + k)).fracarea) := by
      rw [hsk, hdk]
      by_cases h0 : (e.tasks (first + k)).fracarea = 0
      · exact Or.inl h0
      · exact Or.inr ⟨fun hc => hown.path_frac (oldfirst + k) (by omega) (first + k) (by omega)
            hsp0 hc.symm,
          hown.frac_frac _ (by omega) _ (by omega) hne h0⟩
    have hstep := copy_task_one_eq icell (first + k) (oldfirst + k) ek pb fb
      (by rw [inv.ntaskmax_eq]; omega) (by rw [inv.ntaskmax_eq]; omega) hne
      (by rw [hsk]; exact hnp) inv.fresh hrp hrf hdp hdf
    rw [copy_task_diff_succ, hek, Option.some_bind, hstep]
    refine ⟨_, rfl, ?_⟩
    have hnext := inv.next_eq
    constructor
    · exact inv.ntaskmax_eq
    · exact inv.ntask_eq
    · intro j hj
      dsimp only
      rw [Function.update_noteq (by omega)]
      exact inv.other j (by omega)
    · intro i hi
      dsimp only
      by_cases hik : i = k
      · subst hik
        rw [Function.update_same, hsk, hnext]
      · rw [Function.update_noteq (by omega)]
        exact inv.dest i (by omega)
    · dsimp only
      rw [hnext]
      ring
    · intro a ha
      dsimp only at ha ⊢
      rw [copy_step_buf, hdk, if_neg (by omega), if_neg (by omega), if_neg (by omega),
        if_neg (by omega)]
      exact inv.fresh a (by omega)
    · intro i hi
      dsimp only
      rw [copy_step_buf, hdk]
      by_cases hik : i = k
      · subst hik
        rw [if_neg (by omega), if_neg (by omega), if_pos (by omega), hpb]
      · rw [if_neg (by omega), if_neg (by omega), if_neg (by omega), if_neg (by omega)]
        exact inv.dest_path i (by omega)
    · intro i hi
      dsimp only
      rw [copy_step_buf, hdk]
      by_cases hik : i = k
      · subst hik
        rw [if_pos (by omega), hfb]
      · rw [if_neg (by omega), if_neg (by omega), if_neg (by omega), if_neg (by omega)]
        exact inv.dest_frac i (by omega)
    · intro a ha hno
      dsimp only
      have hk1 := hno k (by omega)
      rw [copy_step_buf, hdk, if_neg (by omega), if_neg (by tauto), if_neg (by omega),
        if_neg (by tauto)]
      exact inv.old a ha (fun i hi => hno i (by omega))

/-- C25. `copy_task(icell, n, first, oldfirst)` toward lower indices
(`first < oldfirst`; the ranges overlap when `oldfirst < first + n`), with the
source range within the allocation, live source tasks and a store whose
buffers are not shared: the call returns; `ntask` is increased by exactly `n`;
and for every `i < n` the destination task `first+i` has every scalar member
of the task that slot `oldfirst+i` held before the call, except `icell`, which
is the given cell, and its `path` and `fracarea` buffers hold the first
`3*npoint` and `npoint-2` doubles that the buffers of that task held before
the call. -/
theorem copy_task_overlap {α : Type} [Zero α] (icell : Int) (n first oldfirst : Nat)
    (e : Emit α) (hown : Owns e)
    (h2 : oldfirst + n ≤ e.ntaskmax) (hlt : first < oldfirst)
    (hlive : ∀ i, i < n → Live e (oldfirst + i)) :
    ∃ e1, copy_task icell n first oldfirst e = some e1
      ∧ e1.ntask = e.ntask + n ∧ e1.ntaskmax = e.ntaskmax
      ∧ ∀ i, i < n →
        e1.tasks (first + i)
            = { e.tasks (oldfirst + i) with
                icell := icell
                path := (e1.tasks (first + i)).path
                fracarea := (e1.tasks (first + i)).fracarea }
        ∧ e1.heap.buf (e1.tasks (first + i)).path
            = e.heap.read (e.tasks (oldfirst + i)).path
                ((e.tasks (oldfirst + i)).npoint * 3).toNat
        ∧ e1.heap.buf (e1.tasks (first + i)).fracarea
            = e.heap.read (e.tasks (oldfirst + i)).fracarea
                ((e.tasks (oldfirst + i)).npoint - 2).toNat
        ∧ (e1.tasks (first + i)).path ≠ 0 ∧ (e1.tasks (first + i)).fracarea ≠ 0 := by
  obtain ⟨en, hen, inv⟩ :=
    copy_task_diff_down icell n first oldfirst e hown h2 hlt hlive n le_rfl
  have hnp0 := hown.next_pos
  refine ⟨{ en with ntask := en.ntask + n }, ?_, ?_, inv.ntaskmax_eq, ?_⟩
  · unfold copy_task
    rw [if_neg (by omega), hen]
  · dsimp only
    rw [inv.ntask_eq]
  · intro i hi
    dsimp only
    rw [inv.dest i hi]
    dsimp only
    exact ⟨rfl, inv.dest_path i hi, inv.dest_frac i hi, by omega, by omega⟩

theorem demoStoreShift_owns : Owns demoStoreShift := by
  refine ⟨by decide, rfl, ?_, by decide, by decide, by decide, by decide⟩
  intro a ha
  show (if a = 1 then _ else if a = 2 then _ else if a = 3 then _ else if a = 4 then _
    else none) = none
  have h5 : 5 ≤ a := ha
  rw [if_neg (by omega), if_neg (by omega), if_neg (by omega), if_neg (by omega)]

/-- Witness of C25: the live tasks of the slots 1 and 2 moved to the slots 0
and 1; slot 1 is a source of the first and the destination of the second
iteration. -/
theorem copy_task_overlap_witness :
    ∃ e1, copy_task 7 2 0 1 demoStoreShift = some e1
      ∧ e1.ntask = 2
      ∧ (e1.tasks 0).isurf = 11 ∧ (e1.tasks 0).icell = 7
      ∧ e1.heap.buf (e1.tasks 0).path = some [0, 0, 0, 1, 0, 0, 0, 1, 0]
      ∧ (e1.tasks 1).isurf = 12 ∧ (e1.tasks 1).icell = 7 ∧ (e1.tasks 1).area = 2
      ∧ e1.heap.buf (e1.tasks 1).path = some [0, 0, 0, 2, 0, 0, 0, 2, 0]
      ∧ e1.heap.buf (e1.tasks 1).fracarea = some [1] :=
  (copy_task_overlap 7 2 0 1 demoStoreShift demoStoreShift_owns (by decide) (by decide)
      (fun i hi => by
        have h01 : i = 0 ∨ i = 1 := by omega
        rcases h01 with h | h <;> subst h <;> refine ⟨by decide, by decide, by decide⟩)).elim
    fun e1 h => ⟨e1, h.1, h.2.1,
      (congrArg Task.isurf (h.2.2.2 0 (by decide)).1).trans rfl,
      (congrArg Task.icell (h.2.2.2 0 (by decide)).1).trans rfl,
      (h.2.2.2 0 (by decide)).2.1.trans rfl,
      (congrArg Task.isurf (h.2.2.2 1 (by decide)).1).trans rfl,
      (congrArg Task.icell (h.2.2.2 1 (by decide)).1).trans rfl,
      (congrArg Task.area (h.2.2.2 1 (by decide)).1).trans rfl,
      (h.2.2.2 1 (by decide)).2.1.trans rfl,
      (h.2.2.2 1 (by decide)).2.2.1.trans rfl⟩

/-! ### The acceptance value is a probability -/

/-- With `R = sqrt(s^2+2)`, `u* = (R-s)/2` and `d = u - u*`, the acceptance
value of lines 617-620 is `(1 + 2 u* d) * exp(-2 u* d - d^2)`. -/
theorem normalized_distbn_fn_form (s u : ℝ) :
    0 < s + Real.sqrt (s * s + 2)
    ∧ 2 * (u + s) / (s + Real.sqrt (s * s + 2))
        = 1 + 2 * ((Real.sqrt (s * s + 2) - s) / 2) * (u - (Real.sqrt (s * s + 2) - s) / 2)
    ∧ (0.5 + (0.5 * s) * (s - Real.sqrt (s * s + 2)) - u * u : ℝ)
        = -(2 * ((Real.sqrt (s * s + 2) - s) / 2) * (u - (Real.sqrt (s * s + 2) - s) / 2))
          - (u - (Real.sqrt (s * s + 2) - s) / 2) ^ 2 := by
  have h0 : (0 : ℝ) ≤ s * s + 2 := by nlinarith
  have hR : Real.sqrt (s * s + 2) * Real.sqrt (s * s + 2) = s * s + 2 := Real.mul_self_sqrt h0
  have hR0 := Real.sqrt_nonneg (s * s + 2)
  have hD : 0 < s + Real.sqrt (s * s + 2) := by
    by_contra hc
    have h1 : Real.sqrt (s * s + 2) ≤ -s := by linarith
    nlinarith
  refine ⟨hD, ?_, ?_⟩
  · rw [div_eq_iff hD.ne']
    linear_combination
      (-(u - (Real.sqrt (s * s + 2) - s) / 2)) * hR
  · norm_num
    linear_combination (-1 / 4 : ℝ) * hR

/-- C26. With the functions of `math.h` on the reals, for every speed ratio `s`
and every `u` that has passed the test of the inner loop (`u + s >= 0`), the
acceptance value `normalized_distbn_fn` of lines 617-620 lies in `[0, 1]`, and
it is 1 exactly at `u = (sqrt(s^2+2) - s)/2`, a point with `u + s > 0`; so
every value that the outer loop of lines 613-621 compares with a draw, and
every value on which the loops end, has an acceptance value in `[0, 1]`. -/
theorem normalized_distbn_fn_unit (ops : MathOps ℝ) (hsqrt : ops.sqrt = Real.sqrt)
    (hexp : ops.exp = Real.exp) (s u : ℝ) (hu : 0 ≤ u + s) :
    0 ≤ normalized_distbn_fn ops s u
      ∧ normalized_distbn_fn ops s u ≤ 1
      ∧ (normalized_distbn_fn ops s u = 1 ↔ u = (Real.sqrt (s * s + 2) - s) / 2)
      ∧ 0 < (Real.sqrt (s * s + 2) - s) / 2 + s
      ∧ (∀ fuel rng beta_un rng2, normal_loop ops s fuel rng = some (beta_un, rng2) →
          0 ≤ normalized_distbn_fn ops s beta_un ∧ normalized_distbn_fn ops s beta_un ≤ 1) := by
  have key : ∀ v : ℝ, 0 ≤ v + s →
      0 ≤ normalized_distbn_fn ops s v
      ∧ normalized_distbn_fn ops s v ≤ 1
      ∧ (normalized_distbn_fn ops s v = 1 ↔ v = (Real.sqrt (s * s + 2) - s) / 2) := by
    intro v hv
    obtain ⟨hD, hfrac, hexpo⟩ := normalized_distbn_fn_form s v
    unfold normalized_distbn_fn
    rw [hsqrt, hexp, hexpo]
    have hA0 : 0 ≤ 2 * (v + s) / (s + Real.sqrt (s * s + 2)) :=
      div_nonneg (by linarith) hD.le
    rw [hfrac] at hA0 ⊢
    generalize hx : 2 * ((Real.sqrt (s * s + 2) - s) / 2)
      * (v - (Real.sqrt (s * s + 2) - s) / 2) = x at hA0 ⊢
    generalize hd : v - (Real.sqrt (s * s + 2) - s) / 2 = d at hx ⊢
    have hE := Real.exp_pos (-x - d ^ 2)
    have h1 : 1 + x ≤ Real.exp x := by
      have := Real.add_one_le_exp x
      linarith
    have hsplit : Real.exp x * Real.exp (-x - d ^ 2) = Real.exp (-(d ^ 2)) := by
      rw [← Real.exp_add]
      congr 1
      ring
    have hle : (1 + x) * Real.exp (-x - d ^ 2) ≤ Real.exp (-(d ^ 2)) := by
      rw [← hsplit]
      exact mul_le_mul_of_nonneg_right h1 hE.le
    have hd2 : Real.exp (-(d ^ 2)) ≤ 1 := by
      rw [Real.exp_le_one_iff]
      nlinarith [sq_nonneg d]
    refine ⟨mul_nonneg hA0 hE.le, le_trans hle hd2, ?_⟩
    constructor
    · intro h
      by_contra hne
      have hd0 : d ≠ 0 := by
        intro h0
        apply hne
        rw [← hd] at h0
        linarith
      have hlt : Real.exp (-(d ^ 2)) < 1 := by
        rw [Real.exp_lt_one_iff]
        have := sq_pos_of_ne_zero hd0
        linarith
      linarith
    · intro h
      have hd0 : d = 0 := by
        rw [← hd, h]
        ring
      have hx0 : x = 0 := by
        rw [← hx, hd0]
        ring
      rw [hx0, hd0]
      norm_num
  have hD := (normalized_distbn_fn_form s u).1
  refine ⟨(key u hu).1, (key u hu).2.1, (key u hu).2.2, by linarith, ?_⟩
  intro fuel rng beta_un rng2 h
  obtain ⟨k, -, -, hk3, -, -⟩ := normal_loop_accept ops s fuel rng beta_un rng2 h
  have hb : 0 ≤ beta_un + s := not_lt.mp hk3
  exact ⟨(key beta_un hb).1, (key beta_un hb).2.1⟩

/-- Witness of C26: the speed ratio 1 and the value `u = 1/2`, with the
functions of `math.h` on the reals. -/
theorem normalized_distbn_fn_unit_witness :
    (0 : ℝ) ≤ 1 / 2 + 1
    ∧ 0 ≤ normalized_distbn_fn
        (⟨Real.sqrt, Real.exp, Real.log, Real.sin, Real.cos, Real.pi, 2 * Real.pi⟩ : MathOps ℝ)
        1 (1 / 2)
    ∧ normalized_distbn_fn
        (⟨Real.sqrt, Real.exp, Real.log, Real.sin, Real.cos, Real.pi, 2 * Real.pi⟩ : MathOps ℝ)
        1 (1 / 2) ≤ 1 :=
  ⟨by norm_num,
    (normalized_distbn_fn_unit ⟨Real.sqrt, Real.exp, Real.log, Real.sin, Real.cos, Real.pi,
      2 * Real.pi⟩ rfl rfl 1 (1 / 2) (by norm_num)).1,
    (normalized_distbn_fn_unit ⟨Real.sqrt, Real.exp, Real.log, Real.sin, Real.cos, Real.pi,
      2 * Real.pi⟩ rfl rfl 1 (1 / 2) (by norm_num)).2.1⟩

/-! ### Sub-cell resolution: build against re-resolution -/

/-- In a surface list without repeats the scan for the surface at index `i`
stops at `i`, so the re-resolution of `unpack_task` and `post_compress_grid`
computes what lines 296-302 of `create_task` compute for the loop index
`i`. -/
theorem pcell_agree {α : Type} (grid : Grid α) (icell : Int) (cell : ChildCell α) (i : Nat)
    (isurf : Int) (hc : idx? grid.cells icell = some cell)
    (hnd : (cell.csurfs.take cell.nsurf.toNat).Nodup)
    (hi : i < cell.nsurf.toNat) (his : cell.csurfs[i]? = some isurf) :
    post_compress_pcell grid icell isurf = create_pcell grid cell icell i
      ∧ unpack_pcell grid icell isurf = create_pcell grid cell icell i := by
  have hil : i < cell.csurfs.length := by
    rcases Nat.lt_or_ge i cell.csurfs.length with hl | hl
    · exact hl
    · rw [List.getElem?_eq_none hl] at his
      cases his
  have hfirst : ∀ m, 0 ≤ m → m < i → cell.csurfs[m]? ≠ some isurf := by
    intro m _ hm hcm
    have hml : m < cell.csurfs.length := by omega
    have h1 : (cell.csurfs.take cell.nsurf.toNat)[m]? = some isurf := by
      rw [List.getElem?_take_of_lt (by omega)]
      exact hcm
    have h2 : (cell.csurfs.take cell.nsurf.toNat)[i]? = some isurf := by
      rw [List.getElem?_take_of_lt hi]
      exact his
    have hmi : m = i := by
      have hm2 : m < (cell.csurfs.take cell.nsurf.toNat).length := by
        rw [List.length_take]
        exact lt_min (by omega) hml
      have hi2 : i < (cell.csurfs.take cell.nsurf.toNat).length := by
        rw [List.length_take]
        exact lt_min hi hil
      rw [List.getElem?_eq_getElem hm2] at h1
      rw [List.getElem?_eq_getElem hi2] at h2
      exact (List.Nodup.getElem_inj_iff hnd).mp
        ((Option.some.inj h1).trans (Option.some.inj h2).symm)
    omega
  have hscan := scan_csurfs_first cell.csurfs isurf cell.nsurf.toNat 0 i (Nat.zero_le _)
    (by omega) his hfirst
  constructor
  · unfold post_compress_pcell create_pcell
    rw [hc]
    dsimp only
    by_cases h1 : cell.nsplit = 1
    · rw [if_pos h1, if_pos h1]
    · rw [if_neg h1, if_neg h1, hscan]
  · unfold unpack_pcell create_pcell
    rw [hc]
    dsimp only
    by_cases h1 : cell.nsplit = 1
    · rw [if_pos h1, if_pos h1]
    · rw [if_neg h1, if_neg h1, hscan]

/-- The slot part of one pass of `create_task`: the cell, the surface and the
sub-cell it writes into an appended task. -/
theorem create_task_slot_pcell {α : Type} [LinearOrderedField α] (X : Ext α)
    (grid : Grid α) (surf : Surf α) (mix : Mixture α) (icell : Int) (cell : ChildCell α)
    (i : Nat) (isurf : Int) (e : Emit α) (states : Nat → SurfState α) (rng : Rng α)
    (b1 : Build α)
    (h : create_task_slot X grid surf mix icell cell i isurf e states rng = Except.ok b1) :
    e.ntask < e.ntaskmax ∧ b1.e.ntaskmax = e.ntaskmax
      ∧ (∀ j, j ≠ e.ntask → b1.e.tasks j = e.tasks j)
      ∧ (b1.e.ntask = e.ntask
        ∨ (b1.e.ntask = e.ntask + 1
          ∧ (b1.e.tasks e.ntask).icell = icell ∧ (b1.e.tasks e.ntask).isurf = isurf
          ∧ create_pcell grid cell icell i = some (b1.e.tasks e.ntask).pcell)) := by
  unfold create_task_slot at h
  by_cases hlt : e.ntask < e.ntaskmax
  swap
  · rw [if_neg hlt] at h
    cases h
  rw [if_pos hlt] at h
  cases hpc : create_pcell grid cell icell i with
  | none =>
    rw [hpc] at h
    cases h
  | some pcell =>
    rw [hpc] at h
    dsimp only at h
    by_cases hd : e.dimension = 2
    · rw [if_pos hd] at h
      cases hl : idx? surf.lines isurf with
      | none =>
        rw [hl] at h
        cases h
      | some line =>
        rw [hl] at h
        dsimp only at h
        by_cases hc : (X.clip2d line.p1 line.p2 cell.lo cell.hi).1 < 2
        · rw [if_pos hc] at h
          cases h
          exact ⟨hlt, rfl, fun j hj => Function.update_noteq hj _ _, Or.inl rfl⟩
        · rw [if_neg hc] at h
          cases hb : build_2d X e.axisymmetric line.norm
              (X.clip2d line.p1 line.p2 cell.lo cell.hi).2
              { e.tasks e.ntask with icell := icell, isurf := isurf, pcell := pcell } e.heap with
          | none =>
            rw [hb] at h
            cases h
          | some r =>
            rw [hb] at h
            obtain ⟨-, f2, f3, f4, -, -⟩ := build_2d_fields X _ _ _ _ _ r hb
            cases h
            refine ⟨hlt, rfl, fun j hj => Function.update_noteq hj _ _, Or.inr ⟨rfl, ?_, ?_, ?_⟩⟩
            · show ((Function.update e.tasks e.ntask (snapshot mix r.1)) e.ntask).icell = icell
              rw [Function.update_same]
              exact f2
            · show ((Function.update e.tasks e.ntask (snapshot mix r.1)) e.ntask).isurf = isurf
              rw [Function.update_same]
              exact f3
            · show some pcell
                = some ((Function.update e.tasks e.ntask (snapshot mix r.1)) e.ntask).pcell
              rw [Function.update_same]
              exact congrArg some f4.symm
    · rw [if_neg hd] at h
      cases hl : idx? surf.tris isurf with
      | none =>
        rw [hl] at h
        cases h
      | some tri =>
        rw [hl] at h
        dsimp only at h
        by_cases hc : (X.clip3d tri.p1 tri.p2 tri.p3 cell.lo cell.hi).1 < 3
        · rw [if_pos hc] at h
          cases h
          exact ⟨hlt, rfl, fun j hj => Function.update_noteq hj _ _, Or.inl rfl⟩
        · rw [if_neg hc] at h
          cases hb : build_3d X tri.norm (X.clip3d tri.p1 tri.p2 tri.p3 cell.lo cell.hi).1
              (X.clip3d tri.p1 tri.p2 tri.p3 cell.lo cell.hi).2
              { e.tasks e.ntask with icell := icell, isurf := isurf, pcell := pcell } e.heap
              rng with
          | none =>
            rw [hb] at h
            cases h
          | some r =>
            rw [hb] at h
            obtain ⟨-, f2, f3, f4, -, -, -, -⟩ := build_3d_fields X _ _ _ _ _ _ r hb
            dsimp only at h
            cases hn : bind_net tri.surfaceState r.1.area e.net states with
            | error a =>
              rw [hn] at h
              cases h
            | ok n =>
              rw [hn] at h
              cases h
              refine ⟨hlt, rfl, fun j hj => Function.update_noteq hj _ _,
                Or.inr ⟨rfl, ?_, ?_, ?_⟩⟩
              · show ((Function.update e.tasks e.ntask (snapshot mix r.1)) e.ntask).icell = icell
                rw [Function.update_same]
                exact f2
              · show ((Function.update e.tasks e.ntask (snapshot mix r.1)) e.ntask).isurf = isurf
                rw [Function.update_same]
                exact f3
              · show some pcell
                  = some ((Function.update e.tasks e.ntask (snapshot mix r.1)) e.ntask).pcell
                rw [Function.update_same]
                exact congrArg some f4.symm

/-- One pass of the loop of `create_task`: the tasks below `ntask` are kept, at
most one task is appended, and an appended task is of the surface at index `i`
of the surface list, with the sub-cell of lines 296-302 for `i`. -/
theorem create_task_surf_pcell {α : Type} [LinearOrderedField α] (X : Ext α)
    (grid : Grid α) (surf : Surf α) (mix : Mixture α) (icell : Int) (cell : ChildCell α)
    (i : Nat) (b b1 : Build α)
    (h : create_task_surf X grid surf mix icell cell i b = Except.ok b1)
    (hcap : b.e.ntask ≤ b.e.ntaskmax) :
    b1.e.ntask ≤ b1.e.ntaskmax
      ∧ (∀ j, j < b.e.ntask → b1.e.tasks j = b.e.tasks j)
      ∧ (b1.e.ntask = b.e.ntask
        ∨ (b1.e.ntask = b.e.ntask + 1
          ∧ (b1.e.tasks b.e.ntask).icell = icell
          ∧ cell.csurfs[i]? = some (b1.e.tasks b.e.ntask).isurf
          ∧ create_pcell grid cell icell i = some (b1.e.tasks b.e.ntask).pcell)) := by
  unfold create_task_surf at h
  cases hcs : cell.csurfs[i]? with
  | none =>
    rw [hcs] at h
    cases h
  | some isurf =>
    rw [hcs] at h
    dsimp only at h
    split at h
    · cases h
    · rename_i mask _
      by_cases hm : mask &&& b.e.groupbit = 0
      · rw [if_pos hm] at h
        cases h
        exact ⟨hcap, fun _ _ => rfl, Or.inl rfl⟩
      · rw [if_neg hm] at h
        have he : ∃ e : Emit α, e = (if b.e.ntask = b.e.ntaskmax then grow_task b.e else b.e)
            ∧ e.ntask = b.e.ntask
            ∧ (∀ j, j < b.e.ntaskmax → e.tasks j = b.e.tasks j) := by
          refine ⟨_, rfl, ?_⟩
          split_ifs
          · exact ⟨rfl, fun j hj => grow_task_old _ j hj⟩
          · exact ⟨rfl, fun _ _ => rfl⟩
        obtain ⟨e, hedef, hent, hetasks⟩ := he
        rw [← hedef] at h
        obtain ⟨hk, hmax1, htasks1, hnt1⟩ :=
          create_task_slot_pcell X grid surf mix icell cell i isurf e b.states b.rng b1 h
        refine ⟨?_, ?_, ?_⟩
        · rw [hmax1]
          rcases hnt1 with hn | hn
          · omega
          · omega
        · intro j hj
          rw [htasks1 j (by omega), hetasks j (by omega)]
        · rcases hnt1 with hn | ⟨hn, f1, f2, f3⟩
          · exact Or.inl (by rw [hn, hent])
          · rw [hent] at hn f1 f2 f3
            exact Or.inr ⟨hn, f1, by rw [f2], f3⟩

/-- The loop of `create_task` from index `i` with `k` indices left: the tasks
it appends are of surfaces at indices `i, ..., i+k-1` of the surface list, each
with the sub-cell of lines 296-302 for its index. -/
theorem create_task_loop_pcell {α : Type} [LinearOrderedField α] (X : Ext α)
    (grid : Grid α) (surf : Surf α) (mix : Mixture α) (icell : Int) (cell : ChildCell α)
    (k : Nat) : ∀ (i : Nat) (b b1 : Build α),
      create_task_loop X grid surf mix icell cell k i b = Except.ok b1 →
      b.e.ntask ≤ b.e.ntaskmax →
      b1.e.ntask ≤ b1.e.ntaskmax ∧ b.e.ntask ≤ b1.e.ntask
        ∧ (∀ j, j < b.e.ntask → b1.e.tasks j = b.e.tasks j)
        ∧ (∀ j, b.e.ntask ≤ j → j < b1.e.ntask →
            (b1.e.tasks j).icell = icell
            ∧ ∃ m, i ≤ m ∧ m < i + k ∧ cell.csurfs[m]? = some (b1.e.tasks j).isurf
              ∧ create_pcell grid cell icell m = some (b1.e.tasks j).pcell) := by
  induction k with
  | zero =>
    intro i b b1 h hcap
    simp only [create_task_loop, Except.ok.injEq] at h
    subst h
    exact ⟨hcap, le_rfl, fun _ _ => rfl, fun j h1 h2 => absurd h2 (by omega)⟩
  | succ k ih =>
    intro i b b1 h hcap
    rw [create_task_loop] at h
    split at h
    · cases h
    · rename_i bm hbm
      obtain ⟨hcapm, hfrm, hntm⟩ :=
        create_task_surf_pcell X grid surf mix icell cell i b bm hbm hcap
      obtain ⟨hcap1, hle1, hfr1, hnew1⟩ := ih (i + 1) bm b1 h hcapm
      have hlem : b.e.ntask ≤ bm.e.ntask := by
        rcases hntm with h0 | h0 <;> omega
      refine ⟨hcap1, by omega, ?_, ?_⟩
      · intro j hj
        rw [hfr1 j (by omega), hfrm j hj]
      · intro j hj1 hj2
        by_cases hjm : bm.e.ntask ≤ j
        · obtain ⟨f1, m, hm1, hm2, f2, f3⟩ := hnew1 j hjm hj2
          exact ⟨f1, m, by omega, by omega, f2, f3⟩
        · rcases hntm with h0 | ⟨h0, f1, f2, f3⟩
          · omega
          · have hjeq : j = b.e.ntask := by omega
            subst hjeq
            rw [hfr1 b.e.ntask (by omega)]
            exact ⟨f1, i, le_rfl, by omega, f2, f3⟩

/-- The calls of a build keep the tasks that were live before and give every
task they append the sub-cell of lines 296-302. -/
theorem create_tasks_pcell {α : Type} [LinearOrderedField α] (X : Ext α)
    (grid : Grid α) (surf : Surf α) (mix : Mixture α) (all : List Int) (icells : List Int) :
    ∀ (b b1 : Build α), create_tasks X grid surf mix icells b = Except.ok b1 →
      (∀ c, c ∈ icells → c ∈ all) →
      b.e.ntask ≤ b.e.ntaskmax →
      (∀ j, j < b.e.ntask → BuiltPcell grid all (b.e.tasks j)) →
      b1.e.ntask ≤ b1.e.ntaskmax
        ∧ ∀ j, j < b1.e.ntask → BuiltPcell grid all (b1.e.tasks j) := by
  induction icells with
  | nil =>
    intro b b1 h _ hcap hold
    simp only [create_tasks, Except.ok.injEq] at h
    subst h
    exact ⟨hcap, hold⟩
  | cons icell rest ih =>
    intro b b1 h hsub hcap hold
    rw [create_tasks] at h
    split at h
    · cases h
    · rename_i bm hbm
      have hstep : bm.e.ntask ≤ bm.e.ntaskmax
          ∧ ∀ j, j < bm.e.ntask → BuiltPcell grid all (bm.e.tasks j) := by
        unfold create_task at hbm
        cases hc : idx? grid.cells icell with
        | none =>
          rw [hc] at hbm
          cases hbm
        | some cell =>
          rw [hc] at hbm
          dsimp only at hbm
          by_cases hns : cell.nsurf = 0
          · rw [if_pos hns] at hbm
            cases hbm
            exact ⟨hcap, hold⟩
          · rw [if_neg hns] at hbm
            obtain ⟨hcap1, -, hfr1, hnew1⟩ :=
              create_task_loop_pcell X grid surf mix icell cell _ 0 b bm hbm hcap
            refine ⟨hcap1, ?_⟩
            intro j hj
            by_cases hjb : j < b.e.ntask
            · rw [hfr1 j hjb]
              exact hold j hjb
            · obtain ⟨f1, m, -, hm2, f2, f3⟩ := hnew1 j (by omega) hj
              refine ⟨?_, cell, m, ?_, by omega, f2, ?_⟩
              · rw [f1]
                exact hsub icell (List.mem_cons_self _ _)
              · rw [f1]
                exact hc
              · rw [f1]
                exact f3
      exact ih bm b1 h (fun c hcm => hsub c (List.mem_cons_of_mem _ hcm)) hstep.1 hstep.2

/-- The loop of `post_compress_grid` over tasks whose `pcell` is already the
value it computes leaves the engine as it is. -/
theorem post_compress_loop_fixed {α : Type} (grid : Grid α) (k : Nat) :
    ∀ (i : Nat) (e : Emit α), i + k ≤ e.ntaskmax →
      (∀ m, i ≤ m → m < i + k →
        post_compress_pcell grid (e.tasks m).icell (e.tasks m).isurf
          = some (e.tasks m).pcell) →
      post_compress_loop grid k i e = some e := by
  induction k with
  | zero =>
    intro i e _ _
    rfl
  | succ k ih =>
    intro i e hmax hres
    unfold post_compress_loop
    rw [if_pos (by omega), hres i le_rfl (by omega)]
    dsimp only
    have h1 : ({ e.tasks i with pcell := (e.tasks i).pcell } : Task α) = e.tasks i := rfl
    rw [h1, Function.update_eq_self]
    exact ih (i + 1) e (by omega) (fun m h1 h2 => hres m (by omega) (by omega))

/-- C28. Sub-cell resolution agrees between build and re-resolution. For a
cell whose surface list has no repeated surface id, the `pcell` that lines
296-302 of `create_task` give the surface at loop index `i` is the `pcell`
that `unpack_task` and `post_compress_grid` compute for the same cell and
surface. Hence, after a build (`ntask = 0`, then `create_task` for the cells
`icells`, all with surface lists without repeats) every task carries the
`pcell` that the re-resolution computes for it, and `post_compress_grid` on
the same grid returns the engine unchanged. -/
theorem pcell_build_agrees {α : Type} [LinearOrderedField α] (X : Ext α) (grid : Grid α)
    (surf : Surf α) (mix : Mixture α) (icells : List Int) (b b1 : Build α)
    (hnd : ∀ icell, icell ∈ icells → ∀ cell, idx? grid.cells icell = some cell →
      (cell.csurfs.take cell.nsurf.toNat).Nodup)
    (h0 : b.e.ntask = 0)
    (h : create_tasks X grid surf mix icells b = Except.ok b1) :
    (∀ icell, icell ∈ icells → ∀ cell i isurf, idx? grid.cells icell = some cell →
        i < cell.nsurf.toNat → cell.csurfs[i]? = some isurf →
        post_compress_pcell grid icell isurf = create_pcell grid cell icell i
        ∧ unpack_pcell grid icell isurf = create_pcell grid cell icell i)
      ∧ (∀ j, j < b1.e.ntask → BuiltPcell grid icells (b1.e.tasks j))
      ∧ (∀ j, j < b1.e.ntask →
          post_compress_pcell grid (b1.e.tasks j).icell (b1.e.tasks j).isurf
            = some (b1.e.tasks j).pcell
          ∧ unpack_pcell grid (b1.e.tasks j).icell (b1.e.tasks j).isurf
            = some (b1.e.tasks j).pcell)
      ∧ post_compress_grid grid b1.e = some b1.e := by
  have hagree : ∀ icell, icell ∈ icells → ∀ cell i isurf, idx? grid.cells icell = some cell →
      i < cell.nsurf.toNat → cell.csurfs[i]? = some isurf →
      post_compress_pcell grid icell isurf = create_pcell grid cell icell i
      ∧ unpack_pcell grid icell isurf = create_pcell grid cell icell i :=
    fun icell hic cell i isurf hc hi his =>
      pcell_agree grid icell cell i isurf hc (hnd icell hic cell hc) hi his
  obtain ⟨hcap1, hbuilt⟩ := create_tasks_pcell X grid surf mix icells icells b b1 h
    (fun _ hc => hc) (by omega) (fun j hj => absurd hj (by omega))
  have hres : ∀ j, j < b1.e.ntask →
      post_compress_pcell grid (b1.e.tasks j).icell (b1.e.tasks j).isurf
        = some (b1.e.tasks j).pcell
      ∧ unpack_pcell grid (b1.e.tasks j).icell (b1.e.tasks j).isurf
        = some (b1.e.tasks j).pcell := by
    intro j hj
    obtain ⟨hmem, cell, i, hc, hi, his, hpc⟩ := hbuilt j hj
    obtain ⟨a1, a2⟩ := hagree _ hmem cell i _ hc hi his
    exact ⟨a1.trans hpc, a2.trans hpc⟩
  refine ⟨hagree, hbuilt, hres, ?_⟩
  unfold post_compress_grid
  exact post_compress_loop_fixed grid b1.e.ntask 0 b1.e (by omega)
    (fun m _ hm => (hres m (by omega)).1)

set_option maxRecDepth 100000 in
theorem demo_run_cut : ∃ b1,
    create_tasks demoExt demoGridCut demoSurfTwo demoMix [0] (demoBuild 3) = Except.ok b1
      ∧ b1.e.ntask = 2
      ∧ (b1.e.tasks 0).isurf = 0 ∧ (b1.e.tasks 0).pcell = 11
      ∧ (b1.e.tasks 1).isurf = 1 ∧ (b1.e.tasks 1).pcell = 10 :=
  ⟨_, rfl, rfl, rfl, rfl, rfl, rfl⟩

/-- Witness of C28: the build of the split cell 0 of `demoGridCut` in 3-D. The
tasks of the surfaces 0 and 1 get the sub-cells 11 and 10, and
`post_compress_grid` leaves the engine as it is. -/
theorem pcell_build_agrees_witness : ∃ b1,
    create_tasks demoExt demoGridCut demoSurfTwo demoMix [0] (demoBuild 3) = Except.ok b1
      ∧ b1.e.ntask = 2
      ∧ (b1.e.tasks 0).pcell = 11 ∧ (b1.e.tasks 1).pcell = 10
      ∧ post_compress_pcell demoGridCut 0 1 = some 10
      ∧ post_compress_grid demoGridCut b1.e = some b1.e :=
  demo_run_cut.elim fun b1 hb =>
    ⟨b1, hb.1, hb.2.1, hb.2.2.2.1, hb.2.2.2.2.2, rfl,
      (pcell_build_agrees demoExt demoGridCut demoSurfTwo demoMix [0] (demoBuild 3) b1
        (fun icell hic cell hc => by
          have h0 : icell = 0 := by simpa using hic
          subst h0
          cases hc
          decide)
        rfl hb.1).2.2.2⟩

/-! ### The invariant of the task store -/

/-- The empty store on a well-formed heap satisfies the invariant. -/
theorem store_inv_empty {α : Type} (e : Emit α) (h0 : e.ntask = 0) (hm : e.ntaskmax = 0)
    (hp : 0 < e.heap.next) (hnull : e.heap.buf 0 = none)
    (hfresh : ∀ a, e.heap.next ≤ a → e.heap.buf a = none) : StoreInv e := by
  refine ⟨by omega, by rw [hm]; exact dvd_zero _, ⟨hp, hnull, hfresh, ?_, ?_, ?_, ?_⟩, ?_⟩
  · intro i hi; omega
  · intro i hi; omega
  · intro i hi; omega
  · intro i hi; omega
  · intro i hi; omega

/-- The invariant is kept by `grow_task`. -/
theorem store_inv_grow {α : Type} [Zero α] (e : Emit α) (hinv : StoreInv e) :
    StoreInv (grow_task e) := by
  have hmax : (grow_task e).ntaskmax = e.ntaskmax + DELTATASK := rfl
  refine ⟨?_, ?_, Owns.grow e hinv.owns, ?_⟩
  · show e.ntask ≤ e.ntaskmax + DELTATASK
    have := hinv.cap
    omega
  · rw [hmax]
    exact Dvd.dvd.add hinv.mult (dvd_refl _)
  · intro i hi
    have hi2 : i < e.ntask := hi
    have hcap := hinv.cap
    rw [grow_task_old e i (by omega)]
    exact hinv.live i hi2

theorem create_task_surf_mult {α : Type} [LinearOrderedField α] (X : Ext α) (grid : Grid α)
    (surf : Surf α) (mix : Mixture α) (icell : Int) (cell : ChildCell α) (i : Nat)
    (b b1 : Build α) (h : create_task_surf X grid surf mix icell cell i b = Except.ok b1)
    (hm : DELTATASK ∣ b.e.ntaskmax) : DELTATASK ∣ b1.e.ntaskmax := by
  unfold create_task_surf at h
  split at h
  · cases h
  · split at h
    · cases h
    · split_ifs at h with h1 h2
      · cases h
        exact hm
      · rw [create_task_slot_ntaskmax _ _ _ _ _ _ _ _ _ _ _ _ h]
        exact Dvd.dvd.add hm (dvd_refl _)
      · rw [create_task_slot_ntaskmax _ _ _ _ _ _ _ _ _ _ _ _ h]
        exact hm

theorem create_task_loop_mult {α : Type} [LinearOrderedField α] (X : Ext α)
    (grid : Grid α) (surf : Surf α) (mix : Mixture α) (icell : Int) (cell : ChildCell α)
    (k : Nat) : ∀ (i : Nat) (b b1 : Build α),
      create_task_loop X grid surf mix icell cell k i b = Except.ok b1 →
      DELTATASK ∣ b.e.ntaskmax → DELTATASK ∣ b1.e.ntaskmax := by
  induction k with
  | zero =>
    intro i b b1 h hm
    simp only [create_task_loop, Except.ok.injEq] at h
    rw [← h]
    exact hm
  | succ k ih =>
    intro i b b1 h hm
    rw [create_task_loop] at h
    split at h
    · cases h
    · rename_i bm hbm
      exact ih _ _ _ h (create_task_surf_mult X grid surf mix icell cell i b bm hbm hm)

/-- The task that the slot part of a pass of `create_task` appends satisfies
`TaskInv`: in 2-D it has 2 points and a path of 6 doubles, in 3-D it has the
point count `npoint >= 3` of the clip, a path of `3*npoint` doubles and a
`fracarea` of `npoint-2` doubles. -/
theorem create_task_slot_inv {α : Type} [LinearOrderedField α] (X : Ext α)
    (grid : Grid α) (surf : Surf α) (mix : Mixture α) (icell : Int) (cell : ChildCell α)
    (i : Nat) (isurf : Int) (e : Emit α) (states : Nat → SurfState α) (rng : Rng α)
    (b2 : Build α) (hown : Owns e)
    (h : create_task_slot X grid surf mix icell cell i isurf e states rng = Except.ok b2)
    (hnew : b2.e.ntask = e.ntask + 1) :
    TaskInv e.dimension (b2.e.tasks e.ntask) (b2.e.heap.buf (b2.e.tasks e.ntask).path)
      (b2.e.heap.buf (b2.e.tasks e.ntask).fracarea) := by
  have hp := hown.next_pos
  by_cases hd : e.dimension = 2
  · obtain ⟨line, pcell, -, -, -, htask, hbuf⟩ :=
      create_task_slot_new_2d X grid surf mix icell cell i isurf e states rng b2 h hp hd hnew
    rw [htask]
    dsimp only [TaskInv, snapshot]
    refine ⟨by decide, by omega, ⟨_, hbuf, rfl⟩, fun hn => absurd hd hn⟩
  · obtain ⟨tri, pcell, -, -, hc3, hlen, htask, hbuf, hfbuf, -, -⟩ :=
      create_task_slot_new_3d X grid surf mix icell cell i isurf e states rng b2 h hown hd hnew
    rw [htask]
    dsimp only [TaskInv, snapshot]
    refine ⟨by omega, by omega, ⟨_, hbuf, ?_⟩, fun _ => ⟨hc3, by omega, _, hfbuf, ?_⟩⟩
    · rw [List.length_take]
      exact min_eq_left hlen
    · exact fan_area_length _ _ _

/-- The invariant is kept by `create_task`. -/
theorem store_inv_create {α : Type} [LinearOrderedField α] (X : Ext α) (grid : Grid α)
    (surf : Surf α) (mix : Mixture α) (icell : Int) (b b1 : Build α)
    (hinv : StoreInv b.e) (h : create_task X grid surf mix icell b = Except.ok b1) :
    StoreInv b1.e := by
  unfold create_task at h
  split at h
  · cases h
  · rename_i cell _
    by_cases hns : cell.nsurf = 0
    · rw [if_pos hns] at h
      cases h
      exact hinv
    · rw [if_neg hns] at h
      obtain ⟨hown1, hcap1, hle1, hdim1, -, hfr1, hP1⟩ :=
        create_task_loop_created X grid surf mix icell cell b.e.dimension b.e.axisymmetric
          (TaskInv b.e.dimension)
          (fun i isurf e states rng b2 hown hdim _ hslot hn => by
            rw [← hdim]
            exact create_task_slot_inv X grid surf mix icell cell i isurf e states rng b2
              hown hslot hn)
          _ 0 b b1 h hinv.owns hinv.cap rfl rfl
      refine ⟨hcap1, create_task_loop_mult X grid surf mix icell cell _ 0 b b1 h hinv.mult,
        hown1, ?_⟩
      intro j hj
      rw [hdim1]
      by_cases hjb : j < b.e.ntask
      · obtain ⟨t1, p1, f1⟩ := hfr1 j hjb
        rw [t1, p1, f1]
        exact hinv.live j hjb
      · exact hP1 j (by omega) hj

/-- What a completed run of the slot part of `unpack_task` has read from the
message buffer. -/
theorem unpack_task_slot_some {α : Type} [Zero α] (L : Layout) (grid : Grid α) (buf : Nat)
    (icell : Int) (w : Wire α) (e e1 : Emit α) (c : Int)
    (h : unpack_task_slot L grid buf icell w e = some (c, e1)) :
    e.ntask < e.ntaskmax
      ∧ ∃ t pb fb pcell, w buf = some (WItem.task t) ∧ 2 ≤ t.npoint
        ∧ Wire.get_doubles w (ROUNDUP L (buf + L.sizeof_Task)) (t.npoint * 3).toNat = some pb
        ∧ Wire.get_doubles w
            (ROUNDUP L (buf + L.sizeof_Task) + (t.npoint * 3).toNat * SIZEOF_DOUBLE)
            (t.npoint - 2).toNat = some fb
        ∧ unpack_pcell grid icell t.isurf = some pcell := by
  unfold unpack_task_slot at h
  dsimp only at h
  by_cases hk : e.ntask < e.ntaskmax
  swap
  · rw [if_neg hk] at h
    cases h
  rw [if_pos hk] at h
  refine ⟨hk, ?_⟩
  cases hw : w buf with
  | none =>
    rw [hw] at h
    cases h
  | some it =>
    cases it with
    | dbl x =>
      rw [hw] at h
      cases h
    | task t =>
      rw [hw] at h
      dsimp only at h
      by_cases h1 : 0 ≤ t.npoint * 3
      swap
      · rw [if_neg h1] at h
        cases h
      rw [if_pos h1] at h
      cases hgp : Wire.get_doubles w (ROUNDUP L (buf + L.sizeof_Task)) (t.npoint * 3).toNat with
      | none =>
        rw [hgp] at h
        cases h
      | some pb =>
        rw [hgp] at h
        dsimp only at h
        have hlp := Wire.get_doubles_length _ _ _ _ hgp
        rw [Heap.new_write_next _ _ _ hlp] at h
        dsimp only at h
        by_cases h2 : 0 ≤ t.npoint - 2
        swap
        · rw [if_neg h2] at h
          cases h
        rw [if_pos h2] at h
        cases hgf : Wire.get_doubles w
            (ROUNDUP L (buf + L.sizeof_Task) + (t.npoint * 3).toNat * SIZEOF_DOUBLE)
            (t.npoint - 2).toNat with
        | none =>
          rw [hgf] at h
          cases h
        | some fb =>
          rw [hgf] at h
          dsimp only at h
          have hlf := Wire.get_doubles_length _ _ _ _ hgf
          rw [Heap.new_write_next _ _ _ hlf] at h
          cases hpc : unpack_pcell grid icell t.isurf with
          | none =>
            rw [hpc] at h
            cases h
          | some pcell =>
            exact ⟨t, pb, fb, pcell, rfl, by omega, hgp, hgf, hpc⟩

/-- The header that `pack_task` with `memflag != 0` leaves at `buf` is the task
it packed. -/
theorem pack_task_header {α : Type} (L : Layout) (itask buf : Nat) (m : Int) (e : Emit α)
    (w w1 : Wire α) (c : Int) (hpos : 0 < L.align) (hsz : 0 < L.sizeof_Task) (hm : m ≠ 0)
    (h : pack_task L itask buf m e w = some (c, w1)) :
    w1 buf = some (WItem.task (e.tasks itask)) := by
  unfold pack_task at h
  by_cases hit : itask < e.ntaskmax
  swap
  · rw [if_neg hit] at h
    cases h
  rw [if_pos hit] at h
  dsimp only at h
  rw [if_pos hm, if_pos hm] at h
  by_cases h1 : 0 ≤ (e.tasks itask).npoint * 3 ∧ 0 ≤ (e.tasks itask).npoint - 2
  swap
  · rw [if_neg h1] at h
    cases h
  rw [if_pos h1] at h
  cases hp : e.heap.read (e.tasks itask).path ((e.tasks itask).npoint * 3).toNat with
  | none =>
    rw [hp] at h
    cases h
  | some pb =>
    rw [hp] at h
    dsimp only at h
    cases hf : e.heap.read (e.tasks itask).fracarea ((e.tasks itask).npoint - 2).toNat with
    | none =>
      rw [hf] at h
      cases h
    | some fb =>
      rw [hf] at h
      dsimp only at h
      cases h
      exact (packed_wire L buf w (e.tasks itask) pb fb hpos hsz
        (Heap.read_length _ _ _ _ hp) (Heap.read_length _ _ _ _ hf)).1

/-- The invariant is kept by `unpack_task` when, in 3-D, the header of the
record it reads has `npoint >= 3`. -/
theorem store_inv_unpack {α : Type} [Zero α] (L : Layout) (grid : Grid α) (buf : Nat)
    (icell : Int) (w : Wire α) (e e1 : Emit α) (c : Int) (hinv : StoreInv e)
    (h : unpack_task L grid buf icell w e = some (c, e1))
    (h3 : ∀ t, w buf = some (WItem.task t) → e.dimension ≠ 2 → 3 ≤ t.npoint) :
    StoreInv e1 := by
  have hown := hinv.owns
  have hcap := hinv.cap
  -- the engine once the slot exists
  have he : ∃ e2 : Emit α, e2 = (if e.ntask = e.ntaskmax then grow_task e else e)
      ∧ Owns e2 ∧ e2.ntask = e.ntask ∧ e2.heap = e.heap ∧ e2.dimension = e.dimension
      ∧ DELTATASK ∣ e2.ntaskmax
      ∧ (∀ j, j < e.ntaskmax → e2.tasks j = e.tasks j) := by
    refine ⟨_, rfl, ?_⟩
    split_ifs with hc
    · exact ⟨Owns.grow _ hown, rfl, rfl, rfl, (store_inv_grow e hinv).mult,
        fun j hj => grow_task_old _ j hj⟩
    · exact ⟨hown, rfl, rfl, rfl, hinv.mult, fun _ _ => rfl⟩
  obtain ⟨e2, he2, hown2, hnt2, hheap2, hdim2, hmult2, hold2⟩ := he
  unfold unpack_task at h
  rw [← he2] at h
  obtain ⟨hk2, t, pb, fb, pcell, hw, hnp, hgp, hgf, hpc⟩ :=
    unpack_task_slot_some L grid buf icell w e2 e1 c h
  have hlp := Wire.get_doubles_length _ _ _ _ hgp
  have hlf := Wire.get_doubles_length _ _ _ _ hgf
  rw [unpack_task_slot_eq L grid buf icell w e2 t pb fb pcell hk2 hw hnp hgp hgf hpc] at h
  have he1 := (Prod.mk.inj (Option.some.inj h)).2
  have bk := hown2.below e2.ntask hk2
  have hpn := hown2.next_pos
  have hmax1 : e1.ntaskmax = e2.ntaskmax := by rw [← he1]
  have hnt1 : e1.ntask = e2.ntask + 1 := by rw [← he1]
  have hdim1 : e1.dimension = e2.dimension := by rw [← he1]
  have hnext1 : e1.heap.next = e2.heap.next + 2 := by rw [← he1]
  have hbuf1 : ∀ a, e1.heap.buf a
      = if a = e2.heap.next + 1 then some fb
        else if (e2.tasks e2.ntask).fracarea ≠ 0 ∧ a = (e2.tasks e2.ntask).fracarea then none
        else if a = e2.heap.next then some pb
        else if (e2.tasks e2.ntask).path ≠ 0 ∧ a = (e2.tasks e2.ntask).path then none
        else e2.heap.buf a := by
    intro a
    rw [← he1]
    exact copy_step_buf _ _ _ _ _ _
  have htk : e1.tasks e2.ntask
      = { t with path := e2.heap.next, fracarea := e2.heap.next + 1, icell := icell,
                 pcell := pcell } := by
    rw [← he1]
    exact Function.update_same _ _ _
  have hto : ∀ j, j ≠ e2.ntask → e1.tasks j = e2.tasks j := by
    intro j hj
    rw [← he1]
    exact Function.update_noteq hj _ _
  have hown1 : Owns e1 := by
    refine Owns.step e2 e1 e2.ntask hown2 hmax1 (by omega) ?_ ?_ ?_ ?_ ?_ ?_
    · rw [hbuf1, if_neg (by omega), if_neg (by omega), if_neg (by omega), if_neg (by omega)]
      exact hown2.null_free
    · intro a ha
      rw [hbuf1, if_neg (by omega), if_neg (by omega), if_neg (by omega), if_neg (by omega)]
      exact hown2.fresh a (by omega)
    · intro j hj
      rw [hto j hj]
      exact ⟨rfl, rfl⟩
    · rw [htk]
      right
      dsimp only
      omega
    · rw [htk]
      right
      dsimp only
      omega
    · rw [htk]
      dsimp only
      omega
  refine ⟨by omega, by rw [hmax1]; exact hmult2, hown1, ?_⟩
  intro j hj
  rw [hdim1, hdim2]
  by_cases hjk : j = e2.ntask
  · subst hjk
    rw [htk]
    dsimp only [TaskInv]
    refine ⟨hnp, by omega, ⟨pb, ?_, hlp⟩, fun hd => ⟨h3 t hw hd, by omega, fb, ?_, hlf⟩⟩
    · rw [hbuf1, if_neg (by omega), if_neg (by omega), if_pos rfl]
    · rw [hbuf1, if_pos rfl]
  · have hj1 : j < e.ntask := by omega
    have hj2 : j < e2.ntaskmax := by omega
    have hjm : j < e.ntaskmax := by omega
    have bj := hown2.below j hj2
    have hl := hinv.live j hj1
    rw [hto j hjk, hold2 j hjm]
    have hpj : e1.heap.buf (e.tasks j).path = e.heap.buf (e.tasks j).path := by
      rw [← hold2 j hjm]
      by_cases h0 : (e2.tasks j).path = 0
      · rw [h0, hbuf1, if_neg (by omega), if_neg (by omega), if_neg (by omega),
          if_neg (by omega), ← hheap2]
      · rw [hbuf1, if_neg (by omega),
          if_neg (fun hc2 => hown2.path_frac j hj2 e2.ntask hk2 h0 hc2.2),
          if_neg (by omega),
          if_neg (fun hc2 => hown2.path_path j hj2 e2.ntask hk2 hjk h0 hc2.2), ← hheap2]
    have hfj : e1.heap.buf (e.tasks j).fracarea = e.heap.buf (e.tasks j).fracarea := by
      rw [← hold2 j hjm]
      by_cases h0 : (e2.tasks j).fracarea = 0
      · rw [h0, hbuf1, if_neg (by omega), if_neg (by omega), if_neg (by omega),
          if_neg (by omega), ← hheap2]
      · rw [hbuf1, if_neg (by omega),
          if_neg (fun hc2 => hown2.frac_frac j hj2 e2.ntask hk2 hjk h0 hc2.2),
          if_neg (by omega),
          if_neg (fun hc2 => hown2.path_frac e2.ntask hk2 j hj2 hc2.1 hc2.2.symm), ← hheap2]
    rw [hpj, hfj]
    exact hl

/-- C27. Every state of the engine that a sequence of calls of `create_task`,
`grow_task` and `unpack_task` reaches from the empty store
(`ntask = ntaskmax = 0`), each `unpack_task` reading a record that `pack_task`
wrote from a task satisfying the invariant, satisfies the invariant of the
task store: `ntask <= ntaskmax`; `ntaskmax` is a multiple of 256; every task
with index below `ntask` has `npoint >= 2` and a path buffer of exactly
`3*npoint` doubles, and in 3-D `npoint >= 3` and a `fracarea` buffer of exactly
`npoint-2` doubles; and no two slots share a path or `fracarea` buffer. -/
theorem store_invariant {α : Type} [LinearOrderedField α] (L : Layout)
    (hpos : 0 < L.align) (hsz : 0 < L.sizeof_Task) (b : Build α) (h : Reach L b) :
    b.e.ntask ≤ b.e.ntaskmax ∧ 256 ∣ b.e.ntaskmax
      ∧ (∀ i, i < b.e.ntask →
          2 ≤ (b.e.tasks i).npoint
          ∧ (∃ l, b.e.heap.buf (b.e.tasks i).path = some l
              ∧ (l.length : Int) = 3 * (b.e.tasks i).npoint)
          ∧ (b.e.dimension ≠ 2 →
              3 ≤ (b.e.tasks i).npoint
              ∧ ∃ l, b.e.heap.buf (b.e.tasks i).fracarea = some l
                ∧ (l.length : Int) = (b.e.tasks i).npoint - 2))
      ∧ (∀ i, i < b.e.ntaskmax → ∀ j, j < b.e.ntaskmax →
          ((b.e.tasks i).path ≠ 0 → (b.e.tasks i).path ≠ (b.e.tasks j).fracarea)
          ∧ (i ≠ j →
              ((b.e.tasks i).path ≠ 0 → (b.e.tasks i).path ≠ (b.e.tasks j).path)
              ∧ ((b.e.tasks i).fracarea ≠ 0 →
                  (b.e.tasks i).fracarea ≠ (b.e.tasks j).fracarea)))
      ∧ StoreInv b.e := by
  have hinv : StoreInv b.e := by
    induction h with
    | empty b h0 hm hp hnull hfresh => exact store_inv_empty b.e h0 hm hp hnull hfresh
    | create X grid surf mix icell b b1 _ hrun ih =>
      exact store_inv_create X grid surf mix icell b b1 ih hrun
    | grow b _ ih => exact store_inv_grow b.e ih
    | unpack grid buf icell b src itask memflag w w1 c c1 e1 _ htask hm hpack hun ih =>
      refine store_inv_unpack L grid buf icell w1 b.e e1 c1 ih hun ?_
      intro t hw hd
      have hhead := pack_task_header L itask buf memflag src w w1 c hpos hsz hm hpack
      rw [hhead] at hw
      cases hw
      exact (htask.2.2.2 hd).1
  refine ⟨hinv.cap, hinv.mult, ?_, ?_, hinv⟩
  · intro i hi
    obtain ⟨h1, -, ⟨l, hl1, hl2⟩, h4⟩ := hinv.live i hi
    refine ⟨h1, ⟨l, hl1, by rw [hl2]; omega⟩, fun hd => ?_⟩
    obtain ⟨h5, -, lf, hf1, hf2⟩ := h4 hd
    exact ⟨h5, lf, hf1, by rw [hf2]; omega⟩
  · intro i hi j hj
    exact ⟨hinv.owns.path_frac i hi j hj,
      fun hij => ⟨hinv.owns.path_path i hi j hj hij, hinv.owns.frac_frac i hi j hj hij⟩⟩

set_option maxRecDepth 100000 in
theorem demo_reach_run : ∃ (b1 : Build ℚ) (c : Int) (w1 : Wire ℚ) (c1 : Int) (e1 : Emit ℚ),
    create_task demoExt demoGrid demoSurf demoMix 0 (demoBuild 3) = Except.ok b1
      ∧ b1.e.dimension = 3
      ∧ pack_task ⟨144, 8⟩ 0 64 1 demoStore (fun _ => none) = some (c, w1)
      ∧ unpack_task ⟨144, 8⟩ demoGrid 64 0 w1 (grow_task b1.e) = some (c1, e1)
      ∧ e1.ntask = 2 ∧ e1.ntaskmax = 512 :=
  ⟨_, _, _, _, _, rfl, rfl, rfl, rfl, rfl, rfl⟩

/-- Witness of C27: from the empty store of a 3-D run, `create_task` for cell
0 (one task), `grow_task`, and `unpack_task` of the record of the live task of
`demoStore`: a state with 2 tasks and capacity 512 that satisfies the
invariant. -/
theorem store_invariant_witness : ∃ b : Build ℚ,
    Reach ⟨144, 8⟩ b ∧ b.e.ntask = 2 ∧ b.e.ntaskmax = 512
      ∧ b.e.ntask ≤ b.e.ntaskmax ∧ 256 ∣ b.e.ntaskmax ∧ StoreInv b.e :=
  demo_reach_run.elim fun b1 h => h.elim fun c h => h.elim fun w1 h => h.elim fun c1 h =>
    h.elim fun e1 h =>
      have hreach : Reach ⟨144, 8⟩ { ({ b1 with e := grow_task b1.e } : Build ℚ) with e := e1 } :=
        Reach.unpack demoGrid 64 0 { b1 with e := grow_task b1.e } demoStore 0 1
          (fun _ => none) w1 c c1 e1
          (Reach.grow b1
            (Reach.create demoExt demoGrid demoSurf demoMix 0 (demoBuild 3) b1
              (Reach.empty (demoBuild 3) rfl rfl (by decide) rfl (fun _ _ => rfl)) h.1))
          (by
            show TaskInv b1.e.dimension _ _ _
            rw [h.2.1]
            exact ⟨by decide, by decide, ⟨_, rfl, rfl⟩,
              fun _ => ⟨by decide, by decide, _, rfl, rfl⟩⟩)
          (by decide) h.2.2.1 h.2.2.2.1
      ⟨_, hreach, h.2.2.2.2.1, h.2.2.2.2.2,
        (store_invariant ⟨144, 8⟩ (by decide) (by decide) _ hreach).1,
        (store_invariant ⟨144, 8⟩ (by decide) (by decide) _ hreach).2.1,
        (store_invariant ⟨144, 8⟩ (by decide) (by decide) _ hreach).2.2.2.2⟩

/-! ### `perform_task` returns -/

end Sparta
